import Mathlib

/-!
# sxboot modules: the ext2/3/4 reader, the UBI loader and the Linux loader

A shallow embedding of the read-only filesystem reader (`src/fs/ext/ext.c`), of the UBI
boot handler (`src/boot/ubi/ubi.c`) and of the Linux boot handler
(`src/boot/linux86/linux86.c`), and the properties checked on them. The definitions come
first, the properties follow.

Conventions of the embedding

* Memory is byte addressed: a buffer is a function from byte offsets (relative to the
  buffer's first byte) to byte values. Buffer offsets are unbounded naturals.
* `size_t` is `E.bits` wide (32 on the i386 build, 64 on amd64); `uint32_t` and `uint64_t`
  arithmetic is reduced modulo `2^32` and `2^64` where the C expression has that type.
* The C functions return a status and write through out-parameters. Functions whose
  out-parameters are only written on success return `Except status_t _`; functions whose
  effect on a buffer matters also on failure return the status together with the buffer.
* The extent walk recurses as deep as the on-disk tree says and holds one allocated block
  per level of the recursion. It carries a `fuel` argument: the number of blocks the
  allocator can still provide to it. When none is left `kmalloc` returns null and the walk
  fails with `TSX_OUT_OF_MEMORY`, as in the source.
* Every other `kmalloc` of the filesystem reader is taken to succeed; their out-of-memory
  exits are outside the embedding.
-/

namespace Sxboot

/-! ## Status codes, memory, drive -/

/-- Status codes used by the modules (`TSX_*`); `TSX_IO_ERROR` stands for the failure
status of the disk layer. -/
inductive status_t where
  | TSX_SUCCESS
  | TSX_ERROR
  | TSX_OUT_OF_MEMORY
  | TSX_NO_SUCH_FILE
  | TSX_NO_SUCH_DIRECTORY
  | TSX_INVALID_FORMAT
  | TSX_TOO_LARGE
  | TSX_MISSING_ARGUMENTS
  | TSX_UNSUPPORTED
  | TSX_UNAVAILABLE
  | TSX_IO_ERROR
  deriving DecidableEq, Repr

open status_t

/-- Byte-addressed memory seen from some base address. -/
abbrev Mem := Nat → Nat

/-- The machine and the drive the reader runs on: the width of `size_t`, the bytes of the
drive (by absolute byte offset), the sector reads the disk layer refuses, and the
contents of memory that has been allocated but not yet written. -/
structure Env where
  bits : Nat
  data : Nat → Nat
  bad : Nat → Nat → Bool
  heap : Nat → Nat

/-- A buffer together with the sector reads that were made into it, oldest first, each as
`(lba, sector count, destination offset)`. -/
structure Buf where
  mem : Mem
  log : List (Nat × Nat × Nat)

def u16 (x : Nat) : Nat := x % 2 ^ 16
def u32 (x : Nat) : Nat := x % 2 ^ 32
def u64 (x : Nat) : Nat := x % 2 ^ 64
/-- Reduction to `size_t`. -/
def usize (E : Env) (x : Nat) : Nat := x % 2 ^ E.bits

/-- Little-endian field readers. -/
def rd8 (m : Mem) (o : Nat) : Nat := m o % 256
def rd16 (m : Mem) (o : Nat) : Nat := rd8 m o + 256 * rd8 m (o + 1)
def rd32 (m : Mem) (o : Nat) : Nat := rd16 m o + 65536 * rd16 m (o + 2)

/-- The memory seen from `o` bytes further on (pointer addition). -/
def shift (m : Mem) (o : Nat) : Mem := fun a => m (o + a)

/-- Modelled from the spec: `kmalloc` of the kernel library is not part of these sources;
a fresh buffer holds whatever the heap held and has received no read. -/
def kmalloc (E : Env) : Buf := { mem := E.heap, log := [] }

/-- Modelled from the spec: `msio_read_drive` is the disk layer
`read_sectors(drive, lba, count, buf)`, not part of these sources. A refused read fails
with the disk layer's error and leaves the buffer alone; a read that succeeds copies
`count` sectors of 512 bytes starting at sector `lba` to offset `dest` of the buffer. -/
def msio_read_drive (E : Env) (lba count dest : Nat) (b : Buf) : status_t × Buf :=
  if E.bad lba count then (TSX_IO_ERROR, b)
  else (TSX_SUCCESS,
    { mem := fun a => if dest ≤ a ∧ a < dest + 512 * count
        then E.data (512 * lba + (a - dest)) else b.mem a,
      log := b.log ++ [(lba, count, dest)] })

/-- Modelled from the spec: `memcpy` of the kernel library; the first `n` bytes of `dst`
become those of `src`. -/
def memcpy (dst src : Mem) (n : Nat) : Mem := fun a => if a < n then src a else dst a

/-- Modelled from the spec: `util_math_pow` of the kernel library is not part of these
sources; it is taken as exponentiation in `size_t`. -/
def util_math_pow (E : Env) (base exp : Nat) : Nat := usize E (base ^ exp)

/-! ## On-disk structures (`ext.h`, packed) -/

def EXT_MAGIC : Nat := 0xEF53
def EXT_INCOMPAT_COMPRESSION : Nat := 0x1
def EXT_INCOMPAT_FILETYPE : Nat := 0x2
def EXT_INCOMPAT_RECOVER : Nat := 0x4
def EXT_INCOMPAT_JOURNAL_DEV : Nat := 0x8
def EXT_INCOMPAT_META_BG : Nat := 0x10
def EXT_INCOMPAT_EXTENTS : Nat := 0x40
def EXT_INCOMPAT_64BIT : Nat := 0x80
def EXT_INCOMPAT_MMP : Nat := 0x100
def EXT_INCOMPAT_FLEX_BG : Nat := 0x200
def EXT_INCOMPAT_EA_INODE : Nat := 0x400
def EXT_INCOMPAT_DIRDATA : Nat := 0x1000
def EXT_INCOMPAT_CSUM_SEED : Nat := 0x2000
def EXT_INCOMPAT_LARGEDIR : Nat := 0x4000
def EXT_INCOMPAT_INLINE_DATA : Nat := 0x8000
def EXT_INCOMPAT_ENCRYPT : Nat := 0x10000
def EXT_INODE_TYPE_FILE : Nat := 1
def EXT_INODE_TYPE_DIRECTORY : Nat := 2
def EXT_INODE_EXTENT_HEADER_MAGIC : Nat := 0xF30A
def EXT_INODE_EXTENTS_FL : Nat := 0x80000

/-- Size of the packed `ext_inode`. -/
def sizeof_ext_inode : Nat := 152
/-- Size of `ext_extent_header`, of `ext_extent` and of `ext_extent_idx`. -/
def sizeof_ext_extent_header : Nat := 12
def sizeof_ext_extent : Nat := 12

-- ext_superblock
def s_inodes_count (sb : Mem) : Nat := rd32 sb 0
def s_log_block_size (sb : Mem) : Nat := rd32 sb 24
def s_inodes_per_group (sb : Mem) : Nat := rd32 sb 40
def s_magic (sb : Mem) : Nat := rd16 sb 56
def s_rev_level (sb : Mem) : Nat := rd32 sb 76
def s_inode_size (sb : Mem) : Nat := rd16 sb 88
def s_feature_incompat (sb : Mem) : Nat := rd32 sb 96
def s_desc_size (sb : Mem) : Nat := rd16 sb 254
-- ext_group_desc
def bg_inode_table_lo (gd : Mem) : Nat := rd32 gd 8
def bg_inode_table_hi (gd : Mem) : Nat := rd32 gd 40
-- ext_inode
def i_size_lo (i : Mem) : Nat := rd32 i 4
def i_flags (i : Mem) : Nat := rd32 i 32
def i_blocks (i : Mem) (k : Nat) : Nat := rd32 i (40 + 4 * k)
def i_block_i1 (i : Mem) : Nat := rd32 i 88
def i_block_i2 (i : Mem) : Nat := rd32 i 92
def i_block_i3 (i : Mem) : Nat := rd32 i 96
def i_size_high (i : Mem) : Nat := rd32 i 108
-- ext_extent_header
def eh_magic (h : Mem) : Nat := rd16 h 0
def eh_entries (h : Mem) : Nat := rd16 h 2
def eh_max (h : Mem) : Nat := rd16 h 4
def eh_depth (h : Mem) : Nat := rd16 h 6
-- ext_extent, entry `i` after the header
def ee_block (h : Mem) (i : Nat) : Nat := rd32 h (12 + 12 * i)
def ee_len (h : Mem) (i : Nat) : Nat := rd16 h (12 + 12 * i + 4)
def ee_start_hi (h : Mem) (i : Nat) : Nat := rd16 h (12 + 12 * i + 6)
def ee_start_lo (h : Mem) (i : Nat) : Nat := rd32 h (12 + 12 * i + 8)
-- ext_extent_idx, entry `i` after the header
def ei_leaf_lo (h : Mem) (i : Nat) : Nat := rd32 h (12 + 12 * i + 4)
def ei_leaf_hi (h : Mem) (i : Nat) : Nat := rd16 h (12 + 12 * i + 8)
-- ext_dir_entry at offset `o` of a directory buffer
def de_inode (m : Mem) (o : Nat) : Nat := rd32 m o
def de_rec_len (m : Mem) (o : Nat) : Nat := rd16 m (o + 4)
def de_name_len (m : Mem) (o : Nat) : Nat := rd8 m (o + 6)
def de_file_type (m : Mem) (o : Nat) : Nat := rd8 m (o + 7)
def de_name (m : Mem) (o : Nat) : Mem := shift m (o + 8)

/-- The incompat features the reader accepts (`ext_incompat_support`). -/
def ext_incompat_support : Nat :=
  EXT_INCOMPAT_FILETYPE ||| EXT_INCOMPAT_64BIT ||| EXT_INCOMPAT_EXTENTS ||| EXT_INCOMPAT_FLEX_BG |||
    EXT_INCOMPAT_RECOVER ||| EXT_INCOMPAT_JOURNAL_DEV

/-! ## `vfs_isFilesystem` -/

/-- The probe: one sector at `partStart + 2`, magic and incompat mask. The complement
`~ext_incompat_support` is taken in `uint32_t`. -/
def vfs_isFilesystem (E : Env) (partStart : Nat) : Bool :=
  let sb := kmalloc E
  let r := msio_read_drive E (u64 (partStart + 2)) 1 0 sb
  if r.1 = TSX_SUCCESS ∧ s_magic r.2.mem = EXT_MAGIC ∧
      (s_feature_incompat r.2.mem &&& (0xFFFFFFFF ^^^ ext_incompat_support)) = 0 then
    true
  else
    false

/-! ## `ext_get_inode` -/

/-- Descriptor size used for indexing the group descriptor table. -/
def desc_size (sb : Mem) : Nat :=
  if s_feature_incompat sb &&& EXT_INCOMPAT_64BIT ≠ 0 then s_desc_size sb else 32

/-- Byte stride of the inode table. -/
def inode_stride (sb : Mem) : Nat :=
  if s_rev_level sb > 0 then s_inode_size sb else 128

/-- Fetch of the inode record `inode`: superblock, group descriptor table, then the one block
of the inode table that holds the record; `sizeof(ext_inode)` bytes are copied out. The two
divisions and the remainder by `s_inodes_per_group` are undefined in C when that field is
0; the definition has the values of `Nat` division there (quotient 0, remainder the
dividend), and the properties that depend on them assume the field is not 0. -/
def ext_get_inode (E : Env) (partStart inode : Nat) : Except status_t Mem :=
  let r1 := msio_read_drive E (u64 (partStart + 2)) 4 0 (kmalloc E)
  if r1.1 ≠ TSX_SUCCESS then .error r1.1 else
  let sb := r1.2.mem
  let blockSize := util_math_pow E 2 (u32 (10 + s_log_block_size sb))
  let bg := u32 (inode + 2 ^ 32 - 1) / s_inodes_per_group sb
  let blockGroups := s_inodes_count sb / s_inodes_per_group sb
  let blockGroupsLen0 := u32 (blockGroups * desc_size sb)
  let blockGroupsLen :=
    if blockGroupsLen0 % 512 ≠ 0 then u32 (blockGroupsLen0 + (512 - blockGroupsLen0 % 512))
    else blockGroupsLen0
  let r2 := msio_read_drive E (u64 (partStart + max blockSize 2048 / 512)) (blockGroupsLen / 512) 0
    (kmalloc E)
  if r2.1 ≠ TSX_SUCCESS then .error r2.1 else
  let blockGroup := shift r2.2.mem (u32 (bg * desc_size sb))
  let inodeTable :=
    if s_feature_incompat sb &&& EXT_INCOMPAT_64BIT ≠ 0 ∧ s_desc_size sb > 32 then
      bg_inode_table_lo blockGroup ||| (bg_inode_table_hi blockGroup <<< 32)
    else bg_inode_table_lo blockGroup
  let inodeTableOff := u32 ((u32 (inode + 2 ^ 32 - 1) % s_inodes_per_group sb) * inode_stride sb)
  let lba := u64 (u64 (inodeTableOff - inodeTableOff % blockSize + u64 (inodeTable * blockSize)) / 512
    + partStart)
  let r3 := msio_read_drive E lba (blockSize / 512) 0 (kmalloc E)
  if r3.1 ≠ TSX_SUCCESS then .error r3.1 else
  .ok (memcpy E.heap (shift r3.2.mem (inodeTableOff % blockSize)) sizeof_ext_inode)

/-! ## Reading the contents of an inode -/

/-- Leaf level of `ext_read_indirect_blocks` (`depth == 0`): entries `i, i+1, ..` of the
table, at most `k` of them. `blockSize` is the `uint32_t` parameter. -/
def indirect_leaf_loop (E : Env) (partStart blockSize : Nat) (table : Mem) :
    Nat → Nat → Buf → Nat → status_t × Buf × Nat
  | 0, _, b, loc => (TSX_SUCCESS, b, loc)
  | k + 1, i, b, loc =>
    if rd32 table (4 * i) = 0 then (TSX_SUCCESS, b, loc)
    else
      let lba := u64 (u32 (rd32 table (4 * i) * blockSize) / 512 + partStart)
      let r := msio_read_drive E lba (blockSize / 512) loc b
      if r.1 ≠ TSX_SUCCESS then (r.1, r.2, loc)
      else indirect_leaf_loop E partStart blockSize table k (i + 1) r.2 (loc + blockSize)

/-- Inner levels of `ext_read_indirect_blocks` (`depth > 0`); `child` is the call at
`depth - 1`. -/
def indirect_index_loop (child : Nat → Buf → Nat → status_t × Buf × Nat) (table : Mem) :
    Nat → Nat → Buf → Nat → status_t × Buf × Nat
  | 0, _, b, loc => (TSX_SUCCESS, b, loc)
  | k + 1, i, b, loc =>
    if rd32 table (4 * i) = 0 then (TSX_SUCCESS, b, loc)
    else
      let r := child (rd32 table (4 * i)) b loc
      if r.1 ≠ TSX_SUCCESS then r
      else indirect_index_loop child table k (i + 1) r.2.1 r.2.2

/-- The indirect block walk. `b` is the destination buffer and `loc` the write cursor
`*writeLoc`, as an offset into it. -/
def ext_read_indirect_blocks (E : Env) (partStart blockSize : Nat) :
    Nat → Nat → Buf → Nat → status_t × Buf × Nat
  | 0, blockTable, b, loc =>
    let r := msio_read_drive E (u64 (u32 (blockTable * blockSize) / 512 + partStart))
      (blockSize / 512) 0 (kmalloc E)
    if r.1 ≠ TSX_SUCCESS then (r.1, b, loc)
    else indirect_leaf_loop E partStart blockSize r.2.mem (blockSize / 4) 0 b loc
  | depth + 1, blockTable, b, loc =>
    let r := msio_read_drive E (u64 (u32 (blockTable * blockSize) / 512 + partStart))
      (blockSize / 512) 0 (kmalloc E)
    if r.1 ≠ TSX_SUCCESS then (r.1, b, loc)
    else indirect_index_loop (ext_read_indirect_blocks E partStart blockSize depth) r.2.mem
      (blockSize / 4) 0 b loc

/-- Leaf node of `ext_read_extent` (`eh_depth == 0`): extents `i, i+1, ..`, at most `k`. -/
def extent_leaf_loop (E : Env) (partStart blockSize : Nat) (header : Mem) :
    Nat → Nat → Buf → status_t × Buf
  | 0, _, dest => (TSX_SUCCESS, dest)
  | k + 1, i, dest =>
    let lbaOff := u64 ((ee_start_lo header i ||| (ee_start_hi header i <<< 32)) * blockSize) / 512
    let r := msio_read_drive E (u64 (partStart + lbaOff))
      (usize E (ee_len header i * blockSize) / 512) (usize E (blockSize * ee_block header i)) dest
    if r.1 ≠ TSX_SUCCESS then r
    else extent_leaf_loop E partStart blockSize header k (i + 1) r.2

/-- Index node of `ext_read_extent` (`eh_depth != 0`): each child block is read into
`tempData` and walked by `child`, the recursive call. -/
def extent_index_loop (E : Env) (partStart blockSize : Nat)
    (child : Mem → Buf → Option (status_t × Buf)) (header : Mem) :
    Nat → Nat → Buf → Buf → Option (status_t × Buf)
  | 0, _, _, dest => some (TSX_SUCCESS, dest)
  | k + 1, i, tempData, dest =>
    let lbaOff := u64 ((ei_leaf_lo header i ||| (ei_leaf_hi header i <<< 32)) * blockSize) / 512
    let r := msio_read_drive E (u64 (partStart + lbaOff)) (blockSize / 512) 0 tempData
    if r.1 ≠ TSX_SUCCESS then some (r.1, dest)
    else
      match child r.2.mem dest with
      | none => none
      | some c =>
        if c.1 ≠ TSX_SUCCESS then some c
        else extent_index_loop E partStart blockSize child header k (i + 1) r.2 c.2

/-- The extent walk from the node whose header is at `header`. Every call first allocates the
block `tempData` and keeps it until it returns, so a walk that is `n` levels deep holds `n`
blocks. `fuel` is the number of blocks `kmalloc` can still provide: with `fuel = 0` the
allocation fails and the call returns `TSX_OUT_OF_MEMORY` (lines 272-274); otherwise the
children run with one block less, and each sibling with the same amount, since the block is
freed at `_end`. The result is always `some`. -/
def ext_read_extent (E : Env) (partStart blockSize : Nat) :
    Nat → Mem → Buf → Option (status_t × Buf)
  | 0, _, dest => some (TSX_OUT_OF_MEMORY, dest)
  | fuel + 1, header, dest =>
    if eh_magic header ≠ EXT_INODE_EXTENT_HEADER_MAGIC then some (TSX_INVALID_FORMAT, dest)
    else if eh_depth header = 0 then
      some (extent_leaf_loop E partStart blockSize header (eh_entries header) 0 dest)
    else
      extent_index_loop E partStart blockSize (ext_read_extent E partStart blockSize fuel) header
        (eh_entries header) 0 (kmalloc E) dest

/-- The twelve direct pointers of `ext_read_inode_to`; `blockSize` is the `size_t` local. -/
def direct_loop (E : Env) (partStart blockSize : Nat) (inode : Mem) :
    Nat → Nat → Buf → Nat → status_t × Buf × Nat
  | 0, _, b, loc => (TSX_SUCCESS, b, loc)
  | k + 1, i, b, loc =>
    if i_blocks inode i = 0 then (TSX_SUCCESS, b, loc)
    else
      let lba := u64 (usize E (i_blocks inode i * blockSize) / 512 + partStart)
      let r := msio_read_drive E lba (blockSize / 512) loc b
      if r.1 ≠ TSX_SUCCESS then (r.1, r.2, loc)
      else direct_loop E partStart blockSize inode k (i + 1) r.2 (loc + blockSize)

/-- The block-pointer branch of `ext_read_inode_to`: direct pointers, then the three
indirect roots, each behind its own non-zero test. -/
def read_block_pointers (E : Env) (partStart blockSize : Nat) (inode : Mem) (location : Buf) :
    status_t × Buf :=
  let r0 := direct_loop E partStart blockSize inode 12 0 location 0
  if r0.1 ≠ TSX_SUCCESS then (r0.1, r0.2.1) else
  let r1 := if i_block_i1 inode ≠ 0 then
      ext_read_indirect_blocks E partStart (u32 blockSize) 0 (i_block_i1 inode) r0.2.1 r0.2.2
    else r0
  if r1.1 ≠ TSX_SUCCESS then (r1.1, r1.2.1) else
  let r2 := if i_block_i2 inode ≠ 0 then
      ext_read_indirect_blocks E partStart (u32 blockSize) 1 (i_block_i2 inode) r1.2.1 r1.2.2
    else r1
  if r2.1 ≠ TSX_SUCCESS then (r2.1, r2.2.1) else
  let r3 := if i_block_i3 inode ≠ 0 then
      ext_read_indirect_blocks E partStart (u32 blockSize) 2 (i_block_i3 inode) r2.2.1 r2.2.2
    else r2
  (r3.1, r3.2.1)

/-- Reads the contents of `inode` into the buffer `location`; `fuel` is the number of blocks
the allocator can provide to the extent walk. -/
def ext_read_inode_to (E : Env) (partStart fuel : Nat) (inode : Mem) (location : Buf) :
    Option (status_t × Buf) :=
  let r := msio_read_drive E (u64 (partStart + 2)) 4 0 (kmalloc E)
  if r.1 ≠ TSX_SUCCESS then some (r.1, location) else
  let blockSize := util_math_pow E 2 (u32 (10 + s_log_block_size r.2.mem))
  if i_flags inode &&& EXT_INODE_EXTENTS_FL ≠ 0 then
    ext_read_extent E partStart blockSize fuel (shift inode 40) location
  else
    some (read_block_pointers E partStart blockSize inode location)

/-- What `ext_read_inode` leaves behind: its status, the out-parameters `*location`, `*size`
and `*absSizeWrite` (`written` tells whether they were assigned; the callers initialise them
to null and zero), and whether the data buffer is still allocated on return. -/
structure InodeRead where
  status : status_t
  written : Bool
  location : Buf
  size : Nat
  absSize : Nat
  live : Bool

/-- Allocates the data buffer and reads the inode's contents into it. -/
def ext_read_inode (E : Env) (partStart fuel : Nat) (inode : Mem) : Option InodeRead :=
  let r := msio_read_drive E (u64 (partStart + 2)) 4 0 (kmalloc E)
  if r.1 ≠ TSX_SUCCESS then
    some { status := r.1, written := false, location := kmalloc E, size := 0, absSize := 0,
           live := false }
  else
  let blockSize := util_math_pow E 2 (u32 (10 + s_log_block_size r.2.mem))
  if i_size_high inode ≠ 0 then
    some { status := TSX_TOO_LARGE, written := false, location := kmalloc E, size := 0,
           absSize := 0, live := false }
  else
  let absSize :=
    if i_size_lo inode % blockSize ≠ 0 then
      usize E (i_size_lo inode + (blockSize - i_size_lo inode % blockSize))
    else i_size_lo inode
  match ext_read_inode_to E partStart fuel inode (kmalloc E) with
  | none => none
  | some t =>
    some { status := t.1, written := true, location := t.2, size := i_size_lo inode,
           absSize := absSize, live := decide (t.1 = TSX_SUCCESS) }

/-! ## Path resolution -/

/-- A C string is the list of its characters before the terminating NUL. -/
def cstr (p : List Nat) : Mem := fun j => p.getD j 0

/-- Modelled from the spec: `strncmp` of the kernel library is not part of these sources;
whether the first `n` characters of `s1` and `s2` compare equal, the comparison ending at a
common NUL. -/
def strncmp_eq (s1 s2 : Mem) : Nat → Nat → Bool
  | 0, _ => true
  | n + 1, i =>
    if rd8 s1 i ≠ rd8 s2 i then false
    else if rd8 s1 i = 0 then true
    else strncmp_eq s1 s2 n (i + 1)

/-- Modelled from the spec: `util_count_parts` of the kernel library is not part of these
sources; the number of parts the delimiter cuts the string into. -/
def util_count_parts (p : List Nat) (c : Nat) : Nat := p.count c + 1

/-- Modelled from the spec: `util_str_cut_to` of the kernel library is not part of these
sources; the string from the first occurrence of the delimiter on. -/
def util_str_cut_to (p : List Nat) (c : Nat) : List Nat := p.dropWhile (fun x => x != c)

/-- The `while(!(path[n] == '/' || path[n] == 0)) n++` count. -/
def pathpartlen (p : List Nat) : Nat := (p.takeWhile (fun x => x != 47)).length

/-- The test made on the entry at offset `off`. -/
def entry_matches (dirOnly : Bool) (path : List Nat) (m : Mem) (off : Nat) : Bool :=
  (if dirOnly then de_file_type m off == EXT_INODE_TYPE_DIRECTORY else true) &&
    pathpartlen path == de_name_len m off &&
    strncmp_eq (de_name m off) (cstr path) (de_name_len m off) 0

/-- The `while(1)` scan of a directory buffer from the entry at `off`: `(found, offset)`; `none`
when more than `fuel` entries would be examined. -/
def dir_scan (dirOnly : Bool) (path : List Nat) (m : Mem) (size : Nat) :
    Nat → Nat → Option (Bool × Nat)
  | 0, _ => none
  | fuel + 1, off =>
    if entry_matches dirOnly path m off then some (true, off)
    else
      let off' := off + de_rec_len m off
      if off' ≥ size ∨ de_rec_len m off' = 0 then some (false, off')
      else dir_scan dirOnly path m size fuel off'

/-- The `for` loop of `ext_get_path_inode` from part `i`, `k` parts left. -/
def path_loop (E : Env) (partStart fuel parts : Nat) :
    Nat → Nat → List Nat → Nat → Nat → Option (Except status_t (Nat × Nat))
  | 0, _, _, cInode, cType => some (.ok (cInode, cType))
  | k + 1, i, path, cInode, cType =>
    if path = [] then some (.ok (cInode, cType))
    else
      match ext_get_inode E partStart cInode with
      | .error st => some (.error st)
      | .ok dirNode =>
        match ext_read_inode E partStart fuel dirNode with
        | none => none
        | some r =>
          if r.status ≠ TSX_SUCCESS then some (.error r.status)
          else
            match dir_scan (decide (i < parts - 1)) path r.location.mem r.size (r.size + 1) 0 with
            | none => none
            | some (true, off) =>
              path_loop E partStart fuel parts k (i + 1) (util_str_cut_to path 47).tail
                (de_inode r.location.mem off) (de_file_type r.location.mem off)
            | some (false, _) =>
              some (.error (if i = parts - 1 then TSX_NO_SUCH_FILE else TSX_NO_SUCH_DIRECTORY))

/-- Resolves `path` (which starts with `/`) to an inode number and a file type. -/
def ext_get_path_inode (E : Env) (partStart fuel : Nat) (path : List Nat) :
    Option (Except status_t (Nat × Nat)) :=
  let path1 := path.tail
  let parts := util_count_parts path1 47
  path_loop E partStart fuel parts parts 0 path1 2 EXT_INODE_TYPE_DIRECTORY

/-- Resolves `path` to the inode of a regular file. -/
def ext_get_file (E : Env) (partStart fuel : Nat) (path : List Nat) :
    Option (Except status_t Nat) :=
  match ext_get_path_inode E partStart fuel path with
  | none => none
  | some (.error st) => some (.error st)
  | some (.ok (cInode, cType)) =>
    if cType ≠ EXT_INODE_TYPE_FILE then some (.error TSX_NO_SUCH_FILE)
    else some (.ok cInode)

/-! ## The filesystem interface -/

/-- Reads the file at `path` into the caller's memory `dest`: status and the memory after
the call. -/
def vfs_readFile (E : Env) (partStart fuel : Nat) (path : List Nat) (dest : Mem) :
    Option (status_t × Mem) :=
  match ext_get_file E partStart fuel path with
  | none => none
  | some (.error st) => some (st, dest)
  | some (.ok inode) =>
    match ext_get_inode E partStart inode with
    | .error st => some (st, dest)
    | .ok inodeData =>
      match ext_read_inode E partStart fuel inodeData with
      | none => none
      | some r =>
        if r.status ≠ TSX_SUCCESS then some (r.status, dest)
        else some (TSX_SUCCESS, memcpy dest r.location.mem r.size)

/-- The size of the file at `path`. -/
def vfs_getFileSize (E : Env) (partStart fuel : Nat) (path : List Nat) :
    Option (Except status_t Nat) :=
  match ext_get_file E partStart fuel path with
  | none => none
  | some (.error st) => some (.error st)
  | some (.ok inode) =>
    match ext_get_inode E partStart inode with
    | .error st => some (.error st)
    | .ok inodeData => some (.ok (i_size_lo inodeData))

/-! ## UBI loader (`src/boot/ubi/ubi.c`): constants and table sizes

The checksum code sums raw bytes, so it is embedded over byte-addressed memory. The code
that builds the tables is embedded over table records keyed by their address (further
down); a field of a table that no property looks at is not represented there. -/

def UBI_VERSION_MAJOR : Nat := 1
def UBI_VERSION_MINOR : Nat := 0

def UBI_K_ROOT_MAGIC : Nat := 0x4083f3ec52494255
def UBI_K_MEM_MAGIC : Nat := 0x008ab29d204d454d
def UBI_K_VID_MAGIC : Nat := 0x00c0a7ba44495656
def UBI_K_MODULES_MAGIC : Nat := 0x00ebc9e653444f4d
def UBI_B_ROOT_MAGIC : Nat := 0xc0d316dc42494255
def UBI_B_MEM_MAGIC : Nat := 0x80feb99d204d454d
def UBI_B_VID_MAGIC : Nat := 0x800c881e44495656
def UBI_B_MODULES_MAGIC : Nat := 0x808eb4ad53444f4d
def UBI_B_SYS_MAGIC : Nat := 0x801ad6e75f535953
def UBI_B_MEMMAP_MAGIC : Nat := 0x80f604c750414d4d
def UBI_B_LOADER_MAGIC : Nat := 0x8083ae8620424c42
def UBI_B_CMD_MAGIC : Nat := 0x80a4f8a34c444d43
def UBI_B_BDRIVE_MAGIC : Nat := 0x80c8cda856524442

def UBI_FLAGS_FIRMWARE_BIOS : Nat := 0
def UBI_FLAGS_FIRMWARE_UEFI : Nat := 1
def UBI_FLAGS_MEMORY_KASLR : Nat := 0x1
def UBI_MASK_VIDEO_MODE : Nat := 0x3
def UBI_FLAGS_VIDEO_CLEAR_SCREEN : Nat := 0x4

/-- Modelled from the spec: `VMMGR_PAGE_SIZE` comes from `kernel/mmgr.h`, which is not part
of these sources; pages are taken to be 4 KiB, the granule of the `0xfff` masks in `ubi.c`. -/
def VMMGR_PAGE_SIZE : Nat := 0x1000

/-- Modelled from the spec: `ELF_ET_DYN` and `ELF_PH_TYPE_LOAD` come from `kernel/elf.h`, which
is not part of these sources; they are the ELF values `ET_DYN` and `PT_LOAD`. -/
def ELF_ET_DYN : Nat := 3
def ELF_PH_TYPE_LOAD : Nat := 1

/-- Reduction to `size_t` on a build with `bits`-bit words. -/
def word (bits x : Nat) : Nat := x % 2 ^ bits

/-- Subtraction in `size_t`. -/
def wsub (bits a b : Nat) : Nat := word bits (a + (2 ^ bits - word bits b))

/-- The value of `sizeof(void*)`. -/
def ptr_size (bits : Nat) : Nat := bits / 8

/-- Sizes of the packed structures of `ubi.h`. -/
def sizeof_ubi_table_header (bits : Nat) : Nat := 8 + ptr_size bits
def sizeof_ubi_b_table_header (bits : Nat) : Nat := 8 + ptr_size bits + 4
def sizeof_ubi_k_root_table (bits : Nat) : Nat := sizeof_ubi_table_header bits + 8
def sizeof_ubi_k_mem_table (bits : Nat) : Nat := sizeof_ubi_table_header bits + 4 + 8 * ptr_size bits
def sizeof_ubi_k_video_table (bits : Nat) : Nat := sizeof_ubi_table_header bits + 16
def sizeof_ubi_k_module_table (bits : Nat) : Nat := sizeof_ubi_table_header bits + 8
def sizeof_ubi_b_root_table (bits : Nat) : Nat := sizeof_ubi_b_table_header bits + 8
def sizeof_ubi_b_mem_table (bits : Nat) : Nat := sizeof_ubi_b_table_header bits + 4 + 7 * ptr_size bits
def sizeof_ubi_b_video_table (bits : Nat) : Nat := sizeof_ubi_b_table_header bits + 20 + ptr_size bits + 8
def sizeof_ubi_b_module_table (bits : Nat) : Nat := sizeof_ubi_b_table_header bits + 8 + ptr_size bits
def sizeof_ubi_b_system_table (bits : Nat) : Nat := sizeof_ubi_b_table_header bits + 4 + 3 * ptr_size bits
def sizeof_ubi_b_memmap_table (bits : Nat) : Nat := sizeof_ubi_b_table_header bits + 8 + ptr_size bits
def sizeof_ubi_b_loader_table (bits : Nat) : Nat := sizeof_ubi_b_table_header bits + ptr_size bits
def sizeof_ubi_b_cmd_table (bits : Nat) : Nat := sizeof_ubi_b_table_header bits + ptr_size bits
def sizeof_ubi_b_bdrive_table (bits : Nat) : Nat := sizeof_ubi_b_table_header bits + 34

def ubi_get_table_size (bits magic : Nat) : Nat :=
  if magic = UBI_K_ROOT_MAGIC then sizeof_ubi_k_root_table bits
  else if magic = UBI_K_MEM_MAGIC then sizeof_ubi_k_mem_table bits
  else if magic = UBI_K_VID_MAGIC then sizeof_ubi_k_video_table bits
  else if magic = UBI_K_MODULES_MAGIC then sizeof_ubi_k_module_table bits
  else if magic = UBI_B_ROOT_MAGIC then sizeof_ubi_b_root_table bits
  else if magic = UBI_B_MEM_MAGIC then sizeof_ubi_b_mem_table bits
  else if magic = UBI_B_VID_MAGIC then sizeof_ubi_b_video_table bits
  else if magic = UBI_B_MODULES_MAGIC then sizeof_ubi_b_module_table bits
  else if magic = UBI_B_SYS_MAGIC then sizeof_ubi_b_system_table bits
  else if magic = UBI_B_MEMMAP_MAGIC then sizeof_ubi_b_memmap_table bits
  else if magic = UBI_B_LOADER_MAGIC then sizeof_ubi_b_loader_table bits
  else if magic = UBI_B_CMD_MAGIC then sizeof_ubi_b_cmd_table bits
  else if magic = UBI_B_BDRIVE_MAGIC then sizeof_ubi_b_bdrive_table bits
  else sizeof_ubi_table_header bits

/-! ## UBI loader: checksums over raw memory -/

/-- A little-endian 32-bit store at address `a`. -/
def wr32 (m : Mem) (a v : Nat) : Mem := fun x =>
  if x = a then v % 256
  else if x = a + 1 then v / 256 % 256
  else if x = a + 2 then v / 65536 % 256
  else if x = a + 3 then v / 16777216 % 256
  else m x

def rd64 (m : Mem) (o : Nat) : Nat := rd32 m o + 4294967296 * rd32 m (o + 4)

/-- A pointer-sized load. -/
def rdptr (bits : Nat) (m : Mem) (o : Nat) : Nat := if bits = 64 then rd64 m o else rd32 m o

/-- Offsets of `nextTable` and `checksum` in `ubi_b_table_header`. -/
def off_nextTable : Nat := 8
def off_checksum (bits : Nat) : Nat := 8 + ptr_size bits

/-- The `for` loop of `ubi_set_checksum` with `k` rounds to go: `val += *((uint8_t*) addr)`
in `uint32_t`. -/
def checksum_loop (m : Mem) : Nat → Nat → Nat → Nat
  | 0, _, val => val
  | k + 1, addr, val => checksum_loop m k (addr + 1) (u32 (val + rd8 m addr))

/-- The memory after `ubi_set_checksum(table, totalTableSize)`. The loop runs from
`table + sizeof(ubi_b_table_header)` while `addr < table + totalTableSize`, both computed in
`size_t`; the stored value is `0x100000000 - val` cut to `uint32_t`. -/
def ubi_set_checksum (bits : Nat) (m : Mem) (table totalTableSize : Nat) : Mem :=
  let start := word bits (table + sizeof_ubi_b_table_header bits)
  let stop := word bits (table + totalTableSize)
  let val := checksum_loop m (stop - start) start 0
  wr32 m (table + off_checksum bits) (u32 (0x100000000 - val))

/-- The `while(table)` loop of `ubi_post_init` (lines 903-907) from `table` on; `none` when
the chain has more than `fuel` tables before a null `nextTable`. -/
def ubi_post_init_checksums (bits : Nat) : Nat → Mem → Nat → Option Mem
  | 0, _, _ => none
  | fuel + 1, m, table =>
    if table = 0 then some m
    else
      let m1 := ubi_set_checksum bits m table (ubi_get_table_size bits (rd64 m table))
      ubi_post_init_checksums bits fuel m1 (rdptr bits m1 (table + off_nextTable))

/-- The sum of the `n` bytes from address `a` on. -/
def byte_sum (m : Mem) (a n : Nat) : Nat := ((List.range n).map (fun i => rd8 m (a + i))).sum

/-- A chain of boot tables in memory: `ts` lists the addresses met when following
`nextTable` from `t` up to the null pointer. -/
def IsChain (bits : Nat) (m : Mem) : List Nat → Nat → Prop
  | [], t => t = 0
  | a :: rest, t => t = a ∧ a ≠ 0 ∧ IsChain bits m rest (rdptr bits m (a + off_nextTable))

/-- The bytes a table at `a` occupies: its header and whatever its magic says follows. -/
def table_extent (bits : Nat) (m : Mem) (a : Nat) : Nat :=
  max (sizeof_ubi_b_table_header bits) (ubi_get_table_size bits (rd64 m a))

/-- A memory holding the bytes `bs` from address `base` on and zero elsewhere. -/
def bytes_at (base : Nat) (bs : List Nat) : Mem := fun a =>
  if base ≤ a then bs.getD (a - base) 0 else 0

/-- A two-table chain on a 64-bit build: a `B_ROOT` table at `0x1000` (version 1.0, BIOS
firmware) whose `nextTable` is `0x2000`, and a `B_BDRIVE` table there (type `"AHCI"`,
`other` = 0x80) that ends the chain. Checksum fields are not filled in yet. -/
def example_chain : Mem := fun a =>
  if a < 0x2000 then
    bytes_at 0x1000 [0x55, 0x42, 0x49, 0x42, 0xdc, 0x16, 0xd3, 0xc0,
      0x00, 0x20, 0, 0, 0, 0, 0, 0,  0, 0, 0, 0,  1, 0, 0, 0, 0, 0, 0, 0] a
  else
    bytes_at 0x2000 [0x42, 0x44, 0x52, 0x56, 0xa8, 0xcd, 0xc8, 0x80,
      0, 0, 0, 0, 0, 0, 0, 0,  0, 0, 0, 0,  0x41, 0x48, 0x43, 0x49, 0, 0, 0, 0,  0, 0,
      0, 0, 0, 0, 0, 0, 0, 0, 0, 0, 0, 0, 0, 0, 0, 0,  0, 0, 0, 0,  0x80, 0, 0, 0] a

/-! ## UBI loader: environment, kernel image and loader state

The loader calls into the memory manager, the allocator, the configuration parser, the
file layer, the video driver and the ELF/PE parsers, none of which is part of these
sources. Their answers are fields of `UbiEnv` and `KernelImage`; their effects on the page
tables are the few lines marked as modelled below. -/

/-- Modelled from the spec: what the rest of the bootloader answers. `table_alloc magic` is
the block `kmalloc` returns for the boot table with that magic and `kmalloc size` the block
it returns for any other request (0 when out of memory); `kernel_args` and `modules` are
the configuration options `args` and `modules`, absent or a string. -/
structure UbiEnv where
  bits : Nat
  MMGR_USABLE_MEMORY : Nat
  MMGR_BLOCK_SIZE : Nat
  sizeof_elf_loaded_image : Nat
  table_alloc : Nat → Nat
  kmalloc : Nat → Nat
  kmalloc_aligned : Nat → Nat
  mmgr_alloc_block_sequential : Nat → Nat
  vmmgr_get_physical : Nat → Nat
  arch_rand : Nat → Nat
  kernel_relocate : Nat → status_t
  kernel_set_video : Nat → Nat → Nat → Nat → status_t
  stack_location : Nat
  stack_size : Nat
  disableKaslr : Bool
  kernel_args : Option (List Nat)
  modules : Option (List Nat)
  vfs_get_file_size : List Nat → status_t × Nat
  vfs_read_file : List Nat → Nat → status_t

structure ubi_k_root_table where
  magic : Nat
  minimumSpecificationVersionMajor : Nat
  minimumSpecificationVersionMinor : Nat
  bits : Nat
  flags : Nat

structure ubi_k_mem_table where
  flags : Nat
  heapLocation : Nat
  heapSize : Nat
  stackLocation : Nat
  stackSize : Nat
  idMapLocation : Nat
  idMapSize : Nat
  kernelBase : Nat
  kaslrSize : Nat

structure ubi_k_video_table where
  flags : Nat
  width : Nat
  height : Nat
  bpp : Nat

/-- One entry of `ubi_k_module_table.modules`, its path pointer already resolved to the
string in the file image it designates. -/
structure ubi_k_module where
  path : List Nat
  loadAddress : Nat

structure ubi_b_mem_table where
  flags : Nat
  heapLocation : Nat
  heapSize : Nat
  stackLocation : Nat
  stackSize : Nat
  idMapLocation : Nat
  idMapSize : Nat
  kernelBase : Nat
  deriving DecidableEq, Repr

structure ubi_b_module_entry where
  path : List Nat
  loadAddress : Nat
  size : Nat
  deriving DecidableEq, Repr

/-- The program header fields of `elf_ph` the loader reads. -/
structure elf_ph where
  p_type : Nat
  p_offset : Nat
  p_vaddr : Nat
  p_filesz : Nat
  p_memsz : Nat

/-- The section header fields of `pe_section_header` the loader reads. -/
structure pe_section_header where
  ps_vaddr : Nat
  ps_vsize : Nat
  ps_fileoff : Nat
  ps_rawsize : Nat

/-- Modelled from the spec: the loaded kernel file as the ELF and PE parsers present it.
`e_type` is the 16-bit field at the offset of `elf_file.e_type`, read from the file whatever
its format; `ph` and `sections` are `elf_get_ph` and `pe_get_sections` (`none` for a null
result); `kmem`, `kvid` and `kmod` are what `ubi_get_kernel_table` finds for the three
kernel magics. -/
structure KernelImage where
  e_type : Nat
  e_entry : Nat
  ph : Option (List elf_ph)
  po_entry : Nat
  sections : Option (List pe_section_header)
  kroot : ubi_k_root_table
  kmem : Option ubi_k_mem_table
  kvid : Option ubi_k_video_table
  kmod : Option (List ubi_k_module)

/-- The header fields of a boot table that linking reads and writes. -/
structure BHeader where
  magic : Nat
  nextTable : Nat
  deriving DecidableEq, Repr

/-- What the loader does to the machine, in order: page mappings, region reservations, fills
and copies to virtual addresses, video mode requests, and the self-relocation. -/
inductive Ev where
  | map_page (phys virt : Nat)
  | map_pages (phys virt size : Nat)
  | reserve (addr size : Nat)
  | memset (dst len : Nat)
  | memcpy (dst src len : Nat)
  | set_video (width height bpp graphics : Nat)
  | relocate (addr : Nat)
  deriving DecidableEq, Repr

/-- The loader's file-scope variables, the boot tables by address, and the page tables
(`mapped p` is the physical address page number `p` is mapped to). -/
structure Ubi where
  tables : Nat → BHeader
  ubi_root : Nat
  ubi_kernel : Nat
  lastTable : Nat
  ubi_kernel_type : Nat
  ubi_kernel_location : Nat
  ubi_kernel_base : Nat
  ubi_kernel_top : Nat
  ubi_kernel_offset : Nat
  kernelPartition : List Nat
  kernelPath : List Nat
  kernelImgLocation : Nat
  kernelImgSize : Nat
  ubi_clearScreen : Bool
  bmem : ubi_b_mem_table
  bmodules : List ubi_b_module_entry
  mapped : Nat → Option Nat
  log : List Ev

/-- Modelled from the spec: `vmmgr_is_address_accessible` of the memory manager; an address
is accessible when its page is mapped. -/
def vmmgr_is_address_accessible (S : Ubi) (addr : Nat) : Bool :=
  (S.mapped (addr / VMMGR_PAGE_SIZE)).isSome

/-- Modelled from the spec: `vmmgr_map_page` of the memory manager; the page of `virt` is
mapped to `phys`. -/
def vmmgr_map_page (S : Ubi) (phys virt : Nat) : Ubi :=
  { S with
    mapped := fun p => if p = virt / VMMGR_PAGE_SIZE then some phys else S.mapped p
    log := S.log ++ [Ev.map_page phys virt] }

/-- Modelled from the spec: `vmmgr_map_pages` of the memory manager; every page that meets
`[virt, virt + size)` is mapped, consecutively from `phys`. -/
def vmmgr_map_pages (S : Ubi) (phys virt size : Nat) : Ubi :=
  { S with
    mapped := fun p =>
      if virt / VMMGR_PAGE_SIZE ≤ p ∧ p * VMMGR_PAGE_SIZE < virt + size
      then some (phys + (p - virt / VMMGR_PAGE_SIZE) * VMMGR_PAGE_SIZE) else S.mapped p
    log := S.log ++ [Ev.map_pages phys virt size] }

/-- Modelled from the spec: `mmgr_reserve_mem_region(addr, size, MMGR_MEMTYPE_OS)`; only the
call is recorded. -/
def mmgr_reserve_mem_region (S : Ubi) (addr size : Nat) : Ubi :=
  { S with log := S.log ++ [Ev.reserve addr size] }

/-- The zeroed `ubi_b_mem_table` body that `memset` leaves. -/
def ubi_b_mem_table_zero : ubi_b_mem_table :=
  { flags := 0, heapLocation := 0, heapSize := 0, stackLocation := 0, stackSize := 0,
    idMapLocation := 0, idMapSize := 0, kernelBase := 0 }

/-! ## UBI loader: `ubi_start`, self-relocation, virtual reservation -/

/-- The three checks `ubi_start` makes on the kernel's root table (lines 130-141), in the
order of the source: the status it leaves with, `TSX_SUCCESS` when it goes on. -/
def ubi_start_checks (bits : Nat) (k : ubi_k_root_table) : status_t :=
  if k.magic ≠ UBI_K_ROOT_MAGIC then TSX_INVALID_FORMAT
  else if k.minimumSpecificationVersionMajor > UBI_VERSION_MAJOR ∨
      k.minimumSpecificationVersionMinor > UBI_VERSION_MINOR then TSX_UNAVAILABLE
  else if k.bits ≠ bits then TSX_INVALID_FORMAT
  else TSX_SUCCESS

/-- The creation of the root table at the start of `ubi_start` (lines 113-125): allocated,
zeroed, given its magic, made `ubi_root` and `lastTable`. -/
def ubi_start_root (K : UbiEnv) (S : Ubi) : Except status_t Ubi :=
  let r := K.table_alloc UBI_B_ROOT_MAGIC
  if r = 0 then .error TSX_OUT_OF_MEMORY
  else .ok { S with
    ubi_root := r
    tables := fun a => if a = r then { magic := UBI_B_ROOT_MAGIC, nextTable := 0 } else S.tables a
    lastTable := r }

/-- The address `ubi_relocate` starts from: `0xffffffff00000000` on amd64, 0 on i386. -/
def ubi_relocate_preferred (bits : Nat) : Nat := if bits = 64 then 0xffffffff00000000 else 0

/-- The address `ubi_relocate` hands to `kernel_relocate`, `none` when it gives up
(`return 1`). `addr + MMGR_USABLE_MEMORY` is computed in `size_t`. -/
def ubi_relocate_base (K : UbiEnv) (kernelMinAddr kernelMaxAddr : Nat) : Option Nat :=
  let addr := ubi_relocate_preferred K.bits
  let hi := word K.bits (addr + K.MMGR_USABLE_MEMORY)
  if (addr ≥ kernelMinAddr ∧ addr ≤ kernelMaxAddr) ∨ (hi ≥ kernelMinAddr ∧ hi ≤ kernelMaxAddr) ∨
      (kernelMinAddr ≥ addr ∧ kernelMinAddr ≤ hi) ∨ (kernelMaxAddr ≥ addr ∧ kernelMaxAddr ≤ hi) then
    if 2 ^ K.bits - 1 - kernelMaxAddr ≥ K.MMGR_USABLE_MEMORY then some kernelMaxAddr
    else if kernelMinAddr > K.MMGR_USABLE_MEMORY then some (kernelMinAddr - K.MMGR_USABLE_MEMORY)
    else none
  else some addr

/-- The function `ubi_relocate`: status 1 is `TSX_ERROR`. -/
def ubi_relocate (K : UbiEnv) (kernelMinAddr kernelMaxAddr : Nat) (S : Ubi) : status_t × Ubi :=
  match ubi_relocate_base K kernelMinAddr kernelMaxAddr with
  | none => (TSX_ERROR, S)
  | some addr => (K.kernel_relocate addr, { S with log := S.log ++ [Ev.relocate addr] })

/-- The first loop of `ubi_alloc_virtual`, from `addr`: whether a used page was met; `none`
when more than `fuel` rounds would be made. -/
def alloc_used_loop (bits : Nat) (S : Ubi) (stop : Nat) : Nat → Nat → Option Bool
  | 0, _ => none
  | fuel + 1, addr =>
    if addr < stop then
      if vmmgr_is_address_accessible S addr then some true
      else alloc_used_loop bits S stop fuel (word bits (addr + VMMGR_PAGE_SIZE))
    else some false

/-- The mapping loop of `ubi_alloc_virtual`, from offset `addr`. -/
def alloc_map_loop (bits paddr vaddr size : Nat) : Nat → Nat → Ubi → Option Ubi
  | 0, _, _ => none
  | fuel + 1, addr, S =>
    if addr < size then
      alloc_map_loop bits paddr vaddr size fuel (word bits (addr + VMMGR_PAGE_SIZE))
        (vmmgr_map_page S (word bits (paddr + addr)) (word bits (vaddr + addr)))
    else some S

/-- The `anyAddr` branch of `ubi_alloc_virtual`. -/
def alloc_any (K : UbiEnv) (size : Nat) (S : Ubi) : Nat × Ubi :=
  (K.kmalloc size, mmgr_reserve_mem_region S (K.vmmgr_get_physical (K.kmalloc size)) size)

/-- The function `ubi_alloc_virtual(&addr, size)`: the address left in `*addr` and the state. -/
def ubi_alloc_virtual (K : UbiEnv) (fuel addr size : Nat) (S : Ubi) : Option (Nat × Ubi) :=
  if addr = 0 then some (alloc_any K size S)
  else
    match alloc_used_loop K.bits S (word K.bits (addr + size)) fuel addr with
    | none => none
    | some true => some (alloc_any K size S)
    | some false =>
      let paddr := K.mmgr_alloc_block_sequential size
      if paddr ≠ 0 then
        match alloc_map_loop K.bits paddr addr size fuel 0 (mmgr_reserve_mem_region S paddr size) with
        | none => none
        | some S1 => some (addr, S1)
      else some (0, S)

/-! ## UBI loader: building the boot tables -/

/-- The five lines every `ubi_create_*_table` starts with: the table is allocated, zeroed
and given its magic, `lastTable->nextTable` is pointed at it and it becomes `lastTable`. -/
def new_table (K : UbiEnv) (magic : Nat) (S : Ubi) : Except status_t Ubi :=
  let btable := K.table_alloc magic
  if btable = 0 then .error TSX_OUT_OF_MEMORY
  else
    let t1 : Nat → BHeader :=
      fun a => if a = btable then { magic := magic, nextTable := 0 } else S.tables a
    .ok { S with
      tables := fun a => if a = S.lastTable then { t1 a with nextTable := btable } else t1 a
      lastTable := btable }

/-- The function `ubi_get_random_kernel_offset`; both subtractions are `size_t`
subtractions, as is the final addition. -/
def ubi_get_random_kernel_offset (K : UbiEnv) (S : Ubi) (kernelBase kaslrSize : Nat) : Nat :=
  let offset := K.arch_rand (wsub K.bits kaslrSize (wsub K.bits S.ubi_kernel_top S.ubi_kernel_base))
  let offset := offset - (offset &&& 0xfff)
  word K.bits (kernelBase + offset)

/-- Lines 455-466 of `ubi_create_mem_table`: the heap. -/
def mem_heap (K : UbiEnv) (fuel : Nat) (t : ubi_k_mem_table) (S : Ubi) : Option (status_t × Ubi) :=
  if t.heapSize > 0 then
    let r : Option (Nat × Ubi) :=
      if t.heapLocation = 0 then some (K.kmalloc t.heapSize, S)
      else ubi_alloc_virtual K fuel t.heapLocation t.heapSize S
    match r with
    | none => none
    | some (p, S1) =>
      let S2 := { S1 with bmem := { S1.bmem with heapSize := t.heapSize, heapLocation := p } }
      if p = 0 then some (TSX_OUT_OF_MEMORY, S2) else some (TSX_SUCCESS, S2)
  else some (TSX_SUCCESS, S)

/-- Lines 468-483 of `ubi_create_mem_table`: the stack. A zero `stackSize` is first replaced
by the bootloader's own stack size. -/
def mem_stack (K : UbiEnv) (fuel : Nat) (t : ubi_k_mem_table) (S : Ubi) : Option (status_t × Ubi) :=
  let stackSize := if t.stackSize = 0 then K.stack_size else t.stackSize
  let r : Option (Nat × Ubi) :=
    if t.stackLocation = 0 then some (K.kmalloc stackSize, S)
    else ubi_alloc_virtual K fuel (wsub K.bits t.stackLocation stackSize) stackSize S
  match r with
  | none => none
  | some (p, S1) =>
    if p = 0 then some (TSX_OUT_OF_MEMORY, { S1 with bmem := { S1.bmem with stackLocation := p } })
    else some (TSX_SUCCESS, { S1 with
      bmem := { S1.bmem with stackLocation := word K.bits (p + stackSize), stackSize := stackSize } })

/-- Lines 485-489 of `ubi_create_mem_table`: the identity map. -/
def mem_idmap (t : ubi_k_mem_table) (S : Ubi) : Ubi :=
  if t.idMapSize > 0 then
    let S1 := vmmgr_map_pages S 0 t.idMapLocation (t.idMapSize - (t.idMapSize &&& 0xfff))
    { S1 with bmem := { S1.bmem with idMapLocation := t.idMapLocation, idMapSize := t.idMapSize } }
  else S

/-- Lines 491-506 of `ubi_create_mem_table`: the choice of `ubi_kernel_offset`. `elfDyn` is
read from the image whatever `ubi_kernel_type` is.

The test of line 498, `kernelSize + table->kernelBase < table->kernelBase`, adds a `size_t`
to the field `kernelBase`, which is a `void*` (`ubi.h`): the sum is a pointer sum, not a
`size_t` sum modulo `2^bits`. While it stays inside the address space it is not below its
base, so the test is false; a pointer sum that leaves the address space is undefined in C
and the compiler takes the comparison as false there too. The exit behind the test is
therefore never taken, and the definition goes from the size test straight to the choice of
the offset. -/
def mem_kaslr (K : UbiEnv) (img : KernelImage) (t : ubi_k_mem_table) (S : Ubi) : status_t × Ubi :=
  if t.flags &&& UBI_FLAGS_MEMORY_KASLR ≠ 0 ∧ S.ubi_kernel_type = 1 ∧ img.e_type = ELF_ET_DYN ∧
      K.disableKaslr = false then
    let kernelSize := wsub K.bits S.ubi_kernel_top S.ubi_kernel_base
    if kernelSize > t.kaslrSize then (TSX_ERROR, S)
    else (TSX_SUCCESS, { S with
      ubi_kernel_offset := ubi_get_random_kernel_offset K S t.kernelBase t.kaslrSize
      bmem := { S.bmem with flags := S.bmem.flags ||| UBI_FLAGS_MEMORY_KASLR } })
  else if img.e_type = ELF_ET_DYN then (TSX_SUCCESS, { S with ubi_kernel_offset := t.kernelBase })
  else (TSX_SUCCESS, S)

/-- The function `ubi_create_mem_table`, `table` being the kernel's `K_MEM` table if it has
one. -/
def ubi_create_mem_table (K : UbiEnv) (fuel : Nat) (img : KernelImage)
    (table : Option ubi_k_mem_table) (S : Ubi) : Option (status_t × Ubi) :=
  match new_table K UBI_B_MEM_MAGIC S with
  | .error st => some (st, S)
  | .ok S0 =>
    let S1 := { S0 with bmem := ubi_b_mem_table_zero }
    match table with
    | none =>
      some (TSX_SUCCESS, { S1 with
        bmem := { S1.bmem with heapLocation := 0, heapSize := 0,
                               stackLocation := K.stack_location, stackSize := K.stack_size } })
    | some t =>
      match mem_heap K fuel t S1 with
      | none => none
      | some (st2, S2) =>
        if st2 ≠ TSX_SUCCESS then some (st2, S2)
        else
          match mem_stack K fuel t S2 with
          | none => none
          | some (st3, S3) =>
            if st3 ≠ TSX_SUCCESS then some (st3, S3)
            else some (mem_kaslr K img t (mem_idmap t S3))

def commonVideoModes : List (Nat × Nat) :=
  [(320, 200), (640, 480), (800, 600), (1024, 768), (1366, 768), (1280, 1024), (1600, 900),
    (1920, 1080)]

def commonBPPs : List Nat := [15, 16, 24, 32]

/-- Modelled from the spec: `kernel_set_video` of the bootloader core; the request is
recorded and the status is the environment's. -/
def kernel_set_video (K : UbiEnv) (w h bpp graphics : Nat) (S : Ubi) : status_t × Ubi :=
  (K.kernel_set_video w h bpp graphics, { S with log := S.log ++ [Ev.set_video w h bpp graphics] })

/-- The loop over `commonBPPs` in `ubi_create_vid_table`, given the depths still to try in
the order the loop meets them: whether one was adopted. -/
def vid_try_bpps (K : UbiEnv) (t : ubi_k_video_table) : List Nat → Ubi → Bool × Ubi
  | [], S => (false, S)
  | b :: rest, S =>
    if b = t.bpp then vid_try_bpps K t rest S
    else
      let r := kernel_set_video K t.width t.height b 1 S
      if r.1 = TSX_SUCCESS then (true, r.2) else vid_try_bpps K t rest r.2

/-- The loop over `commonVideoModes` in `ubi_create_vid_table`, given the modes still to try
in the order the loop meets them; the products are `uint32_t` products. -/
def vid_try_modes (K : UbiEnv) (t : ubi_k_video_table) : List (Nat × Nat) → Ubi → Bool × Ubi
  | [], S => (false, S)
  | m :: rest, S =>
    if u32 (t.width * t.height) ≤ u32 (m.1 * m.2) then
      let r := kernel_set_video K m.1 m.2 32 1 S
      if r.1 = TSX_SUCCESS then (true, r.2) else vid_try_modes K t rest r.2
    else vid_try_modes K t rest S

/-- The mode negotiation of `ubi_create_vid_table` for `kvidmode == 2` (lines 554-587). -/
def vid_graphics (K : UbiEnv) (t : ubi_k_video_table) (S : Ubi) : status_t × Ubi :=
  let r0 := kernel_set_video K t.width t.height t.bpp 1 S
  if r0.1 ≠ TSX_SUCCESS then
    let r1 := vid_try_bpps K t commonBPPs.reverse r0.2
    if r1.1 then (TSX_SUCCESS, r1.2)
    else
      let r2 := vid_try_modes K t commonVideoModes.reverse r1.2
      if r2.1 then (TSX_SUCCESS, r2.2)
      else kernel_set_video K 640 480 32 1 r2.2
  else (TSX_SUCCESS, r0.2)

/-- The function `ubi_create_vid_table`. -/
def ubi_create_vid_table (K : UbiEnv) (table : Option ubi_k_video_table) (S : Ubi) :
    status_t × Ubi :=
  match new_table K UBI_B_VID_MAGIC S with
  | .error st => (st, S)
  | .ok S1 =>
    match table with
    | none => (TSX_SUCCESS, S1)
    | some t =>
      let kvidmode := (t.flags &&& UBI_MASK_VIDEO_MODE) % 256
      let r : status_t × Ubi :=
        if kvidmode = 1 then kernel_set_video K 80 25 16 0 S1
        else if kvidmode = 2 then vid_graphics K t S1
        else (TSX_SUCCESS, S1)
      if r.1 ≠ TSX_SUCCESS then r
      else if t.flags &&& UBI_FLAGS_VIDEO_CLEAR_SCREEN ≠ 0 then
        (TSX_SUCCESS, { r.2 with ubi_clearScreen := true })
      else (TSX_SUCCESS, r.2)

/-- The path `ubi_load_module` reads: `snprintf(readpath, strlen(path) + 16, "%s%s",
kernelPartition, path)` keeps at most `strlen(path) + 15` characters. -/
def module_readpath (S : Ubi) (path : List Nat) : List Nat :=
  (S.kernelPartition ++ path).take (path.length + 15)

/-- The function `ubi_load_module`: status, module list and state after the call. -/
def ubi_load_module (K : UbiEnv) (fuel : Nat) (modlist : List ubi_b_module_entry)
    (path : List Nat) (loadAddress : Nat) (S : Ubi) :
    Option (status_t × List ubi_b_module_entry × Ubi) :=
  if K.kmalloc (path.length + 16) = 0 then some (TSX_OUT_OF_MEMORY, modlist, S)
  else
    let sz := K.vfs_get_file_size (module_readpath S path)
    if sz.1 ≠ TSX_SUCCESS then some (sz.1, modlist, S)
    else
      let r : Option (Nat × Ubi) :=
        if loadAddress ≠ 0 then ubi_alloc_virtual K fuel loadAddress sz.2 S
        else some (K.kmalloc_aligned sz.2, S)
      match r with
      | none => none
      | some (addr, S1) =>
        if addr = 0 then some (TSX_OUT_OF_MEMORY, modlist, S1)
        else
          let st := K.vfs_read_file (module_readpath S path) addr
          if st ≠ TSX_SUCCESS then some (st, modlist, S1)
          else some (TSX_SUCCESS,
            modlist ++ [{ path := path, loadAddress := addr, size := sz.2 }], S1)

/-- The loop of `ubi_create_module_table` over the kernel's module entries. -/
def kernel_modules_loop (K : UbiEnv) (fuel : Nat) :
    List ubi_k_module → List ubi_b_module_entry → Ubi →
      Option (status_t × List ubi_b_module_entry × Ubi)
  | [], modlist, S => some (TSX_SUCCESS, modlist, S)
  | e :: rest, modlist, S =>
    match ubi_load_module K fuel modlist e.path e.loadAddress S with
    | none => none
    | some (st, ml, S1) =>
      if st ≠ TSX_SUCCESS then some (st, ml, S1)
      else kernel_modules_loop K fuel rest ml S1

/-- The `while(current)` loop of `ubi_create_module_table` over the copy of the `modules`
option, `current` being the rest of the string: `strchr(current, ':')` cuts the item off,
and the loop goes on behind the colon if there is one. -/
def config_modules_loop (K : UbiEnv) (fuel : Nat) :
    Nat → List Nat → List ubi_b_module_entry → Ubi →
      Option (status_t × List ubi_b_module_entry × Ubi)
  | 0, _, _, _ => none
  | k + 1, current, modlist, S =>
    match ubi_load_module K fuel modlist (current.takeWhile (fun c => c != 58)) 0 S with
    | none => none
    | some (st, ml, S1) =>
      if st ≠ TSX_SUCCESS then some (st, ml, S1)
      else
        match current.dropWhile (fun c => c != 58) with
        | [] => some (TSX_SUCCESS, ml, S1)
        | _ :: next => config_modules_loop K fuel k next ml S1

/-- The size of `ubi_b_module_entry`. -/
def sizeof_ubi_b_module_entry (bits : Nat) : Nat := 3 * ptr_size bits

/-- The function `ubi_create_module_table`, `table` being the module entries of the
kernel's `K_MODULES` table if it has one. On success the entries collected are those of
the new `B_MODULES` table. -/
def ubi_create_module_table (K : UbiEnv) (fuel : Nat) (table : Option (List ubi_k_module))
    (S : Ubi) : Option (status_t × Ubi) :=
  match new_table K UBI_B_MODULES_MAGIC S with
  | .error st => some (st, S)
  | .ok S0 =>
    let S1 := { S0 with bmodules := [] }
    if K.kmalloc (sizeof_ubi_b_module_entry K.bits) = 0 then some (TSX_OUT_OF_MEMORY, S1)
    else
      let kentry : ubi_b_module_entry :=
        { path := S1.kernelPath, loadAddress := S1.kernelImgLocation, size := S1.kernelImgSize }
      match kernel_modules_loop K fuel (table.getD []) [kentry] S1 with
      | none => none
      | some (st2, ml2, S2) =>
        if st2 ≠ TSX_SUCCESS then some (st2, S2)
        else
          let r : Option (status_t × List ubi_b_module_entry × Ubi) :=
            match K.modules with
            | none => some (TSX_SUCCESS, ml2, S2)
            | some configListO =>
              if K.kmalloc (configListO.length + 1) = 0 then some (TSX_OUT_OF_MEMORY, ml2, S2)
              else config_modules_loop K fuel (configListO.length + 1) configListO ml2 S2
          match r with
          | none => none
          | some (st3, ml3, S3) =>
            if st3 ≠ TSX_SUCCESS then some (st3, S3)
            else if K.kmalloc (ml3.length * sizeof_ubi_b_module_entry K.bits) = 0 then
              some (TSX_OUT_OF_MEMORY, S3)
            else some (TSX_SUCCESS, { S3 with bmodules := ml3 })

/-- The functions `ubi_create_system_table`, `ubi_create_memmap_table`,
`ubi_create_loader_table` and `ubi_create_bdrive_table`, which link their table and fill
fields that are not represented here. -/
def ubi_create_plain_table (K : UbiEnv) (magic : Nat) (S : Ubi) : status_t × Ubi :=
  match new_table K magic S with
  | .error st => (st, S)
  | .ok S1 => (TSX_SUCCESS, S1)

def ubi_create_system_table (K : UbiEnv) (S : Ubi) : status_t × Ubi :=
  ubi_create_plain_table K UBI_B_SYS_MAGIC S

def ubi_create_memmap_table (K : UbiEnv) (S : Ubi) : status_t × Ubi :=
  ubi_create_plain_table K UBI_B_MEMMAP_MAGIC S

def ubi_create_loader_table (K : UbiEnv) (S : Ubi) : status_t × Ubi :=
  ubi_create_plain_table K UBI_B_LOADER_MAGIC S

def ubi_create_bdrive_table (K : UbiEnv) (S : Ubi) : status_t × Ubi :=
  ubi_create_plain_table K UBI_B_BDRIVE_MAGIC S

/-- The function `ubi_create_cmd_table`: nothing is built without a command line. -/
def ubi_create_cmd_table (K : UbiEnv) (S : Ubi) : status_t × Ubi :=
  match K.kernel_args with
  | none => (TSX_SUCCESS, S)
  | some _ => ubi_create_plain_table K UBI_B_CMD_MAGIC S

/-- The eight calls of `ubi_create_tables`, in order. -/
def ubi_create_steps (K : UbiEnv) (fuel : Nat) (img : KernelImage) :
    List (Ubi → Option (status_t × Ubi)) :=
  [ubi_create_mem_table K fuel img img.kmem,
   fun S => some (ubi_create_vid_table K img.kvid S),
   ubi_create_module_table K fuel img.kmod,
   fun S => some (ubi_create_system_table K S),
   fun S => some (ubi_create_memmap_table K S),
   fun S => some (ubi_create_loader_table K S),
   fun S => some (ubi_create_cmd_table K S),
   fun S => some (ubi_create_bdrive_table K S)]

/-- The `status = f(); CERROR();` sequencing: the calls are made in order and the first
status other than `TSX_SUCCESS` ends the sequence. -/
def run_steps : List (Ubi → Option (status_t × Ubi)) → Ubi → Option (status_t × Ubi)
  | [], S => some (TSX_SUCCESS, S)
  | f :: rest, S =>
    match f S with
    | none => none
    | some (st, S1) => if st ≠ TSX_SUCCESS then some (st, S1) else run_steps rest S1

/-- The function `ubi_create_tables`. -/
def ubi_create_tables (K : UbiEnv) (fuel : Nat) (img : KernelImage) (S : Ubi) :
    Option (status_t × Ubi) :=
  run_steps (ubi_create_steps K fuel img) S

/-- Following `nextTable` from `t`, as `kboot_start`, `ubi_post_init` and
`ubi_get_boot_table` do: the addresses visited up to the null pointer, `none` when more
than `fuel` tables are met. -/
def chain_walk (S : Ubi) : Nat → Nat → Option (List Nat)
  | 0, _ => none
  | fuel + 1, t =>
    if t = 0 then some []
    else (chain_walk S fuel (S.tables t).nextTable).map (fun l => t :: l)

/-! ## UBI loader: loading the segments and entering the kernel -/

/-- The page loop of `ubi_load_kernel_segs` for one segment or section placed at virtual
address `vbase`, from offset `addr`: pages that are already accessible are skipped. -/
def seg_map_loop (bits secLoc vbase segSize : Nat) : Nat → Nat → Ubi → Option Ubi
  | 0, _, _ => none
  | fuel + 1, addr, S =>
    if addr < segSize then
      if vmmgr_is_address_accessible S (word bits (vbase + addr)) then
        seg_map_loop bits secLoc vbase segSize fuel (word bits (addr + VMMGR_PAGE_SIZE)) S
      else
        seg_map_loop bits secLoc vbase segSize fuel (word bits (addr + VMMGR_PAGE_SIZE))
          (vmmgr_map_page S (word bits (secLoc + addr)) (word bits (vbase + addr)))
    else some S

/-- One round of either segment loop: `size` bytes of memory are claimed and mapped at
`vbase`, zeroed, and `filesz` bytes are copied there from file offset `fileoff`. -/
def load_segment (K : UbiEnv) (fuel vaddr vbase size fileoff filesz : Nat) (S : Ubi) :
    Option (status_t × Ubi) :=
  let secLoc := K.mmgr_alloc_block_sequential size
  if secLoc = 0 then some (TSX_OUT_OF_MEMORY, S)
  else
    let S1 := mmgr_reserve_mem_region S secLoc size
    let segSize := word K.bits (size + vaddr % VMMGR_PAGE_SIZE)
    match seg_map_loop K.bits secLoc vbase segSize fuel 0 S1 with
    | none => none
    | some S2 =>
      some (TSX_SUCCESS, { S2 with
        log := S2.log ++ [Ev.memset (word K.bits vbase) size,
          Ev.memcpy (word K.bits vbase) (word K.bits (fileoff + S.ubi_kernel_location)) filesz] })

/-- The loop of `ubi_load_kernel_segs` over the program headers of an ELF kernel: a
`LOAD` segment goes to `p_vaddr + ubi_kernel_offset`. -/
def elf_segs_loop (K : UbiEnv) (fuel : Nat) : List elf_ph → Ubi → Option (status_t × Ubi)
  | [], S => some (TSX_SUCCESS, S)
  | ph :: rest, S =>
    if ph.p_type ≠ ELF_PH_TYPE_LOAD then elf_segs_loop K fuel rest S
    else
      match load_segment K fuel ph.p_vaddr (ph.p_vaddr + S.ubi_kernel_offset) ph.p_memsz
          ph.p_offset ph.p_filesz S with
      | none => none
      | some (st, S1) =>
        if st ≠ TSX_SUCCESS then some (st, S1) else elf_segs_loop K fuel rest S1

/-- The loop of `ubi_load_kernel_segs` over the sections of a PE kernel: a section goes to
`ps_vaddr`. -/
def pe_secs_loop (K : UbiEnv) (fuel : Nat) :
    List pe_section_header → Ubi → Option (status_t × Ubi)
  | [], S => some (TSX_SUCCESS, S)
  | sec :: rest, S =>
    match load_segment K fuel sec.ps_vaddr sec.ps_vaddr sec.ps_vsize sec.ps_fileoff
        sec.ps_rawsize S with
    | none => none
    | some (st, S1) =>
      if st ≠ TSX_SUCCESS then some (st, S1) else pe_secs_loop K fuel rest S1

/-- The function `ubi_load_kernel_segs`. The pointer adjustments that the self-relocation
makes to `ubi_kernel_location` are not represented. -/
def ubi_load_kernel_segs (K : UbiEnv) (fuel : Nat) (img : KernelImage) (S : Ubi) :
    Option (status_t × Ubi) :=
  if S.ubi_kernel_type = 1 then
    match img.ph with
    | none => some (TSX_INVALID_FORMAT, S)
    | some phs =>
      let r := ubi_relocate K (word K.bits (S.ubi_kernel_base + S.ubi_kernel_offset))
        (word K.bits (S.ubi_kernel_top + S.ubi_kernel_offset)) S
      if r.1 ≠ TSX_SUCCESS then some r
      else if K.kmalloc K.sizeof_elf_loaded_image = 0 then some (TSX_OUT_OF_MEMORY, r.2)
      else elf_segs_loop K fuel phs r.2
  else if S.ubi_kernel_type = 2 then
    match img.sections with
    | none => some (TSX_INVALID_FORMAT, S)
    | some secs =>
      let r := ubi_relocate K (word K.bits (S.ubi_kernel_base + S.ubi_kernel_offset))
        (word K.bits (S.ubi_kernel_top + S.ubi_kernel_offset)) S
      if r.1 ≠ TSX_SUCCESS then some r
      else pe_secs_loop K fuel secs r.2
  else some (TSX_SUCCESS, S)

/-- The address `ubi_call_kernel` calls, `none` when it returns `UBI_STATUS_ERROR` without
calling. -/
def ubi_call_kernel (bits : Nat) (img : KernelImage) (S : Ubi) : Option Nat :=
  if S.ubi_kernel_type = 1 then some (word bits (img.e_entry + S.ubi_kernel_offset))
  else if S.ubi_kernel_type = 2 then some img.po_entry
  else none

/-- Line 870 of `ubi_post_init`: `B_MEM.kernelBase = ubi_kernel_base + ubi_kernel_offset`. -/
def ubi_post_init_kernelBase (bits : Nat) (S : Ubi) : Ubi :=
  { S with bmem := { S.bmem with
      kernelBase := word bits (S.ubi_kernel_base + S.ubi_kernel_offset) } }

/-! ## A sample boot, used to exercise the properties -/

/-- A 64-bit machine whose allocator hands each boot table a block of its own, with the
command line `"ro"` and the module list `"mod_a:mod_b"`; a file's size is reported as 100
plus the length of its path, and the random source returns two thirds of its bound. -/
def example_env : UbiEnv :=
  { bits := 64
    MMGR_USABLE_MEMORY := 0x1000000
    MMGR_BLOCK_SIZE := 0x1000
    sizeof_elf_loaded_image := 64
    table_alloc := fun magic => 0x100000 + (magic % 0x10000) * 0x100
    kmalloc := fun _ => 0x200000
    kmalloc_aligned := fun _ => 0x300000
    mmgr_alloc_block_sequential := fun _ => 0x400000
    vmmgr_get_physical := fun a => a
    arch_rand := fun bound => bound - bound / 3
    kernel_relocate := fun _ => TSX_SUCCESS
    kernel_set_video := fun _ _ _ _ => TSX_SUCCESS
    stack_location := 0x7000
    stack_size := 0x4000
    disableKaslr := false
    kernel_args := some [114, 111]
    modules := some [109, 111, 100, 95, 97, 58, 109, 111, 100, 95, 98]
    vfs_get_file_size := fun p => (TSX_SUCCESS, 100 + p.length)
    vfs_read_file := fun _ _ => TSX_SUCCESS }

/-- The loader state after `ubi_load_kernel` has read a position-independent ELF kernel of
size `0x200000` from `/ahci0.0/kernel`: no table yet, nothing mapped. -/
def example_state : Ubi :=
  { tables := fun _ => { magic := 0, nextTable := 0 }
    ubi_root := 0
    ubi_kernel := 0x803000
    lastTable := 0
    ubi_kernel_type := 1
    ubi_kernel_location := 0x800000
    ubi_kernel_base := 0
    ubi_kernel_top := 0x200000
    ubi_kernel_offset := 0
    kernelPartition := [47, 97, 104, 99, 105, 48, 46, 48]
    kernelPath := [47, 107, 101, 114, 110, 101, 108]
    kernelImgLocation := 0x800000
    kernelImgSize := 0x240000
    ubi_clearScreen := false
    bmem := ubi_b_mem_table_zero
    bmodules := []
    mapped := fun _ => none
    log := [] }

/-- The sample machine with 4 GiB of usable memory, so that the preferred address plus the
usable memory is exactly `2^64`. -/
def example_env_4g : UbiEnv := { example_env with MMGR_USABLE_MEMORY := 0x100000000 }

/-- The kernel's `K_MEM` table in the sample boot: KASLR requested within 1 GiB above
`0xFFFF800000000000`, no heap, stack left to the bootloader. -/
def example_kmem : ubi_k_mem_table :=
  { flags := 1, heapLocation := 0, heapSize := 0, stackLocation := 0, stackSize := 0,
    idMapLocation := 0, idMapSize := 0, kernelBase := 0xFFFF800000000000,
    kaslrSize := 0x40000000 }

/-- The `K_MEM` table of a kernel that asks for KASLR in the last MiB of the address space. -/
def example_wrap_kmem : ubi_k_mem_table := { example_kmem with kernelBase := 0xFFFFFFFFFFF00000 }

/-- The kernel file of the sample boot: an `ET_DYN` ELF with two `LOAD` segments around a
segment of another type, entry point `0x1000`, a `K_MEM` table and one declared module
`mod_k`. -/
def example_image : KernelImage :=
  { e_type := 3
    e_entry := 0x1000
    ph := some [
      { p_type := 1, p_offset := 0x1000, p_vaddr := 0, p_filesz := 0x2800, p_memsz := 0x3000 },
      { p_type := 2, p_offset := 0x4000, p_vaddr := 0x5000, p_filesz := 0x100, p_memsz := 0x100 },
      { p_type := 1, p_offset := 0x5000, p_vaddr := 0x1ff000, p_filesz := 0x800, p_memsz := 0x1000 }]
    po_entry := 0
    sections := none
    kroot := { magic := UBI_K_ROOT_MAGIC, minimumSpecificationVersionMajor := 1,
               minimumSpecificationVersionMinor := 0, bits := 64, flags := 0 }
    kmem := some example_kmem
    kvid := none
    kmod := some [{ path := [109, 111, 100, 95, 107], loadAddress := 0 }] }

/-- The sample state once `ubi_start` has created the root table. -/
def example_rooted : Ubi :=
  match ubi_start_root example_env example_state with
  | .ok S => S
  | .error _ => example_state

/-- The part of the loader state that the memory manager calls and the stores to the body of
`B_MEM` other than its flags leave as it is. -/
def Ubi.core (S : Ubi) :=
  (S.tables, S.ubi_root, S.lastTable, S.ubi_kernel_type, S.ubi_kernel_location, S.ubi_kernel_base,
    S.ubi_kernel_top, S.ubi_kernel_offset, S.kernelPartition, S.kernelPath, S.kernelImgLocation,
    S.kernelImgSize, S.bmem.flags, S.bmodules)

/-- The sample state with two pages already mapped: page 2 (`0x2000..0x2fff`) and the last
page of the address space. -/
def example_mapped : Ubi :=
  { example_state with
    mapped := fun p => if p = 2 ∨ p = 0xFFFFFFFFFFFFF then some 0x9000 else none }

/-- That `S'` has the same tables, root and `lastTable` as `S`. -/
def chain_eq (S S' : Ubi) : Prop :=
  S'.tables = S.tables ∧ S'.ubi_root = S.ubi_root ∧ S'.lastTable = S.lastTable

/-- The tables at the addresses `ts` are linked in this order from `t` on, the last one
having a null `nextTable`. -/
def Linked (T : Nat → BHeader) : List Nat → Nat → Prop
  | [], t => t = 0
  | a :: rest, t => t = a ∧ a ≠ 0 ∧ Linked T rest (T a).nextTable

/-- The magics of the eight calls of `ubi_create_tables`, in order; the `B_CMD` call builds
a table only when there is a command line. -/
def step_magics (K : UbiEnv) : List (Option Nat) :=
  [some UBI_B_MEM_MAGIC, some UBI_B_VID_MAGIC, some UBI_B_MODULES_MAGIC, some UBI_B_SYS_MAGIC,
   some UBI_B_MEMMAP_MAGIC, some UBI_B_LOADER_MAGIC,
   if K.kernel_args.isSome then some UBI_B_CMD_MAGIC else none, some UBI_B_BDRIVE_MAGIC]

/-- The magics of the tables that exist after the root table and the first `n` calls of
`ubi_create_tables`, in creation order. -/
def created_magics (K : UbiEnv) (n : Nat) : List Nat :=
  UBI_B_ROOT_MAGIC :: ((step_magics K).take n).reduceOption

/-- The nine boot table magics. -/
def boot_magics : List Nat :=
  [UBI_B_ROOT_MAGIC, UBI_B_MEM_MAGIC, UBI_B_VID_MAGIC, UBI_B_MODULES_MAGIC, UBI_B_SYS_MAGIC,
   UBI_B_MEMMAP_MAGIC, UBI_B_LOADER_MAGIC, UBI_B_CMD_MAGIC, UBI_B_BDRIVE_MAGIC]

/-- The chain invariant: the tables with the magics `ms` are linked in this order from the
root, `lastTable` is the last of them, their addresses are distinct and each holds its
magic. -/
def ChainInv (K : UbiEnv) (S : Ubi) (ms : List Nat) : Prop :=
  ∃ h : ms ≠ [],
    Linked S.tables (ms.map K.table_alloc) S.ubi_root ∧
    S.lastTable = K.table_alloc (ms.getLast h) ∧
    (ms.map K.table_alloc).Nodup ∧
    ∀ m ∈ ms, (S.tables (K.table_alloc m)).magic = m

/-- What a call of `ubi_create_tables` that succeeds does to the chain: it links a table with
magic `m` as `new_table` does, or leaves the chain alone. -/
def StepSpec (K : UbiEnv) (f : Ubi → Option (status_t × Ubi)) (om : Option Nat) : Prop :=
  ∀ S S2, f S = some (TSX_SUCCESS, S2) →
    match om with
    | none => chain_eq S S2
    | some m => ∃ S1, new_table K m S = .ok S1 ∧ chain_eq S1 S2

/-- The sample state after `ubi_create_tables`. -/
def example_built : Ubi :=
  match ubi_create_tables example_env 4 example_image example_rooted with
  | some (_, S) => S
  | none => example_rooted

/-- The items of a `:`-separated list, in written order (58 is `':'`). -/
def split_colon : List Nat → List (List Nat)
  | [] => [[]]
  | c :: cs =>
    if c = 58 then [] :: split_colon cs
    else
      match split_colon cs with
      | [] => [[c]]
      | p :: ps => (c :: p) :: ps

/-- The items of the configuration option `modules`; none when the option is absent. -/
def config_items (K : UbiEnv) : List (List Nat) :=
  match K.modules with
  | none => []
  | some s => split_colon s

/-- The entries `new` are loaded modules with the paths `ps`: each has its path and the size
the file layer reports for the path it was read from. -/
def Loaded (K : UbiEnv) (S : Ubi) (ps : List (List Nat)) (new : List ubi_b_module_entry) : Prop :=
  new.map (fun e => e.path) = ps ∧
    ∀ e ∈ new, K.vfs_get_file_size (module_readpath S e.path) = (TSX_SUCCESS, e.size)

/-- Whether an event is a fill or a copy to a virtual address. -/
def is_fill : Ev → Bool
  | .memset _ _ => true
  | .memcpy _ _ _ => true
  | _ => false

/-- The fill and the copy that place one ELF segment when the offset is `offset` and the
file is at `location`. -/
def elf_segment_fills (bits offset location : Nat) (ph : elf_ph) : List Ev :=
  [Ev.memset (word bits (ph.p_vaddr + offset)) ph.p_memsz,
   Ev.memcpy (word bits (ph.p_vaddr + offset)) (word bits (ph.p_offset + location)) ph.p_filesz]

/-- That every page mapping among the events `evs` targets `vbase + a` for an `a` below
`segSize`, for one of the listed `(vbase, segSize)`. -/
def maps_within (bits : Nat) (segs : List (Nat × Nat)) (evs : List Ev) : Prop :=
  ∀ phys virt, Ev.map_page phys virt ∈ evs →
    ∃ s ∈ segs, ∃ a, a < s.2 ∧ virt = word bits (s.1 + a)

/-- The sample state with a PE kernel of one section and a non-zero offset. -/
def example_pe_state : Ubi :=
  { example_state with ubi_kernel_type := 2, ubi_kernel_base := 0x400000,
                       ubi_kernel_top := 0x402000, ubi_kernel_offset := 0x100000 }

/-- A PE kernel file with one section at `0x400000` and entry point `0x400100`. -/
def example_pe_image : KernelImage :=
  { example_image with
    e_type := 3
    ph := none
    po_entry := 0x400100
    sections := some [{ ps_vaddr := 0x400000, ps_vsize := 0x2000, ps_fileoff := 0x400,
                        ps_rawsize := 0x1800 }] }

/-- Where the ELF loop places a segment: at `p_vaddr + offset`, over the segment size. -/
def elf_place (bits offset : Nat) (ph : elf_ph) : Nat × Nat :=
  (ph.p_vaddr + offset, word bits (ph.p_memsz + ph.p_vaddr % VMMGR_PAGE_SIZE))

/-- Where the PE loop places a section: at `ps_vaddr`, over the section size. -/
def pe_place (bits : Nat) (sec : pe_section_header) : Nat × Nat :=
  (sec.ps_vaddr, word bits (sec.ps_vsize + sec.ps_vaddr % VMMGR_PAGE_SIZE))

/-- The fill and the copy that place one PE section when the file is at `location`. -/
def pe_section_fills (bits location : Nat) (sec : pe_section_header) : List Ev :=
  [Ev.memset (word bits sec.ps_vaddr) sec.ps_vsize,
   Ev.memcpy (word bits sec.ps_vaddr) (word bits (sec.ps_fileoff + location)) sec.ps_rawsize]

/-- That every page mapped in `S` is still mapped in `S'`. -/
def mapped_mono (S S' : Ubi) : Prop := ∀ p, (S.mapped p).isSome = true → (S'.mapped p).isSome = true

/-- The sample state with the offset that `ubi_create_mem_table` chose. -/
def example_kaslr_state : Ubi := { example_state with ubi_kernel_offset := 0xffff80002a955000 }

/-- The sample state after `ubi_load_kernel_segs`. -/
def example_segs_state : Ubi :=
  match ubi_load_kernel_segs example_env 4 example_image example_kaslr_state with
  | some (_, S) => S
  | none => example_kaslr_state

/-! ## Linux loader (`src/boot/linux86/linux86.c`)

The loader reads and patches the setup header inside the kernel image it has loaded, so
the image is byte-addressed memory seen from `kernelLocation`. The configuration parser,
the file layer, the region list of the mode-switch trampoline and `kernel_jump` are not part
of these sources: the first two answer through `parse_entry` and `LinuxEnv`, the calls to
the last two are recorded in the state. -/

def LINUX86_HEADER_MAGIC : Nat := 0x53726448
def LINUX86_BASE_PTR : Nat := 0x70000
def LINUX86_HEAP_END : Nat := 0xe000

/-- The fields of the packed `linux86_setup_header`, in the order of declaration. -/
inductive setup_field where
  | setup_sects | root_flags | syssize | ram_size | vid_mode | root_dev | boot_flag | jump
  | headerMagic | version | realmode_switch | start_sys_seg | kernel_version
  | type_of_loader | loadflags | setup_move_size | code32_start | ramdisk_image
  | ramdisk_size | bootsect_kludge | heap_end_ptr | ext_loader_ver | ext_loader_type
  | cmd_line_ptr | initrd_addr_max | kernel_alignment | relocatable_kernel | min_alignment
  | xloadflags | cmdline_size | hardware_subarch | hardware_subarch_data | payload_offset
  | payload_length | setup_data | pref_address | init_size | handover_offset
  | kernel_info_offset
  deriving DecidableEq, Repr

/-- The declaration of `linux86_setup_header`: each field with the size of its type. -/
def linux86_setup_header : List (setup_field × Nat) :=
  [(.setup_sects, 1), (.root_flags, 2), (.syssize, 4), (.ram_size, 2), (.vid_mode, 2),
   (.root_dev, 2), (.boot_flag, 2), (.jump, 2), (.headerMagic, 4), (.version, 2),
   (.realmode_switch, 4), (.start_sys_seg, 2), (.kernel_version, 2), (.type_of_loader, 1),
   (.loadflags, 1), (.setup_move_size, 2), (.code32_start, 4), (.ramdisk_image, 4),
   (.ramdisk_size, 4), (.bootsect_kludge, 4), (.heap_end_ptr, 2), (.ext_loader_ver, 1),
   (.ext_loader_type, 1), (.cmd_line_ptr, 4), (.initrd_addr_max, 4), (.kernel_alignment, 4),
   (.relocatable_kernel, 1), (.min_alignment, 1), (.xloadflags, 2), (.cmdline_size, 4),
   (.hardware_subarch, 4), (.hardware_subarch_data, 8), (.payload_offset, 4),
   (.payload_length, 4), (.setup_data, 8), (.pref_address, 8), (.init_size, 4),
   (.handover_offset, 4), (.kernel_info_offset, 4)]

/-- The offset of a field in a packed structure: the sizes of the fields before it. -/
def packed_offset (f : setup_field) : List (setup_field × Nat) → Nat
  | [] => 0
  | g :: rest => if g.1 = f then 0 else g.2 + packed_offset f rest

/-- The offset of a header field in the kernel image: `setup_header` is
`kernelLocation + 0x1f1`. -/
def hdr (f : setup_field) : Nat := 0x1f1 + packed_offset f linux86_setup_header

/-- Little-endian 8 and 16-bit stores at address `a`. -/
def wr8 (m : Mem) (a v : Nat) : Mem := fun x => if x = a then v % 256 else m x
def wr16 (m : Mem) (a v : Nat) : Mem := fun x =>
  if x = a then v % 256 else if x = a + 1 then v / 256 % 256 else m x

/-- A C string in memory: its address and its characters before the terminating NUL. -/
structure cstring where
  addr : Nat
  chars : List Nat

/-- Modelled from the spec: a configuration entry, as `parse_get_option` answers for the
option names `kernel`, `initrd` and `args` (`none` for a null result). -/
structure parse_entry where
  kernel : Option cstring
  initrd : Option cstring
  args : Option cstring

/-- Modelled from the spec: what the rest of the bootloader answers to the Linux loader.
`uefi` is `kernel_get_s1data()->bootFlags & S1BOOT_DATA_BOOT_FLAGS_UEFI`;
`kernel_write_boot_file` gives the path to read (`none` for a null result);
`kernel_read_file` gives the status and what it leaves in `*location` and `*size`;
`file_data path` is the content of the buffer a successful read of `path` returns, by offset
from its first byte. -/
structure LinuxEnv where
  bits : Nat
  uefi : Bool
  kernel_write_boot_file : List Nat → Option (List Nat)
  kernel_read_file : List Nat → status_t × Nat × Nat
  file_data : List Nat → Mem

/-- Modelled from the spec: `arch_os_entry_state` of the architecture layer, reduced to the
registers the loader assigns; the `memset` leaves every other one zero. -/
structure arch_os_entry_state where
  sp : Nat
  bp : Nat
  cs : Nat
  ds : Nat
  deriving DecidableEq, Repr

/-- Modelled from the spec: the execution modes `kernel_jump` can switch to. -/
inductive s3boot_bmode where
  | KERNEL_S3BOOT_BMODE_16
  | KERNEL_S3BOOT_BMODE_32
  | KERNEL_S3BOOT_BMODE_64
  deriving DecidableEq, Repr

/-- The arguments of a call `kernel_jump(&entryState, dest, mode, archFlags)`. -/
structure kernel_jump_call where
  entryState : arch_os_entry_state
  dest : Nat
  mode : s3boot_bmode
  archFlags : Nat
  deriving DecidableEq, Repr

/-- What the Linux loader acts on: the bytes of the kernel image buffer (by offset from
`kernelLocation`), the calls `kernel_s3boot_add_mem_region(dest, length, source)` made so
far, oldest first, the call to `kernel_jump` if it was made, and the buffers released with
`kfree`, each as `(address, size)`. -/
structure Linux where
  image : Mem
  regions : List (Nat × Nat × Nat)
  jump : Option kernel_jump_call
  freed : List (Nat × Nat)

/-- The epilogue of `linux86_start` at `_end` (lines 119-124). -/
def linux86_end (kernelLocation kernelSize initrdLocation initrdSize : Nat) (status : status_t)
    (S : Linux) : status_t × Linux :=
  let S1 := if kernelLocation ≠ 0
    then { S with freed := S.freed ++ [(kernelLocation, kernelSize)] } else S
  let S2 := if initrdLocation ≠ 0
    then { S1 with freed := S1.freed ++ [(initrdLocation, initrdSize)] } else S1
  (status, S2)

/-- The second half of `linux86_start` (lines 87-117), entered with the kernel image patched
and its two regions registered: the initrd is read and checked, the header receives the
remaining stores, the command line is registered and `kernel_jump` is called. The end of the
initrd is computed in `size_t`. -/
def linux86_initrd (L : LinuxEnv) (kernelLocation kernelSize : Nat) (initrd_file cmd : cstring)
    (S : Linux) : status_t × Linux :=
  match L.kernel_write_boot_file initrd_file.chars with
  | none => linux86_end kernelLocation kernelSize 0 0 TSX_OUT_OF_MEMORY S
  | some initrdFilePath =>
    let ri := L.kernel_read_file initrdFilePath
    let initrdLocation := ri.2.1
    let initrdSize := ri.2.2
    if ri.1 ≠ TSX_SUCCESS then
      linux86_end kernelLocation kernelSize initrdLocation initrdSize ri.1 S
    else if word L.bits (initrdLocation + initrdSize) >
        (if rd16 S.image (hdr .version) ≥ 0x203 then rd32 S.image (hdr .initrd_addr_max)
         else 0x37ffffff) then
      linux86_end kernelLocation kernelSize initrdLocation initrdSize TSX_ERROR S
    else
    let m3 := wr32 S.image (hdr .ramdisk_image) (u32 initrdLocation)
    let m4 := wr32 m3 (hdr .ramdisk_size) (u32 initrdSize)
    let m5 := wr16 m4 (hdr .heap_end_ptr) (LINUX86_HEAP_END - 0x200)
    let m6 := wr8 m5 (hdr .loadflags) (rd8 m5 (hdr .loadflags) ||| 0x80)
    let m7 := wr32 m6 (hdr .cmd_line_ptr) (LINUX86_BASE_PTR + LINUX86_HEAP_END)
    let S3 := { S with
      image := m7
      regions := S.regions ++
        [(rd32 m7 (hdr .cmd_line_ptr), min 0x2000 cmd.chars.length, cmd.addr)] }
    let seg := u16 (LINUX86_BASE_PTR >>> 4)
    let entryState : arch_os_entry_state :=
      { sp := LINUX86_HEAP_END, bp := LINUX86_HEAP_END, cs := seg + 0x20, ds := seg }
    let S4 := { S3 with
      jump := some { entryState := entryState, dest := 0,
                     mode := s3boot_bmode.KERNEL_S3BOOT_BMODE_16, archFlags := 1 } }
    linux86_end kernelLocation kernelSize initrdLocation initrdSize ri.1 S4

/-- The function `linux86_start`; its lines from 87 on are `linux86_initrd`. The header
fields are read from and stored to the image at their packed offsets; `setup_sect_size` is
a `uint32_t`, the length and the source of the second region are computed in `size_t`. -/
def linux86_start (L : LinuxEnv) (kernel_file initrd_file cmd : cstring) (S : Linux) :
    status_t × Linux :=
  match L.kernel_write_boot_file kernel_file.chars with
  | none => linux86_end 0 0 0 0 TSX_OUT_OF_MEMORY S
  | some kernelFilePath =>
    let r := L.kernel_read_file kernelFilePath
    let kernelLocation := r.2.1
    let kernelSize := r.2.2
    if r.1 ≠ TSX_SUCCESS then linux86_end kernelLocation kernelSize 0 0 r.1 S else
    let m0 := L.file_data kernelFilePath
    let S0 := { S with image := m0 }
    if rd32 m0 (hdr .headerMagic) ≠ LINUX86_HEADER_MAGIC then
      linux86_end kernelLocation kernelSize 0 0 TSX_INVALID_FORMAT S0
    else if rd16 m0 (hdr .version) < 0x202 then
      linux86_end kernelLocation kernelSize 0 0 TSX_UNSUPPORTED S0
    else if rd8 m0 (hdr .loadflags) &&& 0x1 = 0 then
      linux86_end kernelLocation kernelSize 0 0 TSX_UNSUPPORTED S0
    else
    let m1 := wr16 m0 (hdr .vid_mode) 0xffff
    let m2 := wr8 m1 (hdr .type_of_loader) 0xff
    let setup_sect_size := u32 ((rd8 m2 (hdr .setup_sects) + 1) * 0x200)
    let S1 := { S0 with
      image := m2
      regions := S0.regions ++ [(LINUX86_BASE_PTR, setup_sect_size, kernelLocation)] }
    let S2 := { S1 with
      regions := S1.regions ++ [(0x100000, wsub L.bits kernelSize setup_sect_size,
        word L.bits (kernelLocation + setup_sect_size))] }
    linux86_initrd L kernelLocation kernelSize initrd_file cmd S2

/-- The function `kboot_start` of `linux86.c`. -/
def linux86.kboot_start (L : LinuxEnv) (entry : parse_entry) (S : Linux) : status_t × Linux :=
  if L.uefi then (TSX_UNSUPPORTED, S)
  else
    match entry.kernel, entry.initrd, entry.args with
    | some kfile, some initrdfile, some args => linux86_start L kfile initrdfile args S
    | _, _, _ => (TSX_MISSING_ARGUMENTS, S)

/-- A sample machine for the Linux loader (i386, BIOS): the kernel file `k` is read to
`0x1000000` and is `0x300000` bytes long, the initrd file `i` is read to `0x2000000` and is
1 MiB long; any other file is missing. The kernel file has `setup_sects` = 4, the magic
`HdrS`, boot-protocol version `0x20c`, `loadflags` = 1 and `initrd_addr_max` = `0x7fffffff`;
every other byte is zero. -/
def example_linux_env : LinuxEnv :=
  { bits := 32
    uefi := false
    kernel_write_boot_file := fun p => some p
    kernel_read_file := fun p =>
      if p = [107] then (TSX_SUCCESS, 0x1000000, 0x300000)
      else if p = [105] then (TSX_SUCCESS, 0x2000000, 0x100000)
      else (TSX_NO_SUCH_FILE, 0, 0)
    file_data := fun p a =>
      if p = [107] then
        (if a = 0x1f1 then 4
         else if a = 0x202 then 0x48 else if a = 0x203 then 0x64
         else if a = 0x204 then 0x72 else if a = 0x205 then 0x53
         else if a = 0x206 then 0x0c else if a = 0x207 then 0x02
         else if a = 0x211 then 0x01
         else if a = 0x22c then 0xff else if a = 0x22d then 0xff
         else if a = 0x22e then 0xff else if a = 0x22f then 0x7f
         else 0)
      else 0 }

/-- The configuration entry of the sample: kernel `k`, initrd `i`, arguments `ro quiet`. -/
def example_linux_entry : parse_entry :=
  { kernel := some { addr := 0x5000, chars := [107] }
    initrd := some { addr := 0x5010, chars := [105] }
    args := some { addr := 0x5020, chars := [114, 111, 32, 113, 117, 105, 101, 116] } }

/-- The state before the Linux loader runs: nothing loaded, registered or released. -/
def example_linux_state : Linux :=
  { image := fun _ => 0, regions := [], jump := none, freed := [] }

/-- The image after the two stores that follow validation: `vid_mode` and `type_of_loader`. -/
def patched_early (m0 : Mem) : Mem := wr8 (wr16 m0 0x1fa 0xffff) 0x210 0xff

/-- The image after the stores that follow the initrd check: `ramdisk_image`, `ramdisk_size`,
`heap_end_ptr`, `loadflags` and `cmd_line_ptr`. -/
def patched_late (m : Mem) (initrdLocation initrdSize : Nat) : Mem :=
  wr32 (wr8 (wr16 (wr32 (wr32 m 0x218 (u32 initrdLocation)) 0x21c (u32 initrdSize))
    0x224 0xde00) 0x211 (rd8 m 0x211 ||| 0x80)) 0x228 0x7e000

/-- The bound the end of the initrd is compared with. -/
def initrd_limit (m : Mem) : Nat := if 0x203 ≤ rd16 m 0x206 then rd32 m 0x22c else 0x37ffffff

/-- The call to `kernel_jump` the Linux loader ends with. -/
def linux86_entry : kernel_jump_call :=
  { entryState := { sp := 0xe000, bp := 0xe000, cs := 0x7020, ds := 0x7000 },
    dest := 0, mode := s3boot_bmode.KERNEL_S3BOOT_BMODE_16, archFlags := 1 }

def UBI_MEMTYPE_USABLE : Nat := 0x0
def UBI_MEMTYPE_RESERVED : Nat := 0x1
def UBI_MEMTYPE_ACPI_RECLAIM : Nat := 0x2
def UBI_MEMTYPE_ACPI_NVS : Nat := 0x3
def UBI_MEMTYPE_BAD : Nat := 0x4
def UBI_MEMTYPE_UEFI_APP : Nat := 0x4001
def UBI_MEMTYPE_UEFI_BSRV : Nat := 0x4002
def UBI_MEMTYPE_UEFI_RSRV : Nat := 0x4003
def UBI_MEMTYPE_BOOTLOADER : Nat := 0x5001
def UBI_MEMTYPE_PAGING : Nat := 0x5002
def UBI_MEMTYPE_OS : Nat := 0x5003

/-- Modelled from the spec: the memory types of the memory manager (`MMGR_MEMTYPE_*`),
whose values are not part of these sources. -/
structure mmgr_memtypes where
  MMGR_MEMTYPE_USABLE : Nat
  MMGR_MEMTYPE_RESERVED : Nat
  MMGR_MEMTYPE_ACPI_RECLAIM : Nat
  MMGR_MEMTYPE_ACPI_NVS : Nat
  MMGR_MEMTYPE_BAD : Nat
  MMGR_MEMTYPE_UEFI_RUNTIME : Nat
  MMGR_MEMTYPE_UEFI_BOOT : Nat
  MMGR_MEMTYPE_BOOTLOADER : Nat
  MMGR_MEMTYPE_BOOTLOADER_DATA : Nat
  MMGR_MEMTYPE_PAGING : Nat
  MMGR_MEMTYPE_OS : Nat

/-- The function `ubi_convert_to_ubi_memtype`: the `switch` taken label by label, in the
order of the source. -/
def ubi_convert_to_ubi_memtype (T : mmgr_memtypes) (memtype : Nat) : Nat :=
  if memtype = T.MMGR_MEMTYPE_USABLE then UBI_MEMTYPE_USABLE
  else if memtype = T.MMGR_MEMTYPE_RESERVED then UBI_MEMTYPE_RESERVED
  else if memtype = T.MMGR_MEMTYPE_ACPI_RECLAIM then UBI_MEMTYPE_ACPI_RECLAIM
  else if memtype = T.MMGR_MEMTYPE_ACPI_NVS then UBI_MEMTYPE_ACPI_NVS
  else if memtype = T.MMGR_MEMTYPE_BAD then UBI_MEMTYPE_BAD
  else if memtype = T.MMGR_MEMTYPE_UEFI_RUNTIME then UBI_MEMTYPE_UEFI_RSRV
  else if memtype = T.MMGR_MEMTYPE_UEFI_BOOT then UBI_MEMTYPE_UEFI_BSRV
  else if memtype = T.MMGR_MEMTYPE_BOOTLOADER then UBI_MEMTYPE_BOOTLOADER
  else if memtype = T.MMGR_MEMTYPE_BOOTLOADER_DATA then UBI_MEMTYPE_BOOTLOADER
  else if memtype = T.MMGR_MEMTYPE_PAGING then UBI_MEMTYPE_PAGING
  else if memtype = T.MMGR_MEMTYPE_OS then UBI_MEMTYPE_OS
  else UBI_MEMTYPE_RESERVED

/-- The case labels of the `switch` in `ubi_convert_to_ubi_memtype`. A C `switch` only
compiles when its labels are pairwise different. -/
def case_labels (T : mmgr_memtypes) : List Nat :=
  [T.MMGR_MEMTYPE_USABLE, T.MMGR_MEMTYPE_RESERVED, T.MMGR_MEMTYPE_ACPI_RECLAIM,
   T.MMGR_MEMTYPE_ACPI_NVS, T.MMGR_MEMTYPE_BAD, T.MMGR_MEMTYPE_UEFI_RUNTIME,
   T.MMGR_MEMTYPE_UEFI_BOOT, T.MMGR_MEMTYPE_BOOTLOADER, T.MMGR_MEMTYPE_BOOTLOADER_DATA,
   T.MMGR_MEMTYPE_PAGING, T.MMGR_MEMTYPE_OS]

/-- The ten memory types of the UBI interface. -/
def ubi_memtypes : List Nat := [0, 1, 2, 3, 4, 0x4002, 0x4003, 0x5001, 0x5002, 0x5003]

/-- A sample numbering of the memory manager's types. -/
def example_memtypes : mmgr_memtypes :=
  { MMGR_MEMTYPE_USABLE := 1, MMGR_MEMTYPE_RESERVED := 2, MMGR_MEMTYPE_ACPI_RECLAIM := 3,
    MMGR_MEMTYPE_ACPI_NVS := 4, MMGR_MEMTYPE_BAD := 5, MMGR_MEMTYPE_UEFI_RUNTIME := 6,
    MMGR_MEMTYPE_UEFI_BOOT := 7, MMGR_MEMTYPE_BOOTLOADER := 16,
    MMGR_MEMTYPE_BOOTLOADER_DATA := 17, MMGR_MEMTYPE_PAGING := 18, MMGR_MEMTYPE_OS := 19 }

/-- The sample machine with a video driver that offers 1920x1080 at 32 bpp in graphics mode
and nothing else. -/
def example_env_hd : UbiEnv :=
  { example_env with
    kernel_set_video := fun w h bpp graphics =>
      if w = 1920 ∧ h = 1080 ∧ bpp = 32 ∧ graphics = 1 then TSX_SUCCESS else TSX_UNAVAILABLE }

/-- The sample machine with a video driver that offers no mode at all. -/
def example_env_novideo : UbiEnv :=
  { example_env with kernel_set_video := fun _ _ _ _ => TSX_UNAVAILABLE }

/-- A kernel video table that asks for graphics mode 800x600 at 32 bpp. -/
def example_kvid : ubi_k_video_table := { flags := 2, width := 800, height := 600, bpp := 32 }

/-! ## UBI loader: `ubi_load_kernel` -/

/-! ## UBI loader: addresses in the kernel file -/

/-- The loop of `ubi_get_file_addr` over the program headers of an ELF kernel loaded at
`location` (lines 967-973); 0 is the null pointer it falls through to. The sums are computed
in `size_t`. -/
def file_addr_elf_loop (bits location vaddr : Nat) : List elf_ph → Nat
  | [] => 0
  | ph :: rest =>
    if ph.p_type ≠ ELF_PH_TYPE_LOAD then file_addr_elf_loop bits location vaddr rest
    else if vaddr ≥ ph.p_vaddr ∧ vaddr ≤ word bits (ph.p_vaddr + ph.p_memsz) then
      word bits (vaddr - ph.p_vaddr + ph.p_offset + location)
    else file_addr_elf_loop bits location vaddr rest

/-- The loop of `ubi_get_file_addr` over the sections of a PE kernel loaded at `location`
(lines 977-981). Modelled from the spec: the fields of a PE section header are 32 bits
wide, and so is the sum `ps_vaddr + ps_vsize`. -/
def file_addr_pe_loop (bits location vaddr : Nat) : List pe_section_header → Nat
  | [] => 0
  | sec :: rest =>
    if vaddr ≥ sec.ps_vaddr ∧ vaddr ≤ u32 (sec.ps_vaddr + sec.ps_vsize) then
      word bits (vaddr - sec.ps_vaddr + sec.ps_fileoff + location)
    else file_addr_pe_loop bits location vaddr rest

/-- The function `ubi_get_file_addr`; 0 is `NULL`. The result is `none` when the parser gives
no program header table or no section table, in which case the C code indexes a null
pointer. -/
def ubi_get_file_addr (bits : Nat) (img : KernelImage) (S : Ubi) (vaddr : Nat) : Option Nat :=
  if vaddr = 0 then some 0
  else if S.ubi_kernel_type = 1 then
    match img.ph with
    | none => none
    | some phs => some (file_addr_elf_loop bits S.ubi_kernel_location vaddr phs)
  else if S.ubi_kernel_type = 2 then
    match img.sections with
    | none => none
    | some secs => some (file_addr_pe_loop bits S.ubi_kernel_location vaddr secs)
  else some 0

/-- Modelled from the spec: what the file layer and the ELF and PE parsers answer to
`ubi_load_kernel` about the kernel file. `filePath` is `kernel_write_boot_file(filename)`
(`none` for a null result); `read` is the status of `kernel_read_file` with what it leaves in
`imglocation` and `size`; `is_elf` is `elf_is_elf`, `is_pe` is `mz_is_mz` and `pe_is_pe`;
`machine_ok` tells whether `e_machine` (`p_machine` for a PE) is that of the build; `header`
is the virtual address of the UBI header as the parser finds it: `st_value` of the symbol
`ubi_header` or else `sh_addr` of the section `.ubihdr` for an ELF, `ps_vaddr` of the section
`.ubihdr` for a PE (`none` when neither is found); `phentsize_ok` tells whether `e_phentsize`
is `sizeof(elf_ph)`. -/
structure KernelFile where
  filePath : Option (List Nat)
  read : status_t × Nat × Nat
  is_elf : Bool
  is_pe : Bool
  machine_ok : Bool
  header : Option Nat
  phentsize_ok : Bool

/-- The value `SIZE_MAX`. -/
def SIZE_MAX (bits : Nat) : Nat := 2 ^ bits - 1

/-- The loop of `ubi_load_kernel` over the program headers (lines 221-228), from the current
`(minAddr, maxAddr)`; the sum `p_vaddr + p_memsz` is computed in `size_t`. -/
def elf_minmax_loop (bits : Nat) : List elf_ph → Nat × Nat → Nat × Nat
  | [], mm => mm
  | ph :: rest, mm =>
    if ph.p_type ≠ ELF_PH_TYPE_LOAD then elf_minmax_loop bits rest mm
    else
      let minAddr := if ph.p_vaddr < mm.1 then ph.p_vaddr else mm.1
      let maxAddr := if word bits (ph.p_vaddr + ph.p_memsz) > mm.2
        then word bits (ph.p_vaddr + ph.p_memsz) else mm.2
      elf_minmax_loop bits rest (minAddr, maxAddr)

/-- The loop of `ubi_load_kernel` over the sections of a PE (lines 264-269). Modelled from
the spec: the fields of a PE section header are 32 bits wide, and so is their sum. -/
def pe_minmax_loop : List pe_section_header → Nat × Nat → Nat × Nat
  | [], mm => mm
  | sec :: rest, mm =>
    let minAddr := if sec.ps_vaddr < mm.1 then sec.ps_vaddr else mm.1
    let maxAddr := if u32 (sec.ps_vaddr + sec.ps_vsize) > mm.2
      then u32 (sec.ps_vaddr + sec.ps_vsize) else mm.2
    pe_minmax_loop rest (minAddr, maxAddr)

/-- Lines 278-302 of `ubi_load_kernel`, after the image has been parsed: the header and the
extent are checked and the partition, the path and the place of the image are remembered.
The result is `none` when the name has no `/` after its first character, in which case the
C code stores through the null pointer `strchr` returns. -/
def ubi_load_kernel_finish (bits : Nat) (filePath filename : List Nat) (imglocation size : Nat)
    (S : Ubi) : Option (status_t × Ubi) :=
  if S.ubi_kernel = 0 then some (TSX_INVALID_FORMAT, S)
  else if wsub bits S.ubi_kernel_top S.ubi_kernel_base = 0 then some (TSX_ERROR, S)
  else if 47 ∉ filePath.tail ∨ 47 ∉ filename.tail then none
  else
    some (TSX_SUCCESS, { S with
      kernelPartition := filePath.take 1 ++ filePath.tail.takeWhile (fun c => c != 47)
      kernelPath := filename.tail.dropWhile (fun c => c != 47)
      kernelImgLocation := imglocation
      kernelImgSize := size })

/-- Lines 201-211 (ELF) and 253-256 (PE) of `ubi_load_kernel`: when the parser finds the UBI
header at the virtual address `F.header`, `ubi_kernel` becomes `ubi_get_file_addr` of that
address, computed from the kernel type and location just stored; when it finds none,
`ubi_kernel` keeps its value. The result is `none` where `ubi_get_file_addr` is. -/
def ubi_find_header (bits : Nat) (F : KernelFile) (img : KernelImage) (S : Ubi) : Option Ubi :=
  match F.header with
  | none => some S
  | some vaddr =>
    match ubi_get_file_addr bits img S vaddr with
    | none => none
    | some p => some { S with ubi_kernel := p }

/-- The function `ubi_load_kernel`. The adjustments `reloc_ptr` registers for the
self-relocation and the releases of the epilogue are not represented. -/
def ubi_load_kernel (bits : Nat) (F : KernelFile) (img : KernelImage) (filename : List Nat)
    (S : Ubi) : Option (status_t × Ubi) :=
  match F.filePath with
  | none => some (TSX_OUT_OF_MEMORY, S)
  | some filePath =>
    if F.read.1 ≠ TSX_SUCCESS then some (F.read.1, S)
    else
    let imglocation := F.read.2.1
    let size := F.read.2.2
    if F.is_elf then
      let S1 := { S with ubi_kernel_type := 1, ubi_kernel_location := imglocation }
      if ¬ F.machine_ok then some (TSX_INVALID_FORMAT, S1)
      else
      match ubi_find_header bits F img S1 with
      | none => none
      | some S2 =>
      match img.ph with
      | none => some (TSX_INVALID_FORMAT, S2)
      | some ph =>
        if ¬ F.phentsize_ok then some (TSX_INVALID_FORMAT, S2)
        else
        let mm := elf_minmax_loop bits ph (SIZE_MAX bits, 0)
        if mm.1 = SIZE_MAX bits then some (TSX_ERROR, S2)
        else
          ubi_load_kernel_finish bits filePath filename imglocation size
            { S2 with ubi_kernel_base := mm.1, ubi_kernel_top := mm.2 }
    else if F.is_pe then
      let S1 := { S with ubi_kernel_type := 2, ubi_kernel_location := imglocation }
      if ¬ F.machine_ok then some (TSX_INVALID_FORMAT, S1)
      else
      match ubi_find_header bits F img S1 with
      | none => none
      | some S2 =>
      match img.sections with
      | none => some (TSX_INVALID_FORMAT, S2)
      | some sections =>
        let mm := pe_minmax_loop sections (SIZE_MAX bits, 0)
        if mm.1 = SIZE_MAX bits then some (TSX_ERROR, S2)
        else
          ubi_load_kernel_finish bits filePath filename imglocation size
            { S2 with ubi_kernel_base := mm.1, ubi_kernel_top := mm.2 }
    else some (TSX_INVALID_FORMAT, S)

/-- The program headers of type `LOAD`, in file order. -/
def elf_loads (phs : List elf_ph) : List elf_ph :=
  phs.filter (fun ph => decide (ph.p_type = ELF_PH_TYPE_LOAD))

/-- The number `x` is the least, respectively the greatest, of the list. -/
def is_least (x : Nat) (l : List Nat) : Prop := x ∈ l ∧ ∀ y ∈ l, x ≤ y
def is_greatest (x : Nat) (l : List Nat) : Prop := x ∈ l ∧ ∀ y ∈ l, y ≤ x

/-- What the file layer and the parsers answer for the sample ELF kernel `/ahci0.0/kernel`. -/
def example_kernel_file : KernelFile :=
  { filePath := some [47, 97, 104, 99, 105, 48, 46, 48, 47, 107, 101, 114, 110, 101, 108]
    read := (TSX_SUCCESS, 0x800000, 0x240000)
    is_elf := true
    is_pe := false
    machine_ok := true
    header := some 0x2000
    phentsize_ok := true }

/-- The loader state before `ubi_load_kernel`: every variable zero. -/
def example_blank : Ubi :=
  { example_state with
    ubi_kernel := 0, ubi_kernel_type := 0, ubi_kernel_location := 0, ubi_kernel_top := 0,
    kernelPartition := [], kernelPath := [], kernelImgLocation := 0, kernelImgSize := 0 }

/-- An ELF kernel with two `LOAD` headers: the first has `p_vaddr` = `0x1000` and `p_memsz` =
`0x2000` and holds the UBI header (virtual address `0x2000`); the second has `p_vaddr` =
`0x3000` and `p_memsz` = `2^64 - 0x2000`, so that their sum, `2^64 + 0x1000`, is `0x1000` in
`size_t`. -/
def example_wrapped_image : KernelImage :=
  { example_image with
    ph := some [
      { p_type := 1, p_offset := 0x1000, p_vaddr := 0x1000, p_filesz := 0x2000,
        p_memsz := 0x2000 },
      { p_type := 1, p_offset := 0x3000, p_vaddr := 0x3000, p_filesz := 0x800,
        p_memsz := 0xffffffffffffe000 }] }

/-- The loader state after `ubi_load_kernel` has read the sample ELF kernel. -/
def example_loaded : Ubi :=
  { example_blank with
    ubi_kernel_type := 1
    ubi_kernel_location := 0x800000
    ubi_kernel := 0x803000
    ubi_kernel_base := 0
    ubi_kernel_top := 0x200000
    kernelPartition := [47, 97, 104, 99, 105, 48, 46, 48]
    kernelPath := [47, 107, 101, 114, 110, 101, 108]
    kernelImgLocation := 0x800000
    kernelImgSize := 0x240000 }

/-! ## Ext reader: directories -/

/-- The loop of `ext_get_dir` that cuts the trailing file name: from the end of the string
down to index 1, characters are zeroed until a `/` is met. The store `pathcpy[pathlen] = 0`
that precedes it, one byte past the copy, is not represented. -/
def cut_trailing_name (path : List Nat) : List Nat :=
  path.take 1 ++ path.tail.rdropWhile (fun c => c != 47)

/-- Resolves the directory part of `path` to the inode of a directory. -/
def ext_get_dir (E : Env) (partStart fuel : Nat) (path : List Nat) :
    Option (Except status_t Nat) :=
  match ext_get_path_inode E partStart fuel (cut_trailing_name path) with
  | none => none
  | some (.error st) => some (.error st)
  | some (.ok (cInode, cType)) =>
    if cType ≠ EXT_INODE_TYPE_DIRECTORY then some (.error TSX_NO_SUCH_DIRECTORY)
    else some (.ok cInode)

/-- The `name_len` bytes of the name of the entry at offset `off`. -/
def entry_name (m : Mem) (off : Nat) : List Nat :=
  (List.range (de_name_len m off)).map (fun j => rd8 (de_name m off) j)

/-- The `while(1)` loop of `vfs_listDir` from the entry at `off`, with the names pushed so
far: the names in the list at the end; `none` when more than `fuel` entries would be
examined. -/
def list_scan (m : Mem) (size : Nat) : Nat → Nat → List (List Nat) → Option (List (List Nat))
  | 0, _, _ => none
  | fuel + 1, off, list =>
    let list1 := if de_name_len m off > 0 then list ++ [entry_name m off] else list
    let off' := off + de_rec_len m off
    if off' ≥ size ∨ de_rec_len m off' = 0 then some list1
    else list_scan m size fuel off' list1

/-- The function `vfs_listDir`: the status, or the names written to `*listWrite`. -/
def vfs_listDir (E : Env) (partStart fuel : Nat) (path : List Nat) :
    Option (Except status_t (List (List Nat))) :=
  match ext_get_dir E partStart fuel path with
  | none => none
  | some (.error st) => some (.error st)
  | some (.ok inode) =>
    match ext_get_inode E partStart inode with
    | .error st => some (.error st)
    | .ok inodeData =>
      match ext_read_inode E partStart fuel inodeData with
      | none => none
      | some r =>
        if r.status ≠ TSX_SUCCESS then some (.error r.status)
        else
          match list_scan r.location.mem r.size (r.size + 1) 0 [] with
          | none => none
          | some list => some (.ok list)

/-- The offsets of the directory entries that the scans of `ext_get_path_inode` and
`vfs_listDir` examine when nothing stops them early, in the order they are examined: the
scan starts at `off`, moves on by `rec_len`, and ends once the new offset is not below `size`
or the entry there has `rec_len` zero. At most `fuel` offsets are listed. -/
def dir_offsets (m : Mem) (size : Nat) : Nat → Nat → List Nat
  | 0, _ => []
  | fuel + 1, off =>
    off :: (if off + de_rec_len m off ≥ size ∨ de_rec_len m (off + de_rec_len m off) = 0
      then [] else dir_offsets m size fuel (off + de_rec_len m off))

/-! ## A sample ext2 volume, used to exercise the properties -/

/-- The bytes `(address, value)` of a little-endian 16-bit and 32-bit field. -/
def le16 (a v : Nat) : List (Nat × Nat) := [(a, v % 256), (a + 1, v / 256 % 256)]
def le32 (a v : Nat) : List (Nat × Nat) :=
  [(a, v % 256), (a + 1, v / 256 % 256), (a + 2, v / 65536 % 256), (a + 3, v / 16777216 % 256)]

/-- A memory that holds the listed bytes and zero elsewhere. -/
def sparse (l : List (Nat × Nat)) : Mem := fun a =>
  match l.find? (fun p => p.1 == a) with
  | some p => p.2
  | none => 0

/-- A directory entry at `a`: inode, `rec_len`, file type and name. -/
def dirent (a inode rec_len file_type : Nat) (name : List Nat) : List (Nat × Nat) :=
  le32 a inode ++ le16 (a + 4) rec_len ++ [(a + 6, name.length), (a + 7, file_type)] ++
    (List.range name.length).map (fun j => (a + 8 + j, name.getD j 0))

/-- A volume at the start of the drive with 1024-byte blocks, revision 1, 128-byte inodes,
16 inodes in one group and the `FILETYPE` feature. The group descriptor table is in block 2
and the inode table in block 3. The root directory (inode 2) is the one block 10 and holds
the entries `.`, `..` and `k`; `k` (inode 12) is a regular file of 9000 bytes in the blocks
20 to 28, whose byte at drive offset `a` is `a % 251`. -/
def example_disk : Nat → Nat := fun a =>
  if 20480 ≤ a ∧ a < 29696 then a % 251
  else sparse (
    -- superblock at byte 1024
    le32 (1024 + 0) 16 ++ le32 (1024 + 24) 0 ++ le32 (1024 + 40) 16 ++ le16 (1024 + 56) 0xEF53 ++
    le32 (1024 + 76) 1 ++ le16 (1024 + 88) 128 ++ le32 (1024 + 96) 2 ++
    -- group descriptor at byte 2048
    le32 (2048 + 8) 3 ++
    -- inode 2 at byte 3072 + 128
    le32 (3200 + 4) 1024 ++ le32 (3200 + 40) 10 ++
    -- inode 12 at byte 3072 + 11 * 128
    le32 (4480 + 4) 9000 ++ le32 (4480 + 40) 20 ++ le32 (4480 + 44) 21 ++ le32 (4480 + 48) 22 ++
    le32 (4480 + 52) 23 ++ le32 (4480 + 56) 24 ++ le32 (4480 + 60) 25 ++ le32 (4480 + 64) 26 ++
    le32 (4480 + 68) 27 ++ le32 (4480 + 72) 28 ++
    -- root directory at byte 10240
    dirent 10240 2 12 2 [46] ++ dirent 10252 2 12 2 [46, 46] ++ dirent 10264 12 1000 1 [107]) a

/-- The sample machine: 64-bit, the sample volume in the drive, every read accepted, fresh
memory filled with `0xAA`. -/
def example_ext : Env :=
  { bits := 64, data := example_disk, bad := fun _ _ => false, heap := fun _ => 0xAA }

/-- The record of inode 8 of the sample volume, the last of the first block of the inode
table. -/
def example_last_inode : Mem :=
  match ext_get_inode example_ext 0 8 with
  | .ok m => m
  | .error _ => fun _ => 0

/-- The record of the root directory of the sample volume. -/
def example_root_inode : Mem :=
  match ext_get_inode example_ext 0 2 with
  | .ok m => m
  | .error _ => fun _ => 0

/-- The root directory of the sample volume as `ext_read_inode` returns it. -/
def example_root_read : InodeRead :=
  match ext_read_inode example_ext 0 4 example_root_inode with
  | some r => r
  | none => { status := TSX_ERROR, written := false, location := kmalloc example_ext, size := 0,
              absSize := 0, live := false }

/-- The statuses the block and extent walks can end with: success, the failure of the disk
layer, a bad extent header, or no memory for a level of the extent walk. -/
def walk_status (st : status_t) : Prop :=
  st = TSX_SUCCESS ∨ st = TSX_IO_ERROR ∨ st = TSX_INVALID_FORMAT ∨ st = TSX_OUT_OF_MEMORY

/-- The sample machine as a 32-bit build. -/
def example_ext32 : Env := { example_ext with bits := 32 }

/-- An inode record without block pointers whose `i_size_lo` is `0xFFFFFFFF`. -/
def example_huge_inode : Mem := sparse (le32 4 0xFFFFFFFF)

/-- The block size the reader computes from the superblock it reads at `partStart + 2`. -/
def sb_block_size (E : Env) (partStart : Nat) : Nat :=
  util_math_pow E 2
    (u32 (10 + s_log_block_size (msio_read_drive E (u64 (partStart + 2)) 4 0 (kmalloc E)).2.mem))

/-- The read of the superblock in `ext_get_inode`: 4 sectors from LBA `partStart + 2`. -/
def sb_read (E : Env) (partStart : Nat) : status_t × Buf :=
  msio_read_drive E (u64 (partStart + 2)) 4 0 (kmalloc E)

/-- The superblock buffer as `ext_get_inode` reads it. -/
def sb_buffer (E : Env) (partStart : Nat) : Mem := (sb_read E partStart).2.mem

/-- The read of the group descriptor table in `ext_get_inode` (lines 136-145): the
descriptors of `s_inodes_count / s_inodes_per_group` groups, rounded up to whole sectors,
from LBA `partStart + max(blockSize, 2048) / 512`. -/
def gd_read (E : Env) (partStart : Nat) : status_t × Buf :=
  let sb := sb_buffer E partStart
  let blockGroupsLen0 := u32 (s_inodes_count sb / s_inodes_per_group sb * desc_size sb)
  let blockGroupsLen :=
    if blockGroupsLen0 % 512 ≠ 0 then u32 (blockGroupsLen0 + (512 - blockGroupsLen0 % 512))
    else blockGroupsLen0
  msio_read_drive E (u64 (partStart + max (sb_block_size E partStart) 2048 / 512))
    (blockGroupsLen / 512) 0 (kmalloc E)

/-- The group descriptor table as `ext_get_inode` reads it. -/
def gd_buffer (E : Env) (partStart : Nat) : Mem := (gd_read E partStart).2.mem

/-- The value `inodeTable` of `ext_get_inode` (lines 146-149) for the inode number `inode`. -/
def inode_table_start (E : Env) (partStart inode : Nat) : Nat :=
  let sb := sb_buffer E partStart
  let bg := u32 (inode + 2 ^ 32 - 1) / s_inodes_per_group sb
  let blockGroup := shift (gd_buffer E partStart) (u32 (bg * desc_size sb))
  if s_feature_incompat sb &&& EXT_INCOMPAT_64BIT ≠ 0 ∧ s_desc_size sb > 32 then
    bg_inode_table_lo blockGroup ||| (bg_inode_table_hi blockGroup <<< 32)
  else bg_inode_table_lo blockGroup

/-- The value `inodeTableOff` of `ext_get_inode` (line 150). -/
def inode_table_off (E : Env) (partStart inode : Nat) : Nat :=
  u32 ((u32 (inode + 2 ^ 32 - 1) % s_inodes_per_group (sb_buffer E partStart)) *
    inode_stride (sb_buffer E partStart))

/-- The read of the block of the inode table that holds the record (lines 151-155). -/
def inode_block_read (E : Env) (partStart inode : Nat) : status_t × Buf :=
  let blockSize := sb_block_size E partStart
  let inodeTableOff := inode_table_off E partStart inode
  msio_read_drive E
    (u64 (u64 (inodeTableOff - inodeTableOff % blockSize +
      u64 (inode_table_start E partStart inode * blockSize)) / 512 + partStart))
    (blockSize / 512) 0 (kmalloc E)

/-- The sample volume with the byte at offset 40 of the descriptor table set to 1: with
32-byte descriptors that byte belongs to the second descriptor. -/
def example_ext_hi : Env :=
  { example_ext with data := fun a => if a = 2048 + 40 then 1 else example_disk a }

/-! ## Sample extent trees -/

/-- The bytes of an extent header at `a`. -/
def ext_hdr (a magic entries max depth : Nat) : List (Nat × Nat) :=
  le16 a magic ++ le16 (a + 2) entries ++ le16 (a + 4) max ++ le16 (a + 6) depth

/-- The bytes of the leaf entry number `i` of the node at `a`. -/
def ext_leaf (a i block len start : Nat) : List (Nat × Nat) :=
  le32 (a + 12 + 12 * i) block ++ le16 (a + 12 + 12 * i + 4) len ++
    le16 (a + 12 + 12 * i + 6) (start / 4294967296) ++
    le32 (a + 12 + 12 * i + 8) (start % 4294967296)

/-- The bytes of the index entry number `i` of the node at `a`. -/
def ext_idx (a i block leaf : Nat) : List (Nat × Nat) :=
  le32 (a + 12 + 12 * i) block ++ le32 (a + 12 + 12 * i + 4) (leaf % 4294967296) ++
    le16 (a + 12 + 12 * i + 8) (leaf / 4294967296)

/-- A drive with 4096-byte blocks: the blocks 100 to 103 and 200 to 201 hold file data (the
byte at drive offset `a` is `a % 251`), block 50 holds a leaf node with the extents
`(0, 4, 100)` and `(4, 2, 200)`, and block 51 holds zeros. -/
def example_extent_disk : Nat → Nat := fun a =>
  if (409600 ≤ a ∧ a < 425984) ∨ (819200 ≤ a ∧ a < 827392) then a % 251
  else sparse (ext_hdr 204800 0xF30A 2 340 0 ++ ext_leaf 204800 0 0 4 100 ++
    ext_leaf 204800 1 4 2 200) a

def example_extent_env : Env :=
  { bits := 64, data := example_extent_disk, bad := fun _ _ => false, heap := fun _ => 0xAA }

/-- A root node as it lies in `i_blocks`: a leaf with the extents `(0, 4, 100)` and
`(4, 2, 200)`. -/
def example_leaf_root : Mem :=
  sparse (ext_hdr 0 0xF30A 2 4 0 ++ ext_leaf 0 0 0 4 100 ++ ext_leaf 0 1 4 2 200)

/-- A root node of depth 1 whose first child is block 50 and whose second child is block 51,
which has no extent magic. -/
def example_index_root : Mem :=
  sparse (ext_hdr 0 0xF30A 2 4 1 ++ ext_idx 0 0 0 50 ++ ext_idx 0 1 6 51)

/-- A leaf root node that declares 2 entries and room for 1. -/
def example_overfull_root : Mem :=
  sparse (ext_hdr 0 0xF30A 2 1 0 ++ ext_leaf 0 0 0 4 100 ++ ext_leaf 0 1 4 2 200)

/-- The read of the child block of index entry `i` into `tempData` (lines 287-288). -/
def child_read (E : Env) (partStart blockSize : Nat) (header : Mem) (i : Nat) (tempData : Buf) :
    status_t × Buf :=
  msio_read_drive E
    (u64 (partStart + u64 ((ei_leaf_lo header i ||| (ei_leaf_hi header i <<< 32)) * blockSize) / 512))
    (blockSize / 512) 0 tempData

/-- The loop over the index entries of the node `header` gets from the state before entry
`i` (temporary buffer `t`, destination `d`) to the state before entry `i'`: every child in
between is read and walked with success. `fuel` is the depth left to the children. -/
inductive LoopAt (E : Env) (partStart blockSize fuel : Nat) (header : Mem) :
    Nat → Buf → Buf → Nat → Buf → Buf → Prop where
  | refl (i : Nat) (t d : Buf) : LoopAt E partStart blockSize fuel header i t d i t d
  | step (i : Nat) (t d d1 : Buf) (i' : Nat) (t' d' : Buf) :
      (child_read E partStart blockSize header i t).1 = TSX_SUCCESS →
      ext_read_extent E partStart blockSize fuel (child_read E partStart blockSize header i t).2.mem
        d = some (TSX_SUCCESS, d1) →
      LoopAt E partStart blockSize fuel header (i + 1)
        (child_read E partStart blockSize header i t).2 d1 i' t' d' →
      LoopAt E partStart blockSize fuel header i t d i' t' d'

/-- The walk that starts at the node `header` with the destination `dest` visits the node
`h'`, that is calls `ext_read_extent` on it, with the destination then being `dest'`: either
it is the node itself, or the node has the magic and a depth other than 0, the loop over its
entries gets to an entry `i < eh_entries`, the child block of that entry is read, and the
walk of the child visits `h'`. -/
inductive Reach (E : Env) (partStart blockSize : Nat) : Nat → Mem → Buf → Mem → Buf → Prop where
  | here (fuel : Nat) (header : Mem) (dest : Buf) :
      Reach E partStart blockSize (fuel + 1) header dest header dest
  | down (fuel : Nat) (header : Mem) (dest : Buf) (i : Nat) (t d : Buf) (h' : Mem) (dest' : Buf) :
      eh_magic header = EXT_INODE_EXTENT_HEADER_MAGIC → eh_depth header ≠ 0 →
      LoopAt E partStart blockSize fuel header 0 (kmalloc E) dest i t d →
      i < eh_entries header →
      (child_read E partStart blockSize header i t).1 = TSX_SUCCESS →
      Reach E partStart blockSize fuel (child_read E partStart blockSize header i t).2.mem d
        h' dest' →
      Reach E partStart blockSize (fuel + 1) header dest h' dest'

/-- The destination after the walk of the first child of `example_index_root`. -/
def example_after_child0 : Buf :=
  match ext_read_extent example_extent_env 0 4096 1
      (child_read example_extent_env 0 4096 example_index_root 0
        (kmalloc example_extent_env)).2.mem (kmalloc example_extent_env) with
  | some r => r.2
  | none => kmalloc example_extent_env

/-- The leaf entries of a node, in table order, each as `(ee_block, ee_len, start)` with
`start = (ee_start_hi << 32) | ee_start_lo`. -/
def node_extents (header : Mem) : List (Nat × Nat × Nat) :=
  (List.range (eh_entries header)).map (fun i =>
    (ee_block header i, ee_len header i, ee_start_lo header i ||| (ee_start_hi header i <<< 32)))

/-- The leaf entries below the index entries `i, i+1, ..` (at most `k`) of the node `header`,
the child blocks being read into `tempData` one after the other; `child` gives the leaf
entries of a child node. -/
def index_leaves (E : Env) (partStart blockSize : Nat)
    (child : Mem → Option (List (Nat × Nat × Nat))) (header : Mem) :
    Nat → Nat → Buf → Option (List (Nat × Nat × Nat))
  | 0, _, _ => some []
  | k + 1, i, tempData =>
    if (child_read E partStart blockSize header i tempData).1 ≠ TSX_SUCCESS then none
    else
      match child (child_read E partStart blockSize header i tempData).2.mem with
      | none => none
      | some l =>
        match index_leaves E partStart blockSize child header k (i + 1)
            (child_read E partStart blockSize header i tempData).2 with
        | none => none
        | some rest => some (l ++ rest)

/-- The leaf entries of the extent tree with root node `header`, in the order of the walk:
`none` when a node does not carry the magic `0xF30A`, a child block cannot be read, or the
tree is deeper than `fuel`. -/
def extent_tree_leaves (E : Env) (partStart blockSize : Nat) :
    Nat → Mem → Option (List (Nat × Nat × Nat))
  | 0, _ => none
  | fuel + 1, header =>
    if eh_magic header ≠ EXT_INODE_EXTENT_HEADER_MAGIC then none
    else if eh_depth header = 0 then some (node_extents header)
    else index_leaves E partStart blockSize (extent_tree_leaves E partStart blockSize fuel) header
      (eh_entries header) 0 (kmalloc E)

/-- The read `ext_read_extent` makes for the leaf entry `e` (lines 280-281), with the
arithmetic of the C types. -/
def extent_read (E : Env) (partStart blockSize : Nat) (e : Nat × Nat × Nat) (dest : Buf) :
    status_t × Buf :=
  msio_read_drive E (u64 (partStart + u64 (e.2.2 * blockSize) / 512))
    (usize E (e.2.1 * blockSize) / 512) (usize E (blockSize * e.1)) dest

/-- The destination after the reads for the leaf entries `l`, one after the other. -/
def apply_extent_reads (E : Env) (partStart blockSize : Nat) (l : List (Nat × Nat × Nat))
    (dest : Buf) : Buf :=
  l.foldl (fun b e => (extent_read E partStart blockSize e b).2) dest

/-- The destination bytes that the leaf entry `e` maps:
`[ee_block*bs, (ee_block+ee_len)*bs)`. -/
def extent_range (blockSize : Nat) (e : Nat × Nat × Nat) (a : Nat) : Prop :=
  e.1 * blockSize ≤ a ∧ a < (e.1 + e.2.1) * blockSize

/-- The read the specification gives for the leaf entry `e`: `ee_len*bs/512` sectors from
LBA `part_start + start*bs/512` to the destination offset `ee_block*bs`. -/
def extent_read_spec (partStart blockSize : Nat) (e : Nat × Nat × Nat) : Nat × Nat × Nat :=
  (partStart + e.2.2 * blockSize / 512, e.2.1 * blockSize / 512, e.1 * blockSize)

/-- A drive of zeros with 1024-byte blocks but for block 11, an indirect table whose first
entry is the block `0x400000`. -/
def example_wide_disk : Nat → Nat := sparse (le32 (11 * 1024) 0x400000)

/-- A 64-bit machine with `example_wide_disk` in the drive. -/
def example_wide_env : Env :=
  { bits := 64, data := example_wide_disk, bad := fun _ _ => false, heap := fun _ => 0xAA }

/-- An inode record without the extents flag whose first direct pointer is the block
`0x400000` and whose single-indirect table is the block 11. -/
def example_wide_inode : Mem := sparse (le32 40 0x400000 ++ le32 88 11)

/-- The LBA `ext_read_inode_to` computes for a direct pointer `p` (line 218): the product is
a `size_t`. -/
def direct_lba (E : Env) (partStart blockSize p : Nat) : Nat :=
  u64 (usize E (p * blockSize) / 512 + partStart)

/-- The LBA `ext_read_indirect_blocks` computes for a block number `p` (lines 245 and 251):
the product is a `uint32_t`. -/
def indirect_lba (partStart blockSize p : Nat) : Nat :=
  u64 (u32 (p * blockSize) / 512 + partStart)

/-- The read of the table block `blockTable` in `ext_read_indirect_blocks` (line 245). -/
def table_read (E : Env) (partStart blockSize blockTable : Nat) : status_t × Buf :=
  msio_read_drive E (indirect_lba partStart blockSize blockTable) (blockSize / 512) 0 (kmalloc E)

/-- The entries `i, i+1, ..` (at most `k`) of a pointer list, up to its first zero entry. -/
def live_entries (get : Nat → Nat) (i k : Nat) : List Nat :=
  ((List.range' i k).map get).takeWhile (fun p => p != 0)

/-- The block numbers of the data blocks below the table block `t` at the given depth, in
table order, each table being taken up to its first zero entry. -/
def indirect_blocks (E : Env) (partStart blockSize : Nat) : Nat → Nat → List Nat
  | 0, t =>
    live_entries (fun i => rd32 (table_read E partStart blockSize t).2.mem (4 * i)) 0
      (blockSize / 4)
  | depth + 1, t =>
    (live_entries (fun i => rd32 (table_read E partStart blockSize t).2.mem (4 * i)) 0
      (blockSize / 4)).flatMap (indirect_blocks E partStart blockSize depth)

/-- The LBAs of the blocks of an inode without the extents flag, in file order: the direct
pointers up to the first zero one, then for each indirect root that is not zero the blocks
below it, each table up to its first zero entry. -/
def inode_block_lbas (E : Env) (partStart blockSize : Nat) (inode : Mem) : List Nat :=
  (live_entries (i_blocks inode) 0 12).map (direct_lba E partStart blockSize) ++
  (if i_block_i1 inode ≠ 0 then
    (indirect_blocks E partStart blockSize 0 (i_block_i1 inode)).map
      (indirect_lba partStart blockSize) else []) ++
  (if i_block_i2 inode ≠ 0 then
    (indirect_blocks E partStart blockSize 1 (i_block_i2 inode)).map
      (indirect_lba partStart blockSize) else []) ++
  (if i_block_i3 inode ≠ 0 then
    (indirect_blocks E partStart blockSize 2 (i_block_i3 inode)).map
      (indirect_lba partStart blockSize) else [])

/-- One block after the other is read from the listed LBAs to the write cursor, which
advances by a block each time. -/
def apply_block_reads (E : Env) (blockSize : Nat) (lbas : List Nat) (s : Buf × Nat) : Buf × Nat :=
  lbas.foldl (fun s lba => ((msio_read_drive E lba (blockSize / 512) s.2 s.1).2, s.2 + blockSize)) s

/-- A drive of zeros with 1024-byte blocks but for block 11, a table whose first entry is
the block 20. -/
def example_hole_disk : Nat → Nat := sparse (le32 (11 * 1024) 20)

/-- A 64-bit machine with `example_hole_disk` in the drive. -/
def example_hole_env : Env :=
  { bits := 64, data := example_hole_disk, bad := fun _ _ => false, heap := fun _ => 0xAA }

/-- An inode record without the extents flag whose direct pointers are all zero and whose
single-indirect table is the block 11. -/
def example_hole_inode : Mem := sparse (le32 88 11)

/-- The reads of one block each from the listed LBAs, the first to the cursor `loc` and each
following one a block further, as `(lba, sector count, destination offset)`. -/
def block_reads (blockSize : Nat) : List Nat → Nat → List (Nat × Nat × Nat)
  | [], _ => []
  | lba :: l, loc => (lba, blockSize / 512, loc) :: block_reads blockSize l (loc + blockSize)

/-- The record of the file `k` (inode 12) of the sample volume. -/
def example_file_inode : Mem :=
  match ext_get_inode example_ext 0 12 with
  | .ok m => m
  | .error _ => fun _ => 0

/-- The caller's memory after `vfs_readFile` of `/k` on the sample volume, the memory holding
`0x55` everywhere before the call. -/
def example_file_read : Mem :=
  match vfs_readFile example_ext 0 1 [47, 107] (fun _ => 0x55) with
  | some r => r.2
  | none => fun _ => 0

/-- The path string of a list of components, without the leading `/`: the components with a
`/` between them. -/
def join_path : List (List Nat) → List Nat
  | [] => []
  | [c] => c
  | c :: c2 :: rest => c ++ 47 :: join_path (c2 :: rest)

/-- The test of the specification on the entry at `off` for the component `comp`: its
`name_len` is the length of the component, its name bytes are the component, and, for a
component that is not the last, its `file_type` is directory. -/
def entry_selects (dirOnly : Bool) (comp : List Nat) (m : Mem) (off : Nat) : Bool :=
  (if dirOnly then de_file_type m off == EXT_INODE_TYPE_DIRECTORY else true) &&
    de_name_len m off == comp.length && decide (entry_name m off = comp)

/-- Resolution as the specification words it, from the inode `c` of type `t`: for each
component in turn the directory is read and the first entry in the order of the scan that
passes `entry_selects` is selected; the inode and type of the entry selected for the last
component are returned. When no entry passes, the failure is `TSX_NO_SUCH_FILE` for the last
component and `TSX_NO_SUCH_DIRECTORY` for an earlier one. -/
def resolve (E : Env) (partStart fuel : Nat) :
    List (List Nat) → Nat → Nat → Option (Except status_t (Nat × Nat))
  | [], c, t => some (.ok (c, t))
  | comp :: rest, c, _ =>
    match ext_get_inode E partStart c with
    | .error st => some (.error st)
    | .ok dirNode =>
      match ext_read_inode E partStart fuel dirNode with
      | none => none
      | some r =>
        if r.status ≠ TSX_SUCCESS then some (.error r.status)
        else
          match (dir_offsets r.location.mem r.size (r.size + 1) 0).find?
              (entry_selects (decide (rest ≠ [])) comp r.location.mem) with
          | some off =>
            resolve E partStart fuel rest (de_inode r.location.mem off)
              (de_file_type r.location.mem off)
          | none =>
            some (.error (if rest = [] then TSX_NO_SUCH_FILE else TSX_NO_SUCH_DIRECTORY))

/-- The sample volume with the `i_size_high` of the file `k` (byte 108 of its record) set to
1: the file is `2^32 + 9000` bytes long. -/
def example_big_disk : Nat → Nat := fun a => if a = 4480 + 108 then 1 else example_disk a

/-- The sample machine with `example_big_disk` in the drive. -/
def example_big_env : Env := { example_ext with data := example_big_disk }

/-- An inode record without the extents flag with `i_size_lo` = 1024 and the two direct
pointers 20 and 21. -/
def example_short_inode : Mem := sparse (le32 4 1024 ++ le32 40 20 ++ le32 44 21)

/-- An inode record with the extents flag and `i_size_lo` = 1024 whose `i_blocks` hold the
leaf node `example_leaf_root`. -/
def example_short_extent_inode : Mem := fun a =>
  if 40 ≤ a ∧ a < 100 then example_leaf_root (a - 40)
  else sparse (le32 4 1024 ++ le32 32 0x80000) a

/-- The sample machine with a kernel file of `0x1000` bytes whose `setup_sects` is 255. -/
def example_linux_env_wide : LinuxEnv :=
  { example_linux_env with
    kernel_read_file := fun p =>
      if p = [107] then (TSX_SUCCESS, 0x1000000, 0x1000) else example_linux_env.kernel_read_file p
    file_data := fun p a =>
      if p = [107] ∧ a = 0x1f1 then 0xff else example_linux_env.file_data p a }

/-- The loader state after `ubi_load_kernel` has read the sample PE kernel and `ubi_start` has
created the root table: type 2, extent `[0x400000, 0x402000)`, offset 0. -/
def example_pe_loaded : Ubi :=
  match ubi_start_root example_env
      { example_state with ubi_kernel_type := 2, ubi_kernel_base := 0x400000,
                           ubi_kernel_top := 0x402000, ubi_kernel_offset := 0 } with
  | .ok S => S
  | .error _ => example_state

/-- A `K_MEM` table that asks for nothing but names the kernel base `0x100000`. -/
def example_pe_kmem : ubi_k_mem_table :=
  { flags := 0, heapLocation := 0, heapSize := 0, stackLocation := 0, stackSize := 0,
    idMapLocation := 0, idMapSize := 0, kernelBase := 0x100000, kaslrSize := 0 }

/-- The sample PE kernel after `ubi_create_mem_table` with `example_pe_kmem`. -/
def example_pe_after_mem : Ubi :=
  match ubi_create_mem_table example_env 4 example_pe_image (some example_pe_kmem)
      example_pe_loaded with
  | some r => r.2
  | none => example_pe_loaded

/-- The sample volume with the record of the root directory changed: `i_size_lo` is 0 and the
first block pointer is 0, an empty directory. -/
def example_empty_root_disk : Nat → Nat := fun a =>
  if a = 3205 ∨ a = 3240 then 0 else example_disk a

/-- A 64-bit machine with `example_empty_root_disk` in the drive, whose fresh memory happens to
hold, from its first byte, a directory entry for inode 12, of type regular file, named `k`. -/
def example_empty_root_env : Env :=
  { bits := 64, data := example_empty_root_disk, bad := fun _ _ => false,
    heap := sparse (dirent 0 12 12 1 [107]) }

/-- A drive with 4096-byte blocks whose block 50 holds an index node of depth 1 with one
entry, the child of which is block 50 itself. -/
def example_loop_disk : Nat → Nat :=
  sparse (ext_hdr 204800 0xF30A 1 340 1 ++ ext_idx 204800 0 0 50)

/-- A 64-bit machine with `example_loop_disk` in the drive. -/
def example_loop_env : Env :=
  { bits := 64, data := example_loop_disk, bad := fun _ _ => false, heap := fun _ => 0xAA }

/-- A root node of depth 1 with one entry, the child of which is block 50. -/
def example_loop_root : Mem := sparse (ext_hdr 0 0xF30A 1 4 1 ++ ext_idx 0 0 0 50)

/-- That the node `h` has the magic, depth 1 and one entry, whose child is block 50. -/
def loops_to_50 (h : Mem) : Prop :=
  eh_magic h = EXT_INODE_EXTENT_HEADER_MAGIC ∧ eh_depth h = 1 ∧ eh_entries h = 1 ∧
    ei_leaf_lo h 0 = 50 ∧ ei_leaf_hi h 0 = 0

/-! ## UBI loader: the entries of `.rela.dyn` -/

/-- The fields of an entry of `.rela.dyn` (`dynl_rela`) that the loader reads. -/
structure dynl_rela where
  r_offset : Nat
  r_addend : Nat

/-- The loop of `ubi_get_elf_reldyn_var_addr` over the entries of `.rela.dyn`. -/
def reldyn_loop (addr : Nat) : List dynl_rela → Nat
  | [] => 0
  | r :: rest => if r.r_offset = addr then r.r_addend else reldyn_loop addr rest

/-- The function `ubi_get_elf_reldyn_var_addr`. `reldyn` is what `elf_get_sh_entry` finds for
`.rela.dyn` (`none` for a null result), as the list of the entries of the section. -/
def ubi_get_elf_reldyn_var_addr (reldyn : Option (List dynl_rela)) (addr : Nat) : Nat :=
  match reldyn with
  | none => 0
  | some l => reldyn_loop addr l

/-- The loop of `ubi_get_elf_reldyn_var_addr_f` over the program headers (lines 991-997),
from the current `vaddr`: every `LOAD` header whose file bytes hold `addr` assigns it, none
ends the loop. -/
def reldyn_f_loop (bits location addr : Nat) : List elf_ph → Nat → Nat
  | [], vaddr => vaddr
  | ph :: rest, vaddr =>
    if ph.p_type ≠ ELF_PH_TYPE_LOAD then reldyn_f_loop bits location addr rest vaddr
    else if addr ≥ word bits (ph.p_offset + location) ∧
        addr ≤ word bits (ph.p_offset + location + ph.p_filesz) then
      reldyn_f_loop bits location addr rest
        (word bits (wsub bits (wsub bits addr ph.p_offset) location + ph.p_vaddr))
    else reldyn_f_loop bits location addr rest vaddr

/-- The function `ubi_get_elf_reldyn_var_addr_f`; `none` when the parser gives no program
header table. -/
def ubi_get_elf_reldyn_var_addr_f (bits : Nat) (img : KernelImage) (S : Ubi)
    (reldyn : Option (List dynl_rela)) (addr : Nat) : Option Nat :=
  match img.ph with
  | none => none
  | some phs =>
    let vaddr := reldyn_f_loop bits S.ubi_kernel_location addr phs 0
    if vaddr = 0 then some 0 else some (ubi_get_elf_reldyn_var_addr reldyn vaddr)

/-- An ELF kernel with two `LOAD` segments that follow each other in memory: the first at
`[0x1000, 0x4000)` with its first `0x1000` bytes at file offset `0x1000`, the second at
`[0x4000, 0x5000)` with its bytes at file offset `0x2000`. -/
def example_adjacent_image : KernelImage :=
  { example_image with
    ph := some [
      { p_type := 1, p_offset := 0x1000, p_vaddr := 0x1000, p_filesz := 0x1000, p_memsz := 0x3000 },
      { p_type := 1, p_offset := 0x2000, p_vaddr := 0x4000, p_filesz := 0x1000,
        p_memsz := 0x1000 }] }

/-- A `.rela.dyn` section with one entry: addend `0x1234` for the variable at `0x4000`. -/
def example_reldyn : Option (List dynl_rela) := some [{ r_offset := 0x4000, r_addend := 0x1234 }]

/-! ## UBI loader: `kboot_start` -/

def UBI_FLAGS_FIRMWARE_UEFI_EXIT : Nat := 0x4

/-- Modelled from the spec: what the configuration entry and the rest of the bootloader
answer to one call of `kboot_start`, beyond `UbiEnv`. `file` is the option `file` of the
entry (`none` for a null result); `F` and `img` describe the kernel file it names;
`kernel_exit_uefi` is the status of that call; `mmap_count` is what
`mmgr_gen_mmap(NULL, 0, NULL)` returns, `mmap_fill` what the second call of `mmgr_gen_mmap`
returns and leaves in `wrlen`; `sizeof_mmap_entry` is the size of `mmap_entry`. -/
structure UbiBoot where
  file : Option (List Nat)
  F : KernelFile
  img : KernelImage
  kernel_exit_uefi : status_t
  mmap_count : Nat
  mmap_fill : Nat × Nat
  sizeof_mmap_entry : Nat

/-- The state `Ubi` together with the file-scope variable `ubi_last_memmap_blen`, the field
`entries` of the `B_MEMMAP` table of the current chain, the number of calls of
`clearScreen` made so far, and the blocks released with `kfree`, each as `(address, size)`. -/
structure UbiRun where
  S : Ubi
  ubi_last_memmap_blen : Nat
  memmap_entries : Nat
  clearScreen_calls : Nat
  freed : List (Nat × Nat)

/-- How a call of `ubi_start` or `kboot_start` ends: it returns a status, or it has called the
kernel at `entry` (`none` when `ubi_call_kernel` returned `UBI_STATUS_ERROR` without a call)
and `kernel_halt` has stopped the machine. -/
inductive ubi_exit where
  | returned (status : status_t)
  | halted (entry : Option Nat)
  deriving DecidableEq, Repr

/-- The function `ubi_recreate_memmap`; the products are `size_t` products. The rewriting of
the type values and the field `length` are not represented. -/
def ubi_recreate_memmap (K : UbiEnv) (B : UbiBoot) (X : UbiRun) : status_t × UbiRun :=
  let X1 := if X.memmap_entries ≠ 0 ∧ X.ubi_last_memmap_blen ≠ 0
    then { X with freed := X.freed ++ [(X.memmap_entries, X.ubi_last_memmap_blen)] } else X
  let totallen := word K.bits (B.mmap_count + 1)
  let buf := K.kmalloc (word K.bits (totallen * B.sizeof_mmap_entry))
  if buf = 0 then (TSX_OUT_OF_MEMORY, X1)
  else
    let X2 := { X1 with ubi_last_memmap_blen := word K.bits (totallen * B.sizeof_mmap_entry) }
    if B.mmap_fill.2 < B.mmap_fill.1 then (TSX_ERROR, X2)
    else (TSX_SUCCESS, { X2 with memmap_entries := buf })

/-- The function `ubi_post_init` as far as the loader's variables go: the kernel base is
stored to `B_MEM`, the screen is cleared when `ubi_clearScreen` is set, and the memory map is
rebuilt. The fields of the video table, the checksums and the switching off of the
interrupts are not represented. -/
def ubi_post_init (K : UbiEnv) (B : UbiBoot) (X : UbiRun) : status_t × UbiRun :=
  let X1 := { X with S := ubi_post_init_kernelBase K.bits X.S }
  let X2 := if X1.S.ubi_clearScreen then { X1 with clearScreen_calls := X1.clearScreen_calls + 1 }
    else X1
  ubi_recreate_memmap K B X2

/-- The function `ubi_start`. The kernel's root table, which `ubi_kernel` points to, is
`B.img.kroot`. A new `B_MEMMAP` table is zeroed, so its `entries` are null once the tables
are built. The return to the old relocation base at `_end` is not represented. -/
def ubi_start (K : UbiEnv) (B : UbiBoot) (fuel : Nat) (file : List Nat) (X : UbiRun) :
    Option (ubi_exit × UbiRun) :=
  match ubi_start_root K X.S with
  | .error st => some (.returned st, { X with S := { X.S with ubi_root := 0 } })
  | .ok S0 =>
    match ubi_load_kernel K.bits B.F B.img file S0 with
    | none => none
    | some (st1, S1) =>
      if st1 ≠ TSX_SUCCESS then some (.returned st1, { X with S := S1 })
      else if ubi_start_checks K.bits B.img.kroot ≠ TSX_SUCCESS then
        some (.returned (ubi_start_checks K.bits B.img.kroot), { X with S := S1 })
      else
        match ubi_create_tables K fuel B.img S1 with
        | none => none
        | some (st2, S2) =>
          if st2 ≠ TSX_SUCCESS then some (.returned st2, { X with S := S2 })
          else if B.img.kroot.flags &&& UBI_FLAGS_FIRMWARE_UEFI_EXIT = 0 ∧
              B.kernel_exit_uefi ≠ TSX_SUCCESS then
            some (.returned B.kernel_exit_uefi, { X with S := S2, memmap_entries := 0 })
          else
            match ubi_load_kernel_segs K fuel B.img S2 with
            | none => none
            | some (st3, S3) =>
              if st3 ≠ TSX_SUCCESS then
                some (.returned st3, { X with S := S3, memmap_entries := 0 })
              else
                let r := ubi_post_init K B { X with S := S3, memmap_entries := 0 }
                if r.1 ≠ TSX_SUCCESS then some (.returned r.1, r.2)
                else some (.halted (ubi_call_kernel K.bits B.img r.2.S), r.2)

/-- The function `kboot_start` of `ubi.c`. When `ubi_start` returns, the tables of the chain
are released and eight of the file-scope variables are set back to null or 0; when the
kernel was entered the call does not return. `none` when the chain has more than `fuel`
tables or a called function runs out of fuel. -/
def ubi.kboot_start (K : UbiEnv) (B : UbiBoot) (fuel : Nat) (X : UbiRun) :
    Option (ubi_exit × UbiRun) :=
  let r : Option (ubi_exit × UbiRun) :=
    match B.file with
    | none => some (.returned TSX_MISSING_ARGUMENTS, X)
    | some pfile => ubi_start K B fuel pfile X
  match r with
  | none => none
  | some (.halted e, X1) => some (.halted e, X1)
  | some (.returned st, X1) =>
    match chain_walk X1.S fuel X1.S.ubi_root with
    | none => none
    | some chain =>
      some (.returned st, { X1 with
        freed := X1.freed ++
          chain.map (fun t => (t, ubi_get_table_size K.bits (X1.S.tables t).magic))
        S := { X1.S with
          ubi_root := 0, ubi_kernel := 0, ubi_kernel_type := 0, ubi_kernel_location := 0,
          ubi_kernel_base := 0, ubi_kernel_top := 0, ubi_kernel_offset := 0, lastTable := 0 } })

/-- The sample machine on which the file `/ahci0.0/x` is missing. -/
def example_env_nomod : UbiEnv :=
  { example_env with
    vfs_get_file_size := fun p =>
      if p = [47, 97, 104, 99, 105, 48, 46, 48, 47, 120] then (TSX_NO_SUCH_FILE, 0)
      else (TSX_SUCCESS, 100 + p.length) }

/-- A boot of the sample kernel `/ahci0.0/kernel`. -/
def example_boot : UbiBoot :=
  { file := some [47, 97, 104, 99, 105, 48, 46, 48, 47, 107, 101, 114, 110, 101, 108]
    F := example_kernel_file
    img := example_image
    kernel_exit_uefi := TSX_SUCCESS
    mmap_count := 8
    mmap_fill := (8, 8)
    sizeof_mmap_entry := 24 }

/-- A boot of a kernel that asks for a cleared screen in its `K_VID` table and declares the
module `/x`. -/
def example_boot_clear : UbiBoot :=
  { example_boot with
    img := { example_image with
      kvid := some { flags := 4, width := 0, height := 0, bpp := 0 }
      kmod := some [{ path := [47, 120], loadAddress := 0 }] } }

/-- The loader before its first call: every variable null, zero or false. -/
def example_run : UbiRun :=
  { S := example_blank, ubi_last_memmap_blen := 0, memmap_entries := 0, clearScreen_calls := 0,
    freed := [] }

/-- The loader after `kboot_start` has tried `example_boot_clear`. -/
def example_run_failed : UbiRun :=
  match ubi.kboot_start example_env_nomod example_boot_clear 16 example_run with
  | some r => r.2
  | none => example_run

/-- That from `S` to `S'` the clear-screen request is as it was, or has been set, the latter
only when `req` holds. -/
def flag_step (req : Prop) (S S' : Ubi) : Prop :=
  S'.ubi_clearScreen = S.ubi_clearScreen ∨ (S'.ubi_clearScreen = true ∧ req)

/-- That the kernel's `K_VID` table asks for a cleared screen. -/
def clear_requested (table : Option ubi_k_video_table) : Prop :=
  ∃ t, table = some t ∧ t.flags &&& UBI_FLAGS_VIDEO_CLEAR_SCREEN ≠ 0

/-- The machine of `example_extent_env` as a 32-bit build. -/
def example_extent_env32 : Env := { example_extent_env with bits := 32 }

/-- A root node as it lies in `i_blocks`: a leaf with the one extent `(0x100000, 1, 100)`,
which maps the file block `0x100000` (the bytes from `2^32` with 4096-byte blocks) to the
block 100 of the partition. -/
def example_far_leaf_root : Mem :=
  sparse (ext_hdr 0 0xF30A 1 4 0 ++ ext_leaf 0 0 0x100000 1 100)

/-- The sample machine with the initrd file read to `0xFFF00000` and 2 MiB long, so that it
ends at `2^32 + 0x100000`. -/
def example_linux_env_high : LinuxEnv :=
  { example_linux_env with
    kernel_read_file := fun p =>
      if p = [105] then (TSX_SUCCESS, 0xFFF00000, 0x200000)
      else example_linux_env.kernel_read_file p }

/-- A boot of a kernel that asks for a cleared screen in its `K_VID` table, on which the second
call of `mmgr_gen_mmap` writes 8 entries where 9 were asked for. -/
def example_boot_short : UbiBoot :=
  { example_boot with
    img := { example_image with kvid := some { flags := 4, width := 0, height := 0, bpp := 0 } }
    mmap_fill := (9, 8) }

/-- The loader after `kboot_start` has tried `example_boot_short`. -/
def example_run_short : UbiRun :=
  match ubi.kboot_start example_env example_boot_short 16 example_run with
  | some r => r.2
  | none => example_run

/-- The sample volume with a longer file `k`: 14000 bytes, in the blocks 20 to 31 through the
twelve direct pointers and in the blocks 32 and 33 through the single-indirect table, which
is block 40. The byte at drive offset `a` of the blocks 20 to 33 is `a % 251`. -/
def example_long_disk : Nat → Nat := fun a =>
  if 20480 ≤ a ∧ a < 34816 then a % 251
  else sparse (
    le32 (1024 + 0) 16 ++ le32 (1024 + 24) 0 ++ le32 (1024 + 40) 16 ++ le16 (1024 + 56) 0xEF53 ++
    le32 (1024 + 76) 1 ++ le16 (1024 + 88) 128 ++ le32 (1024 + 96) 2 ++
    le32 (2048 + 8) 3 ++
    le32 (3200 + 4) 1024 ++ le32 (3200 + 40) 10 ++
    le32 (4480 + 4) 14000 ++ le32 (4480 + 40) 20 ++ le32 (4480 + 44) 21 ++ le32 (4480 + 48) 22 ++
    le32 (4480 + 52) 23 ++ le32 (4480 + 56) 24 ++ le32 (4480 + 60) 25 ++ le32 (4480 + 64) 26 ++
    le32 (4480 + 68) 27 ++ le32 (4480 + 72) 28 ++ le32 (4480 + 76) 29 ++ le32 (4480 + 80) 30 ++
    le32 (4480 + 84) 31 ++ le32 (4480 + 88) 40 ++
    le32 40960 32 ++ le32 40964 33 ++
    dirent 10240 2 12 2 [46] ++ dirent 10252 2 12 2 [46, 46] ++ dirent 10264 12 1000 1 [107]) a

/-- A 64-bit machine with `example_long_disk` in the drive; fresh memory holds `0xAA`. -/
def example_long_env : Env :=
  { bits := 64, data := example_long_disk, bad := fun _ _ => false, heap := fun _ => 0xAA }

/-- The caller's memory after `vfs_readFile` of `/k` on `example_long_env`, the memory holding
`0x55` everywhere before the call. -/
def example_long_read : Mem :=
  match vfs_readFile example_long_env 0 1 [47, 107] (fun _ => 0x55) with
  | some r => r.2
  | none => fun _ => 0

/-- The sample volume with the second direct pointer of the file `k` cleared: the inode has
`i_size_lo` = 9000 and the direct pointers 20, 0, 22, 23, .., 28. -/
def example_sparse_disk : Nat → Nat := fun a =>
  if 4524 ≤ a ∧ a < 4528 then 0 else example_disk a

/-- A 64-bit machine with `example_sparse_disk` in the drive; fresh memory holds `0xAA`. -/
def example_sparse_env : Env :=
  { bits := 64, data := example_sparse_disk, bad := fun _ _ => false, heap := fun _ => 0xAA }

/-- The caller's memory after `vfs_readFile` of `/k` on `example_sparse_env`, the memory
holding `0x55` everywhere before the call. -/
def example_sparse_read : Mem :=
  match vfs_readFile example_sparse_env 0 1 [47, 107] (fun _ => 0x55) with
  | some r => r.2
  | none => fun _ => 0

/-- The record of the file `k` (inode 12) on `example_long_env`. -/
def example_long_inode : Mem :=
  match ext_get_inode example_long_env 0 12 with
  | .ok m => m
  | .error _ => fun _ => 0

/-- The record of the file `k` (inode 12) on `example_sparse_env`. -/
def example_sparse_inode : Mem :=
  match ext_get_inode example_sparse_env 0 12 with
  | .ok m => m
  | .error _ => fun _ => 0

/-! # Properties -/

/-! ## Checksums -/

theorem byte_sum_succ (m : Mem) (a k : Nat) :
    byte_sum m a (k + 1) = rd8 m a + byte_sum m (a + 1) k := by
  unfold byte_sum
  rw [List.range_succ_eq_map]
  simp [List.map_map, Function.comp_def, Nat.add_assoc, Nat.add_comm 1]

theorem checksum_loop_eq (m : Mem) : ∀ (k a v : Nat), v < 2 ^ 32 →
    checksum_loop m k a v = (v + byte_sum m a k) % 2 ^ 32 := by
  intro k
  induction k with
  | zero => intro a v hv; simp [checksum_loop, byte_sum]; omega
  | succ k ih =>
    intro a v hv
    rw [checksum_loop, ih _ _ (by unfold u32; exact Nat.mod_lt _ (by norm_num)), byte_sum_succ]
    unfold u32
    omega

theorem rd32_wr32 (m : Mem) (a v : Nat) : rd32 (wr32 m a v) a = v % 2 ^ 32 := by
  have e0 : wr32 m a v a = v % 256 := by simp [wr32]
  have e1 : wr32 m a v (a + 1) = v / 256 % 256 := by simp [wr32]
  have e2 : wr32 m a v (a + 2) = v / 65536 % 256 := by simp [wr32]
  have e3 : wr32 m a v (a + 2 + 1) = v / 16777216 % 256 := by
    have h : a + 2 + 1 = a + 3 := rfl
    rw [h]; simp [wr32]
  simp only [rd32, rd16, rd8, e0, e1, e2, e3]
  omega

theorem wr32_other (m : Mem) (a v x : Nat) (h : x < a ∨ a + 4 ≤ x) : wr32 m a v x = m x := by
  unfold wr32
  have h0 : x ≠ a := by omega
  have h1 : x ≠ a + 1 := by omega
  have h2 : x ≠ a + 2 := by omega
  have h3 : x ≠ a + 3 := by omega
  simp [h0, h1, h2, h3]

/-- C11. For a boot table at `table` of total size `n`, at least the size of the header and
lying inside the address space, `ubi_set_checksum` stores `(2^32 - S) mod 2^32` in the
checksum field, where `S` is the sum of the bytes from the end of the header up to `n`; so
checksum plus `S` is 0 modulo `2^32`; and every byte outside the four bytes of the checksum
field is left as it was. -/
theorem ubi_set_checksum_spec (bits : Nat) (m : Mem) (table n : Nat)
    (hn : sizeof_ubi_b_table_header bits ≤ n) (hfit : table + n < 2 ^ bits) :
    rd32 (ubi_set_checksum bits m table n) (table + off_checksum bits)
        = (2 ^ 32 - byte_sum m (table + sizeof_ubi_b_table_header bits)
            (n - sizeof_ubi_b_table_header bits) % 2 ^ 32) % 2 ^ 32 ∧
      (rd32 (ubi_set_checksum bits m table n) (table + off_checksum bits)
        + byte_sum m (table + sizeof_ubi_b_table_header bits)
            (n - sizeof_ubi_b_table_header bits)) % 2 ^ 32 = 0 ∧
      ∀ a, (a < table + off_checksum bits ∨ table + off_checksum bits + 4 ≤ a) →
        ubi_set_checksum bits m table n a = m a := by
  have hstart : word bits (table + sizeof_ubi_b_table_header bits)
      = table + sizeof_ubi_b_table_header bits := Nat.mod_eq_of_lt (by omega)
  have hstop : word bits (table + n) = table + n := Nat.mod_eq_of_lt hfit
  have hcnt : table + n - (table + sizeof_ubi_b_table_header bits)
      = n - sizeof_ubi_b_table_header bits := by omega
  have hval : rd32 (ubi_set_checksum bits m table n) (table + off_checksum bits)
      = (2 ^ 32 - byte_sum m (table + sizeof_ubi_b_table_header bits)
            (n - sizeof_ubi_b_table_header bits) % 2 ^ 32) % 2 ^ 32 := by
    unfold ubi_set_checksum
    simp only [hstart, hstop, hcnt]
    rw [rd32_wr32, checksum_loop_eq _ _ _ _ (by norm_num)]
    unfold u32
    simp
  refine ⟨hval, ?_, ?_⟩
  · rw [hval]
    omega
  · intro a ha
    unfold ubi_set_checksum
    exact wr32_other _ _ _ _ ha

/-- Witness for C11: a root table on a 64-bit build at address `0x1000`, 28 bytes long, its
version byte set to 1. -/
theorem ubi_set_checksum_spec_witness :
    sizeof_ubi_b_table_header 64 ≤ 28 ∧ 0x1000 + 28 < 2 ^ 64 ∧
      rd32 (ubi_set_checksum 64 (fun a => if a = 0x1014 then 1 else 0) 0x1000 28)
        (0x1000 + off_checksum 64) = 0xFFFFFFFF :=
  ⟨by decide, by decide,
    (ubi_set_checksum_spec 64 (fun a => if a = 0x1014 then 1 else 0) 0x1000 28
      (by decide) (by decide)).1.trans (by decide)⟩

theorem rd32_congr (m m' : Mem) (a : Nat) (h : ∀ x, a ≤ x → x < a + 4 → m' x = m x) :
    rd32 m' a = rd32 m a := by
  simp only [rd32, rd16, rd8]
  rw [h a (by omega) (by omega), h (a + 1) (by omega) (by omega),
    h (a + 2) (by omega) (by omega), h (a + 2 + 1) (by omega) (by omega)]

theorem rd64_congr (m m' : Mem) (a : Nat) (h : ∀ x, a ≤ x → x < a + 8 → m' x = m x) :
    rd64 m' a = rd64 m a := by
  unfold rd64
  rw [rd32_congr m m' a (fun x h1 h2 => h x h1 (by omega)),
    rd32_congr m m' (a + 4) (fun x h1 h2 => h x (by omega) (by omega))]

theorem rdptr_congr (bits : Nat) (hb : bits = 32 ∨ bits = 64) (m m' : Mem) (a : Nat)
    (h : ∀ x, a ≤ x → x < a + ptr_size bits → m' x = m x) :
    rdptr bits m' a = rdptr bits m a := by
  unfold rdptr
  rcases hb with hb | hb <;> subst hb
  · simp only [show ¬ (32 = 64) by decide, if_false]
    exact rd32_congr m m' a (fun x h1 h2 => h x h1 (by simp [ptr_size]; omega))
  · simp only [if_true]
    exact rd64_congr m m' a (fun x h1 h2 => h x h1 (by simp [ptr_size]; omega))

theorem byte_sum_congr (m m' : Mem) : ∀ (n a : Nat), (∀ x, a ≤ x → x < a + n → m' x = m x) →
    byte_sum m' a n = byte_sum m a n := by
  intro n
  induction n with
  | zero => intro a _; simp [byte_sum]
  | succ n ih =>
    intro a h
    rw [byte_sum_succ, byte_sum_succ, ih (a + 1) (fun x h1 h2 => h x (by omega) (by omega))]
    simp only [rd8]
    rw [h a (by omega) (by omega)]

/-- The checksum stored by `ubi_set_checksum` cancels the byte sum after the header, for
every table size. -/
theorem ubi_set_checksum_sum (bits : Nat) (m : Mem) (table n : Nat)
    (hfit : table + max (sizeof_ubi_b_table_header bits) n < 2 ^ bits) :
    rd32 (ubi_set_checksum bits m table n) (table + off_checksum bits)
        = (2 ^ 32 - byte_sum m (table + sizeof_ubi_b_table_header bits)
            (n - sizeof_ubi_b_table_header bits) % 2 ^ 32) % 2 ^ 32 := by
  have hstart : word bits (table + sizeof_ubi_b_table_header bits)
      = table + sizeof_ubi_b_table_header bits := Nat.mod_eq_of_lt (by omega)
  have hstop : word bits (table + n) = table + n := Nat.mod_eq_of_lt (by omega)
  have hcnt : table + n - (table + sizeof_ubi_b_table_header bits)
      = n - sizeof_ubi_b_table_header bits := by omega
  unfold ubi_set_checksum
  simp only [hstart, hstop, hcnt]
  rw [rd32_wr32, checksum_loop_eq _ _ _ _ (by norm_num)]
  unfold u32
  simp

theorem ubi_set_checksum_frame (bits : Nat) (m : Mem) (table n a : Nat)
    (ha : a < table + off_checksum bits ∨ table + off_checksum bits + 4 ≤ a) :
    ubi_set_checksum bits m table n a = m a := by
  unfold ubi_set_checksum
  exact wr32_other _ _ _ _ ha

theorem IsChain_congr (bits : Nat) (hb : bits = 32 ∨ bits = 64) (m m' : Mem) :
    ∀ (ts : List Nat) (t : Nat),
      (∀ b ∈ ts, ∀ x, b + off_nextTable ≤ x → x < b + off_nextTable + ptr_size bits → m' x = m x) →
      IsChain bits m ts t → IsChain bits m' ts t := by
  intro ts
  induction ts with
  | nil => intro t _ h; exact h
  | cons a rest ih =>
    intro t hag h
    obtain ⟨h1, h2, h3⟩ := h
    refine ⟨h1, h2, ?_⟩
    rw [rdptr_congr bits hb m m' _ (hag a (List.mem_cons_self _ _))]
    exact ih _ (fun b hb' => hag b (List.mem_cons_of_mem _ hb')) h3
theorem ubi_post_init_checksums_aux (bits : Nat) (hb : bits = 32 ∨ bits = 64) :
    ∀ (ts : List Nat) (m : Mem) (root : Nat),
      IsChain bits m ts root →
      (∀ a ∈ ts, a + table_extent bits m a < 2 ^ bits) →
      ts.Pairwise (fun a b => a + table_extent bits m a ≤ b ∨ b + table_extent bits m b ≤ a) →
      ∃ m', ubi_post_init_checksums bits (ts.length + 1) m root = some m' ∧
        (∀ x, (∀ b ∈ ts, x < b + off_checksum bits ∨ b + off_checksum bits + 4 ≤ x) →
          m' x = m x) ∧
        ∀ a ∈ ts, (rd32 m' (a + off_checksum bits)
          + byte_sum m' (a + sizeof_ubi_b_table_header bits)
              (ubi_get_table_size bits (rd64 m' a) - sizeof_ubi_b_table_header bits))
            % 2 ^ 32 = 0 := by
  have hp : ptr_size bits = 4 ∨ ptr_size bits = 8 := by
    rcases hb with hb | hb <;> subst hb <;> simp [ptr_size]
  have hhdr : sizeof_ubi_b_table_header bits = 8 + ptr_size bits + 4 := rfl
  have hcs : off_checksum bits = 8 + ptr_size bits := rfl
  have hnx : off_nextTable = 8 := rfl
  have hext1 : ∀ (mm : Mem) (b : Nat), sizeof_ubi_b_table_header bits ≤ table_extent bits mm b :=
    fun mm b => le_max_left _ _
  have hext2 : ∀ (mm : Mem) (b : Nat),
      ubi_get_table_size bits (rd64 mm b) ≤ table_extent bits mm b :=
    fun mm b => le_max_right _ _
  intro ts
  induction ts with
  | nil =>
    intro m root hch _ _
    have h0 : root = 0 := hch
    subst h0
    exact ⟨m, by simp [ubi_post_init_checksums], fun _ _ => rfl, by simp⟩
  | cons a rest ih =>
    intro m root hch hfit hsep
    obtain ⟨hr, ha0, hch'⟩ := hch
    subst hr
    rw [List.pairwise_cons] at hsep
    obtain ⟨hsepa, hseprest⟩ := hsep
    have hfa := hfit root (List.mem_cons_self _ _)
    have fr1 : ∀ x, (x < root + off_checksum bits ∨ root + off_checksum bits + 4 ≤ x) →
        ubi_set_checksum bits m root (ubi_get_table_size bits (rd64 m root)) x = m x :=
      fun x hx => ubi_set_checksum_frame bits m root _ x hx
    generalize hm1 : ubi_set_checksum bits m root (ubi_get_table_size bits (rd64 m root)) = m1
      at fr1
    have agree_b : ∀ b ∈ rest, ∀ x, b ≤ x → x < b + table_extent bits m b → m1 x = m x := by
      intro b hbm x h1 h2
      apply fr1
      have := hsepa b hbm
      have := hext1 m root
      omega
    have hmagic : ∀ b ∈ rest, rd64 m1 b = rd64 m b := by
      intro b hbm
      apply rd64_congr
      intro x h1 h2
      have := hext1 m b
      exact agree_b b hbm x h1 (by omega)
    have hext_eq : ∀ b ∈ rest, table_extent bits m1 b = table_extent bits m b := by
      intro b hbm
      unfold table_extent
      rw [hmagic b hbm]
    have hnext : rdptr bits m1 (root + off_nextTable) = rdptr bits m (root + off_nextTable) := by
      apply rdptr_congr bits hb
      intro x h1 h2
      apply fr1
      omega
    have hch1 : IsChain bits m1 rest (rdptr bits m1 (root + off_nextTable)) := by
      rw [hnext]
      apply IsChain_congr bits hb m m1 rest _ _ hch'
      intro b hbm x h1 h2
      have := hext1 m b
      exact agree_b b hbm x (by omega) (by omega)
    have hfit1 : ∀ b ∈ rest, b + table_extent bits m1 b < 2 ^ bits := by
      intro b hbm
      rw [hext_eq b hbm]
      exact hfit b (List.mem_cons_of_mem _ hbm)
    have hsep1 : rest.Pairwise
        (fun a b => a + table_extent bits m1 a ≤ b ∨ b + table_extent bits m1 b ≤ a) := by
      refine List.Pairwise.imp_of_mem ?_ hseprest
      intro x y hx hy h
      rw [hext_eq x hx, hext_eq y hy]
      exact h
    obtain ⟨m', hrun, hfr, hgood⟩ := ih m1 _ hch1 hfit1 hsep1
    refine ⟨m', ?_, ?_, ?_⟩
    · rw [List.length_cons, ubi_post_init_checksums]
      simp only [ha0, if_false, hm1]
      exact hrun
    · intro x hx
      rw [hfr x (fun b hbm => hx b (List.mem_cons_of_mem _ hbm))]
      exact fr1 x (hx root (List.mem_cons_self _ _))
    · intro b hbm
      rcases List.mem_cons.mp hbm with hba | hbr
      · subst hba
        have ag : ∀ x, b ≤ x → x < b + table_extent bits m b → m' x = m1 x := by
          intro x h1 h2
          apply hfr
          intro c hc
          have := hsepa c hc
          have := hext1 m c
          omega
        have e64 : rd64 m' b = rd64 m b := by
          rw [rd64_congr m1 m' b (fun x h1 h2 => ag x h1 (by have := hext1 m b; omega))]
          exact rd64_congr m m1 b (fun x h1 h2 => fr1 x (by omega))
        have e32 : rd32 m' (b + off_checksum bits) = rd32 m1 (b + off_checksum bits) :=
          rd32_congr m1 m' _ (fun x h1 h2 => ag x (by omega) (by have := hext1 m b; omega))
        have hn := hext2 m b
        have esum : byte_sum m' (b + sizeof_ubi_b_table_header bits)
            (ubi_get_table_size bits (rd64 m b) - sizeof_ubi_b_table_header bits)
            = byte_sum m (b + sizeof_ubi_b_table_header bits)
            (ubi_get_table_size bits (rd64 m b) - sizeof_ubi_b_table_header bits) := by
          rw [byte_sum_congr m1 m' _ _ (fun x h1 h2 => ag x (by omega) (by omega))]
          exact byte_sum_congr m m1 _ _ (fun x h1 h2 => fr1 x (by omega))
        rw [e64, e32, esum, ← hm1, ubi_set_checksum_sum bits m b _ hfa]
        omega
      · exact hgood b hbr

/-- C12 (as amended). Let the tables `ts` form the chain from `root` on a 32- or 64-bit
build, each lying inside the address space and no two overlapping. Then the checksum loop
of `ubi_post_init` runs to the end of the chain, the chain is still the same afterwards,
and for every table of it the checksum field plus the sum of the bytes from the end of
the header to the end of the table is 0 modulo `2^32`. -/
theorem ubi_post_init_checksums_spec (bits : Nat) (hb : bits = 32 ∨ bits = 64)
    (ts : List Nat) (m : Mem) (root : Nat)
    (hchain : IsChain bits m ts root)
    (hfit : ∀ a ∈ ts, a + table_extent bits m a < 2 ^ bits)
    (hsep : ts.Pairwise
      (fun a b => a + table_extent bits m a ≤ b ∨ b + table_extent bits m b ≤ a)) :
    ∃ m', ubi_post_init_checksums bits (ts.length + 1) m root = some m' ∧
      IsChain bits m' ts root ∧
      ∀ a ∈ ts, (rd32 m' (a + off_checksum bits)
        + byte_sum m' (a + sizeof_ubi_b_table_header bits)
            (ubi_get_table_size bits (rd64 m' a) - sizeof_ubi_b_table_header bits))
          % 2 ^ 32 = 0 := by
  obtain ⟨m', hrun, hfr, hgood⟩ := ubi_post_init_checksums_aux bits hb ts m root hchain hfit hsep
  refine ⟨m', hrun, ?_, hgood⟩
  have hp : ptr_size bits = 4 ∨ ptr_size bits = 8 := by
    rcases hb with hb | hb <;> subst hb <;> simp [ptr_size]
  have hhdr : sizeof_ubi_b_table_header bits = 8 + ptr_size bits + 4 := rfl
  have hcs : off_checksum bits = 8 + ptr_size bits := rfl
  have hnx : off_nextTable = 8 := rfl
  have hsym : Symmetric
      (fun a b => a + table_extent bits m a ≤ b ∨ b + table_extent bits m b ≤ a) :=
    fun a b h => h.symm
  apply IsChain_congr bits hb m m' ts root _ hchain
  intro b hbm x h1 h2
  apply hfr
  intro c hc
  by_cases hbc : c = b
  · subst hbc; omega
  · have h := List.Pairwise.forall hsym hsep hc hbm hbc
    have e1 : sizeof_ubi_b_table_header bits ≤ table_extent bits m b := le_max_left _ _
    have e2 : sizeof_ubi_b_table_header bits ≤ table_extent bits m c := le_max_left _ _
    omega

/-- Witness for C12 (as amended): the two-table chain `example_chain`. -/
theorem ubi_post_init_checksums_spec_witness :
    ∃ m', ubi_post_init_checksums 64 3 example_chain 0x1000 = some m' ∧
      IsChain 64 m' [0x1000, 0x2000] 0x1000 ∧
      ∀ a ∈ [0x1000, 0x2000], (rd32 m' (a + off_checksum 64)
        + byte_sum m' (a + sizeof_ubi_b_table_header 64)
            (ubi_get_table_size 64 (rd64 m' a) - sizeof_ubi_b_table_header 64))
          % 2 ^ 32 = 0 :=
  ubi_post_init_checksums_spec 64 (Or.inr rfl) [0x1000, 0x2000] example_chain 0x1000
    ⟨rfl, by decide, by decide, by decide,
      show rdptr 64 example_chain (0x2000 + off_nextTable) = 0 by decide⟩
    (by decide) (by decide)

/-- Counterexample to C12 as stated: in `example_chain` the root table's bytes after the
header are `1, 0, 0, 0, 0, 0, 0, 0` (version 1.0). After the checksum loop of
`ubi_post_init` the bytes from the end of its header to the end of the table still sum to
1, not to 0 modulo `2^32`; what the loop stored is the checksum `0xFFFFFFFF` in the
header. -/
theorem ubi_post_init_body_sum_nonzero :
    (ubi_post_init_checksums 64 3 example_chain 0x1000).map
      (fun m' => (byte_sum m' (0x1000 + sizeof_ubi_b_table_header 64)
          (ubi_get_table_size 64 (rd64 m' 0x1000) - sizeof_ubi_b_table_header 64) % 2 ^ 32,
        rd32 m' (0x1000 + off_checksum 64)))
      = some (1, 0xFFFFFFFF) := by
  decide

/-! ## The KASLR offset -/

theorem wsub_eq (bits a b : Nat) (hb : b ≤ a) (ha : a < 2 ^ bits) : wsub bits a b = a - b := by
  unfold wsub word
  rw [Nat.mod_eq_of_lt (lt_of_le_of_lt hb ha)]
  have h : a + (2 ^ bits - b) = (a - b) + 2 ^ bits := by omega
  rw [h, Nat.add_mod_right, Nat.mod_eq_of_lt (by omega)]

theorem sub_and_fff (r : Nat) : r - (r &&& 0xfff) = r / 4096 * 4096 := by
  have h : r &&& 0xfff = r % 4096 := Nat.and_pow_two_sub_one_eq_mod r 12
  rw [h]
  omega

theorem kaslr_arith (P kb d room : Nat) (hdvd : 4096 ∣ P) (hkb : kb < P)
    (hal : kb % 4096 = 0) (hd4 : d % 4096 = 0) (hd : d ≤ room) (hroom : room < P) :
    (kb + d) % P % 4096 = 0 ∧ ((kb + d) % P + (P - kb % P)) % P ≤ room ∧
      (kb + room < P → kb ≤ (kb + d) % P ∧ (kb + d) % P ≤ kb + room) := by
  refine ⟨?_, ?_, ?_⟩
  · rw [Nat.mod_mod_of_dvd _ hdvd]
    omega
  · rw [Nat.mod_eq_of_lt hkb]
    by_cases h : kb + d < P
    · rw [Nat.mod_eq_of_lt h]
      have : kb + d + (P - kb) = d + P := by omega
      rw [this, Nat.add_mod_right, Nat.mod_eq_of_lt (by omega)]
      omega
    · have hm : (kb + d) % P = kb + d - P := by
        rw [Nat.mod_eq_sub_mod (show kb + d ≥ P by omega)]
        exact Nat.mod_eq_of_lt (by omega)
      have : kb + d - P + (P - kb) = d := by omega
      rw [hm, this, Nat.mod_eq_of_lt (by omega)]
      omega
  · intro hw
    rw [Nat.mod_eq_of_lt (by omega)]
    omega

/-- C14 (as amended). Let the image size `ubi_kernel_top - ubi_kernel_base` be at most
`kaslrSize`, let `kernelBase + image size` not wrap, let the random source return a value
of at most `kaslrSize - image size`, and let `kernelBase` be a multiple of `0x1000`. Then
the offset `ubi_get_random_kernel_offset` computes is a multiple of `0x1000`; its distance
from `kernelBase` in word arithmetic is at most `kaslrSize - image size`; and when
`kernelBase + kaslrSize - image size` does not wrap either, the offset lies between
`kernelBase` and that bound. -/
theorem ubi_get_random_kernel_offset_spec (K : UbiEnv) (S : Ubi) (kernelBase kaslrSize : Nat)
    (hbits : 12 ≤ K.bits)
    (htop : S.ubi_kernel_base ≤ S.ubi_kernel_top) (htop2 : S.ubi_kernel_top < 2 ^ K.bits)
    (hks : kaslrSize < 2 ^ K.bits)
    (hsize : S.ubi_kernel_top - S.ubi_kernel_base ≤ kaslrSize)
    (hnowrap : kernelBase + (S.ubi_kernel_top - S.ubi_kernel_base) < 2 ^ K.bits)
    (hrand : K.arch_rand (kaslrSize - (S.ubi_kernel_top - S.ubi_kernel_base))
      ≤ kaslrSize - (S.ubi_kernel_top - S.ubi_kernel_base))
    (halign : kernelBase % 0x1000 = 0) :
    ubi_get_random_kernel_offset K S kernelBase kaslrSize % 0x1000 = 0 ∧
      wsub K.bits (ubi_get_random_kernel_offset K S kernelBase kaslrSize) kernelBase
        ≤ kaslrSize - (S.ubi_kernel_top - S.ubi_kernel_base) ∧
      (kernelBase + (kaslrSize - (S.ubi_kernel_top - S.ubi_kernel_base)) < 2 ^ K.bits →
        kernelBase ≤ ubi_get_random_kernel_offset K S kernelBase kaslrSize ∧
        ubi_get_random_kernel_offset K S kernelBase kaslrSize
          ≤ kernelBase + (kaslrSize - (S.ubi_kernel_top - S.ubi_kernel_base))) := by
  have e1 : wsub K.bits S.ubi_kernel_top S.ubi_kernel_base
      = S.ubi_kernel_top - S.ubi_kernel_base := wsub_eq _ _ _ htop htop2
  have e2 : wsub K.bits kaslrSize (S.ubi_kernel_top - S.ubi_kernel_base)
      = kaslrSize - (S.ubi_kernel_top - S.ubi_kernel_base) := wsub_eq _ _ _ hsize hks
  have hres : ubi_get_random_kernel_offset K S kernelBase kaslrSize
      = (kernelBase + K.arch_rand (kaslrSize - (S.ubi_kernel_top - S.ubi_kernel_base)) / 4096
          * 4096) % 2 ^ K.bits := by
    unfold ubi_get_random_kernel_offset
    simp only [e1, e2, sub_and_fff]
    rfl
  have hdvd : 4096 ∣ 2 ^ K.bits := by
    have : (4096 : Nat) = 2 ^ 12 := by norm_num
    rw [this]
    exact Nat.pow_dvd_pow 2 hbits
  have hd := Nat.div_mul_le_self
    (K.arch_rand (kaslrSize - (S.ubi_kernel_top - S.ubi_kernel_base))) 4096
  have hroom : kaslrSize - (S.ubi_kernel_top - S.ubi_kernel_base) ≤ kaslrSize := Nat.sub_le _ _
  have h := kaslr_arith (2 ^ K.bits) kernelBase
    (K.arch_rand (kaslrSize - (S.ubi_kernel_top - S.ubi_kernel_base)) / 4096 * 4096)
    (kaslrSize - (S.ubi_kernel_top - S.ubi_kernel_base)) hdvd (by omega) halign
    (Nat.mul_mod_left _ _) (by omega) (by omega)
  rw [hres]
  unfold wsub word
  exact h

/-- Witness for C14 (as amended): the sample boot with `kernelBase = 0xFFFF800000000000` and
`kaslrSize = 0x40000000`, image size `0x200000`. -/
theorem ubi_get_random_kernel_offset_spec_witness :
    ubi_get_random_kernel_offset example_env example_state 0xFFFF800000000000 0x40000000
        % 0x1000 = 0 ∧
      0xFFFF800000000000
        ≤ ubi_get_random_kernel_offset example_env example_state 0xFFFF800000000000 0x40000000 ∧
      ubi_get_random_kernel_offset example_env example_state 0xFFFF800000000000 0x40000000
        ≤ 0xFFFF800000000000 + 0x3FE00000 :=
  have h := ubi_get_random_kernel_offset_spec example_env example_state 0xFFFF800000000000
    0x40000000 (by decide) (by decide) (by decide) (by decide) (by decide) (by decide)
    (by decide) (by decide)
  ⟨h.1, (h.2.2 (by decide)).1, (h.2.2 (by decide)).2⟩

/-- Counterexample to C14 as stated, on the sample boot (image size `0x200000`, random source
within its bound). With `kernelBase = 0x1001` and `kaslrSize = 0x40000000` the preconditions
hold and the offset is `0x2a956001`, not a multiple of `0x1000`. With
`kernelBase = 2^64 - 0x300000` and the same `kaslrSize` the preconditions hold as well and
the offset wraps to `0x2a655000`, below `kernelBase`. -/
theorem ubi_get_random_kernel_offset_unaligned_or_wrapped :
    (0x200000 ≤ 0x40000000 ∧ 0x1001 + 0x200000 < 2 ^ 64 ∧
      example_env.arch_rand (0x40000000 - 0x200000) ≤ 0x40000000 - 0x200000 ∧
      ubi_get_random_kernel_offset example_env example_state 0x1001 0x40000000 = 0x2a956001 ∧
      0x2a956001 % 0x1000 ≠ 0) ∧
    ((2 ^ 64 - 0x300000) + 0x200000 < 2 ^ 64 ∧
      ubi_get_random_kernel_offset example_env example_state (2 ^ 64 - 0x300000) 0x40000000
        = 0x2a655000 ∧
      ¬ (2 ^ 64 - 0x300000 ≤ 0x2a655000)) := by
  decide

/-! ## The checks of `ubi_start` -/

/-- C16. A kernel root table with the right magic and word size that requires
specification version 0.1, which is below the implemented 1.0, is turned away with
`TSX_UNAVAILABLE`: the two version numbers are compared one by one. In general the table
is accepted exactly when its magic is `K_ROOT`, its major number is at most 1, its minor
number is 0 and its `bits` field is the word size. -/
theorem ubi_start_checks_componentwise :
    ubi_start_checks 64
        { magic := UBI_K_ROOT_MAGIC, minimumSpecificationVersionMajor := 0,
          minimumSpecificationVersionMinor := 1, bits := 64, flags := 0 } = TSX_UNAVAILABLE ∧
      ∀ (bits : Nat) (k : ubi_k_root_table),
        ubi_start_checks bits k = TSX_SUCCESS ↔
          (k.magic = UBI_K_ROOT_MAGIC ∧ k.minimumSpecificationVersionMajor ≤ 1 ∧
            k.minimumSpecificationVersionMinor = 0 ∧ k.bits = bits) := by
  refine ⟨by decide, ?_⟩
  intro bits k
  unfold ubi_start_checks UBI_VERSION_MAJOR UBI_VERSION_MINOR
  by_cases h1 : k.magic = UBI_K_ROOT_MAGIC
  · by_cases h2 : k.minimumSpecificationVersionMajor > 1 ∨ k.minimumSpecificationVersionMinor > 0
    · simp only [h1, h2, ne_eq, not_true_eq_false, if_false, if_true]
      constructor
      · intro h; cases h
      · rintro ⟨_, h3, h4, _⟩; omega
    · by_cases h3 : k.bits = bits
      · simp only [h1, h2, h3, ne_eq, not_true_eq_false, if_false]
        constructor
        · intro _; exact ⟨trivial, by omega, by omega, trivial⟩
        · intro _; trivial
      · simp only [h1, h2, h3, ne_eq, not_true_eq_false, not_false_eq_true, if_false, if_true]
        constructor
        · intro h; cases h
        · rintro ⟨_, _, _, h⟩; exact h.elim
  · simp only [h1, ne_eq, not_false_eq_true, if_true]
    constructor
    · intro h; cases h
    · rintro ⟨h, _⟩; exact h.elim

/-! ## Self-relocation -/

/-- C20 (as amended). Let the kernel range satisfy `min <= max` and let the preferred
address plus the usable memory not wrap. Then `ubi_relocate` keeps the preferred address
unless the closed intervals `[preferred, preferred + usable]` and `[min, max]` meet; when
they meet it takes `max` if `SIZE_MAX - max >= usable`, else `min - usable` if
`min > usable`, else gives up; and whenever it settles on a base, `base + usable` does not
wrap and no address of `[base, base + usable)` lies in `[min, max)`. -/
theorem ubi_relocate_base_spec (K : UbiEnv) (kmin kmax : Nat)
    (hmm : kmin ≤ kmax) (hmax : kmax < 2 ^ K.bits)
    (hnowrap : ubi_relocate_preferred K.bits + K.MMGR_USABLE_MEMORY < 2 ^ K.bits) :
    (¬ (ubi_relocate_preferred K.bits ≤ kmax ∧
          kmin ≤ ubi_relocate_preferred K.bits + K.MMGR_USABLE_MEMORY) →
        ubi_relocate_base K kmin kmax = some (ubi_relocate_preferred K.bits)) ∧
      ((ubi_relocate_preferred K.bits ≤ kmax ∧
          kmin ≤ ubi_relocate_preferred K.bits + K.MMGR_USABLE_MEMORY) →
        ubi_relocate_base K kmin kmax =
          if 2 ^ K.bits - 1 - kmax ≥ K.MMGR_USABLE_MEMORY then some kmax
          else if kmin > K.MMGR_USABLE_MEMORY then some (kmin - K.MMGR_USABLE_MEMORY)
          else none) ∧
      ∀ base, ubi_relocate_base K kmin kmax = some base →
        base + K.MMGR_USABLE_MEMORY < 2 ^ K.bits ∧
        ∀ x, base ≤ x → x < base + K.MMGR_USABLE_MEMORY → ¬ (kmin ≤ x ∧ x < kmax) := by
  have hw : word K.bits (ubi_relocate_preferred K.bits + K.MMGR_USABLE_MEMORY)
      = ubi_relocate_preferred K.bits + K.MMGR_USABLE_MEMORY := Nat.mod_eq_of_lt hnowrap
  generalize hP : 2 ^ K.bits = P at *
  generalize hU : K.MMGR_USABLE_MEMORY = U at *
  generalize hA : ubi_relocate_preferred K.bits = A at *
  have hdef : ubi_relocate_base K kmin kmax =
      if (A ≥ kmin ∧ A ≤ kmax) ∨ (A + U ≥ kmin ∧ A + U ≤ kmax) ∨
          (kmin ≥ A ∧ kmin ≤ A + U) ∨ (kmax ≥ A ∧ kmax ≤ A + U) then
        if P - 1 - kmax ≥ U then some kmax
        else if kmin > U then some (kmin - U)
        else none
      else some A := by
    unfold ubi_relocate_base
    simp only [hA, hU, hP, hw]
  rw [hdef]
  refine ⟨?_, ?_, ?_⟩
  · intro h
    rw [if_neg (by omega)]
  · intro h
    rw [if_pos (by omega)]
  · intro base hbase
    split at hbase
    · split at hbase
      · cases hbase
        constructor <;> intros <;> omega
      · split at hbase
        · cases hbase
          constructor <;> intros <;> omega
        · cases hbase
    · cases hbase
      constructor <;> intros <;> omega


/-- Witness for C20 (as amended): on the sample machine a kernel at
`[0xffffffff00100000, 0xffffffff00300000]` meets the preferred region, and the bootloader
moves to the kernel's end. -/
theorem ubi_relocate_base_spec_witness :
    ubi_relocate_base example_env 0xffffffff00100000 0xffffffff00300000
      = some 0xffffffff00300000 :=
  ((ubi_relocate_base_spec example_env 0xffffffff00100000 0xffffffff00300000
    (by decide) (by decide) (by decide)).2.1 (by decide)).trans (by decide)

/-- Counterexample to C20 as stated: with 4 GiB of usable memory the sum
`0xffffffff00000000 + usable` wraps to 0, none of the four comparisons of `ubi_relocate`
holds for a kernel at `[0xffffffff80000000, 0xffffffffc0000000]`, and the preferred base is
kept although the kernel's first address lies in `[base, base + usable)`. -/
theorem ubi_relocate_base_wrapped_overlap :
    ubi_relocate_base example_env_4g 0xffffffff80000000 0xffffffffc0000000
        = some 0xffffffff00000000 ∧
      0xffffffff00000000 ≤ 0xffffffff80000000 ∧
      0xffffffff80000000 < 0xffffffff00000000 + example_env_4g.MMGR_USABLE_MEMORY ∧
      0xffffffff80000000 < 0xffffffffc0000000 := by
  decide

/-! ## `ubi_create_mem_table` -/

theorem alloc_map_loop_core (bits paddr vaddr size : Nat) :
    ∀ (fuel addr : Nat) (S S' : Ubi),
      alloc_map_loop bits paddr vaddr size fuel addr S = some S' → S'.core = S.core := by
  intro fuel
  induction fuel with
  | zero => intro addr S S' h; simp [alloc_map_loop] at h
  | succ k ih =>
    intro addr S S' h
    rw [alloc_map_loop] at h
    split at h
    · have := ih _ _ _ h
      exact this
    · cases h; rfl

theorem ubi_alloc_virtual_core (K : UbiEnv) (fuel addr size : Nat) (S : Ubi) (p : Nat) (S' : Ubi)
    (h : ubi_alloc_virtual K fuel addr size S = some (p, S')) : S'.core = S.core := by
  unfold ubi_alloc_virtual at h
  by_cases h0 : addr = 0
  · simp only [h0, if_true] at h
    cases h; rfl
  · simp only [h0, if_false] at h
    cases hu : alloc_used_loop K.bits S (word K.bits (addr + size)) fuel addr with
    | none => rw [hu] at h; cases h
    | some b =>
      rw [hu] at h
      cases b with
      | true => simp only at h; cases h; rfl
      | false =>
        simp only at h
        by_cases hp : K.mmgr_alloc_block_sequential size = 0
        · simp only [hp, ne_eq, not_true_eq_false, if_false] at h
          cases h; rfl
        · simp only [hp, ne_eq, not_false_eq_true, if_true] at h
          cases hm : alloc_map_loop K.bits (K.mmgr_alloc_block_sequential size) addr size fuel 0
              (mmgr_reserve_mem_region S (K.mmgr_alloc_block_sequential size) size) with
          | none => rw [hm] at h; cases h
          | some S1 =>
            rw [hm] at h
            cases h
            have := alloc_map_loop_core _ _ _ _ _ _ _ _ hm
            exact this

theorem mem_heap_core (K : UbiEnv) (fuel : Nat) (t : ubi_k_mem_table) (S : Ubi) (st : status_t)
    (S' : Ubi) (h : mem_heap K fuel t S = some (st, S')) : S'.core = S.core := by
  unfold mem_heap at h
  by_cases hs : t.heapSize > 0
  · simp only [hs, if_true] at h
    by_cases hl : t.heapLocation = 0
    · simp only [hl, if_true] at h
      split at h <;> cases h <;> rfl
    · simp only [hl, if_false] at h
      cases hv : ubi_alloc_virtual K fuel t.heapLocation t.heapSize S with
      | none => rw [hv] at h; cases h
      | some r =>
        obtain ⟨p, S1⟩ := r
        rw [hv] at h
        simp only at h
        have hc := ubi_alloc_virtual_core _ _ _ _ _ _ _ hv
        split at h <;> cases h <;> exact hc
  · simp only [hs, if_false] at h
    cases h; rfl

theorem mem_stack_core (K : UbiEnv) (fuel : Nat) (t : ubi_k_mem_table) (S : Ubi) (st : status_t)
    (S' : Ubi) (h : mem_stack K fuel t S = some (st, S')) : S'.core = S.core := by
  unfold mem_stack at h
  generalize (if t.stackSize = 0 then K.stack_size else t.stackSize) = ss at h
  by_cases hl : t.stackLocation = 0
  · simp only [hl, if_true] at h
    split at h <;> cases h <;> rfl
  · simp only [hl, if_false] at h
    cases hv : ubi_alloc_virtual K fuel (wsub K.bits t.stackLocation ss) ss S with
    | none => rw [hv] at h; cases h
    | some r =>
      obtain ⟨p, S1⟩ := r
      rw [hv] at h
      simp only at h
      have hc := ubi_alloc_virtual_core _ _ _ _ _ _ _ hv
      split at h <;> cases h <;> exact hc

theorem mem_idmap_core (t : ubi_k_mem_table) (S : Ubi) : (mem_idmap t S).core = S.core := by
  unfold mem_idmap
  split <;> rfl


theorem core_fields (S S' : Ubi) (h : S'.core = S.core) :
    S'.tables = S.tables ∧ S'.ubi_root = S.ubi_root ∧ S'.lastTable = S.lastTable ∧
      S'.ubi_kernel_type = S.ubi_kernel_type ∧ S'.ubi_kernel_location = S.ubi_kernel_location ∧
      S'.ubi_kernel_base = S.ubi_kernel_base ∧ S'.ubi_kernel_top = S.ubi_kernel_top ∧
      S'.ubi_kernel_offset = S.ubi_kernel_offset ∧ S'.kernelPartition = S.kernelPartition ∧
      S'.kernelPath = S.kernelPath ∧ S'.kernelImgLocation = S.kernelImgLocation ∧
      S'.kernelImgSize = S.kernelImgSize ∧ S'.bmem.flags = S.bmem.flags ∧
      S'.bmodules = S.bmodules := by
  simp only [Ubi.core, Prod.mk.injEq] at h
  exact h

theorem new_table_ok (K : UbiEnv) (magic : Nat) (S S0 : Ubi) (h : new_table K magic S = .ok S0) :
    K.table_alloc magic ≠ 0 ∧
    S0 = { S with
      tables := fun a =>
        if a = S.lastTable then
          { (if a = K.table_alloc magic then ({ magic := magic, nextTable := 0 } : BHeader)
              else S.tables a) with nextTable := K.table_alloc magic }
        else if a = K.table_alloc magic then { magic := magic, nextTable := 0 } else S.tables a
      lastTable := K.table_alloc magic } := by
  unfold new_table at h
  by_cases hz : K.table_alloc magic = 0
  · simp only [hz, if_true] at h
    cases h
  · simp only [hz, if_false] at h
    cases h
    exact ⟨hz, rfl⟩

/-- The choice of the kernel offset. Let `ubi_create_mem_table` be given a `K_MEM` table `t`,
and let the allocation of `B_MEM` and the heap and stack set-up succeed. If the kernel's
KASLR flag is set, the kernel is an ELF (`ubi_kernel_type` 1), its `e_type` is `ET_DYN` and
`disableKaslr` is false, then the call fails with `TSX_ERROR` when the image size exceeds
`kaslrSize`, and otherwise succeeds with `ubi_kernel_offset` the randomised offset and the
KASLR flag set in `B_MEM`, also when `image size + kernelBase` wraps. In every other case
it succeeds, the KASLR flag of `B_MEM` is clear, and `ubi_kernel_offset` is `kernelBase`
when `e_type` is `ET_DYN` and what it was before otherwise. (`e_type` is the field as read
from the image, whatever the kernel type.) -/
theorem ubi_create_mem_table_offset (K : UbiEnv) (fuel : Nat) (img : KernelImage)
    (t : ubi_k_mem_table) (S S0 S2 S3 : Ubi)
    (h0 : new_table K UBI_B_MEM_MAGIC S = .ok S0)
    (h2 : mem_heap K fuel t { S0 with bmem := ubi_b_mem_table_zero } = some (TSX_SUCCESS, S2))
    (h3 : mem_stack K fuel t S2 = some (TSX_SUCCESS, S3)) :
    ∃ r, ubi_create_mem_table K fuel img (some t) S = some r ∧
      ((t.flags &&& UBI_FLAGS_MEMORY_KASLR ≠ 0 ∧ S.ubi_kernel_type = 1 ∧
          img.e_type = ELF_ET_DYN ∧ K.disableKaslr = false) →
        if wsub K.bits S.ubi_kernel_top S.ubi_kernel_base > t.kaslrSize
        then r.1 = TSX_ERROR
        else r.1 = TSX_SUCCESS ∧
          r.2.ubi_kernel_offset = ubi_get_random_kernel_offset K S t.kernelBase t.kaslrSize ∧
          r.2.bmem.flags &&& UBI_FLAGS_MEMORY_KASLR ≠ 0) ∧
      (¬ (t.flags &&& UBI_FLAGS_MEMORY_KASLR ≠ 0 ∧ S.ubi_kernel_type = 1 ∧
          img.e_type = ELF_ET_DYN ∧ K.disableKaslr = false) →
        r.1 = TSX_SUCCESS ∧ r.2.bmem.flags &&& UBI_FLAGS_MEMORY_KASLR = 0 ∧
          r.2.ubi_kernel_offset
            = if img.e_type = ELF_ET_DYN then t.kernelBase else S.ubi_kernel_offset) := by
  have hrun : ubi_create_mem_table K fuel img (some t) S
      = some (mem_kaslr K img t (mem_idmap t S3)) := by
    unfold ubi_create_mem_table
    rw [h0]
    simp only [h2, h3, ne_eq, not_true_eq_false, if_false]
  have hc : (mem_idmap t S3).core = ({ S0 with bmem := ubi_b_mem_table_zero } : Ubi).core := by
    rw [mem_idmap_core, mem_stack_core _ _ _ _ _ _ h3, mem_heap_core _ _ _ _ _ _ h2]
  obtain ⟨_, hS0⟩ := new_table_ok _ _ _ _ h0
  obtain ⟨-, -, -, hty, -, hbase, htop, hoff, -, -, -, -, hfl, -⟩ := core_fields _ _ hc
  rw [hS0] at hty hbase htop hoff hfl
  simp only at hty hbase htop hoff hfl
  have hfl0 : (mem_idmap t S3).bmem.flags = 0 := hfl
  have hrnd : ubi_get_random_kernel_offset K (mem_idmap t S3) t.kernelBase t.kaslrSize
      = ubi_get_random_kernel_offset K S t.kernelBase t.kaslrSize := by
    unfold ubi_get_random_kernel_offset
    rw [htop, hbase]
  refine ⟨_, hrun, ?_, ?_⟩
  · intro hsel
    unfold mem_kaslr
    rw [hty, htop, hbase]
    simp only [hsel, and_self, if_true, ne_eq, not_false_eq_true]
    by_cases h1 : wsub K.bits S.ubi_kernel_top S.ubi_kernel_base > t.kaslrSize
    · simp only [h1, if_true]
    · simp only [h1, if_false, true_and]
      refine ⟨?_, ?_⟩
      · unfold ubi_get_random_kernel_offset
        rw [htop, hbase]
      · rw [hfl0]
        decide
  · intro hsel
    unfold mem_kaslr
    rw [hty]
    simp only [hsel, if_false]
    by_cases h1 : img.e_type = ELF_ET_DYN
    · simp only [h1, if_true, true_and]
      rw [hfl0]
      exact ⟨by decide, trivial⟩
    · simp only [h1, if_false, true_and]
      rw [hfl0, hoff]
      exact ⟨by decide, rfl⟩


/-- The sample boot, whose kernel asks for KASLR. -/
theorem ubi_create_mem_table_offset_sample :
    ∃ r, ubi_create_mem_table example_env 1 example_image (some example_kmem) example_rooted
        = some r ∧
      r.1 = TSX_SUCCESS ∧ r.2.ubi_kernel_offset = 0xffff80002a955000 ∧
      r.2.bmem.flags &&& UBI_FLAGS_MEMORY_KASLR ≠ 0 := by
  obtain ⟨r, hr, hsel, _⟩ := ubi_create_mem_table_offset example_env 1 example_image
    example_kmem example_rooted _ _ _ rfl rfl rfl
  have h := hsel (by decide)
  rw [if_neg (by decide)] at h
  exact ⟨r, hr, h.1, h.2.1.trans (by decide), h.2.2⟩

/-- C15. The sample kernel, an `ET_DYN` ELF whose image is `0x200000` bytes long, asks for
KASLR with `kernelBase = 0xFFFFFFFFFFF00000` and `kaslrSize = 0x40000000`; `disableKaslr` is
false. The image is not longer than `kaslrSize`, and `kernelBase` plus the image size
passes the end of the 64-bit address space: modulo `2^64` the sum is `0x100000`, below
`kernelBase`. `ubi_create_mem_table` does not fail on it: it returns `TSX_SUCCESS` with the
KASLR flag set in `B_MEM` and with the randomised offset `0x2a855000`, which is
`kernelBase` plus the random part, wrapped as well. -/
theorem ubi_create_mem_table_wrap_unchecked :
    example_image.e_type = ELF_ET_DYN ∧ example_rooted.ubi_kernel_type = 1 ∧
    example_env.disableKaslr = false ∧
    example_wrap_kmem.flags &&& UBI_FLAGS_MEMORY_KASLR ≠ 0 ∧
    wsub 64 example_rooted.ubi_kernel_top example_rooted.ubi_kernel_base = 0x200000 ∧
    0x200000 ≤ example_wrap_kmem.kaslrSize ∧
    2 ^ 64 ≤ example_wrap_kmem.kernelBase + 0x200000 ∧
    word 64 (0x200000 + example_wrap_kmem.kernelBase) = 0x100000 ∧
    0x100000 < example_wrap_kmem.kernelBase ∧
    (ubi_create_mem_table example_env 1 example_image (some example_wrap_kmem)
        example_rooted).map
      (fun r => (r.1, r.2.ubi_kernel_offset, r.2.bmem.flags &&& UBI_FLAGS_MEMORY_KASLR))
      = some (TSX_SUCCESS, 0x2a855000, UBI_FLAGS_MEMORY_KASLR) := by
  decide

/-! ## `ubi_alloc_virtual` -/

/-- C19. Two runs on the sample machine with page 2 and the last page of the address space
already mapped to `0x9000`. For `V = 0x1800`, `S = 0x1000` the range meets page 2, but the
first loop only asks about address `0x1800`: no fallback is taken, `V` is returned, page 1
gets the new memory at `0x400000` and page 2 keeps its old mapping. For `V = 2^64 - 0x800`,
`S = 0x1000` the sum `V + S` wraps to `0x800`, the first loop asks nothing, `V` is returned
and the mapping of the last page is overwritten with the new memory. -/
theorem ubi_alloc_virtual_misses_pages :
    vmmgr_is_address_accessible example_mapped 0x2000 = true ∧
      (ubi_alloc_virtual example_env 4 0x1800 0x1000 example_mapped).map
          (fun r => (r.1, r.2.mapped 1, r.2.mapped 2))
        = some (0x1800, some 0x400000, some 0x9000) ∧
      example_mapped.mapped 0xFFFFFFFFFFFFF = some 0x9000 ∧
      (ubi_alloc_virtual example_env 4 (2 ^ 64 - 0x800) 0x1000 example_mapped).map
          (fun r => (r.1, r.2.mapped 0xFFFFFFFFFFFFF))
        = some (2 ^ 64 - 0x800, some 0x400000) := by
  decide

/-! ## The chain of boot tables -/

theorem vid_try_bpps_core (K : UbiEnv) (t : ubi_k_video_table) :
    ∀ (l : List Nat) (S : Ubi), (vid_try_bpps K t l S).2.core = S.core := by
  intro l
  induction l with
  | nil => intro S; rfl
  | cons b rest ih =>
    intro S
    rw [vid_try_bpps]
    split
    · exact ih S
    · dsimp only
      split
      · rfl
      · have := ih (kernel_set_video K t.width t.height b 1 S).2
        exact this

theorem vid_try_modes_core (K : UbiEnv) (t : ubi_k_video_table) :
    ∀ (l : List (Nat × Nat)) (S : Ubi), (vid_try_modes K t l S).2.core = S.core := by
  intro l
  induction l with
  | nil => intro S; rfl
  | cons m rest ih =>
    intro S
    rw [vid_try_modes]
    split
    · dsimp only
      split
      · rfl
      · have := ih (kernel_set_video K m.1 m.2 32 1 S).2
        exact this
    · exact ih S

theorem vid_graphics_core (K : UbiEnv) (t : ubi_k_video_table) (S : Ubi) :
    (vid_graphics K t S).2.core = S.core := by
  unfold vid_graphics
  simp only
  split
  · split
    · have := vid_try_bpps_core K t commonBPPs.reverse (kernel_set_video K t.width t.height t.bpp 1 S).2
      exact this
    · split
      · have h1 := vid_try_modes_core K t commonVideoModes.reverse
          (vid_try_bpps K t commonBPPs.reverse (kernel_set_video K t.width t.height t.bpp 1 S).2).2
        have h2 := vid_try_bpps_core K t commonBPPs.reverse
          (kernel_set_video K t.width t.height t.bpp 1 S).2
        exact h1.trans h2
      · have h1 := vid_try_modes_core K t commonVideoModes.reverse
          (vid_try_bpps K t commonBPPs.reverse (kernel_set_video K t.width t.height t.bpp 1 S).2).2
        have h2 := vid_try_bpps_core K t commonBPPs.reverse
          (kernel_set_video K t.width t.height t.bpp 1 S).2
        exact h1.trans h2
  · rfl

theorem ubi_load_module_core (K : UbiEnv) (fuel : Nat) (ml : List ubi_b_module_entry)
    (path : List Nat) (la : Nat) (S : Ubi) (st : status_t) (ml' : List ubi_b_module_entry)
    (S' : Ubi) (h : ubi_load_module K fuel ml path la S = some (st, ml', S')) :
    S'.core = S.core := by
  unfold ubi_load_module at h
  split at h
  · cases h; rfl
  · dsimp only at h
    split at h
    · cases h; rfl
    · generalize (K.vfs_get_file_size (module_readpath S path)).2 = size at h
      by_cases hla : la ≠ 0
      · simp only [hla, ne_eq, not_false_eq_true, if_true] at h
        cases hv : ubi_alloc_virtual K fuel la size S with
        | none => rw [hv] at h; cases h
        | some r =>
          obtain ⟨addr, S1⟩ := r
          rw [hv] at h
          simp only at h
          have hc := ubi_alloc_virtual_core _ _ _ _ _ _ _ hv
          split at h
          · cases h; exact hc
          · split at h <;> cases h <;> exact hc
      · simp only [hla, if_false] at h
        split at h
        · cases h; rfl
        · split at h <;> cases h <;> rfl

theorem kernel_modules_loop_core (K : UbiEnv) (fuel : Nat) :
    ∀ (l : List ubi_k_module) (ml : List ubi_b_module_entry) (S : Ubi) (st : status_t)
      (ml' : List ubi_b_module_entry) (S' : Ubi),
      kernel_modules_loop K fuel l ml S = some (st, ml', S') → S'.core = S.core := by
  intro l
  induction l with
  | nil => intro ml S st ml' S' h; simp only [kernel_modules_loop] at h; cases h; rfl
  | cons e rest ih =>
    intro ml S st ml' S' h
    rw [kernel_modules_loop] at h
    cases hl : ubi_load_module K fuel ml e.path e.loadAddress S with
    | none => rw [hl] at h; cases h
    | some r =>
      obtain ⟨st1, ml1, S1⟩ := r
      rw [hl] at h
      simp only at h
      have hc := ubi_load_module_core _ _ _ _ _ _ _ _ _ hl
      split at h
      · cases h; exact hc
      · exact (ih _ _ _ _ _ h).trans hc

theorem config_modules_loop_core (K : UbiEnv) (fuel : Nat) :
    ∀ (k : Nat) (cur : List Nat) (ml : List ubi_b_module_entry) (S : Ubi) (st : status_t)
      (ml' : List ubi_b_module_entry) (S' : Ubi),
      config_modules_loop K fuel k cur ml S = some (st, ml', S') → S'.core = S.core := by
  intro k
  induction k with
  | zero => intro cur ml S st ml' S' h; simp only [config_modules_loop] at h; cases h
  | succ k ih =>
    intro cur ml S st ml' S' h
    rw [config_modules_loop] at h
    cases hl : ubi_load_module K fuel ml (cur.takeWhile (fun c => c != 58)) 0 S with
    | none => rw [hl] at h; cases h
    | some r =>
      obtain ⟨st1, ml1, S1⟩ := r
      rw [hl] at h
      simp only at h
      have hc := ubi_load_module_core _ _ _ _ _ _ _ _ _ hl
      split at h
      · cases h; exact hc
      · split at h
        · cases h; exact hc
        · exact (ih _ _ _ _ _ _ h).trans hc

theorem Linked_append (T T' : Nat → BHeader) (a : Nat) (ha : a ≠ 0) (ha0 : (T' a).nextTable = 0) :
    ∀ (L : List Nat) (hL : L ≠ []) (t : Nat), Linked T L t → L.Nodup → a ∉ L →
      (T' (L.getLast hL)).nextTable = a →
      (∀ x ∈ L, x ≠ L.getLast hL → (T' x).nextTable = (T x).nextTable) →
      Linked T' (L ++ [a]) t := by
  intro L
  induction L with
  | nil => intro hL; exact absurd rfl hL
  | cons x rest ih =>
    intro hL t hlink hnd hnot hlast hsame
    obtain ⟨ht, hx0, hrest⟩ := hlink
    cases rest with
    | nil =>
      simp only [List.getLast_singleton] at hlast
      exact ⟨ht, hx0, hlast, ha, ha0⟩
    | cons y rest' =>
      have hne : y :: rest' ≠ [] := by simp
      have hgl : (x :: y :: rest').getLast hL = (y :: rest').getLast hne := by
        simp [List.getLast_cons]
      have hxl : x ≠ (y :: rest').getLast hne := by
        intro h
        have hmem : (y :: rest').getLast hne ∈ y :: rest' := List.getLast_mem hne
        rw [← h] at hmem
        exact (List.nodup_cons.mp hnd).1 hmem
      refine ⟨ht, hx0, ?_⟩
      rw [hsame x (List.mem_cons_self _ _) (by rw [hgl]; exact hxl)]
      apply ih hne _ hrest (List.nodup_cons.mp hnd).2
      · intro h; exact hnot (List.mem_cons_of_mem _ h)
      · rw [← hgl]; exact hlast
      · intro z hz hzl
        exact hsame z (List.mem_cons_of_mem _ hz) (by rw [hgl]; exact hzl)

theorem chain_walk_of_Linked (S : Ubi) :
    ∀ (L : List Nat) (t : Nat), Linked S.tables L t → chain_walk S (L.length + 1) t = some L := by
  intro L
  induction L with
  | nil =>
    intro t h
    have h0 : t = 0 := h
    subst h0
    simp [chain_walk]
  | cons a rest ih =>
    intro t h
    obtain ⟨ht, ha0, hrest⟩ := h
    subst ht
    rw [List.length_cons, chain_walk]
    simp only [ha0, if_false]
    rw [ih _ hrest]
    rfl

theorem new_table_inv (K : UbiEnv) (magic : Nat) (S S1 : Ubi) (ms : List Nat)
    (h : new_table K magic S = .ok S1) (hinv : ChainInv K S ms)
    (hnd : ((ms ++ [magic]).map K.table_alloc).Nodup) :
    ChainInv K S1 (ms ++ [magic]) := by
  obtain ⟨hne, hlink, hlast, _, hmag⟩ := hinv
  obtain ⟨ha0, hS1⟩ := new_table_ok _ _ _ _ h
  rw [List.map_append, List.map_singleton] at hnd
  have hnd' := List.nodup_append.mp hnd
  have hnot : K.table_alloc magic ∉ ms.map K.table_alloc := by
    intro hmem
    exact hnd'.2.2 hmem (List.mem_singleton_self _)
  have hneL : ms.map K.table_alloc ≠ [] := by simpa using hne
  have hgl : (ms.map K.table_alloc).getLast hneL = K.table_alloc (ms.getLast hne) := by
    rw [List.getLast_map]
  have hlastne : S.lastTable ≠ K.table_alloc magic := by
    intro he
    apply hnot
    rw [← he, hlast, ← hgl]
    exact List.getLast_mem hneL
  refine ⟨by simp, ?_, ?_, ?_, ?_⟩
  · rw [List.map_append, List.map_singleton, hS1]
    apply Linked_append S.tables _ (K.table_alloc magic) ha0 _ _ hneL _ hlink hnd'.1 hnot
    · rw [hgl, ← hlast]
      simp
    · intro x hx hxl
      rw [hgl, ← hlast] at hxl
      have hxa : x ≠ K.table_alloc magic := fun he => hnot (he ▸ hx)
      simp [hxl, hxa]
    · simp [Ne.symm hlastne]
  · rw [hS1]
    simp
  · rw [List.map_append, List.map_singleton]
    exact hnd
  · intro m hm
    rw [hS1]
    rcases List.mem_append.mp hm with hm | hm
    · have hma : K.table_alloc m ≠ K.table_alloc magic :=
        fun he => hnot (he ▸ List.mem_map_of_mem _ hm)
      by_cases hml : K.table_alloc m = S.lastTable
      · simp only [hml, if_true]
        rw [if_neg hlastne]
        rw [← hml]
        exact hmag m hm
      · simp only [hml, hma, if_false]
        exact hmag m hm
    · rw [List.mem_singleton.mp hm]
      simp [Ne.symm hlastne]
theorem chain_eq_of_core (S S' : Ubi) (h : S'.core = S.core) : chain_eq S S' := by
  obtain ⟨h1, h2, h3, -⟩ := core_fields _ _ h
  exact ⟨h1, h2, h3⟩

theorem ChainInv_of_chain_eq (K : UbiEnv) (S S' : Ubi) (ms : List Nat) (h : chain_eq S S')
    (hinv : ChainInv K S ms) : ChainInv K S' ms := by
  obtain ⟨h1, h2, h3⟩ := h
  obtain ⟨hne, hlink, hlast, hnd, hmag⟩ := hinv
  exact ⟨hne, by rw [h1, h2]; exact hlink, by rw [h3]; exact hlast, hnd,
    by rw [h1]; exact hmag⟩

theorem new_table_error (K : UbiEnv) (magic : Nat) (S : Ubi) (st : status_t)
    (h : new_table K magic S = .error st) : st = TSX_OUT_OF_MEMORY := by
  unfold new_table at h
  by_cases hz : K.table_alloc magic = 0
  · simp only [hz, if_true] at h
    cases h; rfl
  · simp only [hz, if_false] at h
    cases h

theorem mem_kaslr_chain (K : UbiEnv) (img : KernelImage) (t : ubi_k_mem_table) (S : Ubi) :
    chain_eq S (mem_kaslr K img t S).2 := by
  unfold mem_kaslr
  split
  · dsimp only
    split <;> exact ⟨rfl, rfl, rfl⟩
  · split <;> exact ⟨rfl, rfl, rfl⟩

theorem ubi_create_mem_table_step (K : UbiEnv) (fuel : Nat) (img : KernelImage)
    (tb : Option ubi_k_mem_table) :
    StepSpec K (ubi_create_mem_table K fuel img tb) (some UBI_B_MEM_MAGIC) := by
  intro S S2 h
  unfold ubi_create_mem_table at h
  cases h0 : new_table K UBI_B_MEM_MAGIC S with
  | error st =>
    rw [h0] at h
    simp only at h
    obtain ⟨hst, -⟩ := Prod.mk.inj (Option.some.inj h)
    rw [new_table_error _ _ _ _ h0] at hst
    cases hst
  | ok S0 =>
    rw [h0] at h
    simp only at h
    refine ⟨S0, h0, ?_⟩
    cases tb with
    | none =>
      simp only at h
      cases h
      exact ⟨rfl, rfl, rfl⟩
    | some t =>
      simp only at h
      cases h2 : mem_heap K fuel t { S0 with bmem := ubi_b_mem_table_zero } with
      | none => rw [h2] at h; cases h
      | some r2 =>
        obtain ⟨st2, S2'⟩ := r2
        rw [h2] at h
        simp only at h
        have c2 := mem_heap_core _ _ _ _ _ _ h2
        split at h
        · cases h; rename_i hne; exact absurd rfl hne
        · cases h3 : mem_stack K fuel t S2' with
          | none => rw [h3] at h; cases h
          | some r3 =>
            obtain ⟨st3, S3⟩ := r3
            rw [h3] at h
            simp only at h
            have c3 := mem_stack_core _ _ _ _ _ _ h3
            split at h
            · cases h; rename_i hne; exact absurd rfl hne
            · have c4 := mem_idmap_core t S3
              have hk := mem_kaslr_chain K img t (mem_idmap t S3)
              have hS2 : S2 = (mem_kaslr K img t (mem_idmap t S3)).2 :=
                (congrArg Prod.snd (Option.some.inj h)).symm
              rw [hS2]
              obtain ⟨k1, k2, k3⟩ := hk
              obtain ⟨a1, a2, a3⟩ := chain_eq_of_core _ _ (c4.trans (c3.trans c2))
              exact ⟨k1.trans a1, k2.trans a2, k3.trans a3⟩
theorem ubi_create_vid_table_step (K : UbiEnv) (tb : Option ubi_k_video_table) :
    StepSpec K (fun S => some (ubi_create_vid_table K tb S)) (some UBI_B_VID_MAGIC) := by
  intro S S2 h
  have h' := Option.some.inj h
  unfold ubi_create_vid_table at h'
  cases h0 : new_table K UBI_B_VID_MAGIC S with
  | error st =>
    rw [h0] at h'
    simp only at h'
    obtain ⟨hst, -⟩ := Prod.mk.inj h'
    rw [new_table_error _ _ _ _ h0] at hst
    cases hst
  | ok S1 =>
    rw [h0] at h'
    simp only at h'
    refine ⟨S1, h0, ?_⟩
    cases tb with
    | none =>
      simp only at h'
      cases h'
      exact ⟨rfl, rfl, rfl⟩
    | some t =>
      simp only at h'
      have hr : ∀ r : status_t × Ubi, r.2.core = S1.core →
          (if r.1 ≠ TSX_SUCCESS then r
            else if t.flags &&& UBI_FLAGS_VIDEO_CLEAR_SCREEN ≠ 0 then
              (TSX_SUCCESS, { r.2 with ubi_clearScreen := true })
            else (TSX_SUCCESS, r.2)) = (TSX_SUCCESS, S2) → chain_eq S1 S2 := by
        intro r hc hres
        split at hres
        · rw [hres] at hc
          exact chain_eq_of_core _ _ hc
        · split at hres
          · cases hres
            exact chain_eq_of_core _ _ hc
          · cases hres
            exact chain_eq_of_core _ _ hc
      apply hr _ _ h'
      split
      · rfl
      · split
        · exact vid_graphics_core K t S1
        · rfl

theorem ubi_create_module_table_step (K : UbiEnv) (fuel : Nat) (tb : Option (List ubi_k_module)) :
    StepSpec K (ubi_create_module_table K fuel tb) (some UBI_B_MODULES_MAGIC) := by
  intro S S2 h
  unfold ubi_create_module_table at h
  cases h0 : new_table K UBI_B_MODULES_MAGIC S with
  | error st =>
    rw [h0] at h
    simp only at h
    obtain ⟨hst, -⟩ := Prod.mk.inj (Option.some.inj h)
    rw [new_table_error _ _ _ _ h0] at hst
    cases hst
  | ok S0 =>
    rw [h0] at h
    simp only at h
    refine ⟨S0, h0, ?_⟩
    split at h
    · cases h
    · cases hk : kernel_modules_loop K fuel (tb.getD [])
          [{ path := S0.kernelPath, loadAddress := S0.kernelImgLocation, size := S0.kernelImgSize }]
          { S0 with bmodules := [] } with
      | none => rw [hk] at h; cases h
      | some r =>
        obtain ⟨st2, ml2, S2'⟩ := r
        rw [hk] at h
        simp only at h
        have ck := chain_eq_of_core _ _ (kernel_modules_loop_core _ _ _ _ _ _ _ _ hk)
        split at h
        · cases h; rename_i hne; exact absurd rfl hne
        · have hcfg : ∀ r3 : Option (status_t × List ubi_b_module_entry × Ubi),
              (∀ st3 ml3 S3, r3 = some (st3, ml3, S3) → chain_eq S2' S3) →
              (match r3 with
                | none => none
                | some (st3, ml3, S3) =>
                  if st3 ≠ TSX_SUCCESS then some (st3, S3)
                  else if K.kmalloc (ml3.length * sizeof_ubi_b_module_entry K.bits) = 0 then
                    some (TSX_OUT_OF_MEMORY, S3)
                  else some (TSX_SUCCESS, { S3 with bmodules := ml3 })) = some (TSX_SUCCESS, S2) →
              chain_eq S2' S2 := by
            intro r3 hr3 hres
            cases r3 with
            | none => cases hres
            | some r =>
              obtain ⟨st3, ml3, S3⟩ := r
              simp only at hres
              have c3 := hr3 _ _ _ rfl
              split at hres
              · cases hres; rename_i hne; exact absurd rfl hne
              · split at hres
                · cases hres
                · cases hres
                  exact c3
          have hfin := hcfg _ ?_ h
          · obtain ⟨a1, a2, a3⟩ := hfin
            obtain ⟨b1, b2, b3⟩ := ck
            exact ⟨a1.trans b1, a2.trans b2, a3.trans b3⟩
          · intro st3 ml3 S3 he
            cases hm : K.modules with
            | none =>
              rw [hm] at he
              simp only at he
              cases he
              exact ⟨rfl, rfl, rfl⟩
            | some cfg =>
              rw [hm] at he
              simp only at he
              split at he
              · cases he
                exact ⟨rfl, rfl, rfl⟩
              · exact chain_eq_of_core _ _ (config_modules_loop_core _ _ _ _ _ _ _ _ _ he)

theorem ubi_create_plain_table_step (K : UbiEnv) (magic : Nat) :
    StepSpec K (fun S => some (ubi_create_plain_table K magic S)) (some magic) := by
  intro S S2 h
  have h' := Option.some.inj h
  unfold ubi_create_plain_table at h'
  cases h0 : new_table K magic S with
  | error st =>
    rw [h0] at h'
    simp only at h'
    obtain ⟨hst, -⟩ := Prod.mk.inj h'
    rw [new_table_error _ _ _ _ h0] at hst
    cases hst
  | ok S1 =>
    rw [h0] at h'
    simp only at h'
    cases h'
    exact ⟨S2, h0, rfl, rfl, rfl⟩

theorem ubi_create_cmd_table_step (K : UbiEnv) :
    StepSpec K (fun S => some (ubi_create_cmd_table K S))
      (if K.kernel_args.isSome then some UBI_B_CMD_MAGIC else none) := by
  cases ha : K.kernel_args with
  | none =>
    intro S S2 h
    have h' := Option.some.inj h
    unfold ubi_create_cmd_table at h'
    rw [ha] at h'
    simp only at h'
    cases h'
    exact ⟨rfl, rfl, rfl⟩
  | some args =>
    intro S S2 h
    have h' : some (ubi_create_plain_table K UBI_B_CMD_MAGIC S) = some (TSX_SUCCESS, S2) := by
      rw [← h]
      unfold ubi_create_cmd_table
      rw [ha]
    exact ubi_create_plain_table_step K UBI_B_CMD_MAGIC S S2 h'
theorem run_steps_inv (K : UbiEnv) :
    ∀ (fs : List (Ubi → Option (status_t × Ubi))) (oms : List (Option Nat)),
      List.Forall₂ (StepSpec K) fs oms →
      ∀ (S S' : Ubi) (ms : List Nat), run_steps fs S = some (TSX_SUCCESS, S') →
        ChainInv K S ms → ((ms ++ oms.reduceOption).map K.table_alloc).Nodup →
        ChainInv K S' (ms ++ oms.reduceOption) := by
  intro fs oms hall
  induction hall with
  | nil =>
    intro S S' ms h hinv _
    simp only [run_steps] at h
    cases h
    simpa using hinv
  | @cons f om fs oms hf _ ih =>
    intro S S' ms h hinv hnd
    rw [run_steps] at h
    cases hfS : f S with
    | none => rw [hfS] at h; cases h
    | some r =>
      obtain ⟨st, S1⟩ := r
      rw [hfS] at h
      simp only at h
      by_cases hst : st = TSX_SUCCESS
      · subst hst
        simp only [ne_eq, not_true_eq_false, if_false] at h
        have hspec := hf S S1 hfS
        cases om with
        | none =>
          simp only at hspec
          rw [List.reduceOption_cons_of_none] at hnd ⊢
          exact ih S1 S' ms h (ChainInv_of_chain_eq K S S1 ms hspec hinv) hnd
        | some m =>
          simp only at hspec
          obtain ⟨S1', hnew, hce⟩ := hspec
          rw [List.reduceOption_cons_of_some] at hnd ⊢
          have hnd2 : (((ms ++ [m]) ++ oms.reduceOption).map K.table_alloc).Nodup := by
            simpa using hnd
          have hnd1 : ((ms ++ [m]).map K.table_alloc).Nodup := by
            rw [List.map_append] at hnd2
            exact (List.nodup_append.mp hnd2).1
          have hinv1 := ChainInv_of_chain_eq K S1' S1 _ hce (new_table_inv K m S S1' ms hnew hinv hnd1)
          have := ih S1 S' (ms ++ [m]) h hinv1 hnd2
          simpa using this
      · simp only [ne_eq, hst, not_false_eq_true, if_true] at h
        obtain ⟨h1, -⟩ := Prod.mk.inj (Option.some.inj h)
        exact absurd h1 hst

theorem ubi_create_steps_spec (K : UbiEnv) (fuel : Nat) (img : KernelImage) :
    List.Forall₂ (StepSpec K) (ubi_create_steps K fuel img) (step_magics K) := by
  unfold ubi_create_steps step_magics
  refine List.Forall₂.cons (ubi_create_mem_table_step K fuel img img.kmem) ?_
  refine List.Forall₂.cons (ubi_create_vid_table_step K img.kvid) ?_
  refine List.Forall₂.cons (ubi_create_module_table_step K fuel img.kmod) ?_
  refine List.Forall₂.cons (ubi_create_plain_table_step K UBI_B_SYS_MAGIC) ?_
  refine List.Forall₂.cons (ubi_create_plain_table_step K UBI_B_MEMMAP_MAGIC) ?_
  refine List.Forall₂.cons (ubi_create_plain_table_step K UBI_B_LOADER_MAGIC) ?_
  refine List.Forall₂.cons (ubi_create_cmd_table_step K) ?_
  refine List.Forall₂.cons (ubi_create_plain_table_step K UBI_B_BDRIVE_MAGIC) ?_
  exact List.Forall₂.nil

theorem created_magics_sublist (K : UbiEnv) (n : Nat) :
    (created_magics K n).Sublist boot_magics := by
  unfold created_magics boot_magics
  apply List.Sublist.cons₂
  have h1 : (((step_magics K).take n).reduceOption).Sublist (step_magics K).reduceOption :=
    List.Sublist.filterMap id (List.take_sublist n _)
  refine h1.trans ?_
  unfold step_magics
  cases K.kernel_args with
  | none =>
    simp only [Option.isSome_none, Bool.false_eq_true, if_false]
    decide
  | some a =>
    simp only [Option.isSome_some, if_true]
    decide

theorem ubi_start_root_inv (K : UbiEnv) (S0 S1 : Ubi) (h : ubi_start_root K S0 = .ok S1) :
    ChainInv K S1 [UBI_B_ROOT_MAGIC] := by
  unfold ubi_start_root at h
  by_cases hz : K.table_alloc UBI_B_ROOT_MAGIC = 0
  · simp only [hz, if_true] at h
    cases h
  · simp only [hz, if_false] at h
    cases h
    refine ⟨by simp, ?_, rfl, by simp, ?_⟩
    · exact ⟨rfl, hz, by simp [Linked]⟩
    · intro m hm
      rw [List.mem_singleton.mp hm]
      simp

/-- C13. Let the allocator give distinct blocks to distinct boot tables, let `ubi_start`
have created the root table, and let the first `n` calls of `ubi_create_tables` have
succeeded (`n = 8` is the whole of `ubi_create_tables`). Then following `nextTable` from
the root visits exactly the tables created so far, in creation order (`B_ROOT`, `B_MEM`,
`B_VID`, `B_MOD`, `B_SYS`, `B_MEMMAP`, `B_LOADER`, `B_CMD` when there is a command line,
`B_BDRIVE`) and reaches the null pointer; no table is visited twice; each holds its magic;
`lastTable` is the last table of the chain; and `B_CMD` is among the tables of the full
run exactly when a command line is present. -/
theorem ubi_create_tables_chain (K : UbiEnv) (fuel : Nat) (img : KernelImage) (S0 S1 S' : Ubi)
    (n : Nat)
    (hinj : ∀ m1 ∈ boot_magics, ∀ m2 ∈ boot_magics,
      K.table_alloc m1 = K.table_alloc m2 → m1 = m2)
    (hroot : ubi_start_root K S0 = .ok S1)
    (hrun : run_steps ((ubi_create_steps K fuel img).take n) S1 = some (TSX_SUCCESS, S')) :
    chain_walk S' ((created_magics K n).length + 1) S'.ubi_root
        = some ((created_magics K n).map K.table_alloc) ∧
      ((created_magics K n).map K.table_alloc).Nodup ∧
      (∀ m ∈ created_magics K n, (S'.tables (K.table_alloc m)).magic = m) ∧
      (∃ h : created_magics K n ≠ [],
        S'.lastTable = K.table_alloc ((created_magics K n).getLast h)) ∧
      (UBI_B_CMD_MAGIC ∈ created_magics K 8 ↔ K.kernel_args.isSome = true) := by
  have hsub := created_magics_sublist K n
  have hnd0 : (created_magics K n).Nodup := hsub.nodup (by decide)
  have hnd : ((created_magics K n).map K.table_alloc).Nodup := by
    apply List.Nodup.map_on _ hnd0
    intro x hx y hy hxy
    exact hinj x (hsub.subset hx) y (hsub.subset hy) hxy
  have hspec : List.Forall₂ (StepSpec K) ((ubi_create_steps K fuel img).take n)
      ((step_magics K).take n) := List.forall₂_take n (ubi_create_steps_spec K fuel img)
  have hinv := run_steps_inv K _ _ hspec S1 S' [UBI_B_ROOT_MAGIC] hrun
    (ubi_start_root_inv K S0 S1 hroot) hnd
  obtain ⟨hne, hlink, hlast, _, hmag⟩ := hinv
  refine ⟨?_, hnd, hmag, ⟨hne, hlast⟩, ?_⟩
  · have := chain_walk_of_Linked S' _ _ hlink
    rw [List.length_map] at this
    exact this
  · unfold created_magics step_magics
    cases K.kernel_args with
    | none => decide
    | some a =>
      simp only [Option.isSome_some, if_true, iff_true]
      decide


/-- Witness for C13: the sample boot, which has a command line; all nine tables are linked. -/
theorem ubi_create_tables_chain_witness :
    ubi_create_tables example_env 4 example_image example_rooted
        = some (TSX_SUCCESS, example_built) ∧
      created_magics example_env 8 = boot_magics ∧
      chain_walk example_built 10 example_built.ubi_root
        = some (boot_magics.map example_env.table_alloc) ∧
      example_built.lastTable = example_env.table_alloc UBI_B_BDRIVE_MAGIC :=
  have h := ubi_create_tables_chain example_env 4 example_image example_state example_rooted
    example_built 8 (by decide) rfl rfl
  ⟨rfl, by decide, h.1, h.2.2.2.1.2⟩

/-! ## The module table -/

theorem split_colon_unfold : ∀ (cur : List Nat),
    split_colon cur = cur.takeWhile (fun c => c != 58) ::
      (match cur.dropWhile (fun c => c != 58) with
        | [] => []
        | _ :: next => split_colon next) := by
  intro cur
  induction cur with
  | nil => simp [split_colon]
  | cons c cs ih =>
    by_cases hc : c = 58
    · subst hc
      simp [split_colon, List.takeWhile, List.dropWhile]
    · have hb : (c != 58) = true := by simpa using hc
      rw [split_colon, if_neg hc, ih]
      simp [List.takeWhile, List.dropWhile, hb]

theorem module_readpath_congr (S S' : Ubi) (h : S'.core = S.core) (p : List Nat) :
    module_readpath S' p = module_readpath S p := by
  obtain ⟨-, -, -, -, -, -, -, -, hp, -⟩ := core_fields _ _ h
  unfold module_readpath
  rw [hp]

theorem ubi_load_module_ok (K : UbiEnv) (fuel : Nat) (ml : List ubi_b_module_entry)
    (path : List Nat) (la : Nat) (S : Ubi) (ml' : List ubi_b_module_entry) (S' : Ubi)
    (h : ubi_load_module K fuel ml path la S = some (TSX_SUCCESS, ml', S')) :
    ∃ new, ml' = ml ++ new ∧ Loaded K S [path] new := by
  unfold ubi_load_module at h
  split at h
  · cases h
  · dsimp only at h
    split at h
    · rename_i hne
      obtain ⟨h1, -⟩ := Prod.mk.inj (Option.some.inj h)
      exact absurd h1 hne
    · rename_i hsz
      have hsz' : (K.vfs_get_file_size (module_readpath S path)).1 = TSX_SUCCESS := by
        by_contra hc; exact hsz hc
      have hfin : ∀ (addr : Nat), ∃ new,
          ml ++ [({ path := path, loadAddress := addr,
                    size := (K.vfs_get_file_size (module_readpath S path)).2 } :
                  ubi_b_module_entry)] = ml ++ new ∧ Loaded K S [path] new := by
        intro addr
        refine ⟨_, rfl, rfl, ?_⟩
        intro e he
        rw [List.mem_singleton.mp he]
        exact Prod.ext hsz' rfl
      by_cases hla : la ≠ 0
      · simp only [hla, ne_eq, not_false_eq_true, if_true] at h
        cases hv : ubi_alloc_virtual K fuel la
            (K.vfs_get_file_size (module_readpath S path)).2 S with
        | none => rw [hv] at h; cases h
        | some r =>
          obtain ⟨addr, S1⟩ := r
          rw [hv] at h
          simp only at h
          split at h
          · cases h
          · split at h
            · rename_i hne
              obtain ⟨h1, -⟩ := Prod.mk.inj (Option.some.inj h)
              exact absurd h1 hne
            · obtain ⟨-, h2⟩ := Prod.mk.inj (Option.some.inj h)
              obtain ⟨h3, -⟩ := Prod.mk.inj h2
              rw [← h3]
              exact hfin addr
      · simp only [hla, if_false] at h
        split at h
        · cases h
        · split at h
          · rename_i hne
            obtain ⟨h1, -⟩ := Prod.mk.inj (Option.some.inj h)
            exact absurd h1 hne
          · obtain ⟨-, h2⟩ := Prod.mk.inj (Option.some.inj h)
            obtain ⟨h3, -⟩ := Prod.mk.inj h2
            rw [← h3]
            exact hfin _

theorem Loaded_append (K : UbiEnv) (S S' : Ubi) (hc : S'.core = S.core)
    (ps qs : List (List Nat)) (n1 n2 : List ubi_b_module_entry)
    (h1 : Loaded K S ps n1) (h2 : Loaded K S' qs n2) : Loaded K S (ps ++ qs) (n1 ++ n2) := by
  obtain ⟨a1, a2⟩ := h1
  obtain ⟨b1, b2⟩ := h2
  refine ⟨by rw [List.map_append, a1, b1], ?_⟩
  intro e he
  rcases List.mem_append.mp he with he | he
  · exact a2 e he
  · rw [← module_readpath_congr S S' hc]
    exact b2 e he

theorem kernel_modules_loop_ok (K : UbiEnv) (fuel : Nat) :
    ∀ (l : List ubi_k_module) (ml : List ubi_b_module_entry) (S : Ubi)
      (ml' : List ubi_b_module_entry) (S' : Ubi),
      kernel_modules_loop K fuel l ml S = some (TSX_SUCCESS, ml', S') →
      ∃ new, ml' = ml ++ new ∧ Loaded K S (l.map (fun e => e.path)) new := by
  intro l
  induction l with
  | nil =>
    intro ml S ml' S' h
    simp only [kernel_modules_loop] at h
    cases h
    exact ⟨[], by simp, rfl, by simp⟩
  | cons e rest ih =>
    intro ml S ml' S' h
    rw [kernel_modules_loop] at h
    cases hl : ubi_load_module K fuel ml e.path e.loadAddress S with
    | none => rw [hl] at h; cases h
    | some r =>
      obtain ⟨st1, ml1, S1⟩ := r
      rw [hl] at h
      simp only at h
      by_cases hst : st1 = TSX_SUCCESS
      · subst hst
        simp only [ne_eq, not_true_eq_false, if_false] at h
        obtain ⟨n1, e1, l1⟩ := ubi_load_module_ok _ _ _ _ _ _ _ _ hl
        obtain ⟨n2, e2, l2⟩ := ih _ _ _ _ h
        have hc := ubi_load_module_core _ _ _ _ _ _ _ _ _ hl
        refine ⟨n1 ++ n2, by rw [e2, e1, List.append_assoc], ?_⟩
        have := Loaded_append K S S1 hc _ _ _ _ l1 l2
        simpa using this
      · simp only [ne_eq, hst, not_false_eq_true, if_true] at h
        obtain ⟨h1, -⟩ := Prod.mk.inj (Option.some.inj h)
        exact absurd h1 hst

theorem config_modules_loop_ok (K : UbiEnv) (fuel : Nat) :
    ∀ (k : Nat) (cur : List Nat) (ml : List ubi_b_module_entry) (S : Ubi)
      (ml' : List ubi_b_module_entry) (S' : Ubi),
      config_modules_loop K fuel k cur ml S = some (TSX_SUCCESS, ml', S') →
      ∃ new, ml' = ml ++ new ∧ Loaded K S (split_colon cur) new := by
  intro k
  induction k with
  | zero => intro cur ml S ml' S' h; simp only [config_modules_loop] at h; cases h
  | succ k ih =>
    intro cur ml S ml' S' h
    rw [config_modules_loop] at h
    cases hl : ubi_load_module K fuel ml (cur.takeWhile (fun c => c != 58)) 0 S with
    | none => rw [hl] at h; cases h
    | some r =>
      obtain ⟨st1, ml1, S1⟩ := r
      rw [hl] at h
      simp only at h
      by_cases hst : st1 = TSX_SUCCESS
      · subst hst
        simp only [ne_eq, not_true_eq_false, if_false] at h
        obtain ⟨n1, e1, l1⟩ := ubi_load_module_ok _ _ _ _ _ _ _ _ hl
        have hc := ubi_load_module_core _ _ _ _ _ _ _ _ _ hl
        rw [split_colon_unfold cur]
        cases hd : cur.dropWhile (fun c => c != 58) with
        | nil =>
          rw [hd] at h
          simp only at h
          obtain ⟨-, h2⟩ := Prod.mk.inj (Option.some.inj h)
          obtain ⟨h3, -⟩ := Prod.mk.inj h2
          exact ⟨n1, by rw [← h3, e1], l1⟩
        | cons c next =>
          rw [hd] at h
          simp only at h
          obtain ⟨n2, e2, l2⟩ := ih _ _ _ _ _ h
          refine ⟨n1 ++ n2, by rw [e2, e1, List.append_assoc], ?_⟩
          have := Loaded_append K S S1 hc _ _ _ _ l1 l2
          simpa using this
      · simp only [ne_eq, hst, not_false_eq_true, if_true] at h
        obtain ⟨h1, -⟩ := Prod.mk.inj (Option.some.inj h)
        exact absurd h1 hst


theorem split_colon_length : ∀ (s : List Nat), (split_colon s).length = s.count 58 + 1 := by
  intro s
  induction s with
  | nil => simp [split_colon]
  | cons c cs ih =>
    by_cases hc : c = 58
    · subst hc
      simp [split_colon, ih]
    · rw [split_colon, if_neg hc]
      have hne : split_colon cs ≠ [] := by
        intro h0; rw [h0] at ih; simp at ih
      cases hsp : split_colon cs with
      | nil => exact absurd hsp hne
      | cons p ps =>
        rw [hsp] at ih
        simp only [List.length_cons] at ih ⊢
        rw [List.count_cons_of_ne (Ne.symm hc)]
        exact ih

theorem module_table_entries_aux (K : UbiEnv) (fuel : Nat)
    (tb : Option (List ubi_k_module)) (S S' : Ubi)
    (h : ubi_create_module_table K fuel tb S = some (TSX_SUCCESS, S')) :
    ∃ rest, S'.bmodules
        = { path := S.kernelPath, loadAddress := S.kernelImgLocation, size := S.kernelImgSize }
          :: rest ∧
      rest.map (fun e => e.path) = (tb.getD []).map (fun e => e.path) ++ config_items K ∧
      (∀ e ∈ rest, K.vfs_get_file_size (module_readpath S e.path) = (TSX_SUCCESS, e.size)) ∧
      S'.bmodules.length = 1 + (tb.getD []).length + (config_items K).length ∧
      (∀ s, K.modules = some s → (config_items K).length = s.count 58 + 1) := by
  unfold ubi_create_module_table at h
  cases h0 : new_table K UBI_B_MODULES_MAGIC S with
  | error st =>
    rw [h0] at h
    simp only at h
    obtain ⟨hst, -⟩ := Prod.mk.inj (Option.some.inj h)
    rw [new_table_error _ _ _ _ h0] at hst
    cases hst
  | ok S0 =>
    rw [h0] at h
    simp only at h
    obtain ⟨-, hS0⟩ := new_table_ok _ _ _ _ h0
    have hcore0 : ({ S0 with bmodules := [] } : Ubi).kernelPartition = S.kernelPartition := by
      rw [hS0]
    have hrp : ∀ p, module_readpath ({ S0 with bmodules := [] } : Ubi) p = module_readpath S p := by
      intro p; unfold module_readpath; rw [hcore0]
    have hk0 : S0.kernelPath = S.kernelPath ∧ S0.kernelImgLocation = S.kernelImgLocation ∧
        S0.kernelImgSize = S.kernelImgSize := by
      rw [hS0]; exact ⟨rfl, rfl, rfl⟩
    split at h
    · cases h
    · cases hk : kernel_modules_loop K fuel (tb.getD [])
          [{ path := S0.kernelPath, loadAddress := S0.kernelImgLocation,
             size := S0.kernelImgSize }]
          { S0 with bmodules := [] } with
      | none => rw [hk] at h; cases h
      | some r =>
        obtain ⟨st2, ml2, S2⟩ := r
        rw [hk] at h
        simp only at h
        by_cases hst2 : st2 = TSX_SUCCESS
        · subst hst2
          simp only [ne_eq, not_true_eq_false, if_false] at h
          obtain ⟨n1, e1, l1⟩ := kernel_modules_loop_ok _ _ _ _ _ _ _ hk
          have hc1 := kernel_modules_loop_core _ _ _ _ _ _ _ _ hk
          have key : ∀ r3 : Option (status_t × List ubi_b_module_entry × Ubi),
              (match r3 with
                | none => none
                | some (st3, ml3, S3) =>
                  if st3 ≠ TSX_SUCCESS then some (st3, S3)
                  else if K.kmalloc (ml3.length * sizeof_ubi_b_module_entry K.bits) = 0 then
                    some (TSX_OUT_OF_MEMORY, S3)
                  else some (TSX_SUCCESS, { S3 with bmodules := ml3 })) = some (TSX_SUCCESS, S') →
              ∃ ml3 S3, r3 = some (TSX_SUCCESS, ml3, S3) ∧ S'.bmodules = ml3 := by
            intro r3 hres
            cases r3 with
            | none => cases hres
            | some r =>
              obtain ⟨st3, ml3, S3⟩ := r
              simp only at hres
              by_cases hst3 : st3 = TSX_SUCCESS
              · subst hst3
                simp only [ne_eq, not_true_eq_false, if_false] at hres
                split at hres
                · cases hres
                · cases hres
                  exact ⟨ml3, S3, rfl, rfl⟩
              · simp only [ne_eq, hst3, not_false_eq_true, if_true] at hres
                obtain ⟨h1, -⟩ := Prod.mk.inj (Option.some.inj hres)
                exact absurd h1 hst3
          obtain ⟨ml3, S3, hr3, hbm⟩ := key _ h
          have hcfg : ∃ n2, Loaded K S2 (config_items K) n2 ∧
              S'.bmodules = ml2 ++ n2 := by
            unfold config_items
            cases hm : K.modules with
            | none =>
              rw [hm] at hr3
              simp only at hr3
              obtain ⟨-, h2⟩ := Prod.mk.inj (Option.some.inj hr3)
              obtain ⟨h3, -⟩ := Prod.mk.inj h2
              exact ⟨[], ⟨rfl, by simp⟩, by rw [hbm, ← h3]; simp⟩
            | some cfg =>
              rw [hm] at hr3
              simp only at hr3
              split at hr3
              · obtain ⟨h1, -⟩ := Prod.mk.inj (Option.some.inj hr3)
                cases h1
              · obtain ⟨n2, e2, l2⟩ := config_modules_loop_ok _ _ _ _ _ _ _ _ hr3
                exact ⟨n2, l2, by rw [hbm, e2]⟩
          obtain ⟨n2, l2, e2⟩ := hcfg
          have hall := Loaded_append K _ S2 hc1 _ _ _ _ l1 l2
          obtain ⟨hp, hs⟩ := hall
          rw [hk0.1, hk0.2.1, hk0.2.2] at e1
          refine ⟨n1 ++ n2, by rw [e2, e1]; simp, hp, ?_, ?_, ?_⟩
          · intro e he
            rw [← hrp]
            exact hs e he
          · rw [e2, e1]
            have hl : (n1 ++ n2).length = (tb.getD []).length + (config_items K).length := by
              have := congrArg List.length hp
              simpa using this
            simp only [List.length_append, List.length_cons, List.length_nil] at hl ⊢
            omega
          · intro s hs'
            unfold config_items
            rw [hs']
            exact split_colon_length s
        · simp only [ne_eq, hst2, not_false_eq_true, if_true] at h
          obtain ⟨h1, -⟩ := Prod.mk.inj (Option.some.inj h)
          exact absurd h1 hst2


theorem ubi_load_module_total (K : UbiEnv) (fuel : Nat) (ml : List ubi_b_module_entry)
    (path : List Nat) (S : Ubi) : ∃ r, ubi_load_module K fuel ml path 0 S = some r := by
  unfold ubi_load_module
  split
  · exact ⟨_, rfl⟩
  · dsimp only
    split
    · exact ⟨_, rfl⟩
    · simp only [ne_eq, not_true_eq_false, if_false]
      split
      · exact ⟨_, rfl⟩
      · split <;> exact ⟨_, rfl⟩

theorem kernel_modules_loop_total (K : UbiEnv) (fuel : Nat) :
    ∀ (l : List ubi_k_module) (ml : List ubi_b_module_entry) (S : Ubi),
      (∀ e ∈ l, e.loadAddress = 0) → ∃ r, kernel_modules_loop K fuel l ml S = some r := by
  intro l
  induction l with
  | nil => intro ml S _; exact ⟨_, rfl⟩
  | cons e rest ih =>
    intro ml S hall
    rw [kernel_modules_loop, hall e (List.mem_cons_self _ _)]
    obtain ⟨⟨st, ml1, S1⟩, hr⟩ := ubi_load_module_total K fuel ml e.path S
    rw [hr]
    simp only
    split
    · exact ⟨_, rfl⟩
    · exact ih _ _ (fun x hx => hall x (List.mem_cons_of_mem _ hx))

theorem dropWhile_length_le (p : Nat → Bool) : ∀ (l : List Nat), (l.dropWhile p).length ≤ l.length := by
  intro l
  induction l with
  | nil => simp
  | cons a t ih =>
    rw [List.dropWhile_cons]
    split
    · simp only [List.length_cons]; omega
    · exact le_refl _

theorem config_modules_loop_total (K : UbiEnv) (fuel : Nat) :
    ∀ (k : Nat) (cur : List Nat) (ml : List ubi_b_module_entry) (S : Ubi),
      cur.length < k → ∃ r, config_modules_loop K fuel k cur ml S = some r := by
  intro k
  induction k with
  | zero => intro cur ml S h; omega
  | succ k ih =>
    intro cur ml S hlen
    rw [config_modules_loop]
    obtain ⟨⟨st, ml1, S1⟩, hr⟩ :=
      ubi_load_module_total K fuel ml (cur.takeWhile (fun c => c != 58)) S
    rw [hr]
    simp only
    split
    · exact ⟨_, rfl⟩
    · cases hd : cur.dropWhile (fun c => c != 58) with
      | nil => exact ⟨_, rfl⟩
      | cons c next =>
        simp only
        apply ih
        have := dropWhile_length_le (fun c => c != 58) cur
        rw [hd, List.length_cons] at this
        omega

theorem module_table_total (K : UbiEnv) (fuel : Nat) (tb : Option (List ubi_k_module)) (S : Ubi)
    (hall : ∀ e ∈ tb.getD [], e.loadAddress = 0) :
    ∃ r, ubi_create_module_table K fuel tb S = some r := by
  cases hres : ubi_create_module_table K fuel tb S with
  | some r => exact ⟨r, rfl⟩
  | none =>
    exfalso
    unfold ubi_create_module_table at hres
    cases h0 : new_table K UBI_B_MODULES_MAGIC S with
    | error st => rw [h0] at hres; cases hres
    | ok S0 =>
      rw [h0] at hres
      simp only at hres
      split at hres
      · cases hres
      · obtain ⟨⟨st2, ml2, S2⟩, hk⟩ := kernel_modules_loop_total K fuel (tb.getD [])
          [{ path := S0.kernelPath, loadAddress := S0.kernelImgLocation,
             size := S0.kernelImgSize }] { S0 with bmodules := [] } hall
        rw [hk] at hres
        simp only at hres
        split at hres
        · cases hres
        · have fin : ∀ (st3 : status_t) (ml3 : List ubi_b_module_entry) (S3 : Ubi),
              (if st3 ≠ TSX_SUCCESS then some (st3, S3)
                else if K.kmalloc (ml3.length * sizeof_ubi_b_module_entry K.bits) = 0 then
                  some (TSX_OUT_OF_MEMORY, S3)
                else some (TSX_SUCCESS, ({ S3 with bmodules := ml3 } : Ubi))) = none → False := by
            intro st3 ml3 S3 hn
            split at hn
            · cases hn
            · split at hn <;> cases hn
          cases hm : K.modules with
          | none =>
            rw [hm] at hres
            simp only at hres
            exact fin _ _ _ hres
          | some cfg =>
            rw [hm] at hres
            simp only at hres
            obtain ⟨⟨st3, ml3, S3⟩, hr3⟩ := config_modules_loop_total K fuel (cfg.length + 1) cfg
              ml2 S2 (Nat.lt_succ_self _)
            rw [hr3] at hres
            by_cases hkm : K.kmalloc (cfg.length + 1) = 0
            · simp only [hkm, if_true] at hres
              exact fin _ _ _ hres
            · simp only [hkm, if_false] at hres
              exact fin _ _ _ hres

/-- C18. When no kernel-declared module asks for a load address, `ubi_create_module_table`
returns. Whenever it succeeds, the entries of `B_MODULES` are: first the kernel image itself
(kernel path, image address, image size), then one entry per kernel-declared module in
declared order, then one entry per item of the `:`-separated option `modules` in written
order; each of these entries has the size the file layer reported for the path it was read
from; the length is 1 plus the number of kernel-declared modules plus the number of
items, an option with `c` colons having `c + 1` items. -/
theorem ubi_create_module_table_entries (K : UbiEnv) (fuel : Nat)
    (tb : Option (List ubi_k_module)) (S : Ubi) :
    ((∀ e ∈ tb.getD [], e.loadAddress = 0) →
        ∃ r, ubi_create_module_table K fuel tb S = some r) ∧
      ∀ S', ubi_create_module_table K fuel tb S = some (TSX_SUCCESS, S') →
        ∃ rest, S'.bmodules
            = { path := S.kernelPath, loadAddress := S.kernelImgLocation,
                size := S.kernelImgSize } :: rest ∧
          rest.map (fun e => e.path) = (tb.getD []).map (fun e => e.path) ++ config_items K ∧
          (∀ e ∈ rest,
            K.vfs_get_file_size (module_readpath S e.path) = (TSX_SUCCESS, e.size)) ∧
          S'.bmodules.length = 1 + (tb.getD []).length + (config_items K).length ∧
          (∀ s, K.modules = some s → (config_items K).length = s.count 58 + 1) :=
  ⟨module_table_total K fuel tb S, fun S' h => module_table_entries_aux K fuel tb S S' h⟩


/-- Witness for C18: the sample boot, with `modules = "mod_a:mod_b"` and the kernel-declared
module `mod_k`: four entries, in the order kernel image, `mod_k`, `mod_a`, `mod_b`. -/
theorem ubi_create_module_table_entries_witness :
    (ubi_create_module_table example_env 4 example_image.kmod example_rooted).map
        (fun r => (r.1, r.2.bmodules))
      = some (TSX_SUCCESS,
          [{ path := [47, 107, 101, 114, 110, 101, 108], loadAddress := 0x800000,
             size := 0x240000 },
           { path := [109, 111, 100, 95, 107], loadAddress := 0x300000, size := 113 },
           { path := [109, 111, 100, 95, 97], loadAddress := 0x300000, size := 113 },
           { path := [109, 111, 100, 95, 98], loadAddress := 0x300000, size := 113 }]) := by
  decide

/-! ## Loading the segments -/

theorem seg_map_loop_log (bits secLoc vbase segSize : Nat) :
    ∀ (fuel addr : Nat) (S S' : Ubi),
      seg_map_loop bits secLoc vbase segSize fuel addr S = some S' →
      S'.core = S.core ∧ ∃ new, S'.log = S.log ++ new ∧
        ∀ ev ∈ new, ∃ phys a, a < segSize ∧ ev = Ev.map_page phys (word bits (vbase + a)) := by
  intro fuel
  induction fuel with
  | zero => intro addr S S' h; simp [seg_map_loop] at h
  | succ k ih =>
    intro addr S S' h
    rw [seg_map_loop] at h
    split at h
    · rename_i hlt
      split at h
      · exact ih _ _ _ h
      · obtain ⟨hc, new, hlog, hnew⟩ := ih _ _ _ h
        refine ⟨hc, Ev.map_page (word bits (secLoc + addr)) (word bits (vbase + addr)) :: new, ?_, ?_⟩
        · rw [hlog]
          simp [vmmgr_map_page]
        · intro ev hev
          rcases List.mem_cons.mp hev with he | he
          · exact ⟨_, addr, hlt, he⟩
          · exact hnew ev he
    · cases h
      exact ⟨rfl, [], by simp, by simp⟩

theorem load_segment_log (K : UbiEnv) (fuel vaddr vbase size fileoff filesz : Nat) (S S' : Ubi)
    (h : load_segment K fuel vaddr vbase size fileoff filesz S = some (TSX_SUCCESS, S')) :
    S'.core = S.core ∧ ∃ new, S'.log = S.log ++ new ∧
      new.filter is_fill = [Ev.memset (word K.bits vbase) size,
        Ev.memcpy (word K.bits vbase) (word K.bits (fileoff + S.ubi_kernel_location)) filesz] ∧
      maps_within K.bits [(vbase, word K.bits (size + vaddr % VMMGR_PAGE_SIZE))] new := by
  unfold load_segment at h
  dsimp only at h
  split at h
  · cases h
  · cases hm : seg_map_loop K.bits (K.mmgr_alloc_block_sequential size) vbase
        (word K.bits (size + vaddr % VMMGR_PAGE_SIZE)) fuel 0
        (mmgr_reserve_mem_region S (K.mmgr_alloc_block_sequential size) size) with
    | none => rw [hm] at h; cases h
    | some S2 =>
      rw [hm] at h
      simp only at h
      obtain ⟨hc, new, hlog, hnew⟩ := seg_map_loop_log _ _ _ _ _ _ _ _ hm
      cases h
      refine ⟨hc, Ev.reserve (K.mmgr_alloc_block_sequential size) size :: new ++
        [Ev.memset (word K.bits vbase) size,
          Ev.memcpy (word K.bits vbase) (word K.bits (fileoff + S.ubi_kernel_location)) filesz],
        ?_, ?_, ?_⟩
      · simp only [hlog, mmgr_reserve_mem_region]
        simp
      · have hnf : new.filter is_fill = [] := by
          rw [List.filter_eq_nil_iff]
          intro ev hev
          obtain ⟨phys, a, _, he⟩ := hnew ev hev
          rw [he]
          simp [is_fill]
        simp [List.filter_cons, List.filter_append, hnf, is_fill]
      · intro phys virt hmem
        simp only [List.cons_append, List.mem_cons, List.mem_append, List.mem_singleton,
          reduceCtorEq, false_or, or_false, List.not_mem_nil] at hmem
        obtain ⟨p, a, ha, he⟩ := hnew _ hmem
        cases he
        exact ⟨_, List.mem_singleton_self _, a, ha, rfl⟩


theorem maps_within_append (bits : Nat) (s1 s2 : List (Nat × Nat)) (n1 n2 : List Ev)
    (h1 : maps_within bits s1 n1) (h2 : maps_within bits s2 n2) :
    maps_within bits (s1 ++ s2) (n1 ++ n2) := by
  intro phys virt hmem
  rcases List.mem_append.mp hmem with hm | hm
  · obtain ⟨s, hs, a, ha, hv⟩ := h1 phys virt hm
    exact ⟨s, List.mem_append_left _ hs, a, ha, hv⟩
  · obtain ⟨s, hs, a, ha, hv⟩ := h2 phys virt hm
    exact ⟨s, List.mem_append_right _ hs, a, ha, hv⟩

theorem elf_segs_loop_log (K : UbiEnv) (fuel : Nat) :
    ∀ (phs : List elf_ph) (S S' : Ubi),
      elf_segs_loop K fuel phs S = some (TSX_SUCCESS, S') →
      S'.core = S.core ∧ ∃ new, S'.log = S.log ++ new ∧
        new.filter is_fill = ((phs.filter (fun ph => ph.p_type == ELF_PH_TYPE_LOAD)).map
          (elf_segment_fills K.bits S.ubi_kernel_offset S.ubi_kernel_location)).flatten ∧
        maps_within K.bits ((phs.filter (fun ph => ph.p_type == ELF_PH_TYPE_LOAD)).map
          (elf_place K.bits S.ubi_kernel_offset)) new := by
  intro phs
  induction phs with
  | nil =>
    intro S S' h
    simp only [elf_segs_loop] at h
    cases h
    exact ⟨rfl, [], by simp, by simp, by intro p v hm; cases hm⟩
  | cons ph rest ih =>
    intro S S' h
    rw [elf_segs_loop] at h
    by_cases hty : ph.p_type = ELF_PH_TYPE_LOAD
    · simp only [hty, ne_eq, not_true_eq_false, if_false] at h
      cases hl : load_segment K fuel ph.p_vaddr (ph.p_vaddr + S.ubi_kernel_offset) ph.p_memsz
          ph.p_offset ph.p_filesz S with
      | none => rw [hl] at h; cases h
      | some r =>
        obtain ⟨st, S1⟩ := r
        rw [hl] at h
        simp only at h
        by_cases hst : st = TSX_SUCCESS
        · subst hst
          simp only [ne_eq, not_true_eq_false, if_false] at h
          obtain ⟨c1, n1, l1, f1, m1⟩ := load_segment_log _ _ _ _ _ _ _ _ _ hl
          obtain ⟨c2, n2, l2, f2, m2⟩ := ih _ _ h
          obtain ⟨-, -, -, -, hloc, -, -, hoff, -⟩ := core_fields _ _ c1
          rw [hoff] at f2 m2
          rw [hloc] at f2
          refine ⟨c2.trans c1, n1 ++ n2, by rw [l2, l1, List.append_assoc], ?_, ?_⟩
          · have hb : (ph.p_type == ELF_PH_TYPE_LOAD) = true := by simpa using hty
            rw [List.filter_append, f1, f2, List.filter_cons, hb]
            simp [elf_segment_fills]
          · have hb : (ph.p_type == ELF_PH_TYPE_LOAD) = true := by simpa using hty
            rw [List.filter_cons, hb]
            simp only [if_true, List.map_cons]
            exact maps_within_append K.bits [_] _ n1 n2 m1 m2
        · simp only [ne_eq, hst, not_false_eq_true, if_true] at h
          obtain ⟨h1, -⟩ := Prod.mk.inj (Option.some.inj h)
          exact absurd h1 hst
    · simp only [hty, ne_eq, not_false_eq_true, if_true] at h
      have hb : (ph.p_type == ELF_PH_TYPE_LOAD) = false := by simpa using hty
      rw [List.filter_cons, hb]
      exact ih _ _ h

theorem pe_secs_loop_log (K : UbiEnv) (fuel : Nat) :
    ∀ (secs : List pe_section_header) (S S' : Ubi),
      pe_secs_loop K fuel secs S = some (TSX_SUCCESS, S') →
      S'.core = S.core ∧ ∃ new, S'.log = S.log ++ new ∧
        new.filter is_fill
          = (secs.map (pe_section_fills K.bits S.ubi_kernel_location)).flatten ∧
        maps_within K.bits (secs.map (pe_place K.bits)) new := by
  intro secs
  induction secs with
  | nil =>
    intro S S' h
    simp only [pe_secs_loop] at h
    cases h
    exact ⟨rfl, [], by simp, by simp, by intro p v hm; cases hm⟩
  | cons sec rest ih =>
    intro S S' h
    rw [pe_secs_loop] at h
    cases hl : load_segment K fuel sec.ps_vaddr sec.ps_vaddr sec.ps_vsize sec.ps_fileoff
        sec.ps_rawsize S with
    | none => rw [hl] at h; cases h
    | some r =>
      obtain ⟨st, S1⟩ := r
      rw [hl] at h
      simp only at h
      by_cases hst : st = TSX_SUCCESS
      · subst hst
        simp only [ne_eq, not_true_eq_false, if_false] at h
        obtain ⟨c1, n1, l1, f1, m1⟩ := load_segment_log _ _ _ _ _ _ _ _ _ hl
        obtain ⟨c2, n2, l2, f2, m2⟩ := ih _ _ h
        obtain ⟨-, -, -, -, hloc, -⟩ := core_fields _ _ c1
        rw [hloc] at f2
        refine ⟨c2.trans c1, n1 ++ n2, by rw [l2, l1, List.append_assoc], ?_, ?_⟩
        · rw [List.filter_append, f1, f2]
          simp [pe_section_fills]
        · simp only [List.map_cons]
          exact maps_within_append K.bits [_] _ n1 n2 m1 m2
      · simp only [ne_eq, hst, not_false_eq_true, if_true] at h
        obtain ⟨h1, -⟩ := Prod.mk.inj (Option.some.inj h)
        exact absurd h1 hst


theorem seg_map_loop_mono (bits secLoc vbase segSize : Nat) :
    ∀ (fuel addr : Nat) (S S' : Ubi),
      seg_map_loop bits secLoc vbase segSize fuel addr S = some S' → mapped_mono S S' := by
  intro fuel
  induction fuel with
  | zero => intro addr S S' h; simp [seg_map_loop] at h
  | succ n ih =>
    intro addr S S' h
    rw [seg_map_loop] at h
    split at h
    · split at h
      · exact ih _ _ _ h
      · intro p hp
        apply ih _ _ _ h p
        simp only [vmmgr_map_page]
        split
        · rfl
        · exact hp
    · cases h
      exact fun p hp => hp

theorem seg_map_loop_cover (bits secLoc vbase segSize : Nat)
    (hfit : segSize + VMMGR_PAGE_SIZE ≤ 2 ^ bits) :
    ∀ (fuel addr : Nat) (S S' : Ubi),
      seg_map_loop bits secLoc vbase segSize fuel addr S = some S' →
      mapped_mono S S' ∧ ∀ k, addr + k * VMMGR_PAGE_SIZE < segSize →
        vmmgr_is_address_accessible S' (word bits (vbase + (addr + k * VMMGR_PAGE_SIZE))) = true := by
  intro fuel
  induction fuel with
  | zero => intro addr S S' h; simp [seg_map_loop] at h
  | succ n ih =>
    intro addr S S' h
    rw [seg_map_loop] at h
    split at h
    · rename_i hlt
      have hw : word bits (addr + VMMGR_PAGE_SIZE) = addr + VMMGR_PAGE_SIZE :=
        Nat.mod_eq_of_lt (by omega)
      rw [hw] at h
      have step : ∀ S1 : Ubi, mapped_mono S S1 →
          vmmgr_is_address_accessible S1 (word bits (vbase + addr)) = true →
          seg_map_loop bits secLoc vbase segSize n (addr + VMMGR_PAGE_SIZE) S1 = some S' →
          mapped_mono S S' ∧ ∀ k, addr + k * VMMGR_PAGE_SIZE < segSize →
            vmmgr_is_address_accessible S'
              (word bits (vbase + (addr + k * VMMGR_PAGE_SIZE))) = true := by
        intro S1 hm1 hacc hrun
        obtain ⟨hm2, hcov⟩ := ih _ _ _ hrun
        refine ⟨fun p hp => hm2 p (hm1 p hp), ?_⟩
        intro k hk
        cases k with
        | zero =>
          simp only [Nat.zero_mul, Nat.add_zero]
          exact hm2 _ hacc
        | succ j =>
          have e : addr + (j + 1) * VMMGR_PAGE_SIZE
              = addr + VMMGR_PAGE_SIZE + j * VMMGR_PAGE_SIZE := by ring
          rw [e]
          exact hcov j (by rw [← e]; exact hk)
      split at h
      · rename_i hacc
        exact step S (fun p hp => hp) hacc h
      · refine step _ ?_ ?_ h
        · intro p hp
          simp only [vmmgr_map_page]
          split
          · rfl
          · exact hp
        · simp [vmmgr_is_address_accessible, vmmgr_map_page]
    · cases h
      refine ⟨fun p hp => hp, ?_⟩
      intro k hk
      have : addr ≤ addr + k * VMMGR_PAGE_SIZE := Nat.le_add_right _ _
      omega

theorem load_segment_cover (K : UbiEnv) (fuel vaddr vbase size fileoff filesz : Nat) (S S' : Ubi)
    (h : load_segment K fuel vaddr vbase size fileoff filesz S = some (TSX_SUCCESS, S')) :
    mapped_mono S S' ∧
      (word K.bits (size + vaddr % VMMGR_PAGE_SIZE) + VMMGR_PAGE_SIZE ≤ 2 ^ K.bits →
        ∀ k, k * VMMGR_PAGE_SIZE < word K.bits (size + vaddr % VMMGR_PAGE_SIZE) →
          vmmgr_is_address_accessible S' (word K.bits (vbase + k * VMMGR_PAGE_SIZE)) = true) := by
  unfold load_segment at h
  dsimp only at h
  split at h
  · cases h
  · cases hm : seg_map_loop K.bits (K.mmgr_alloc_block_sequential size) vbase
        (word K.bits (size + vaddr % VMMGR_PAGE_SIZE)) fuel 0
        (mmgr_reserve_mem_region S (K.mmgr_alloc_block_sequential size) size) with
    | none => rw [hm] at h; cases h
    | some S2 =>
      rw [hm] at h
      simp only at h
      cases h
      have hmono := seg_map_loop_mono _ _ _ _ _ _ _ _ hm
      constructor
      · exact fun p hp => hmono p hp
      · intro hfit k hk
        have := (seg_map_loop_cover _ _ _ _ hfit _ _ _ _ hm).2 k (by simpa using hk)
        simpa [vmmgr_is_address_accessible] using this

theorem elf_segs_loop_cover (K : UbiEnv) (fuel : Nat) :
    ∀ (phs : List elf_ph) (S S' : Ubi),
      elf_segs_loop K fuel phs S = some (TSX_SUCCESS, S') →
      mapped_mono S S' ∧ ∀ ph ∈ phs, ph.p_type = ELF_PH_TYPE_LOAD →
        (elf_place K.bits S.ubi_kernel_offset ph).2 + VMMGR_PAGE_SIZE ≤ 2 ^ K.bits →
        ∀ k, k * VMMGR_PAGE_SIZE < (elf_place K.bits S.ubi_kernel_offset ph).2 →
          vmmgr_is_address_accessible S'
            (word K.bits ((elf_place K.bits S.ubi_kernel_offset ph).1 + k * VMMGR_PAGE_SIZE))
            = true := by
  intro phs
  induction phs with
  | nil =>
    intro S S' h
    simp only [elf_segs_loop] at h
    cases h
    exact ⟨fun p hp => hp, by simp⟩
  | cons ph rest ih =>
    intro S S' h
    rw [elf_segs_loop] at h
    by_cases hty : ph.p_type = ELF_PH_TYPE_LOAD
    · simp only [hty, ne_eq, not_true_eq_false, if_false] at h
      cases hl : load_segment K fuel ph.p_vaddr (ph.p_vaddr + S.ubi_kernel_offset) ph.p_memsz
          ph.p_offset ph.p_filesz S with
      | none => rw [hl] at h; cases h
      | some r =>
        obtain ⟨st, S1⟩ := r
        rw [hl] at h
        simp only at h
        by_cases hst : st = TSX_SUCCESS
        · subst hst
          simp only [ne_eq, not_true_eq_false, if_false] at h
          obtain ⟨m1, cov1⟩ := load_segment_cover _ _ _ _ _ _ _ _ _ hl
          obtain ⟨m2, cov2⟩ := ih _ _ h
          obtain ⟨c1, -⟩ := load_segment_log _ _ _ _ _ _ _ _ _ hl
          obtain ⟨-, -, -, -, -, -, -, hoff, -⟩ := core_fields _ _ c1
          rw [hoff] at cov2
          refine ⟨fun p hp => m2 p (m1 p hp), ?_⟩
          intro q hq hqty hfit k hk
          rcases List.mem_cons.mp hq with he | he
          · subst he
            exact m2 _ (cov1 hfit k hk)
          · exact cov2 q he hqty hfit k hk
        · simp only [ne_eq, hst, not_false_eq_true, if_true] at h
          obtain ⟨h1, -⟩ := Prod.mk.inj (Option.some.inj h)
          exact absurd h1 hst
    · simp only [hty, ne_eq, not_false_eq_true, if_true] at h
      obtain ⟨m2, cov2⟩ := ih _ _ h
      refine ⟨m2, ?_⟩
      intro q hq hqty hfit k hk
      rcases List.mem_cons.mp hq with he | he
      · subst he; exact absurd hqty hty
      · exact cov2 q he hqty hfit k hk

theorem pe_secs_loop_cover (K : UbiEnv) (fuel : Nat) :
    ∀ (secs : List pe_section_header) (S S' : Ubi),
      pe_secs_loop K fuel secs S = some (TSX_SUCCESS, S') →
      mapped_mono S S' ∧ ∀ sec ∈ secs,
        (pe_place K.bits sec).2 + VMMGR_PAGE_SIZE ≤ 2 ^ K.bits →
        ∀ k, k * VMMGR_PAGE_SIZE < (pe_place K.bits sec).2 →
          vmmgr_is_address_accessible S'
            (word K.bits ((pe_place K.bits sec).1 + k * VMMGR_PAGE_SIZE)) = true := by
  intro secs
  induction secs with
  | nil =>
    intro S S' h
    simp only [pe_secs_loop] at h
    cases h
    exact ⟨fun p hp => hp, by simp⟩
  | cons sec rest ih =>
    intro S S' h
    rw [pe_secs_loop] at h
    cases hl : load_segment K fuel sec.ps_vaddr sec.ps_vaddr sec.ps_vsize sec.ps_fileoff
        sec.ps_rawsize S with
    | none => rw [hl] at h; cases h
    | some r =>
      obtain ⟨st, S1⟩ := r
      rw [hl] at h
      simp only at h
      by_cases hst : st = TSX_SUCCESS
      · subst hst
        simp only [ne_eq, not_true_eq_false, if_false] at h
        obtain ⟨m1, cov1⟩ := load_segment_cover _ _ _ _ _ _ _ _ _ hl
        obtain ⟨m2, cov2⟩ := ih _ _ h
        refine ⟨fun p hp => m2 p (m1 p hp), ?_⟩
        intro q hq hfit k hk
        rcases List.mem_cons.mp hq with he | he
        · subst he
          exact m2 _ (cov1 hfit k hk)
        · exact cov2 q he hfit k hk
      · simp only [ne_eq, hst, not_false_eq_true, if_true] at h
        obtain ⟨h1, -⟩ := Prod.mk.inj (Option.some.inj h)
        exact absurd h1 hst

theorem ubi_relocate_log (K : UbiEnv) (kmin kmax : Nat) (S : Ubi)
    (h : (ubi_relocate K kmin kmax S).1 = TSX_SUCCESS) :
    ∃ base, ubi_relocate_base K kmin kmax = some base ∧
      (ubi_relocate K kmin kmax S).2.core = S.core ∧
      (ubi_relocate K kmin kmax S).2.log = S.log ++ [Ev.relocate base] := by
  unfold ubi_relocate at h ⊢
  cases hb : ubi_relocate_base K kmin kmax with
  | none => rw [hb] at h; cases h
  | some base => exact ⟨base, rfl, rfl, rfl⟩

/-- C17 (as amended). Let `ubi_load_kernel_segs` succeed, with `offset` the value of
`ubi_kernel_offset`. In both cases the range handed to self-relocation is
`[ubi_kernel_base + offset, ubi_kernel_top + offset]` and `ubi_post_init` stores
`ubi_kernel_base + offset` in `B_MEM.kernelBase`. For an ELF kernel every `LOAD` segment
with virtual address `v` is zeroed and filled at `v + offset`, in program header order;
every page mapping made targets an address `v + offset + a` inside such a segment; every
page of a segment (one that does not reach the last page of the address space) is
accessible afterwards; and the kernel is entered at `e_entry + offset`. For a PE kernel
the same holds with `ps_vaddr` and `po_entry` alone: sections are placed and the kernel
is entered without the offset. -/
theorem ubi_load_kernel_segs_offset (K : UbiEnv) (fuel : Nat) (img : KernelImage) (S S' : Ubi)
    (hrun : ubi_load_kernel_segs K fuel img S = some (TSX_SUCCESS, S')) :
    (S.ubi_kernel_type = 1 → ∃ phs base new, img.ph = some phs ∧
        ubi_relocate_base K (word K.bits (S.ubi_kernel_base + S.ubi_kernel_offset))
          (word K.bits (S.ubi_kernel_top + S.ubi_kernel_offset)) = some base ∧
        S'.log = S.log ++ Ev.relocate base :: new ∧
        new.filter is_fill = ((phs.filter (fun ph => ph.p_type == ELF_PH_TYPE_LOAD)).map
          (elf_segment_fills K.bits S.ubi_kernel_offset S.ubi_kernel_location)).flatten ∧
        maps_within K.bits ((phs.filter (fun ph => ph.p_type == ELF_PH_TYPE_LOAD)).map
          (elf_place K.bits S.ubi_kernel_offset)) new ∧
        (∀ ph ∈ phs, ph.p_type = ELF_PH_TYPE_LOAD →
          (elf_place K.bits S.ubi_kernel_offset ph).2 + VMMGR_PAGE_SIZE ≤ 2 ^ K.bits →
          ∀ k, k * VMMGR_PAGE_SIZE < (elf_place K.bits S.ubi_kernel_offset ph).2 →
            vmmgr_is_address_accessible S'
              (word K.bits ((elf_place K.bits S.ubi_kernel_offset ph).1 + k * VMMGR_PAGE_SIZE))
              = true) ∧
        ubi_call_kernel K.bits img S' = some (word K.bits (img.e_entry + S.ubi_kernel_offset)) ∧
        (ubi_post_init_kernelBase K.bits S').bmem.kernelBase
          = word K.bits (S.ubi_kernel_base + S.ubi_kernel_offset)) ∧
    (S.ubi_kernel_type = 2 → ∃ secs base new, img.sections = some secs ∧
        ubi_relocate_base K (word K.bits (S.ubi_kernel_base + S.ubi_kernel_offset))
          (word K.bits (S.ubi_kernel_top + S.ubi_kernel_offset)) = some base ∧
        S'.log = S.log ++ Ev.relocate base :: new ∧
        new.filter is_fill
          = (secs.map (pe_section_fills K.bits S.ubi_kernel_location)).flatten ∧
        maps_within K.bits (secs.map (pe_place K.bits)) new ∧
        (∀ sec ∈ secs, (pe_place K.bits sec).2 + VMMGR_PAGE_SIZE ≤ 2 ^ K.bits →
          ∀ k, k * VMMGR_PAGE_SIZE < (pe_place K.bits sec).2 →
            vmmgr_is_address_accessible S'
              (word K.bits ((pe_place K.bits sec).1 + k * VMMGR_PAGE_SIZE)) = true) ∧
        ubi_call_kernel K.bits img S' = some img.po_entry ∧
        (ubi_post_init_kernelBase K.bits S').bmem.kernelBase
          = word K.bits (S.ubi_kernel_base + S.ubi_kernel_offset)) := by
  constructor
  · intro hty
    unfold ubi_load_kernel_segs at hrun
    simp only [hty, if_true] at hrun
    cases hph : img.ph with
    | none =>
      rw [hph] at hrun
      simp only at hrun
      obtain ⟨h1, -⟩ := Prod.mk.inj (Option.some.inj hrun)
      cases h1
    | some phs =>
      rw [hph] at hrun
      simp only at hrun
      by_cases hst : (ubi_relocate K (word K.bits (S.ubi_kernel_base + S.ubi_kernel_offset))
          (word K.bits (S.ubi_kernel_top + S.ubi_kernel_offset)) S).1 = TSX_SUCCESS
      · simp only [hst, ne_eq, not_true_eq_false, if_false] at hrun
        obtain ⟨base, hbase, hc0, hlog0⟩ := ubi_relocate_log K _ _ S hst
        split at hrun
        · obtain ⟨h1, -⟩ := Prod.mk.inj (Option.some.inj hrun)
          cases h1
        · obtain ⟨hc, new, hlog, hfill, hmaps⟩ := elf_segs_loop_log K fuel phs _ _ hrun
          obtain ⟨-, -, -, hty0, hloc0, hb0, -, hoff0, -⟩ := core_fields _ _ hc0
          obtain ⟨-, -, -, hty1, -, hb1, -, hoff1, -⟩ := core_fields _ _ hc
          obtain ⟨-, hcov⟩ := elf_segs_loop_cover K fuel phs _ _ hrun
          rw [hoff0] at hfill hmaps hcov
          rw [hloc0] at hfill
          refine ⟨phs, base, new, rfl, hbase, ?_, hfill, hmaps, hcov, ?_, ?_⟩
          · rw [hlog, hlog0]; simp
          · unfold ubi_call_kernel
            rw [hty1, hty0, hty, hoff1, hoff0]
            simp
          · unfold ubi_post_init_kernelBase
            simp only
            rw [hb1, hb0, hoff1, hoff0]
      · simp only [hst, ne_eq, not_false_eq_true, if_true] at hrun
        have := congrArg Prod.fst (Option.some.inj hrun)
        exact absurd this hst
  · intro hty
    unfold ubi_load_kernel_segs at hrun
    simp only [hty, show ¬ ((2 : Nat) = 1) by decide, if_false, if_true] at hrun
    cases hsec : img.sections with
    | none =>
      rw [hsec] at hrun
      simp only at hrun
      obtain ⟨h1, -⟩ := Prod.mk.inj (Option.some.inj hrun)
      cases h1
    | some secs =>
      rw [hsec] at hrun
      simp only at hrun
      by_cases hst : (ubi_relocate K (word K.bits (S.ubi_kernel_base + S.ubi_kernel_offset))
          (word K.bits (S.ubi_kernel_top + S.ubi_kernel_offset)) S).1 = TSX_SUCCESS
      · simp only [hst, ne_eq, not_true_eq_false, if_false] at hrun
        obtain ⟨base, hbase, hc0, hlog0⟩ := ubi_relocate_log K _ _ S hst
        obtain ⟨hc, new, hlog, hfill, hmaps⟩ := pe_secs_loop_log K fuel secs _ _ hrun
        obtain ⟨-, -, -, hty0, hloc0, hb0, -, hoff0, -⟩ := core_fields _ _ hc0
        obtain ⟨-, -, -, hty1, -, hb1, -, hoff1, -⟩ := core_fields _ _ hc
        obtain ⟨-, hcov⟩ := pe_secs_loop_cover K fuel secs _ _ hrun
        rw [hloc0] at hfill
        refine ⟨secs, base, new, rfl, hbase, ?_, hfill, hmaps, hcov, ?_, ?_⟩
        · rw [hlog, hlog0]; simp
        · unfold ubi_call_kernel
          rw [hty1, hty0, hty]
          simp
        · unfold ubi_post_init_kernelBase
          simp only
          rw [hb1, hb0, hoff1, hoff0]
      · simp only [hst, ne_eq, not_false_eq_true, if_true] at hrun
        have := congrArg Prod.fst (Option.some.inj hrun)
        exact absurd this hst


/-- Witness for C17 (as amended): the sample ELF kernel with the offset
`0xffff80002a955000`. -/
theorem ubi_load_kernel_segs_offset_witness :
    ubi_call_kernel 64 example_image example_segs_state = some 0xffff80002a956000 ∧
      (ubi_post_init_kernelBase 64 example_segs_state).bmem.kernelBase = 0xffff80002a955000 ∧
      example_segs_state.log.filter is_fill =
        [Ev.memset 0xffff80002a955000 0x3000, Ev.memcpy 0xffff80002a955000 0x801000 0x2800,
         Ev.memset 0xffff80002ab54000 0x1000, Ev.memcpy 0xffff80002ab54000 0x805000 0x800] := by
  obtain ⟨phs, base, new, -, -, -, -, -, -, hcall, hkb⟩ :=
    (ubi_load_kernel_segs_offset example_env 4 example_image example_kaslr_state
      example_segs_state rfl).1 rfl
  exact ⟨hcall.trans (by decide), hkb.trans (by decide), by decide⟩

/-- Counterexample to C17 as stated: a PE kernel with one section at `0x400000`, entry point
`0x400100` and `ubi_kernel_offset = 0x100000`. The section is zeroed and filled at
`0x400000` and the kernel is entered at `0x400100`, both without the offset, while
`B_MEM.kernelBase` becomes `0x500000` and the range handed to self-relocation starts
there. -/
theorem ubi_load_kernel_segs_pe_ignores_offset :
    (ubi_load_kernel_segs example_env 4 example_pe_image example_pe_state).map
        (fun r => (r.1, r.2.log.filter is_fill, ubi_call_kernel 64 example_pe_image r.2,
          (ubi_post_init_kernelBase 64 r.2).bmem.kernelBase))
      = some (TSX_SUCCESS,
          [Ev.memset 0x400000 0x2000, Ev.memcpy 0x400000 0x800400 0x1800],
          some 0x400100, 0x500000) := by
  decide

/-! ## The Linux loader -/

theorem hdr_values :
    hdr .setup_sects = 0x1f1 ∧ hdr .vid_mode = 0x1fa ∧ hdr .headerMagic = 0x202 ∧
    hdr .version = 0x206 ∧ hdr .type_of_loader = 0x210 ∧ hdr .loadflags = 0x211 ∧
    hdr .ramdisk_image = 0x218 ∧ hdr .ramdisk_size = 0x21c ∧ hdr .heap_end_ptr = 0x224 ∧
    hdr .cmd_line_ptr = 0x228 ∧ hdr .initrd_addr_max = 0x22c := by decide

theorem hdr_setup_sects : hdr .setup_sects = 0x1f1 := rfl
theorem hdr_vid_mode : hdr .vid_mode = 0x1fa := rfl
theorem hdr_headerMagic : hdr .headerMagic = 0x202 := rfl
theorem hdr_version : hdr .version = 0x206 := rfl
theorem hdr_type_of_loader : hdr .type_of_loader = 0x210 := rfl
theorem hdr_loadflags : hdr .loadflags = 0x211 := rfl
theorem hdr_ramdisk_image : hdr .ramdisk_image = 0x218 := rfl
theorem hdr_ramdisk_size : hdr .ramdisk_size = 0x21c := rfl
theorem hdr_heap_end_ptr : hdr .heap_end_ptr = 0x224 := rfl
theorem hdr_cmd_line_ptr : hdr .cmd_line_ptr = 0x228 := rfl
theorem hdr_initrd_addr_max : hdr .initrd_addr_max = 0x22c := rfl

theorem linux86_end_status (kl ks il is : Nat) (st : status_t) (S : Linux) :
    (linux86_end kl ks il is st S).1 = st := rfl

theorem linux86_end_regions (kl ks il is : Nat) (st : status_t) (S : Linux) :
    (linux86_end kl ks il is st S).2.regions = S.regions := by
  unfold linux86_end
  by_cases h1 : kl ≠ 0 <;> by_cases h2 : il ≠ 0 <;> simp [h1, h2]

theorem linux86_end_image (kl ks il is : Nat) (st : status_t) (S : Linux) :
    (linux86_end kl ks il is st S).2.image = S.image := by
  unfold linux86_end
  by_cases h1 : kl ≠ 0 <;> by_cases h2 : il ≠ 0 <;> simp [h1, h2]

theorem linux86_end_jump (kl ks il is : Nat) (st : status_t) (S : Linux) :
    (linux86_end kl ks il is st S).2.jump = S.jump := by
  unfold linux86_end
  by_cases h1 : kl ≠ 0 <;> by_cases h2 : il ≠ 0 <;> simp [h1, h2]

theorem rd8_lt (m : Mem) (o : Nat) : rd8 m o < 256 := by
  unfold rd8; omega

theorem setup_sect_size_eq (m : Mem) (o : Nat) :
    u32 ((rd8 m o + 1) * 0x200) = (rd8 m o + 1) * 512 := by
  have := rd8_lt m o
  unfold u32; omega

theorem wr8_other (m : Mem) (a v x : Nat) (h : x ≠ a) : wr8 m a v x = m x := by
  simp [wr8, h]

theorem wr16_other (m : Mem) (a v x : Nat) (h : x < a ∨ a + 2 ≤ x) : wr16 m a v x = m x := by
  unfold wr16
  have h0 : x ≠ a := by omega
  have h1 : x ≠ a + 1 := by omega
  simp [h0, h1]

theorem rd8_congr (m m' : Mem) (a : Nat) (h : m' a = m a) : rd8 m' a = rd8 m a := by
  simp only [rd8, h]

theorem rd16_congr (m m' : Mem) (a : Nat) (h : ∀ x, a ≤ x → x < a + 2 → m' x = m x) :
    rd16 m' a = rd16 m a := by
  simp only [rd16, rd8]
  rw [h a (by omega) (by omega), h (a + 1) (by omega) (by omega)]

theorem patched_early_other (m0 : Mem) (x : Nat) (h1 : x ≠ 0x1fa) (h2 : x ≠ 0x1fb)
    (h3 : x ≠ 0x210) : patched_early m0 x = m0 x := by
  unfold patched_early
  rw [wr8_other _ _ _ _ h3, wr16_other _ _ _ _ (by omega)]

theorem patched_early_setup_sects (m0 : Mem) : rd8 (patched_early m0) 0x1f1 = rd8 m0 0x1f1 :=
  rd8_congr _ _ _ (patched_early_other m0 _ (by decide) (by decide) (by decide))

theorem patched_early_version (m0 : Mem) : rd16 (patched_early m0) 0x206 = rd16 m0 0x206 :=
  rd16_congr _ _ _ (fun x h1 h2 =>
    patched_early_other m0 _ (by omega) (by omega) (by omega))

theorem patched_early_initrd_addr_max (m0 : Mem) :
    rd32 (patched_early m0) 0x22c = rd32 m0 0x22c :=
  rd32_congr _ _ _ (fun x h1 h2 =>
    patched_early_other m0 _ (by omega) (by omega) (by omega))

/-- A kernel file that passes the three checks: `linux86_start` stores `vid_mode` and
`type_of_loader`, registers the first two regions and goes on with `linux86_initrd`. -/
theorem linux86_start_accepted (L : LinuxEnv) (k i a : cstring) (S : Linux) (kp : List Nat)
    (hk : L.kernel_write_boot_file k.chars = some kp)
    (hr : (L.kernel_read_file kp).1 = TSX_SUCCESS)
    (hm : rd32 (L.file_data kp) 0x202 = 0x53726448)
    (hv : 0x202 ≤ rd16 (L.file_data kp) 0x206)
    (hl : rd8 (L.file_data kp) 0x211 &&& 1 ≠ 0) :
    linux86_start L k i a S =
      linux86_initrd L (L.kernel_read_file kp).2.1 (L.kernel_read_file kp).2.2 i a
        { S with
          image := patched_early (L.file_data kp)
          regions := S.regions ++
            [(0x70000, (rd8 (L.file_data kp) 0x1f1 + 1) * 512, (L.kernel_read_file kp).2.1),
             (0x100000,
              wsub L.bits (L.kernel_read_file kp).2.2 ((rd8 (L.file_data kp) 0x1f1 + 1) * 512),
              word L.bits
                ((L.kernel_read_file kp).2.1 + (rd8 (L.file_data kp) 0x1f1 + 1) * 512))] } := by
  have hv' : ¬ rd16 (L.file_data kp) 0x206 < 0x202 := by omega
  have e : patched_early (L.file_data kp) = wr8 (wr16 (L.file_data kp) 0x1fa 0xffff) 0x210 0xff :=
    rfl
  unfold linux86_start
  simp only [hk, hr, hdr_headerMagic, hdr_version, hdr_loadflags, hdr_vid_mode,
    hdr_type_of_loader, hdr_setup_sects, LINUX86_HEADER_MAGIC, LINUX86_BASE_PTR]
  simp only [ne_eq, not_true, if_false, hm, hv', hl, not_false_eq_true, if_true, ← e,
    setup_sect_size_eq, patched_early_setup_sects, List.append_assoc, List.singleton_append]

/-- A kernel file that fails one of the three checks: the status, and nothing registered. -/
theorem linux86_start_rejected (L : LinuxEnv) (k i a : cstring) (S : Linux) (kp : List Nat)
    (hk : L.kernel_write_boot_file k.chars = some kp)
    (hr : (L.kernel_read_file kp).1 = TSX_SUCCESS) :
    (rd32 (L.file_data kp) 0x202 ≠ 0x53726448 →
      (linux86_start L k i a S).1 = TSX_INVALID_FORMAT ∧
      (linux86_start L k i a S).2.regions = S.regions ∧
      (linux86_start L k i a S).2.jump = S.jump) ∧
    (rd32 (L.file_data kp) 0x202 = 0x53726448 → rd16 (L.file_data kp) 0x206 < 0x202 →
      (linux86_start L k i a S).1 = TSX_UNSUPPORTED ∧
      (linux86_start L k i a S).2.regions = S.regions ∧
      (linux86_start L k i a S).2.jump = S.jump) ∧
    (rd32 (L.file_data kp) 0x202 = 0x53726448 → 0x202 ≤ rd16 (L.file_data kp) 0x206 →
      rd8 (L.file_data kp) 0x211 &&& 1 = 0 →
      (linux86_start L k i a S).1 = TSX_UNSUPPORTED ∧
      (linux86_start L k i a S).2.regions = S.regions ∧
      (linux86_start L k i a S).2.jump = S.jump) := by
  refine ⟨?_, ?_, ?_⟩
  · intro hm
    unfold linux86_start
    simp only [hk, hr, hdr_headerMagic, LINUX86_HEADER_MAGIC]
    simp only [ne_eq, not_true, if_false, hm, not_false_eq_true, if_true]
    exact ⟨rfl, linux86_end_regions _ _ _ _ _ _, linux86_end_jump _ _ _ _ _ _⟩
  · intro hm hv
    unfold linux86_start
    simp only [hk, hr, hdr_headerMagic, hdr_version, LINUX86_HEADER_MAGIC]
    simp only [ne_eq, not_true, if_false, hm, hv, not_false_eq_true, if_true]
    exact ⟨rfl, linux86_end_regions _ _ _ _ _ _, linux86_end_jump _ _ _ _ _ _⟩
  · intro hm hv hl
    have hv' : ¬ rd16 (L.file_data kp) 0x206 < 0x202 := by omega
    unfold linux86_start
    simp only [hk, hr, hdr_headerMagic, hdr_version, hdr_loadflags, LINUX86_HEADER_MAGIC]
    simp only [ne_eq, not_true, if_false, hm, hv', hl, not_false_eq_true, if_true]
    exact ⟨rfl, linux86_end_regions _ _ _ _ _ _, linux86_end_jump _ _ _ _ _ _⟩

theorem patched_late_loadflags_src (m : Mem) (x y : Nat) :
    rd8 (wr16 (wr32 (wr32 m 0x218 x) 0x21c y) 0x224 0xde00) 0x211 = rd8 m 0x211 := by
  apply rd8_congr
  rw [wr16_other _ _ _ _ (by decide), wr32_other _ _ _ _ (by decide),
    wr32_other _ _ _ _ (by decide)]

/-- What `linux86_initrd` does when the initrd is read: it fails with `TSX_ERROR` and changes
nothing but the released buffers when the end of the initrd exceeds the limit, and
otherwise stores the five fields, registers the command line and calls `kernel_jump`. -/
theorem linux86_initrd_read (L : LinuxEnv) (kl ks : Nat) (i a : cstring) (S : Linux)
    (ip : List Nat) (hi : L.kernel_write_boot_file i.chars = some ip)
    (hr : (L.kernel_read_file ip).1 = TSX_SUCCESS) :
    (initrd_limit S.image <
        word L.bits ((L.kernel_read_file ip).2.1 + (L.kernel_read_file ip).2.2) →
      (linux86_initrd L kl ks i a S).1 = TSX_ERROR ∧
      (linux86_initrd L kl ks i a S).2.regions = S.regions ∧
      (linux86_initrd L kl ks i a S).2.jump = S.jump ∧
      (linux86_initrd L kl ks i a S).2.image = S.image) ∧
    (word L.bits ((L.kernel_read_file ip).2.1 + (L.kernel_read_file ip).2.2) ≤
        initrd_limit S.image →
      (linux86_initrd L kl ks i a S).1 = TSX_SUCCESS ∧
      (linux86_initrd L kl ks i a S).2.regions =
        S.regions ++ [(0x7e000, min 0x2000 a.chars.length, a.addr)] ∧
      (linux86_initrd L kl ks i a S).2.jump = some linux86_entry ∧
      (linux86_initrd L kl ks i a S).2.image =
        patched_late S.image (L.kernel_read_file ip).2.1 (L.kernel_read_file ip).2.2) := by
  refine ⟨?_, ?_⟩
  · intro h
    have h' : word L.bits ((L.kernel_read_file ip).2.1 + (L.kernel_read_file ip).2.2) >
        (if rd16 S.image 0x206 ≥ 0x203 then rd32 S.image 0x22c else 0x37ffffff) := h
    unfold linux86_initrd
    simp only [hi, hr, hdr_version, hdr_initrd_addr_max]
    simp only [ne_eq, not_true, if_false, h', if_true]
    exact ⟨rfl, linux86_end_regions _ _ _ _ _ _, linux86_end_jump _ _ _ _ _ _,
      linux86_end_image _ _ _ _ _ _⟩
  · intro h
    have h' : ¬ (word L.bits ((L.kernel_read_file ip).2.1 + (L.kernel_read_file ip).2.2) >
        (if rd16 S.image 0x206 ≥ 0x203 then rd32 S.image 0x22c else 0x37ffffff)) := by
      unfold initrd_limit at h
      exact Nat.not_lt.mpr h
    unfold linux86_initrd
    simp only [hi, hr, hdr_version, hdr_initrd_addr_max, hdr_ramdisk_image, hdr_ramdisk_size,
      hdr_heap_end_ptr, hdr_loadflags, hdr_cmd_line_ptr]
    simp only [ne_eq, not_true, if_false, h', linux86_end_regions, linux86_end_jump,
      linux86_end_image, linux86_end_status, hr, rd32_wr32, patched_late_loadflags_src]
    refine ⟨trivial, ?_, ?_, ?_⟩
    · rfl
    · rfl
    · rfl

/-- What `linux86_initrd` does when the initrd is not read. -/
theorem linux86_initrd_unread (L : LinuxEnv) (kl ks : Nat) (i a : cstring) (S : Linux)
    (h : L.kernel_write_boot_file i.chars = none ∨
      ∃ ip, L.kernel_write_boot_file i.chars = some ip ∧
        (L.kernel_read_file ip).1 ≠ TSX_SUCCESS) :
    (linux86_initrd L kl ks i a S).1 ≠ TSX_SUCCESS ∧
    (linux86_initrd L kl ks i a S).2.regions = S.regions ∧
    (linux86_initrd L kl ks i a S).2.jump = S.jump ∧
    (linux86_initrd L kl ks i a S).2.image = S.image := by
  rcases h with h | ⟨ip, hi, hr⟩
  · unfold linux86_initrd
    simp only [h]
    refine ⟨?_, linux86_end_regions _ _ _ _ _ _, linux86_end_jump _ _ _ _ _ _,
      linux86_end_image _ _ _ _ _ _⟩
    rw [linux86_end_status]; decide
  · unfold linux86_initrd
    simp only [hi]
    simp only [ne_eq, hr, not_false_eq_true, if_true]
    exact ⟨hr, linux86_end_regions _ _ _ _ _ _, linux86_end_jump _ _ _ _ _ _,
      linux86_end_image _ _ _ _ _ _⟩

/-- Either way `linux86_initrd` ends: with success, the command line registered and the
jump made, or with a failure and neither. -/
theorem linux86_initrd_outcome (L : LinuxEnv) (kl ks : Nat) (i a : cstring) (S : Linux) :
    ((linux86_initrd L kl ks i a S).1 = TSX_SUCCESS ∧
      (linux86_initrd L kl ks i a S).2.regions =
        S.regions ++ [(0x7e000, min 0x2000 a.chars.length, a.addr)] ∧
      (linux86_initrd L kl ks i a S).2.jump = some linux86_entry) ∨
    ((linux86_initrd L kl ks i a S).1 ≠ TSX_SUCCESS ∧
      (linux86_initrd L kl ks i a S).2.regions = S.regions ∧
      (linux86_initrd L kl ks i a S).2.jump = S.jump) := by
  cases hi : L.kernel_write_boot_file i.chars with
  | none =>
    obtain ⟨h1, h2, h3, -⟩ := linux86_initrd_unread L kl ks i a S (Or.inl hi)
    exact Or.inr ⟨h1, h2, h3⟩
  | some ip =>
    by_cases hr : (L.kernel_read_file ip).1 = TSX_SUCCESS
    · by_cases hc : initrd_limit S.image <
          word L.bits ((L.kernel_read_file ip).2.1 + (L.kernel_read_file ip).2.2)
      · obtain ⟨h1, h2, h3, -⟩ := (linux86_initrd_read L kl ks i a S ip hi hr).1 hc
        refine Or.inr ⟨?_, h2, h3⟩
        rw [h1]; decide
      · obtain ⟨h1, h2, h3, -⟩ :=
          (linux86_initrd_read L kl ks i a S ip hi hr).2 (Nat.not_lt.mp hc)
        exact Or.inl ⟨h1, h2, h3⟩
    · obtain ⟨h1, h2, h3, -⟩ := linux86_initrd_unread L kl ks i a S (Or.inr ⟨ip, hi, hr⟩)
      exact Or.inr ⟨h1, h2, h3⟩

/-- The jump `linux86_start` leaves: made exactly when it returns success. -/
theorem linux86_start_outcome (L : LinuxEnv) (k i a : cstring) (S : Linux) :
    ((linux86_start L k i a S).1 = TSX_SUCCESS ∧
      (linux86_start L k i a S).2.jump = some linux86_entry) ∨
    ((linux86_start L k i a S).1 ≠ TSX_SUCCESS ∧ (linux86_start L k i a S).2.jump = S.jump) := by
  cases hk : L.kernel_write_boot_file k.chars with
  | none =>
    right
    unfold linux86_start
    simp only [hk]
    refine ⟨?_, linux86_end_jump _ _ _ _ _ _⟩
    rw [linux86_end_status]; decide
  | some kp =>
    by_cases hr : (L.kernel_read_file kp).1 = TSX_SUCCESS
    · by_cases hm : rd32 (L.file_data kp) 0x202 = 0x53726448
      · by_cases hv : 0x202 ≤ rd16 (L.file_data kp) 0x206
        · by_cases hl : rd8 (L.file_data kp) 0x211 &&& 1 = 0
          · obtain ⟨h1, -, h3⟩ := (linux86_start_rejected L k i a S kp hk hr).2.2 hm hv hl
            right
            refine ⟨?_, h3⟩
            rw [h1]; decide
          · rw [linux86_start_accepted L k i a S kp hk hr hm hv hl]
            rcases linux86_initrd_outcome L (L.kernel_read_file kp).2.1
              (L.kernel_read_file kp).2.2 i a _ with ⟨h1, -, h3⟩ | ⟨h1, -, h3⟩
            · exact Or.inl ⟨h1, h3⟩
            · exact Or.inr ⟨h1, h3⟩
        · obtain ⟨h1, -, h3⟩ :=
            (linux86_start_rejected L k i a S kp hk hr).2.1 hm (Nat.not_le.mp hv)
          right
          refine ⟨?_, h3⟩
          rw [h1]; decide
      · obtain ⟨h1, -, h3⟩ := (linux86_start_rejected L k i a S kp hk hr).1 hm
        right
        refine ⟨?_, h3⟩
        rw [h1]; decide
    · right
      unfold linux86_start
      simp only [hk]
      simp only [ne_eq, hr, not_false_eq_true, if_true]
      exact ⟨hr, linux86_end_jump _ _ _ _ _ _⟩

/-- C22. `kboot_start` of the Linux loader returns `TSX_UNSUPPORTED` on UEFI firmware without
doing anything; on other firmware it returns `TSX_MISSING_ARGUMENTS`, again without doing
anything, when one of the options `kernel`, `initrd`, `args` is absent, and is
`linux86_start` on the three options when all are present. Once the kernel file is read,
`linux86_start` returns `TSX_INVALID_FORMAT` when the magic at file offset `0x202` is not
`0x53726448`, whatever the other fields are; with the right magic it returns
`TSX_UNSUPPORTED` when the version at `0x206` is below `0x202`; with the right magic and a
version of at least `0x202` it returns `TSX_UNSUPPORTED` when bit 0 of `loadflags` at `0x211`
is clear; each rejection registers no region. A file that passes the three checks is not
rejected: the loader goes on to register the real-mode setup region. -/
theorem kboot_start_validation (L : LinuxEnv) (entry : parse_entry) (S : Linux) :
    (L.uefi = true → linux86.kboot_start L entry S = (TSX_UNSUPPORTED, S)) ∧
    (L.uefi = false →
      ((entry.kernel = none ∨ entry.initrd = none ∨ entry.args = none) →
        linux86.kboot_start L entry S = (TSX_MISSING_ARGUMENTS, S)) ∧
      (∀ k i a, entry.kernel = some k → entry.initrd = some i → entry.args = some a →
        linux86.kboot_start L entry S = linux86_start L k i a S)) ∧
    (∀ (k i a : cstring) (kp : List Nat), L.kernel_write_boot_file k.chars = some kp →
      (L.kernel_read_file kp).1 = TSX_SUCCESS →
      (rd32 (L.file_data kp) 0x202 ≠ 0x53726448 →
        (linux86_start L k i a S).1 = TSX_INVALID_FORMAT ∧
        (linux86_start L k i a S).2.regions = S.regions) ∧
      (rd32 (L.file_data kp) 0x202 = 0x53726448 → rd16 (L.file_data kp) 0x206 < 0x202 →
        (linux86_start L k i a S).1 = TSX_UNSUPPORTED ∧
        (linux86_start L k i a S).2.regions = S.regions) ∧
      (rd32 (L.file_data kp) 0x202 = 0x53726448 → 0x202 ≤ rd16 (L.file_data kp) 0x206 →
        rd8 (L.file_data kp) 0x211 &&& 1 = 0 →
        (linux86_start L k i a S).1 = TSX_UNSUPPORTED ∧
        (linux86_start L k i a S).2.regions = S.regions) ∧
      (rd32 (L.file_data kp) 0x202 = 0x53726448 → 0x202 ≤ rd16 (L.file_data kp) 0x206 →
        rd8 (L.file_data kp) 0x211 &&& 1 ≠ 0 →
        (S.regions ++ [(0x70000, (rd8 (L.file_data kp) 0x1f1 + 1) * 512,
          (L.kernel_read_file kp).2.1)]) <+: (linux86_start L k i a S).2.regions)) := by
  refine ⟨?_, ?_, ?_⟩
  · intro hu
    simp [linux86.kboot_start, hu]
  · intro hu
    refine ⟨?_, ?_⟩
    · intro h
      unfold linux86.kboot_start
      simp only [hu]
      rcases h with h | h | h
      · rw [h]; rfl
      · rw [h]; cases entry.kernel <;> rfl
      · rw [h]; cases entry.kernel <;> cases entry.initrd <;> rfl
    · intro k i a hk hi ha
      unfold linux86.kboot_start
      simp only [hu, hk, hi, ha]
      rfl
  · intro k i a kp hk hr
    obtain ⟨r1, r2, r3⟩ := linux86_start_rejected L k i a S kp hk hr
    refine ⟨fun hm => ⟨(r1 hm).1, (r1 hm).2.1⟩, fun hm hv => ⟨(r2 hm hv).1, (r2 hm hv).2.1⟩,
      fun hm hv hl => ⟨(r3 hm hv hl).1, (r3 hm hv hl).2.1⟩, ?_⟩
    intro hm hv hl
    rw [linux86_start_accepted L k i a S kp hk hr hm hv hl]
    rcases linux86_initrd_outcome L (L.kernel_read_file kp).2.1 (L.kernel_read_file kp).2.2 i a
      { S with
        image := patched_early (L.file_data kp)
        regions := S.regions ++
          [(0x70000, (rd8 (L.file_data kp) 0x1f1 + 1) * 512, (L.kernel_read_file kp).2.1),
           (0x100000,
            wsub L.bits (L.kernel_read_file kp).2.2 ((rd8 (L.file_data kp) 0x1f1 + 1) * 512),
            word L.bits
              ((L.kernel_read_file kp).2.1 + (rd8 (L.file_data kp) 0x1f1 + 1) * 512))] }
      with ⟨-, h2, -⟩ | ⟨-, h2, -⟩
    · rw [h2]
      simp only [List.append_assoc, List.cons_append, List.nil_append]
      exact (List.prefix_append_right_inj _).mpr ⟨_, rfl⟩
    · rw [h2]
      exact (List.prefix_append_right_inj _).mpr ⟨_, rfl⟩

/-- The sample kernel passes the three checks, and the loader registers its five setup
sectors from `0x1000000`. -/
theorem kboot_start_validation_witness :
    ([] ++ [(0x70000, (4 + 1) * 512, 0x1000000)]) <+:
      (linux86_start example_linux_env ⟨0x5000, [107]⟩ ⟨0x5010, [105]⟩ ⟨0x5020, []⟩
        example_linux_state).2.regions :=
  ((kboot_start_validation example_linux_env example_linux_entry example_linux_state).2.2
    ⟨0x5000, [107]⟩ ⟨0x5010, [105]⟩ ⟨0x5020, []⟩ [107] rfl rfl).2.2.2
    (by decide) (by decide) (by decide)

/-- C23. For a kernel file of size `K` that is read to `kernelLocation` and passes the three
checks, with `s` its `setup_sects` byte, `linux86_start` registers, after the regions already
known, the real-mode setup `(0x70000, (s+1)*512, kernelLocation)`, then the protected-mode
kernel `(0x100000, K - (s+1)*512, kernelLocation + (s+1)*512)`, and, when it returns success,
the command line `(0x7e000, min(0x2000, len(args)), args)` and nothing else; when it fails
after the checks only the first two. The second length and source are computed in `size_t`;
they are the natural-number difference and sum when the setup fits in the file and the
source lies in the address space. -/
theorem linux86_start_regions (L : LinuxEnv) (k i a : cstring) (S : Linux) (kp : List Nat)
    (hk : L.kernel_write_boot_file k.chars = some kp)
    (hr : (L.kernel_read_file kp).1 = TSX_SUCCESS)
    (hm : rd32 (L.file_data kp) 0x202 = 0x53726448)
    (hv : 0x202 ≤ rd16 (L.file_data kp) 0x206)
    (hl : rd8 (L.file_data kp) 0x211 &&& 1 ≠ 0) :
    (linux86_start L k i a S).2.regions = S.regions ++
      [(0x70000, (rd8 (L.file_data kp) 0x1f1 + 1) * 512, (L.kernel_read_file kp).2.1),
       (0x100000,
        wsub L.bits (L.kernel_read_file kp).2.2 ((rd8 (L.file_data kp) 0x1f1 + 1) * 512),
        word L.bits ((L.kernel_read_file kp).2.1 + (rd8 (L.file_data kp) 0x1f1 + 1) * 512))] ++
      (if (linux86_start L k i a S).1 = TSX_SUCCESS
        then [(0x7e000, min 0x2000 a.chars.length, a.addr)] else []) ∧
    ((rd8 (L.file_data kp) 0x1f1 + 1) * 512 ≤ (L.kernel_read_file kp).2.2 →
      (L.kernel_read_file kp).2.2 < 2 ^ L.bits →
      wsub L.bits (L.kernel_read_file kp).2.2 ((rd8 (L.file_data kp) 0x1f1 + 1) * 512) =
        (L.kernel_read_file kp).2.2 - (rd8 (L.file_data kp) 0x1f1 + 1) * 512) ∧
    ((L.kernel_read_file kp).2.1 + (rd8 (L.file_data kp) 0x1f1 + 1) * 512 < 2 ^ L.bits →
      word L.bits ((L.kernel_read_file kp).2.1 + (rd8 (L.file_data kp) 0x1f1 + 1) * 512) =
        (L.kernel_read_file kp).2.1 + (rd8 (L.file_data kp) 0x1f1 + 1) * 512) := by
  refine ⟨?_, fun h1 h2 => wsub_eq _ _ _ h1 h2, fun h => Nat.mod_eq_of_lt h⟩
  rw [linux86_start_accepted L k i a S kp hk hr hm hv hl]
  rcases linux86_initrd_outcome L (L.kernel_read_file kp).2.1 (L.kernel_read_file kp).2.2 i a
    { S with
      image := patched_early (L.file_data kp)
      regions := S.regions ++
        [(0x70000, (rd8 (L.file_data kp) 0x1f1 + 1) * 512, (L.kernel_read_file kp).2.1),
         (0x100000,
          wsub L.bits (L.kernel_read_file kp).2.2 ((rd8 (L.file_data kp) 0x1f1 + 1) * 512),
          word L.bits
            ((L.kernel_read_file kp).2.1 + (rd8 (L.file_data kp) 0x1f1 + 1) * 512))] }
    with ⟨h1, h2, -⟩ | ⟨h1, h2, -⟩
  · rw [h2]
    simp only [h1, if_true]
  · rw [h2]
    simp only [h1, if_false, List.append_nil]

/-- The sample boot registers the setup (5 sectors), the rest of the 3 MiB kernel file and
the 8 characters of the command line. -/
theorem linux86_start_regions_witness :
    (linux86_start example_linux_env ⟨0x5000, [107]⟩ ⟨0x5010, [105]⟩
        ⟨0x5020, [114, 111, 32, 113, 117, 105, 101, 116]⟩ example_linux_state).2.regions =
      [(0x70000, 0xa00, 0x1000000), (0x100000, 0x300000 - 0xa00, 0x1000a00),
       (0x7e000, 8, 0x5020)] :=
  (linux86_start_regions example_linux_env ⟨0x5000, [107]⟩ ⟨0x5010, [105]⟩
    ⟨0x5020, [114, 111, 32, 113, 117, 105, 101, 116]⟩ example_linux_state [107] rfl rfl
    (by decide) (by decide) (by decide)).1.trans (by decide)

theorem initrd_limit_lt (m : Mem) : initrd_limit m < 2 ^ 32 := by
  unfold initrd_limit
  split
  · have h1 := rd8_lt m 0x22c
    have h2 := rd8_lt m (0x22c + 1)
    have h3 := rd8_lt m (0x22c + 2)
    have h4 := rd8_lt m (0x22c + 2 + 1)
    simp only [rd32, rd16]
    omega
  · decide

/-- C25 (as amended). Let the kernel file be read and pass the three checks, and let the
initrd be read to a buffer lying inside the address space: its address plus its size is
below `2^bits`. Then `linux86_start` returns `TSX_ERROR` exactly
when the initrd address plus the initrd size exceeds the limit, which is the header field
`initrd_addr_max` (file offset `0x22c`) when the version (`0x206`) is at least `0x203` and
`0x37ffffff` otherwise; when the sum does not exceed the limit it returns success and makes
the jump. -/
theorem linux86_start_initrd_limit (L : LinuxEnv) (k i a : cstring) (S : Linux)
    (kp ip : List Nat)
    (hk : L.kernel_write_boot_file k.chars = some kp)
    (hr : (L.kernel_read_file kp).1 = TSX_SUCCESS)
    (hm : rd32 (L.file_data kp) 0x202 = 0x53726448)
    (hv : 0x202 ≤ rd16 (L.file_data kp) 0x206)
    (hl : rd8 (L.file_data kp) 0x211 &&& 1 ≠ 0)
    (hi : L.kernel_write_boot_file i.chars = some ip)
    (hri : (L.kernel_read_file ip).1 = TSX_SUCCESS)
    (hfit : (L.kernel_read_file ip).2.1 + (L.kernel_read_file ip).2.2 < 2 ^ L.bits) :
    ((linux86_start L k i a S).1 = TSX_ERROR ↔
      (L.kernel_read_file ip).2.1 + (L.kernel_read_file ip).2.2 >
        (if 0x203 ≤ rd16 (L.file_data kp) 0x206 then rd32 (L.file_data kp) 0x22c
         else 0x37ffffff)) ∧
    ((L.kernel_read_file ip).2.1 + (L.kernel_read_file ip).2.2 ≤
        (if 0x203 ≤ rd16 (L.file_data kp) 0x206 then rd32 (L.file_data kp) 0x22c
         else 0x37ffffff) →
      (linux86_start L k i a S).1 = TSX_SUCCESS ∧
      (linux86_start L k i a S).2.jump = some linux86_entry) := by
  have hlim : initrd_limit (patched_early (L.file_data kp)) =
      (if 0x203 ≤ rd16 (L.file_data kp) 0x206 then rd32 (L.file_data kp) 0x22c
       else 0x37ffffff) := by
    unfold initrd_limit
    rw [patched_early_version, patched_early_initrd_addr_max]
  have key := linux86_initrd_read L (L.kernel_read_file kp).2.1 (L.kernel_read_file kp).2.2 i a
    { S with
      image := patched_early (L.file_data kp)
      regions := S.regions ++
        [(0x70000, (rd8 (L.file_data kp) 0x1f1 + 1) * 512, (L.kernel_read_file kp).2.1),
         (0x100000,
          wsub L.bits (L.kernel_read_file kp).2.2 ((rd8 (L.file_data kp) 0x1f1 + 1) * 512),
          word L.bits
            ((L.kernel_read_file kp).2.1 + (rd8 (L.file_data kp) 0x1f1 + 1) * 512))] } ip hi hri
  have hw : word L.bits ((L.kernel_read_file ip).2.1 + (L.kernel_read_file ip).2.2) =
      (L.kernel_read_file ip).2.1 + (L.kernel_read_file ip).2.2 := Nat.mod_eq_of_lt hfit
  simp only [hlim, hw] at key
  rw [linux86_start_accepted L k i a S kp hk hr hm hv hl]
  refine ⟨⟨?_, fun h => (key.1 h).1⟩, fun h => ⟨(key.2 h).1, (key.2 h).2.2.1⟩⟩
  intro h
  by_contra hc
  have := (key.2 (Nat.not_lt.mp hc)).1
  rw [this] at h
  cases h

/-- The sample initrd ends at `0x2100000`, below the `0x7fffffff` of the sample header. -/
theorem linux86_start_initrd_limit_witness :
    (linux86_start example_linux_env ⟨0x5000, [107]⟩ ⟨0x5010, [105]⟩ ⟨0x5020, []⟩
        example_linux_state).1 = TSX_SUCCESS :=
  ((linux86_start_initrd_limit example_linux_env ⟨0x5000, [107]⟩ ⟨0x5010, [105]⟩
    ⟨0x5020, []⟩ example_linux_state [107] [105] rfl rfl (by decide) (by decide) (by decide)
    rfl rfl (by decide)).2 (by decide)).1

/-- Counterexample to C25 as stated. On the i386 build the initrd is read to `0xFFF00000`
and is `0x200000` bytes long; the limit is the `initrd_addr_max` of the sample header,
`0x7fffffff`. The initrd address plus its size is `2^32 + 0x100000`, above the limit, but
the sum of line 96 is computed in `size_t` and is `0x100000`: `linux86_start` does not fail,
it stores the address and the size in the header, returns success and makes the jump. -/
theorem linux86_start_initrd_wraps :
    example_linux_env_high.bits = 32 ∧
    example_linux_env_high.kernel_read_file [105] = (TSX_SUCCESS, 0xFFF00000, 0x200000) ∧
    initrd_limit (example_linux_env_high.file_data [107]) = 0x7fffffff ∧
    0xFFF00000 + 0x200000 > 0x7fffffff ∧
    word 32 (0xFFF00000 + 0x200000) = 0x100000 ∧
    (linux86_start example_linux_env_high ⟨0x5000, [107]⟩ ⟨0x5010, [105]⟩ ⟨0x5020, []⟩
        example_linux_state).1 = TSX_SUCCESS ∧
    (linux86_start example_linux_env_high ⟨0x5000, [107]⟩ ⟨0x5010, [105]⟩ ⟨0x5020, []⟩
        example_linux_state).2.jump = some linux86_entry ∧
    rd32 (linux86_start example_linux_env_high ⟨0x5000, [107]⟩ ⟨0x5010, [105]⟩ ⟨0x5020, []⟩
        example_linux_state).2.image 0x218 = 0xFFF00000 ∧
    rd32 (linux86_start example_linux_env_high ⟨0x5000, [107]⟩ ⟨0x5010, [105]⟩ ⟨0x5020, []⟩
        example_linux_state).2.image 0x21c = 0x200000 := by
  decide

/-- C26. Whatever the kernel file, the initrd and the arguments are, a call of
`linux86_start` that returns success has called `kernel_jump` with the entry state
`CS` = `0x7020` = `(0x70000 >> 4) + 0x20`, `DS` = `0x7000` = `0x70000 >> 4`, `SP` = `BP` =
`0xe000` (every other register zero), destination 0, the 16-bit mode and the flag that
disables interrupts; a call that fails has not called it. -/
theorem linux86_start_entry_state (L : LinuxEnv) (k i a : cstring) (S : Linux) :
    ((linux86_start L k i a S).1 = TSX_SUCCESS →
      (linux86_start L k i a S).2.jump =
        some { entryState := { sp := 0xe000, bp := 0xe000, cs := 0x7020, ds := 0x7000 },
               dest := 0, mode := s3boot_bmode.KERNEL_S3BOOT_BMODE_16, archFlags := 1 }) ∧
    ((linux86_start L k i a S).1 ≠ TSX_SUCCESS → (linux86_start L k i a S).2.jump = S.jump) ∧
    (0x7020 : Nat) = (LINUX86_BASE_PTR >>> 4) + 0x20 ∧ (0x7000 : Nat) = LINUX86_BASE_PTR >>> 4 ∧
    (0xe000 : Nat) = LINUX86_HEAP_END := by
  refine ⟨?_, ?_, by decide, by decide, by decide⟩
  · intro h
    rcases linux86_start_outcome L k i a S with ⟨-, h2⟩ | ⟨h1, -⟩
    · exact h2
    · exact absurd h h1
  · intro h
    rcases linux86_start_outcome L k i a S with ⟨h1, -⟩ | ⟨-, h2⟩
    · exact absurd h1 h
    · exact h2

/-- The entry state of the sample boot. -/
theorem linux86_start_entry_state_witness :
    (linux86_start example_linux_env ⟨0x5000, [107]⟩ ⟨0x5010, [105]⟩ ⟨0x5020, []⟩
        example_linux_state).2.jump =
      some { entryState := { sp := 0xe000, bp := 0xe000, cs := 0x7020, ds := 0x7000 },
             dest := 0, mode := s3boot_bmode.KERNEL_S3BOOT_BMODE_16, archFlags := 1 } :=
  (linux86_start_entry_state example_linux_env ⟨0x5000, [107]⟩ ⟨0x5010, [105]⟩ ⟨0x5020, []⟩
    example_linux_state).1 (by decide)

/-- C27 (as amended). In the minimal-boot scenario, that is a kernel file with the setup
magic, version `0x20c`, `setup_sects` = 4 and bit 0 of `loadflags` set, an initrd of 1 MiB
that is read to a place below `initrd_addr_max`, and the arguments `ro quiet`, the loader
returns success and the jump state is `CS` = `0x7020`, `DS` = `0x7000`, `SP` = `0xe000`; the
setup region is 5 sectors long and the command line 8 characters. -/
theorem linux86_minimal_boot (L : LinuxEnv) (k i a : cstring) (S : Linux) (kp ip : List Nat)
    (hk : L.kernel_write_boot_file k.chars = some kp)
    (hr : (L.kernel_read_file kp).1 = TSX_SUCCESS)
    (hm : rd32 (L.file_data kp) 0x202 = 0x53726448)
    (hver : rd16 (L.file_data kp) 0x206 = 0x20c)
    (hss : rd8 (L.file_data kp) 0x1f1 = 4)
    (hl : rd8 (L.file_data kp) 0x211 &&& 1 ≠ 0)
    (hi : L.kernel_write_boot_file i.chars = some ip)
    (hri : (L.kernel_read_file ip).1 = TSX_SUCCESS)
    (hsz : (L.kernel_read_file ip).2.2 = 0x100000)
    (hmax : (L.kernel_read_file ip).2.1 + 0x100000 ≤ rd32 (L.file_data kp) 0x22c)
    (hargs : a.chars = [114, 111, 32, 113, 117, 105, 101, 116]) :
    (linux86_start L k i a S).1 = TSX_SUCCESS ∧
    (linux86_start L k i a S).2.jump.map (fun j => j.entryState.cs) = some 0x7020 ∧
    (linux86_start L k i a S).2.jump.map (fun j => j.entryState.ds) = some 0x7000 ∧
    (linux86_start L k i a S).2.jump.map (fun j => j.entryState.sp) = some 0xe000 ∧
    (linux86_start L k i a S).2.regions.map (fun r => (r.1, r.2.1)) =
      S.regions.map (fun r => (r.1, r.2.1)) ++
        [(0x70000, 0xa00),
         (0x100000, wsub L.bits (L.kernel_read_file kp).2.2 0xa00),
         (0x7e000, 8)] := by
  have hv : 0x202 ≤ rd16 (L.file_data kp) 0x206 := by rw [hver]; decide
  have hlim : initrd_limit (patched_early (L.file_data kp)) = rd32 (L.file_data kp) 0x22c := by
    unfold initrd_limit
    rw [patched_early_version, patched_early_initrd_addr_max, hver]
    rfl
  have hlt := initrd_limit_lt (patched_early (L.file_data kp))
  rw [hlim] at hlt
  have key := (linux86_initrd_read L (L.kernel_read_file kp).2.1 (L.kernel_read_file kp).2.2 i a
    { S with
      image := patched_early (L.file_data kp)
      regions := S.regions ++
        [(0x70000, (rd8 (L.file_data kp) 0x1f1 + 1) * 512, (L.kernel_read_file kp).2.1),
         (0x100000,
          wsub L.bits (L.kernel_read_file kp).2.2 ((rd8 (L.file_data kp) 0x1f1 + 1) * 512),
          word L.bits
            ((L.kernel_read_file kp).2.1 + (rd8 (L.file_data kp) 0x1f1 + 1) * 512))] }
    ip hi hri).2 (by
      rw [hlim, hsz]
      exact le_trans (Nat.mod_le _ _) hmax)
  rw [linux86_start_accepted L k i a S kp hk hr hm hv hl]
  obtain ⟨h1, h2, h3, -⟩ := key
  refine ⟨h1, ?_, ?_, ?_, ?_⟩
  · rw [h3]; rfl
  · rw [h3]; rfl
  · rw [h3]; rfl
  · rw [h2, hss, hargs]
    simp only [List.map_append, List.map_cons, List.map_nil, List.append_assoc,
      List.cons_append, List.nil_append]
    rfl

/-- The minimal boot on the sample machine. -/
theorem linux86_minimal_boot_witness :
    (linux86_start example_linux_env ⟨0x5000, [107]⟩ ⟨0x5010, [105]⟩
        ⟨0x5020, [114, 111, 32, 113, 117, 105, 101, 116]⟩
        example_linux_state).2.jump.map (fun j => j.entryState.ds) = some 0x7000 :=
  (linux86_minimal_boot example_linux_env ⟨0x5000, [107]⟩ ⟨0x5010, [105]⟩
    ⟨0x5020, [114, 111, 32, 113, 117, 105, 101, 116]⟩ example_linux_state [107] [105]
    rfl rfl (by decide) (by decide) (by decide) (by decide) rfl rfl rfl (by decide) rfl).2.2.1

/-- The minimal boot run through `kboot_start` on the sample machine: the code segment
handed to `kernel_jump` is `0x7020`, which is not `0x9000`. -/
theorem linux86_minimal_boot_cs :
    (linux86.kboot_start example_linux_env example_linux_entry example_linux_state).1 =
      TSX_SUCCESS ∧
    (linux86.kboot_start example_linux_env example_linux_entry example_linux_state).2.jump.map
      (fun j => (j.entryState.cs, decide (j.entryState.cs = 0x9000))) = some (0x7020, false) := by
  decide

/-! ## Memory types -/

theorem ite_mem_list (c : Prop) [Decidable c] (a b : Nat) (l : List Nat) (ha : a ∈ l)
    (hb : b ∈ l) : (if c then a else b) ∈ l := by
  split <;> assumption

theorem ubi_convert_to_ubi_memtype_range (T : mmgr_memtypes) (x : Nat) :
    ubi_convert_to_ubi_memtype T x ∈ ubi_memtypes := by
  unfold ubi_convert_to_ubi_memtype
  repeat' apply ite_mem_list
  all_goals decide

/-- C28. With the case labels pairwise different, `ubi_convert_to_ubi_memtype` maps Usable
to 0, Reserved to 1, ACPI-reclaim to 2, ACPI-NVS to 3, Bad to 4, UEFI boot services to
`0x4002`, UEFI runtime services to `0x4003`, Bootloader and Bootloader-data to `0x5001`, Paging
to `0x5002`, OS to `0x5003` and every other value to 1; and whatever the labels are, its
result is one of the ten memory types of the interface. -/
theorem ubi_convert_to_ubi_memtype_spec (T : mmgr_memtypes) (hd : (case_labels T).Nodup) :
    ubi_convert_to_ubi_memtype T T.MMGR_MEMTYPE_USABLE = 0 ∧
    ubi_convert_to_ubi_memtype T T.MMGR_MEMTYPE_RESERVED = 1 ∧
    ubi_convert_to_ubi_memtype T T.MMGR_MEMTYPE_ACPI_RECLAIM = 2 ∧
    ubi_convert_to_ubi_memtype T T.MMGR_MEMTYPE_ACPI_NVS = 3 ∧
    ubi_convert_to_ubi_memtype T T.MMGR_MEMTYPE_BAD = 4 ∧
    ubi_convert_to_ubi_memtype T T.MMGR_MEMTYPE_UEFI_BOOT = 0x4002 ∧
    ubi_convert_to_ubi_memtype T T.MMGR_MEMTYPE_UEFI_RUNTIME = 0x4003 ∧
    ubi_convert_to_ubi_memtype T T.MMGR_MEMTYPE_BOOTLOADER = 0x5001 ∧
    ubi_convert_to_ubi_memtype T T.MMGR_MEMTYPE_BOOTLOADER_DATA = 0x5001 ∧
    ubi_convert_to_ubi_memtype T T.MMGR_MEMTYPE_PAGING = 0x5002 ∧
    ubi_convert_to_ubi_memtype T T.MMGR_MEMTYPE_OS = 0x5003 ∧
    (∀ x, x ∉ case_labels T → ubi_convert_to_ubi_memtype T x = 1) ∧
    (∀ x, ubi_convert_to_ubi_memtype T x ∈ ubi_memtypes) ∧
    ubi_memtypes = [UBI_MEMTYPE_USABLE, UBI_MEMTYPE_RESERVED, UBI_MEMTYPE_ACPI_RECLAIM,
      UBI_MEMTYPE_ACPI_NVS, UBI_MEMTYPE_BAD, UBI_MEMTYPE_UEFI_BSRV, UBI_MEMTYPE_UEFI_RSRV,
      UBI_MEMTYPE_BOOTLOADER, UBI_MEMTYPE_PAGING, UBI_MEMTYPE_OS] := by
  simp only [case_labels, List.nodup_cons, List.mem_cons, List.mem_singleton, not_or,
    List.not_mem_nil, not_false_eq_true, List.nodup_nil, and_true] at hd
  obtain ⟨⟨a1, a2, a3, a4, a5, a6, a7, a8, a9, a10⟩, ⟨b2, b3, b4, b5, b6, b7, b8, b9, b10⟩,
    ⟨c3, c4, c5, c6, c7, c8, c9, c10⟩, ⟨d4, d5, d6, d7, d8, d9, d10⟩,
    ⟨e5, e6, e7, e8, e9, e10⟩, ⟨f6, f7, f8, f9, f10⟩, ⟨g7, g8, g9, g10⟩, ⟨h8, h9, h10⟩,
    ⟨i9, i10⟩, j10⟩ := hd
  refine ⟨?_, ?_, ?_, ?_, ?_, ?_, ?_, ?_, ?_, ?_, ?_, ?_, ?_, rfl⟩
  · simp [ubi_convert_to_ubi_memtype, UBI_MEMTYPE_USABLE]
  · simp [ubi_convert_to_ubi_memtype, UBI_MEMTYPE_RESERVED, Ne.symm a1]
  · simp [ubi_convert_to_ubi_memtype, UBI_MEMTYPE_ACPI_RECLAIM, Ne.symm a2, Ne.symm b2]
  · simp [ubi_convert_to_ubi_memtype, UBI_MEMTYPE_ACPI_NVS, Ne.symm a3, Ne.symm b3, Ne.symm c3]
  · simp [ubi_convert_to_ubi_memtype, UBI_MEMTYPE_BAD, Ne.symm a4, Ne.symm b4, Ne.symm c4,
      Ne.symm d4]
  · simp [ubi_convert_to_ubi_memtype, UBI_MEMTYPE_UEFI_BSRV, Ne.symm a6, Ne.symm b6,
      Ne.symm c6, Ne.symm d6, Ne.symm e6, Ne.symm f6]
  · simp [ubi_convert_to_ubi_memtype, UBI_MEMTYPE_UEFI_RSRV, Ne.symm a5, Ne.symm b5,
      Ne.symm c5, Ne.symm d5, Ne.symm e5]
  · simp [ubi_convert_to_ubi_memtype, UBI_MEMTYPE_BOOTLOADER, Ne.symm a7, Ne.symm b7,
      Ne.symm c7, Ne.symm d7, Ne.symm e7, Ne.symm f7, Ne.symm g7]
  · simp [ubi_convert_to_ubi_memtype, UBI_MEMTYPE_BOOTLOADER, Ne.symm a8, Ne.symm b8,
      Ne.symm c8, Ne.symm d8, Ne.symm e8, Ne.symm f8, Ne.symm g8, Ne.symm h8]
  · simp [ubi_convert_to_ubi_memtype, UBI_MEMTYPE_PAGING, Ne.symm a9, Ne.symm b9,
      Ne.symm c9, Ne.symm d9, Ne.symm e9, Ne.symm f9, Ne.symm g9, Ne.symm h9, Ne.symm i9]
  · simp [ubi_convert_to_ubi_memtype, UBI_MEMTYPE_OS, Ne.symm a10, Ne.symm b10,
      Ne.symm c10, Ne.symm d10, Ne.symm e10, Ne.symm f10, Ne.symm g10, Ne.symm h10,
      Ne.symm i10, Ne.symm j10]
  · intro x hx
    simp only [case_labels, List.mem_cons, List.mem_singleton, not_or, List.not_mem_nil,
      not_false_eq_true, and_true] at hx
    obtain ⟨x0, x1, x2, x3, x4, x5, x6, x7, x8, x9, x10⟩ := hx
    simp [ubi_convert_to_ubi_memtype, UBI_MEMTYPE_RESERVED, x0, x1, x2, x3, x4, x5, x6, x7, x8,
      x9, x10]
  · exact ubi_convert_to_ubi_memtype_range T

/-- The sample numbering has pairwise different labels; its type 17 (Bootloader-data) is
reported as `0x5001` and its unused value 8 as Reserved. -/
theorem ubi_convert_to_ubi_memtype_spec_witness :
    ubi_convert_to_ubi_memtype example_memtypes 17 = 0x5001 ∧
    ubi_convert_to_ubi_memtype example_memtypes 8 = 1 :=
  have h := ubi_convert_to_ubi_memtype_spec example_memtypes (by decide)
  ⟨h.2.2.2.2.2.2.2.2.1, h.2.2.2.2.2.2.2.2.2.2.2.1 8 (by decide)⟩

/-! ## Video mode negotiation -/

/-- C21. A kernel asks for 800x600x32. With a driver that offers only 1920x1080x32,
`ubi_create_vid_table` succeeds having tried the request, the three other depths and then
1920x1080x32, a mode larger than the requested one and the first of the common modes it
tries. With a driver that offers nothing, the common modes it tries are, in this order,
1920x1080, 1600x900, 1280x1024, 1366x768, 1024x768 and 800x600: the modes with at least as
many pixels as the request, the largest first and never 640x480 or 320x200; then comes the
fallback 640x480x32, whose status is returned. -/
theorem ubi_create_vid_table_tries_larger_modes :
    (ubi_create_vid_table example_env_hd (some example_kvid) example_rooted).1 = TSX_SUCCESS ∧
    (ubi_create_vid_table example_env_hd (some example_kvid) example_rooted).2.log.filter
        (fun e => match e with | Ev.set_video _ _ _ _ => true | _ => false) =
      [Ev.set_video 800 600 32 1, Ev.set_video 800 600 24 1, Ev.set_video 800 600 16 1,
       Ev.set_video 800 600 15 1, Ev.set_video 1920 1080 32 1] ∧
    (ubi_create_vid_table example_env_novideo (some example_kvid) example_rooted).1 =
      TSX_UNAVAILABLE ∧
    (ubi_create_vid_table example_env_novideo (some example_kvid) example_rooted).2.log.filter
        (fun e => match e with | Ev.set_video _ _ _ _ => true | _ => false) =
      [Ev.set_video 800 600 32 1, Ev.set_video 800 600 24 1, Ev.set_video 800 600 16 1,
       Ev.set_video 800 600 15 1, Ev.set_video 1920 1080 32 1, Ev.set_video 1600 900 32 1,
       Ev.set_video 1280 1024 32 1, Ev.set_video 1366 768 32 1, Ev.set_video 1024 768 32 1,
       Ev.set_video 800 600 32 1, Ev.set_video 640 480 32 1] := by
  decide

/-! ## `ubi_load_kernel` -/

theorem foldl_min_le_init (f : α → Nat) : ∀ (l : List α) (a : Nat),
    l.foldl (fun m x => min m (f x)) a ≤ a := by
  intro l
  induction l with
  | nil => intro a; exact Nat.le_refl _
  | cons x rest ih =>
    intro a
    exact le_trans (ih _) (Nat.min_le_left _ _)

theorem foldl_min_le_mem (f : α → Nat) : ∀ (l : List α) (a : Nat) (x : α), x ∈ l →
    l.foldl (fun m x => min m (f x)) a ≤ f x := by
  intro l
  induction l with
  | nil => intro a x hx; cases hx
  | cons y rest ih =>
    intro a x hx
    rcases List.mem_cons.mp hx with h | h
    · subst h
      exact le_trans (foldl_min_le_init f rest _) (Nat.min_le_right _ _)
    · exact ih _ x h

theorem foldl_min_mem (f : α → Nat) : ∀ (l : List α) (a : Nat),
    l.foldl (fun m x => min m (f x)) a = a ∨
    ∃ x ∈ l, l.foldl (fun m x => min m (f x)) a = f x := by
  intro l
  induction l with
  | nil => intro a; exact Or.inl rfl
  | cons y rest ih =>
    intro a
    rcases ih (min a (f y)) with h | ⟨x, hx, h⟩
    · rcases Nat.le_total a (f y) with h1 | h1
      · left
        rw [List.foldl_cons, h, Nat.min_eq_left h1]
      · right
        refine ⟨y, List.mem_cons_self _ _, ?_⟩
        rw [List.foldl_cons, h, Nat.min_eq_right h1]
    · exact Or.inr ⟨x, List.mem_cons_of_mem _ hx, h⟩

theorem foldl_max_ge_init (f : α → Nat) : ∀ (l : List α) (a : Nat),
    a ≤ l.foldl (fun m x => max m (f x)) a := by
  intro l
  induction l with
  | nil => intro a; exact Nat.le_refl _
  | cons x rest ih =>
    intro a
    exact le_trans (Nat.le_max_left _ _) (ih _)

theorem foldl_max_ge_mem (f : α → Nat) : ∀ (l : List α) (a : Nat) (x : α), x ∈ l →
    f x ≤ l.foldl (fun m x => max m (f x)) a := by
  intro l
  induction l with
  | nil => intro a x hx; cases hx
  | cons y rest ih =>
    intro a x hx
    rcases List.mem_cons.mp hx with h | h
    · subst h
      exact le_trans (Nat.le_max_right _ _) (foldl_max_ge_init f rest _)
    · exact ih _ x h

theorem foldl_max_mem (f : α → Nat) : ∀ (l : List α) (a : Nat),
    l.foldl (fun m x => max m (f x)) a = a ∨
    ∃ x ∈ l, l.foldl (fun m x => max m (f x)) a = f x := by
  intro l
  induction l with
  | nil => intro a; exact Or.inl rfl
  | cons y rest ih =>
    intro a
    rcases ih (max a (f y)) with h | ⟨x, hx, h⟩
    · rcases Nat.le_total a (f y) with h1 | h1
      · right
        refine ⟨y, List.mem_cons_self _ _, ?_⟩
        rw [List.foldl_cons, h, Nat.max_eq_right h1]
      · left
        rw [List.foldl_cons, h, Nat.max_eq_left h1]
    · exact Or.inr ⟨x, List.mem_cons_of_mem _ hx, h⟩

/-- The loop over the program headers computes a running minimum and maximum over the `LOAD`
headers. -/
theorem elf_minmax_loop_eq (bits : Nat) : ∀ (phs : List elf_ph) (mm : Nat × Nat),
    elf_minmax_loop bits phs mm =
      ((elf_loads phs).foldl (fun m ph => min m ph.p_vaddr) mm.1,
       (elf_loads phs).foldl (fun m ph => max m (word bits (ph.p_vaddr + ph.p_memsz))) mm.2) := by
  intro phs
  induction phs with
  | nil => intro mm; rfl
  | cons ph rest ih =>
    intro mm
    unfold elf_minmax_loop
    by_cases hl : ph.p_type = ELF_PH_TYPE_LOAD
    · have e : elf_loads (ph :: rest) = ph :: elf_loads rest := by
        simp [elf_loads, hl]
      rw [e]
      simp only [ne_eq, hl, not_true, if_false, List.foldl_cons]
      rw [ih]
      have e1 : (if ph.p_vaddr < mm.1 then ph.p_vaddr else mm.1) = min mm.1 ph.p_vaddr := by
        rw [Nat.min_def]; split <;> split <;> omega
      have e2 : (if word bits (ph.p_vaddr + ph.p_memsz) > mm.2
          then word bits (ph.p_vaddr + ph.p_memsz) else mm.2) =
          max mm.2 (word bits (ph.p_vaddr + ph.p_memsz)) := by
        rw [Nat.max_def]; split <;> split <;> omega
      simp only [e1, e2]
    · have e : elf_loads (ph :: rest) = elf_loads rest := by
        simp [elf_loads, hl]
      rw [e]
      simp only [ne_eq, hl, not_false_eq_true, if_true]
      exact ih mm

/-- The loop over the sections of a PE computes a running minimum and maximum. -/
theorem pe_minmax_loop_eq : ∀ (secs : List pe_section_header) (mm : Nat × Nat),
    pe_minmax_loop secs mm =
      (secs.foldl (fun m sec => min m sec.ps_vaddr) mm.1,
       secs.foldl (fun m sec => max m (u32 (sec.ps_vaddr + sec.ps_vsize))) mm.2) := by
  intro secs
  induction secs with
  | nil => intro mm; rfl
  | cons sec rest ih =>
    intro mm
    unfold pe_minmax_loop
    simp only [List.foldl_cons]
    rw [ih]
    have e1 : (if sec.ps_vaddr < mm.1 then sec.ps_vaddr else mm.1) = min mm.1 sec.ps_vaddr := by
      rw [Nat.min_def]; split <;> split <;> omega
    have e2 : (if u32 (sec.ps_vaddr + sec.ps_vsize) > mm.2
        then u32 (sec.ps_vaddr + sec.ps_vsize) else mm.2) =
        max mm.2 (u32 (sec.ps_vaddr + sec.ps_vsize)) := by
      rw [Nat.max_def]; split <;> split <;> omega
    simp only [e1, e2]

theorem ubi_load_kernel_finish_success (bits : Nat) (filePath filename : List Nat)
    (imglocation size : Nat) (S S' : Ubi)
    (h : ubi_load_kernel_finish bits filePath filename imglocation size S =
      some (TSX_SUCCESS, S')) :
    S'.ubi_kernel_base = S.ubi_kernel_base ∧ S'.ubi_kernel_top = S.ubi_kernel_top ∧
    S'.ubi_kernel_type = S.ubi_kernel_type ∧
    wsub bits S.ubi_kernel_top S.ubi_kernel_base ≠ 0 := by
  unfold ubi_load_kernel_finish at h
  by_cases h1 : S.ubi_kernel = 0
  · simp only [h1, if_true] at h
    cases h
  · simp only [h1, if_false] at h
    by_cases h2 : wsub bits S.ubi_kernel_top S.ubi_kernel_base = 0
    · simp only [h2, if_true] at h
      cases h
    · simp only [h2, if_false] at h
      by_cases h3 : 47 ∉ filePath.tail ∨ 47 ∉ filename.tail
      · simp only [h3, if_true] at h
        cases h
      · simp only [h3, if_false] at h
        obtain ⟨-, h5⟩ := Prod.mk.inj (Option.some.inj h)
        subst h5
        exact ⟨rfl, rfl, rfl, h2⟩

theorem ubi_load_kernel_finish_kernel (bits : Nat) (filePath filename : List Nat)
    (imglocation size : Nat) (S S' : Ubi)
    (h : ubi_load_kernel_finish bits filePath filename imglocation size S =
      some (TSX_SUCCESS, S')) :
    S'.ubi_kernel = S.ubi_kernel ∧ S.ubi_kernel ≠ 0 := by
  unfold ubi_load_kernel_finish at h
  by_cases h1 : S.ubi_kernel = 0
  · simp only [h1, if_true] at h
    cases h
  · simp only [h1, if_false] at h
    by_cases h2 : wsub bits S.ubi_kernel_top S.ubi_kernel_base = 0
    · simp only [h2, if_true] at h
      cases h
    · simp only [h2, if_false] at h
      by_cases h3 : 47 ∉ filePath.tail ∨ 47 ∉ filename.tail
      · simp only [h3, if_true] at h
        cases h
      · simp only [h3, if_false] at h
        obtain ⟨-, h5⟩ := Prod.mk.inj (Option.some.inj h)
        subst h5
        exact ⟨rfl, h1⟩

/-- The header lookup changes `ubi_kernel` only. -/
theorem ubi_find_header_frame (bits : Nat) (F : KernelFile) (img : KernelImage) (S S2 : Ubi)
    (h : ubi_find_header bits F img S = some S2) : S2 = { S with ubi_kernel := S2.ubi_kernel } := by
  unfold ubi_find_header at h
  cases hh : F.header with
  | none =>
    rw [hh] at h
    cases h
    rfl
  | some v =>
    rw [hh] at h
    simp only at h
    cases hp : ubi_get_file_addr bits img S v with
    | none => rw [hp] at h; cases h
    | some p =>
      rw [hp] at h
      cases h
      rfl

/-- A non-null answer of the loop of `ubi_get_file_addr` over the program headers comes from
a `LOAD` header whose range, ends included, holds the address. -/
theorem file_addr_elf_loop_found (bits location vaddr : Nat) : ∀ (phs : List elf_ph),
    file_addr_elf_loop bits location vaddr phs ≠ 0 →
    ∃ ph ∈ elf_loads phs, ph.p_vaddr ≤ vaddr ∧ vaddr ≤ word bits (ph.p_vaddr + ph.p_memsz) := by
  intro phs
  induction phs with
  | nil => intro h; exact absurd rfl h
  | cons ph rest ih =>
    intro h
    unfold file_addr_elf_loop at h
    by_cases hl : ph.p_type = ELF_PH_TYPE_LOAD
    · have e : elf_loads (ph :: rest) = ph :: elf_loads rest := by
        simp [elf_loads, hl]
      rw [e]
      simp only [ne_eq, hl, not_true, if_false] at h
      by_cases hin : vaddr ≥ ph.p_vaddr ∧ vaddr ≤ word bits (ph.p_vaddr + ph.p_memsz)
      · exact ⟨ph, List.mem_cons_self _ _, hin.1, hin.2⟩
      · rw [if_neg hin] at h
        obtain ⟨x, hx, hx2⟩ := ih h
        exact ⟨x, List.mem_cons_of_mem _ hx, hx2⟩
    · have e : elf_loads (ph :: rest) = elf_loads rest := by
        simp [elf_loads, hl]
      rw [e]
      simp only [ne_eq, hl, not_false_eq_true, if_true] at h
      exact ih h

/-- A non-null answer of the loop of `ubi_get_file_addr` over the sections comes from a
section whose range, ends included, holds the address. -/
theorem file_addr_pe_loop_found (bits location vaddr : Nat) : ∀ (secs : List pe_section_header),
    file_addr_pe_loop bits location vaddr secs ≠ 0 →
    ∃ sec ∈ secs, sec.ps_vaddr ≤ vaddr ∧ vaddr ≤ u32 (sec.ps_vaddr + sec.ps_vsize) := by
  intro secs
  induction secs with
  | nil => intro h; exact absurd rfl h
  | cons sec rest ih =>
    intro h
    unfold file_addr_pe_loop at h
    by_cases hin : vaddr ≥ sec.ps_vaddr ∧ vaddr ≤ u32 (sec.ps_vaddr + sec.ps_vsize)
    · exact ⟨sec, List.mem_cons_self _ _, hin.1, hin.2⟩
    · rw [if_neg hin] at h
      obtain ⟨x, hx, hx2⟩ := ih h
      exact ⟨x, List.mem_cons_of_mem _ hx, hx2⟩

/-- When the header lookup leaves a non-null `ubi_kernel` where it was null, the parser has
found a header address and `ubi_get_file_addr` has answered it with that pointer. -/
theorem ubi_find_header_found (bits : Nat) (F : KernelFile) (img : KernelImage) (S S2 : Ubi)
    (h : ubi_find_header bits F img S = some S2) (hk : S.ubi_kernel = 0)
    (h2 : S2.ubi_kernel ≠ 0) :
    ∃ v, F.header = some v ∧ ubi_get_file_addr bits img S v = some S2.ubi_kernel := by
  unfold ubi_find_header at h
  cases hh : F.header with
  | none =>
    rw [hh] at h
    cases h
    exact absurd hk h2
  | some v =>
    rw [hh] at h
    simp only at h
    cases hp : ubi_get_file_addr bits img S v with
    | none => rw [hp] at h; cases h
    | some p =>
      rw [hp] at h
      cases h
      exact ⟨v, rfl, hp⟩

/-- A successful `ubi_load_kernel`: the image is an ELF with program headers or a PE with
sections, the stored base and top are what the loop over them computes, the base is not
`SIZE_MAX`, the top less the base is not zero in `size_t`, and `ubi_kernel` is what the
header lookup left and is not null. -/
theorem ubi_load_kernel_success (bits : Nat) (F : KernelFile) (img : KernelImage)
    (filename : List Nat) (S S' : Ubi)
    (h : ubi_load_kernel bits F img filename S = some (TSX_SUCCESS, S')) :
    (F.is_elf = true ∧ S'.ubi_kernel_type = 1 ∧ ∃ phs, img.ph = some phs ∧
      (elf_minmax_loop bits phs (SIZE_MAX bits, 0)).1 ≠ SIZE_MAX bits ∧
      S'.ubi_kernel_base = (elf_minmax_loop bits phs (SIZE_MAX bits, 0)).1 ∧
      S'.ubi_kernel_top = (elf_minmax_loop bits phs (SIZE_MAX bits, 0)).2 ∧
      wsub bits S'.ubi_kernel_top S'.ubi_kernel_base ≠ 0 ∧
      S'.ubi_kernel ≠ 0 ∧
      ∃ S2, ubi_find_header bits F img
          { S with ubi_kernel_type := 1, ubi_kernel_location := F.read.2.1 } = some S2 ∧
        S'.ubi_kernel = S2.ubi_kernel) ∨
    (F.is_elf = false ∧ S'.ubi_kernel_type = 2 ∧ ∃ secs, img.sections = some secs ∧
      (pe_minmax_loop secs (SIZE_MAX bits, 0)).1 ≠ SIZE_MAX bits ∧
      S'.ubi_kernel_base = (pe_minmax_loop secs (SIZE_MAX bits, 0)).1 ∧
      S'.ubi_kernel_top = (pe_minmax_loop secs (SIZE_MAX bits, 0)).2 ∧
      wsub bits S'.ubi_kernel_top S'.ubi_kernel_base ≠ 0 ∧
      S'.ubi_kernel ≠ 0 ∧
      ∃ S2, ubi_find_header bits F img
          { S with ubi_kernel_type := 2, ubi_kernel_location := F.read.2.1 } = some S2 ∧
        S'.ubi_kernel = S2.ubi_kernel) := by
  unfold ubi_load_kernel at h
  cases hp : F.filePath with
  | none => rw [hp] at h; cases h
  | some filePath =>
    rw [hp] at h
    simp only at h
    by_cases hr : F.read.1 = TSX_SUCCESS
    · simp only [ne_eq, hr, not_true, if_false] at h
      by_cases he : F.is_elf = true
      · left
        simp only [he, if_true] at h
        by_cases hm : F.machine_ok = true
        · simp only [hm, not_true, if_false] at h
          cases hf : ubi_find_header bits F img
              { S with ubi_kernel_type := 1, ubi_kernel_location := F.read.2.1 } with
          | none => rw [hf] at h; cases h
          | some S2 =>
          rw [hf] at h
          simp only at h
          have hfr := ubi_find_header_frame _ _ _ _ _ hf
          cases hph : img.ph with
          | none => rw [hph] at h; cases h
          | some phs =>
            rw [hph] at h
            simp only at h
            by_cases hz : F.phentsize_ok = true
            · simp only [hz, not_true, if_false] at h
              by_cases hmin : (elf_minmax_loop bits phs (SIZE_MAX bits, 0)).1 = SIZE_MAX bits
              · simp only [hmin, if_true] at h
                cases h
              · simp only [hmin, if_false] at h
                obtain ⟨h1, h2, h3, h4⟩ := ubi_load_kernel_finish_success _ _ _ _ _ _ _ h
                obtain ⟨h5, h6⟩ := ubi_load_kernel_finish_kernel _ _ _ _ _ _ _ h
                refine ⟨he, ?_, phs, rfl, hmin, h1, h2, ?_, ?_, S2, rfl, h5⟩
                · rw [h3]
                  show S2.ubi_kernel_type = 1
                  rw [hfr]
                · rw [h1, h2]
                  exact h4
                · rw [h5]
                  exact h6
            · simp only [hz, not_false_eq_true, if_true] at h
              cases h
        · simp only [hm, not_false_eq_true, if_true] at h
          cases h
      · right
        have he' : F.is_elf = false := by
          cases hx : F.is_elf
          · rfl
          · exact absurd hx he
        simp only [he', Bool.false_eq_true, if_false] at h
        by_cases hpe : F.is_pe = true
        · simp only [hpe, if_true] at h
          by_cases hm : F.machine_ok = true
          · simp only [hm, not_true, if_false] at h
            cases hf : ubi_find_header bits F img
                { S with ubi_kernel_type := 2, ubi_kernel_location := F.read.2.1 } with
            | none => rw [hf] at h; cases h
            | some S2 =>
            rw [hf] at h
            simp only at h
            have hfr := ubi_find_header_frame _ _ _ _ _ hf
            cases hsec : img.sections with
            | none => rw [hsec] at h; cases h
            | some secs =>
              rw [hsec] at h
              simp only at h
              by_cases hmin : (pe_minmax_loop secs (SIZE_MAX bits, 0)).1 = SIZE_MAX bits
              · simp only [hmin, if_true] at h
                cases h
              · simp only [hmin, if_false] at h
                obtain ⟨h1, h2, h3, h4⟩ := ubi_load_kernel_finish_success _ _ _ _ _ _ _ h
                obtain ⟨h5, h6⟩ := ubi_load_kernel_finish_kernel _ _ _ _ _ _ _ h
                refine ⟨he', ?_, secs, rfl, hmin, h1, h2, ?_, ?_, S2, rfl, h5⟩
                · rw [h3]
                  show S2.ubi_kernel_type = 2
                  rw [hfr]
                · rw [h1, h2]
                  exact h4
                · rw [h5]
                  exact h6
          · simp only [hm, not_false_eq_true, if_true] at h
            cases h
        · simp only [hpe, if_false] at h
          cases h
    · simp only [ne_eq, hr, not_false_eq_true, if_true] at h
      obtain ⟨h1, -⟩ := Prod.mk.inj (Option.some.inj h)
      exact absurd h1 hr

/-- A running minimum that has left its start value is the least of the list. -/
theorem foldl_min_is_least (f : α → Nat) (l : List α) (a : Nat)
    (h : l.foldl (fun m x => min m (f x)) a ≠ a) :
    is_least (l.foldl (fun m x => min m (f x)) a) (l.map f) := by
  refine ⟨?_, ?_⟩
  · rcases foldl_min_mem f l a with h1 | ⟨x, hx, h1⟩
    · exact absurd h1 h
    · rw [h1]
      exact List.mem_map_of_mem f hx
  · intro y hy
    obtain ⟨x, hx, rfl⟩ := List.mem_map.mp hy
    exact foldl_min_le_mem f l a x hx

/-- A running maximum started at 0 over a list that is not empty is its greatest. -/
theorem foldl_max_is_greatest (g : α → Nat) (l : List α) (hl : l ≠ []) :
    is_greatest (l.foldl (fun m x => max m (g x)) 0) (l.map g) := by
  have hge : ∀ y ∈ l.map g, y ≤ l.foldl (fun m x => max m (g x)) 0 := by
    intro y hy
    obtain ⟨x, hx, rfl⟩ := List.mem_map.mp hy
    exact foldl_max_ge_mem g l 0 x hx
  refine ⟨?_, hge⟩
  rcases foldl_max_mem g l 0 with h1 | ⟨x, hx, h1⟩
  · cases l with
    | nil => exact absurd rfl hl
    | cons x rest =>
      have h2 := hge (g x) (List.mem_map_of_mem g (List.mem_cons_self _ _))
      rw [h1] at h2 ⊢
      have h3 : g x = 0 := Nat.le_zero.mp h2
      rw [← h3]
      exact List.mem_map_of_mem g (List.mem_cons_self _ _)
  · rw [h1]
    exact List.mem_map_of_mem g hx

theorem wsub_self_of_lt (bits a : Nat) (ha : a < 2 ^ bits) : wsub bits a a = 0 := by
  unfold wsub word
  rw [Nat.mod_eq_of_lt ha]
  have : a + (2 ^ bits - a) = 2 ^ bits := by omega
  rw [this, Nat.mod_self]

/-- Two lists of sums agree when no sum is reduced. -/
theorem map_congr_of_fit (f g : α → Nat) (l : List α) (h : ∀ x ∈ l, f x = g x) :
    l.map f = l.map g :=
  List.map_congr_left h

/-- C29 (as amended). After a successful `ubi_load_kernel` of an ELF image, some program header
has type `LOAD`, `ubi_kernel_base` is the least `p_vaddr` of the `LOAD` headers, and
`ubi_kernel_top` is the greatest of the sums `p_vaddr + p_memsz` of the `LOAD` headers as the
loop computes them, in `size_t`, that is modulo `2^bits`; when no such sum reaches `2^bits`,
`ubi_kernel_top` is the greatest `p_vaddr + p_memsz`. If `ubi_kernel` was null when the
function was entered, as it is at every call the loader makes, then `ubi_kernel_top` is
greater than `ubi_kernel_base`: a non-null `ubi_kernel` can then only come from
`ubi_get_file_addr`, which answers from a `LOAD` header whose range holds the address of the
UBI header. For a PE image the same holds over all sections with `ps_vaddr` and `ps_vsize`,
the sums being taken modulo `2^32`. So an image without a loadable segment, or whose top
equals its base, is not loaded successfully. -/
theorem ubi_load_kernel_minmax (bits : Nat) (F : KernelFile) (img : KernelImage)
    (filename : List Nat) (S S' : Ubi)
    (h : ubi_load_kernel bits F img filename S = some (TSX_SUCCESS, S')) :
    (F.is_elf = true → ∃ phs, img.ph = some phs ∧ elf_loads phs ≠ [] ∧
      is_least S'.ubi_kernel_base ((elf_loads phs).map (fun ph => ph.p_vaddr)) ∧
      is_greatest S'.ubi_kernel_top
        ((elf_loads phs).map (fun ph => word bits (ph.p_vaddr + ph.p_memsz))) ∧
      S'.ubi_kernel_top ≠ S'.ubi_kernel_base ∧
      (S.ubi_kernel = 0 → S'.ubi_kernel_base < S'.ubi_kernel_top) ∧
      ((∀ ph ∈ elf_loads phs, ph.p_vaddr + ph.p_memsz < 2 ^ bits) →
        is_greatest S'.ubi_kernel_top
          ((elf_loads phs).map (fun ph => ph.p_vaddr + ph.p_memsz)))) ∧
    (F.is_elf = false → ∃ secs, img.sections = some secs ∧ secs ≠ [] ∧
      is_least S'.ubi_kernel_base (secs.map (fun sec => sec.ps_vaddr)) ∧
      is_greatest S'.ubi_kernel_top
        (secs.map (fun sec => u32 (sec.ps_vaddr + sec.ps_vsize))) ∧
      S'.ubi_kernel_top ≠ S'.ubi_kernel_base ∧
      (S.ubi_kernel = 0 → S'.ubi_kernel_base < S'.ubi_kernel_top) ∧
      ((∀ sec ∈ secs, sec.ps_vaddr + sec.ps_vsize < 2 ^ 32) →
        is_greatest S'.ubi_kernel_top
          (secs.map (fun sec => sec.ps_vaddr + sec.ps_vsize)))) := by
  have hpos : 0 < 2 ^ bits := Nat.two_pow_pos bits
  rcases ubi_load_kernel_success bits F img filename S S' h with
    ⟨he, -, phs, hph, hmin, hb, ht, hw, hkn, S2, hf, hk2⟩ |
    ⟨he, -, secs, hsec, hmin, hb, ht, hw, hkn, S2, hf, hk2⟩
  · refine ⟨fun _ => ⟨phs, hph, ?_⟩, fun h' => by rw [he] at h'; cases h'⟩
    rw [elf_minmax_loop_eq] at hmin hb ht
    simp only at hmin hb ht
    have hleast := foldl_min_is_least (fun ph : elf_ph => ph.p_vaddr) (elf_loads phs)
      (SIZE_MAX bits) hmin
    rw [← hb] at hleast
    have hne : elf_loads phs ≠ [] := by
      intro hnil
      rw [hnil] at hleast
      exact List.not_mem_nil _ hleast.1
    have hlt : S'.ubi_kernel_base < 2 ^ bits := by
      have := foldl_min_le_init (fun ph : elf_ph => ph.p_vaddr) (elf_loads phs) (SIZE_MAX bits)
      rw [← hb] at this
      unfold SIZE_MAX at this
      omega
    have hneq : S'.ubi_kernel_top ≠ S'.ubi_kernel_base := by
      intro heq
      rw [heq] at hw
      exact hw (wsub_self_of_lt bits _ hlt)
    have hgr := foldl_max_is_greatest (fun ph : elf_ph => word bits (ph.p_vaddr + ph.p_memsz))
      (elf_loads phs) hne
    rw [← ht] at hgr
    refine ⟨hne, hleast, hgr, hneq, ?_, ?_⟩
    · intro hk
      rw [hk2] at hkn
      obtain ⟨v, -, hv⟩ := ubi_find_header_found bits F img _ S2 hf hk hkn
      unfold ubi_get_file_addr at hv
      by_cases hv0 : v = 0
      · rw [if_pos hv0] at hv
        exact absurd (Option.some.inj hv).symm hkn
      · rw [if_neg hv0] at hv
        simp only [if_true] at hv
        rw [hph] at hv
        simp only at hv
        have hv' := Option.some.inj hv
        have hnz : file_addr_elf_loop bits F.read.2.1 v phs ≠ 0 := by
          rw [hv']; exact hkn
        obtain ⟨x, hx, hx1, hx2⟩ := file_addr_elf_loop_found bits _ v phs hnz
        have h1 := hleast.2 _ (List.mem_map_of_mem (fun ph : elf_ph => ph.p_vaddr) hx)
        have h2 := hgr.2 _ (List.mem_map_of_mem
          (fun ph : elf_ph => word bits (ph.p_vaddr + ph.p_memsz)) hx)
        simp only at h1 h2
        omega
    · intro hnw
      have e : (elf_loads phs).map (fun ph => ph.p_vaddr + ph.p_memsz) =
          (elf_loads phs).map (fun ph => word bits (ph.p_vaddr + ph.p_memsz)) :=
        map_congr_of_fit _ _ _ (fun ph hp => by
          show ph.p_vaddr + ph.p_memsz = word bits (ph.p_vaddr + ph.p_memsz)
          rw [word, Nat.mod_eq_of_lt (hnw ph hp)])
      rw [e]
      exact hgr
  · refine ⟨fun h' => (by rw [he] at h'; cases h'), fun _ => ⟨secs, hsec, ?_⟩⟩
    rw [pe_minmax_loop_eq] at hmin hb ht
    simp only at hmin hb ht
    have hleast := foldl_min_is_least (fun sec : pe_section_header => sec.ps_vaddr) secs
      (SIZE_MAX bits) hmin
    rw [← hb] at hleast
    have hne : secs ≠ [] := by
      intro hnil
      rw [hnil] at hleast
      exact List.not_mem_nil _ hleast.1
    have hlt : S'.ubi_kernel_base < 2 ^ bits := by
      have := foldl_min_le_init (fun sec : pe_section_header => sec.ps_vaddr) secs
        (SIZE_MAX bits)
      rw [← hb] at this
      unfold SIZE_MAX at this
      omega
    have hneq : S'.ubi_kernel_top ≠ S'.ubi_kernel_base := by
      intro heq
      rw [heq] at hw
      exact hw (wsub_self_of_lt bits _ hlt)
    have hgr := foldl_max_is_greatest
      (fun sec : pe_section_header => u32 (sec.ps_vaddr + sec.ps_vsize)) secs hne
    rw [← ht] at hgr
    refine ⟨hne, hleast, hgr, hneq, ?_, ?_⟩
    · intro hk
      rw [hk2] at hkn
      obtain ⟨v, -, hv⟩ := ubi_find_header_found bits F img _ S2 hf hk hkn
      unfold ubi_get_file_addr at hv
      by_cases hv0 : v = 0
      · rw [if_pos hv0] at hv
        exact absurd (Option.some.inj hv).symm hkn
      · rw [if_neg hv0] at hv
        have h21 : ¬ ((2 : Nat) = 1) := by decide
        simp only [h21, if_false, if_true] at hv
        rw [hsec] at hv
        simp only at hv
        have hv' := Option.some.inj hv
        have hnz : file_addr_pe_loop bits F.read.2.1 v secs ≠ 0 := by
          rw [hv']; exact hkn
        obtain ⟨x, hx, hx1, hx2⟩ := file_addr_pe_loop_found bits _ v secs hnz
        have h1 := hleast.2 _ (List.mem_map_of_mem
          (fun sec : pe_section_header => sec.ps_vaddr) hx)
        have h2 := hgr.2 _ (List.mem_map_of_mem
          (fun sec : pe_section_header => u32 (sec.ps_vaddr + sec.ps_vsize)) hx)
        simp only at h1 h2
        omega
    · intro hnw
      have e : secs.map (fun sec => sec.ps_vaddr + sec.ps_vsize) =
          secs.map (fun sec => u32 (sec.ps_vaddr + sec.ps_vsize)) :=
        map_congr_of_fit _ _ _ (fun sec hp => by
          show sec.ps_vaddr + sec.ps_vsize = u32 (sec.ps_vaddr + sec.ps_vsize)
          rw [u32, Nat.mod_eq_of_lt (hnw sec hp)])
      rw [e]
      exact hgr

/-- The sample ELF kernel has `LOAD` headers at 0, `0x3000` long, and at `0x1ff000`, `0x1000`
long, and its UBI header at `0x2000`: entered with `ubi_kernel` null, the loader finds the
header in the file at `0x803000` and loads the kernel with base 0 and top `0x200000`. -/
theorem ubi_load_kernel_minmax_witness :
    example_blank.ubi_kernel = 0 ∧ example_loaded.ubi_kernel = 0x803000 ∧
    is_least example_loaded.ubi_kernel_base [0, 0x1ff000] ∧
    is_greatest example_loaded.ubi_kernel_top [0x3000, 0x200000] ∧
    example_loaded.ubi_kernel_base < example_loaded.ubi_kernel_top := by
  obtain ⟨phs, hph, -, hl, -, -, hlt, hg⟩ := (ubi_load_kernel_minmax 64 example_kernel_file
    example_image [47, 97, 104, 99, 105, 48, 46, 48, 47, 107, 101, 114, 110, 101, 108]
    example_blank example_loaded rfl).1 rfl
  obtain rfl := Option.some.inj hph
  exact ⟨rfl, rfl, hl, hg (by decide), hlt rfl⟩

/-- Counterexample to C29 as stated. An ELF kernel with the `LOAD` headers `[0x1000,
0x3000)`, which holds the UBI header at `0x2000`, and `p_vaddr = 0x3000` with `p_memsz =
2^64 - 0x2000`: `ubi_get_file_addr` finds the header at `0x802000` and the kernel is loaded
successfully with base `0x1000` and top `0x3000`, although `p_vaddr + p_memsz` of the second
header is `2^64 + 0x1000`: the top is not the greatest `p_vaddr + p_memsz`. -/
theorem ubi_load_kernel_wrapped_top :
    example_blank.ubi_kernel = 0 ∧
    (ubi_load_kernel 64 example_kernel_file example_wrapped_image
      [47, 97, 104, 99, 105, 48, 46, 48, 47, 107, 101, 114, 110, 101, 108] example_blank).map
      (fun r => (r.1, r.2.ubi_kernel, r.2.ubi_kernel_base, r.2.ubi_kernel_top)) =
      some (TSX_SUCCESS, 0x802000, 0x1000, 0x3000) ∧
    example_wrapped_image.ph.map
      (fun phs => (elf_loads phs).map (fun ph => ph.p_vaddr + ph.p_memsz)) =
      some [0x3000, 2 ^ 64 + 0x1000] := by
  decide

/-! ## Directory scans -/

theorem list_scan_eq (m : Mem) (size : Nat) : ∀ (fuel off : Nat) (list r : List (List Nat)),
    list_scan m size fuel off list = some r →
    r = list ++ ((dir_offsets m size fuel off).filter
      (fun o => decide (0 < de_name_len m o))).map (entry_name m) := by
  intro fuel
  induction fuel with
  | zero => intro off list r h; cases h
  | succ fuel ih =>
    intro off list r h
    unfold list_scan at h
    unfold dir_offsets
    by_cases hstop : off + de_rec_len m off ≥ size ∨ de_rec_len m (off + de_rec_len m off) = 0
    · simp only [hstop, if_true] at h ⊢
      have h' := (Option.some.inj h).symm
      rw [h']
      by_cases hn : de_name_len m off > 0
      · simp [hn]
      · simp [hn]
    · simp only [hstop, if_false] at h ⊢
      have h' := ih _ _ _ h
      rw [h']
      by_cases hn : de_name_len m off > 0
      · simp [hn]
      · simp [hn]

theorem list_scan_total_aux (m : Mem) (size : Nat) : ∀ (fuel off : Nat) (list : List (List Nat)),
    off < size → de_rec_len m off ≠ 0 → size - off ≤ fuel →
    (list_scan m size fuel off list).isSome = true := by
  intro fuel
  induction fuel with
  | zero => intro off list h1 _ h3; omega
  | succ fuel ih =>
    intro off list h1 h2 h3
    unfold list_scan
    by_cases hstop : off + de_rec_len m off ≥ size ∨ de_rec_len m (off + de_rec_len m off) = 0
    · simp only [hstop, if_true]
      rfl
    · simp only [hstop, if_false]
      have hs := not_or.mp hstop
      exact ih _ _ (by omega) hs.2 (by omega)

/-- The listing loop ends within `size + 1` rounds. -/
theorem list_scan_total (m : Mem) (size : Nat) (list : List (List Nat)) :
    (list_scan m size (size + 1) 0 list).isSome = true := by
  unfold list_scan
  by_cases hstop : 0 + de_rec_len m 0 ≥ size ∨ de_rec_len m (0 + de_rec_len m 0) = 0
  · simp only [hstop, if_true]
    rfl
  · simp only [hstop, if_false]
    have hs := not_or.mp hstop
    exact list_scan_total_aux m size _ _ _ (by omega) hs.2 (by omega)

theorem dir_scan_total_aux (d : Bool) (p : List Nat) (m : Mem) (size : Nat) :
    ∀ (fuel off : Nat), off < size → de_rec_len m off ≠ 0 → size - off ≤ fuel →
    (dir_scan d p m size fuel off).isSome = true := by
  intro fuel
  induction fuel with
  | zero => intro off h1 _ h3; omega
  | succ fuel ih =>
    intro off h1 h2 h3
    unfold dir_scan
    by_cases hm : entry_matches d p m off = true
    · simp only [hm, if_true]
      rfl
    · simp only [hm, if_false]
      by_cases hstop : off + de_rec_len m off ≥ size ∨ de_rec_len m (off + de_rec_len m off) = 0
      · simp only [hstop, if_true]
        rfl
      · simp only [hstop, if_false]
        have hs := not_or.mp hstop
        exact ih _ (by omega) hs.2 (by omega)

/-- The lookup loop ends within `size + 1` rounds. -/
theorem dir_scan_total (d : Bool) (p : List Nat) (m : Mem) (size : Nat) :
    (dir_scan d p m size (size + 1) 0).isSome = true := by
  unfold dir_scan
  by_cases hm : entry_matches d p m 0 = true
  · simp only [hm, if_true]
    rfl
  · simp only [hm, if_false]
    by_cases hstop : 0 + de_rec_len m 0 ≥ size ∨ de_rec_len m (0 + de_rec_len m 0) = 0
    · simp only [hstop, if_true]
      rfl
    · simp only [hstop, if_false]
      have hs := not_or.mp hstop
      exact dir_scan_total_aux d p m size _ _ (by omega) hs.2 (by omega)

/-- The lookup loop finds the first of the scanned entries that passes the test. -/
theorem dir_scan_find (d : Bool) (p : List Nat) (m : Mem) (size : Nat) :
    ∀ (fuel off : Nat) (b : Bool) (o : Nat), dir_scan d p m size fuel off = some (b, o) →
    (b = true → (dir_offsets m size fuel off).find? (entry_matches d p m) = some o) ∧
    (b = false → (dir_offsets m size fuel off).find? (entry_matches d p m) = none) := by
  intro fuel
  induction fuel with
  | zero => intro off b o h; cases h
  | succ fuel ih =>
    intro off b o h
    unfold dir_scan at h
    unfold dir_offsets
    by_cases hm : entry_matches d p m off = true
    · simp only [hm, if_true] at h
      obtain ⟨h1, h2⟩ := Prod.mk.inj (Option.some.inj h)
      subst h1; subst h2
      simp [List.find?_cons, hm]
    · simp only [hm, if_false] at h
      have hm' : entry_matches d p m off = false := by
        cases hx : entry_matches d p m off
        · rfl
        · exact absurd hx hm
      by_cases hstop : off + de_rec_len m off ≥ size ∨ de_rec_len m (off + de_rec_len m off) = 0
      · simp only [hstop, if_true] at h ⊢
        obtain ⟨h1, h2⟩ := Prod.mk.inj (Option.some.inj h)
        subst h1
        simp [List.find?_cons, hm']
      · simp only [hstop, if_false] at h ⊢
        have := ih _ _ _ h
        simp only [List.find?_cons, hm']
        exact this

theorem strncmp_eq_congr (s1 s2 s2' : Mem) : ∀ (n i : Nat),
    (∀ j, i ≤ j → j < i + n → rd8 s2 j = rd8 s2' j) →
    strncmp_eq s1 s2 n i = strncmp_eq s1 s2' n i := by
  intro n
  induction n with
  | zero => intro i _; rfl
  | succ n ih =>
    intro i h
    unfold strncmp_eq
    rw [h i (Nat.le_refl _) (by omega)]
    rw [ih (i + 1) (fun j h1 h2 => h j (by omega) (by omega))]

/-- On a second string without a NUL among the compared characters, `strncmp` says equal
exactly when all the compared characters are equal. -/
theorem strncmp_eq_iff (s1 s2 : Mem) : ∀ (n i : Nat),
    (∀ j, i ≤ j → j < i + n → rd8 s2 j ≠ 0) →
    (strncmp_eq s1 s2 n i = true ↔ ∀ j, i ≤ j → j < i + n → rd8 s1 j = rd8 s2 j) := by
  intro n
  induction n with
  | zero =>
    intro i _
    constructor
    · intro _ j h1 h2; omega
    · intro _; rfl
  | succ n ih =>
    intro i hz
    unfold strncmp_eq
    by_cases h0 : rd8 s1 i = rd8 s2 i
    · have hnz : rd8 s1 i ≠ 0 := by rw [h0]; exact hz i (Nat.le_refl _) (by omega)
      simp only [ne_eq, h0, not_true, if_false]
      have hnz' : rd8 s2 i ≠ 0 := hz i (Nat.le_refl _) (by omega)
      simp only [hnz', if_false]
      rw [ih (i + 1) (fun j h1 h2 => hz j (by omega) (by omega))]
      constructor
      · intro h j h1 h2
        by_cases hj : j = i
        · subst hj; exact h0
        · exact h j (by omega) (by omega)
      · intro h j h1 h2
        exact h j (by omega) (by omega)
    · simp only [ne_eq, h0, not_false_eq_true, if_true]
      constructor
      · intro h; cases h
      · intro h
        exact absurd (h i (Nat.le_refl _) (by omega)) h0

theorem cstr_append_left (p n : List Nat) (j : Nat) (h : j < p.length) :
    cstr (p ++ n) j = cstr p j := by
  unfold cstr
  rw [List.getD_eq_getElem?_getD, List.getD_eq_getElem?_getD, List.getElem?_append_left h]

theorem takeWhile_append_of_mem (q n : List Nat) (h : 47 ∈ q) :
    (q ++ n).takeWhile (fun x => x != 47) = q.takeWhile (fun x => x != 47) := by
  induction q with
  | nil => cases h
  | cons c rest ih =>
    by_cases hc : c = 47
    · subst hc
      simp [List.takeWhile]
    · have hmem : 47 ∈ rest := by
        rcases List.mem_cons.mp h with h1 | h1
        · exact absurd h1.symm hc
        · exact h1
      have hb : (c != 47) = true := by simp [hc]
      simp only [List.cons_append, List.takeWhile_cons, hb, if_true]
      rw [ih hmem]

theorem dropWhile_append_of_mem (q n : List Nat) (h : 47 ∈ q) :
    (q ++ n).dropWhile (fun x => x != 47) = q.dropWhile (fun x => x != 47) ++ n := by
  induction q with
  | nil => cases h
  | cons c rest ih =>
    by_cases hc : c = 47
    · subst hc
      simp [List.dropWhile]
    · have hmem : 47 ∈ rest := by
        rcases List.mem_cons.mp h with h1 | h1
        · exact absurd h1.symm hc
        · exact h1
      have hb : (c != 47) = true := by simp [hc]
      simp only [List.cons_append, List.dropWhile_cons, hb, if_true]
      rw [ih hmem]

theorem pathpartlen_le (q : List Nat) : pathpartlen q ≤ q.length := by
  unfold pathpartlen
  exact (List.takeWhile_sublist _).length_le

/-- The test on a directory entry only looks at the first component of the path. -/
theorem entry_matches_append (d : Bool) (q n : List Nat) (m : Mem) (off : Nat) (h : 47 ∈ q) :
    entry_matches d (q ++ n) m off = entry_matches d q m off := by
  unfold entry_matches
  have hp : pathpartlen (q ++ n) = pathpartlen q := by
    unfold pathpartlen
    rw [takeWhile_append_of_mem q n h]
  rw [hp]
  by_cases hl : pathpartlen q = de_name_len m off
  · have hc : strncmp_eq (de_name m off) (cstr (q ++ n)) (de_name_len m off) 0 =
        strncmp_eq (de_name m off) (cstr q) (de_name_len m off) 0 := by
      apply strncmp_eq_congr
      intro j _ h2
      simp only [rd8]
      rw [cstr_append_left q n j (by have := pathpartlen_le q; omega)]
    rw [hc]
  · have hb : (pathpartlen q == de_name_len m off) = false := by simp [hl]
    simp only [hb, Bool.and_false, Bool.false_and]

theorem dir_scan_append (d : Bool) (q n : List Nat) (m : Mem) (size : Nat) (h : 47 ∈ q) :
    ∀ (fuel off : Nat), dir_scan d (q ++ n) m size fuel off = dir_scan d q m size fuel off := by
  intro fuel
  induction fuel with
  | zero => intro off; rfl
  | succ fuel ih =>
    intro off
    unfold dir_scan
    rw [entry_matches_append d q n m off h]
    simp only [ih]

theorem pathpartlen_of_not_mem (n : List Nat) (h : 47 ∉ n) : pathpartlen n = n.length := by
  unfold pathpartlen
  have : n.takeWhile (fun x => x != 47) = n := by
    rw [List.takeWhile_eq_self_iff]
    intro x hx
    have : x ≠ 47 := fun e => h (e ▸ hx)
    simp [this]
  rw [this]

theorem rd8_cstr (n : List Nat) (hb : ∀ c ∈ n, c < 256) (j : Nat) (hj : j < n.length) :
    rd8 (cstr n) j = n[j] := by
  unfold rd8 cstr
  rw [List.getD_eq_getElem?_getD, List.getElem?_eq_getElem hj]
  exact Nat.mod_eq_of_lt (hb _ (List.getElem_mem hj))

theorem entry_name_length (m : Mem) (off : Nat) : (entry_name m off).length = de_name_len m off := by
  simp [entry_name]

theorem entry_name_getElem (m : Mem) (off j : Nat) (hj : j < (entry_name m off).length) :
    (entry_name m off)[j] = rd8 (de_name m off) j := by
  simp [entry_name]

theorem entry_name_lt (m : Mem) (off : Nat) : ∀ c ∈ entry_name m off, c < 256 := by
  intro c hc
  simp only [entry_name, List.mem_map, List.mem_range] at hc
  obtain ⟨j, -, rfl⟩ := hc
  exact rd8_lt _ _

/-- For a name without `/` and NUL, the test made for the last component of a path is passed
exactly by the entries that carry the name. -/
theorem entry_matches_name (n : List Nat) (m : Mem) (off : Nat) (h47 : 47 ∉ n) (h0 : 0 ∉ n)
    (hb : ∀ c ∈ n, c < 256) :
    entry_matches false n m off = true ↔ entry_name m off = n := by
  have hnz : ∀ j, 0 ≤ j → j < 0 + de_name_len m off → de_name_len m off = n.length →
      rd8 (cstr n) j ≠ 0 := by
    intro j _ hj hl
    have hj' : j < n.length := by omega
    rw [rd8_cstr n hb j hj']
    intro e
    exact h0 (e ▸ List.getElem_mem hj')
  unfold entry_matches
  rw [pathpartlen_of_not_mem n h47]
  simp only [Bool.false_eq_true, if_false, Bool.true_and, Bool.and_eq_true, beq_iff_eq]
  constructor
  · rintro ⟨hl, hs⟩
    rw [strncmp_eq_iff _ _ _ _ (fun j h1 h2 => hnz j h1 h2 hl.symm)] at hs
    apply List.ext_getElem
    · rw [entry_name_length]; exact hl.symm
    · intro j h1 h2
      rw [entry_name_getElem, hs j (Nat.zero_le _) (by rw [entry_name_length] at h1; omega),
        rd8_cstr n hb j h2]
  · intro he
    have hl : de_name_len m off = n.length := by rw [← entry_name_length, he]
    refine ⟨hl.symm, ?_⟩
    rw [strncmp_eq_iff _ _ _ _ (fun j h1 h2 => hnz j h1 h2 hl)]
    intro j _ h2
    have hj : j < n.length := by omega
    rw [rd8_cstr n hb j hj]
    have hj' : j < (entry_name m off).length := by rw [he]; exact hj
    rw [← entry_name_getElem m off j hj']
    simp only [he]

/-! ## Path resolution -/

theorem path_loop_nil (E : Env) (partStart fuel parts k i c t : Nat) :
    path_loop E partStart fuel parts k i [] c t = some (.ok (c, t)) := by
  cases k with
  | zero => rfl
  | succ k => unfold path_loop; simp

/-- One round of the loop of `ext_get_path_inode` in which the component is found. -/
theorem path_loop_step (E : Env) (partStart fuel parts k i : Nat) (path : List Nat) (c t : Nat)
    (dirNode : Mem) (r : InodeRead) (off : Nat) (hne : path ≠ [])
    (hi : ext_get_inode E partStart c = .ok dirNode)
    (hr : ext_read_inode E partStart fuel dirNode = some r)
    (hs : r.status = TSX_SUCCESS)
    (hd : dir_scan (decide (i < parts - 1)) path r.location.mem r.size (r.size + 1) 0 =
      some (true, off)) :
    path_loop E partStart fuel parts (k + 1) i path c t =
      path_loop E partStart fuel parts k (i + 1) (util_str_cut_to path 47).tail
        (de_inode r.location.mem off) (de_file_type r.location.mem off) := by
  rw [path_loop]
  simp only [hne, if_false, hi, hr, hs, ne_eq, not_true, hd]

/-- A round of the loop of `ext_get_path_inode` that does not fail has found the component. -/
theorem path_loop_inv (E : Env) (partStart fuel parts k i : Nat) (path : List Nat) (c t : Nat)
    (res : Nat × Nat) (hne : path ≠ [])
    (h : path_loop E partStart fuel parts (k + 1) i path c t = some (.ok res)) :
    ∃ dirNode r off, ext_get_inode E partStart c = .ok dirNode ∧
      ext_read_inode E partStart fuel dirNode = some r ∧ r.status = TSX_SUCCESS ∧
      dir_scan (decide (i < parts - 1)) path r.location.mem r.size (r.size + 1) 0 =
        some (true, off) := by
  rw [path_loop] at h
  simp only [hne, if_false] at h
  cases hi : ext_get_inode E partStart c with
  | error st => rw [hi] at h; cases h
  | ok dirNode =>
    rw [hi] at h
    simp only at h
    cases hr : ext_read_inode E partStart fuel dirNode with
    | none => rw [hr] at h; cases h
    | some r =>
      rw [hr] at h
      simp only at h
      by_cases hs : r.status = TSX_SUCCESS
      · simp only [hs, ne_eq, not_true, if_false] at h
        cases hd : dir_scan (decide (i < parts - 1)) path r.location.mem r.size (r.size + 1) 0 with
        | none => rw [hd] at h; cases h
        | some bo =>
          obtain ⟨b, off⟩ := bo
          rw [hd] at h
          cases b with
          | false => simp only at h; cases h
          | true => exact ⟨dirNode, r, off, rfl, hr, hs, hd⟩
      · simp only [hs, ne_eq, not_false_eq_true, if_true] at h
        cases h

theorem split_at_slash (q : List Nat) (h : 47 ∈ q) :
    ∃ comp q', q = comp ++ 47 :: q' ∧ 47 ∉ comp ∧
      q.dropWhile (fun x => x != 47) = 47 :: q' := by
  induction q with
  | nil => cases h
  | cons c rest ih =>
    by_cases hc : c = 47
    · subst hc
      exact ⟨[], rest, rfl, List.not_mem_nil _, by simp [List.dropWhile]⟩
    · have hmem : 47 ∈ rest := by
        rcases List.mem_cons.mp h with h1 | h1
        · exact absurd h1.symm hc
        · exact h1
      obtain ⟨comp, q', h1, h2, h3⟩ := ih hmem
      refine ⟨c :: comp, q', by rw [h1]; rfl, ?_, ?_⟩
      · intro hx
        rcases List.mem_cons.mp hx with h4 | h4
        · exact hc h4.symm
        · exact h2 h4
      · have hb : (c != 47) = true := by simp [hc]
        simp only [List.dropWhile_cons, hb, if_true]
        exact h3

theorem mem_of_getLast? (q : List Nat) (h : q.getLast? = some 47) : 47 ∈ q :=
  List.mem_of_getLast?_eq_some h

/-- Resolving a directory path that ends in `/` with a name appended goes through the same
directories and then looks the name up in the directory the path leads to. -/
theorem path_loop_append (E : Env) (partStart fuel parts : Nat) (n : List Nat) :
    ∀ (k i : Nat) (q : List Nat) (c t cd td : Nat),
    (q = [] ∨ q.getLast? = some 47) → q.count 47 < k →
    path_loop E partStart fuel parts k i q c t = some (.ok (cd, td)) →
    path_loop E partStart fuel parts k i (q ++ n) c t =
      path_loop E partStart fuel parts (k - q.count 47) (i + q.count 47) n cd td := by
  intro k
  induction k with
  | zero => intro i q c t cd td _ hk _; omega
  | succ k ih =>
    intro i q c t cd td hq hk h
    by_cases hnil : q = []
    · subst hnil
      rw [path_loop_nil] at h
      obtain ⟨h1, h2⟩ := Prod.mk.inj (Except.ok.inj (Option.some.inj h))
      subst h1; subst h2
      simp
    · have hlast : q.getLast? = some 47 := by
        rcases hq with h1 | h1
        · exact absurd h1 hnil
        · exact h1
      have hmem : 47 ∈ q := mem_of_getLast? q hlast
      obtain ⟨comp, q', hsplit, hcomp, hdrop⟩ := split_at_slash q hmem
      obtain ⟨dirNode, r, off, hi, hr, hs, hd⟩ :=
        path_loop_inv E partStart fuel parts k i q c t (cd, td) hnil h
      have hcut : (util_str_cut_to q 47).tail = q' := by
        unfold util_str_cut_to; rw [hdrop]; rfl
      have hcut2 : (util_str_cut_to (q ++ n) 47).tail = q' ++ n := by
        unfold util_str_cut_to; rw [dropWhile_append_of_mem q n hmem, hdrop]; rfl
      rw [path_loop_step E partStart fuel parts k i q c t dirNode r off hnil hi hr hs hd,
        hcut] at h
      have hd2 : dir_scan (decide (i < parts - 1)) (q ++ n) r.location.mem r.size (r.size + 1) 0 =
          some (true, off) := by
        rw [dir_scan_append _ q n _ _ hmem]; exact hd
      have hne2 : q ++ n ≠ [] := by
        intro e
        exact hnil (List.append_eq_nil.mp e).1
      rw [path_loop_step E partStart fuel parts k i (q ++ n) c t dirNode r off hne2 hi hr hs hd2,
        hcut2]
      have hcount : q.count 47 = q'.count 47 + 1 := by
        rw [hsplit, List.count_append, List.count_cons_self,
          List.count_eq_zero_of_not_mem hcomp]
        omega
      have hq' : q' = [] ∨ q'.getLast? = some 47 := by
        by_cases hq'n : q' = []
        · exact Or.inl hq'n
        · right
          rw [hsplit] at hlast
          rw [List.getLast?_append_of_ne_nil _ (List.cons_ne_nil _ _)] at hlast
          cases q' with
          | nil => exact absurd rfl hq'n
          | cons a l =>
            rw [List.getLast?_cons_cons] at hlast
            exact hlast
      rw [ih (i + 1) q' _ _ cd td hq' (by omega) h, hcount]
      have e1 : k - q'.count 47 = k + 1 - (q'.count 47 + 1) := by omega
      have e2 : i + 1 + q'.count 47 = i + (q'.count 47 + 1) := by omega
      rw [e1, e2]

/-- The last round of the loop of `ext_get_path_inode`, for a name without `/`. -/
theorem path_loop_final (E : Env) (partStart fuel parts k : Nat) (n : List Nat) (c t : Nat)
    (dirNode : Mem) (r : InodeRead) (off : Nat) (hn : n ≠ []) (h47 : 47 ∉ n)
    (hi : ext_get_inode E partStart c = .ok dirNode)
    (hr : ext_read_inode E partStart fuel dirNode = some r)
    (hs : r.status = TSX_SUCCESS)
    (hd : dir_scan false n r.location.mem r.size (r.size + 1) 0 = some (true, off)) :
    path_loop E partStart fuel parts (k + 1) (parts - 1) n c t =
      some (.ok (de_inode r.location.mem off, de_file_type r.location.mem off)) := by
  have hdec : decide (parts - 1 < parts - 1) = false := by simp
  rw [path_loop_step E partStart fuel parts k (parts - 1) n c t dirNode r off hn hi hr hs
    (by rw [hdec]; exact hd)]
  have hcut : (util_str_cut_to n 47).tail = [] := by
    unfold util_str_cut_to
    have : n.dropWhile (fun x => x != 47) = [] := by
      rw [List.dropWhile_eq_nil_iff]
      intro x hx
      have : x ≠ 47 := fun e => h47 (e ▸ hx)
      simp [this]
    rw [this]; rfl
  rw [hcut, path_loop_nil]

theorem cut_trailing_name_tail (path : List Nat) (hp : path ≠ []) :
    ∃ c0 q, cut_trailing_name path = c0 :: q ∧ (q = [] ∨ q.getLast? = some 47) := by
  cases path with
  | nil => exact absurd rfl hp
  | cons c0 rest =>
    refine ⟨c0, rest.rdropWhile (fun c => c != 47), rfl, ?_⟩
    by_cases hq : rest.rdropWhile (fun c => c != 47) = []
    · exact Or.inl hq
    · right
      have h := List.rdropWhile_last_not (fun c => c != 47) rest hq
      rw [List.getLast?_eq_getLast _ hq]
      simp only [bne_iff_ne, ne_eq, not_not] at h
      rw [h]

/-- C30. Let `ext_get_dir` resolve the directory part of a non-empty `path` and let the
directory be read. Then `vfs_listDir` returns, in the order of the scan, the names (each as
its `name_len` bytes) of the scanned entries whose `name_len` is positive, and no other. And
every returned name that contains neither `/` nor NUL resolves, appended to the directory
part of `path`, to the inode and type of the first scanned entry that carries that name. -/
theorem vfs_listDir_spec (E : Env) (partStart fuel : Nat) (path : List Nat) (inode : Nat)
    (inodeData : Mem) (r : InodeRead) (hp : path ≠ [])
    (hd : ext_get_dir E partStart fuel path = some (.ok inode))
    (hi : ext_get_inode E partStart inode = .ok inodeData)
    (hr : ext_read_inode E partStart fuel inodeData = some r)
    (hs : r.status = TSX_SUCCESS) :
    vfs_listDir E partStart fuel path =
      some (.ok (((dir_offsets r.location.mem r.size (r.size + 1) 0).filter
        (fun o => decide (0 < de_name_len r.location.mem o))).map
          (entry_name r.location.mem))) ∧
    ∀ o ∈ dir_offsets r.location.mem r.size (r.size + 1) 0,
      0 < de_name_len r.location.mem o →
      47 ∉ entry_name r.location.mem o → 0 ∉ entry_name r.location.mem o →
      ∃ o1, (dir_offsets r.location.mem r.size (r.size + 1) 0).find?
          (fun o' => decide (entry_name r.location.mem o' = entry_name r.location.mem o)) =
          some o1 ∧
        ext_get_path_inode E partStart fuel
          (cut_trailing_name path ++ entry_name r.location.mem o) =
          some (.ok (de_inode r.location.mem o1, de_file_type r.location.mem o1)) := by
  refine ⟨?_, ?_⟩
  · unfold vfs_listDir
    rw [hd]
    simp only [hi, hr, hs, ne_eq, not_true, if_false]
    cases hl : list_scan r.location.mem r.size (r.size + 1) 0 [] with
    | none =>
      have := list_scan_total r.location.mem r.size []
      rw [hl] at this
      cases this
    | some list =>
      simp only
      rw [list_scan_eq _ _ _ _ _ _ hl, List.nil_append]
  · intro o ho hlen h47 h0
    have hnn : entry_name r.location.mem o ≠ [] := by
      intro e
      have := entry_name_length r.location.mem o
      rw [e] at this
      simp at this
      omega
    have hpred : ∀ o', entry_matches false (entry_name r.location.mem o) r.location.mem o' =
        decide (entry_name r.location.mem o' = entry_name r.location.mem o) := by
      intro o'
      have := entry_matches_name (entry_name r.location.mem o) r.location.mem o' h47 h0
        (entry_name_lt _ _)
      by_cases he : entry_name r.location.mem o' = entry_name r.location.mem o
      · rw [this.mpr he]; simp [he]
      · have : entry_matches false (entry_name r.location.mem o) r.location.mem o' = false := by
          cases hx : entry_matches false (entry_name r.location.mem o) r.location.mem o'
          · rfl
          · exact absurd (this.mp hx) he
        rw [this]; simp [he]
    have hfun : (fun o' => decide (entry_name r.location.mem o' = entry_name r.location.mem o)) =
        entry_matches false (entry_name r.location.mem o) r.location.mem := by
      funext o'; exact (hpred o').symm
    rw [hfun]
    -- the lookup of the name in the directory
    cases hscan : dir_scan false (entry_name r.location.mem o) r.location.mem r.size
        (r.size + 1) 0 with
    | none =>
      have := dir_scan_total false (entry_name r.location.mem o) r.location.mem r.size
      rw [hscan] at this
      cases this
    | some bo =>
      obtain ⟨b, o1⟩ := bo
      have hfind := dir_scan_find false (entry_name r.location.mem o) r.location.mem r.size
        _ _ _ _ hscan
      cases b with
      | false =>
        exfalso
        have hnone := hfind.2 rfl
        rw [List.find?_eq_none] at hnone
        have := hnone o ho
        rw [hpred o] at this
        simp at this
      | true =>
        refine ⟨o1, hfind.1 rfl, ?_⟩
        -- the directory part
        obtain ⟨c0, q, hcut, hq⟩ := cut_trailing_name_tail path hp
        unfold ext_get_dir at hd
        rw [hcut] at hd ⊢
        cases hg : ext_get_path_inode E partStart fuel (c0 :: q) with
        | none => rw [hg] at hd; cases hd
        | some res =>
          rw [hg] at hd
          cases res with
          | error st => cases hd
          | ok ct =>
            obtain ⟨cd, td⟩ := ct
            simp only at hd
            by_cases htd : td = EXT_INODE_TYPE_DIRECTORY
            · simp only [htd, ne_eq, not_true, if_false] at hd
              have hcd : cd = inode := Except.ok.inj (Option.some.inj hd)
              subst hcd
              unfold ext_get_path_inode at hg ⊢
              simp only [List.tail_cons, List.cons_append, util_count_parts] at hg ⊢
              have hcnt : (q ++ entry_name r.location.mem o).count 47 = q.count 47 := by
                rw [List.count_append, List.count_eq_zero_of_not_mem h47]
                rfl
              rw [hcnt]
              rw [path_loop_append E partStart fuel _ _ _ _ q _ _ cd td hq (by omega) hg]
              have e1 : q.count 47 + 1 - q.count 47 = 0 + 1 := by omega
              have e2 : 0 + q.count 47 = (q.count 47 + 1) - 1 := by omega
              rw [e1, e2]
              exact path_loop_final E partStart fuel _ 0 _ _ _ inodeData r o1 hnn h47 hi hr hs
                hscan
            · simp only [htd, ne_eq, not_false_eq_true, if_true] at hd
              cases hd

/-- The root directory of the sample volume lists `.`, `..` and `k`, and `/k` resolves to
inode 12, a regular file, the entry at offset 24. -/
theorem vfs_listDir_spec_witness :
    vfs_listDir example_ext 0 4 [47] = some (.ok [[46], [46, 46], [107]]) ∧
    ∃ o1, (dir_offsets example_root_read.location.mem example_root_read.size
        (example_root_read.size + 1) 0).find?
          (fun o' => decide (entry_name example_root_read.location.mem o' =
            entry_name example_root_read.location.mem 24)) = some o1 ∧
      ext_get_path_inode example_ext 0 4
          (cut_trailing_name [47] ++ entry_name example_root_read.location.mem 24) =
        some (.ok (de_inode example_root_read.location.mem o1,
          de_file_type example_root_read.location.mem o1)) :=
  have h := vfs_listDir_spec example_ext 0 4 [47] 2 example_root_inode example_root_read
    (by decide) rfl rfl rfl (by decide)
  ⟨h.1.trans (congrArg (fun l => some (Except.ok l)) (by decide)), h.2 24 (by decide) (by decide) (by decide) (by decide)⟩

/-! ## The probe -/

/-- C2. `vfs_isFilesystem` answers true exactly when the sector at LBA `partStart + 2` is read
successfully, the 16-bit field at offset 56 of it is `0xEF53`, and the 32-bit field at offset
96 has no bit outside `0x2CE`, the mask of `FILETYPE`, `64BIT`, `EXTENTS`, `FLEX_BG`,
`RECOVER` and `JOURNAL_DEV`. So a superblock in which `COMPRESSION`, `META_BG`, `MMP`,
`EA_INODE`, `DIRDATA`, `CSUM_SEED`, `LARGEDIR`, `INLINE_DATA`, `ENCRYPT` or any other bit
outside the mask is set is rejected. -/
theorem vfs_isFilesystem_spec (E : Env) (partStart : Nat) :
    (vfs_isFilesystem E partStart = true ↔
      (msio_read_drive E (u64 (partStart + 2)) 1 0 (kmalloc E)).1 = TSX_SUCCESS ∧
      rd16 (msio_read_drive E (u64 (partStart + 2)) 1 0 (kmalloc E)).2.mem 56 = 0xEF53 ∧
      rd32 (msio_read_drive E (u64 (partStart + 2)) 1 0 (kmalloc E)).2.mem 96 &&&
        (0xFFFFFFFF ^^^ 0x2CE) = 0) ∧
    ext_incompat_support = 0x2CE ∧
    0x2CE = EXT_INCOMPAT_FILETYPE ||| EXT_INCOMPAT_64BIT ||| EXT_INCOMPAT_EXTENTS |||
      EXT_INCOMPAT_FLEX_BG ||| EXT_INCOMPAT_RECOVER ||| EXT_INCOMPAT_JOURNAL_DEV ∧
    (∀ i, i < 32 → (0x2CE : Nat).testBit i = false →
      (rd32 (msio_read_drive E (u64 (partStart + 2)) 1 0 (kmalloc E)).2.mem 96).testBit i = true →
      vfs_isFilesystem E partStart = false) ∧
    (∀ f ∈ [EXT_INCOMPAT_COMPRESSION, EXT_INCOMPAT_META_BG, EXT_INCOMPAT_MMP,
        EXT_INCOMPAT_EA_INODE, EXT_INCOMPAT_DIRDATA, EXT_INCOMPAT_CSUM_SEED,
        EXT_INCOMPAT_LARGEDIR, EXT_INCOMPAT_INLINE_DATA, EXT_INCOMPAT_ENCRYPT],
      ∃ i, i < 32 ∧ f = 2 ^ i ∧ (0x2CE : Nat).testBit i = false) := by
  have hsup : ext_incompat_support = 0x2CE := by decide
  have hiff : vfs_isFilesystem E partStart = true ↔
      (msio_read_drive E (u64 (partStart + 2)) 1 0 (kmalloc E)).1 = TSX_SUCCESS ∧
      rd16 (msio_read_drive E (u64 (partStart + 2)) 1 0 (kmalloc E)).2.mem 56 = 0xEF53 ∧
      rd32 (msio_read_drive E (u64 (partStart + 2)) 1 0 (kmalloc E)).2.mem 96 &&&
        (0xFFFFFFFF ^^^ 0x2CE) = 0 := by
    unfold vfs_isFilesystem
    simp only [s_magic, s_feature_incompat, EXT_MAGIC, hsup]
    constructor
    · intro h
      by_contra hc
      simp only [hc, if_false] at h
      cases h
    · intro h
      simp only [h, and_self, if_true]
  refine ⟨hiff, hsup, by decide, ?_, ?_⟩
  · intro i hi hbit hset
    cases hv : vfs_isFilesystem E partStart
    · rfl
    · exfalso
      obtain ⟨-, -, hmask⟩ := hiff.mp hv
      have h1 : (rd32 (msio_read_drive E (u64 (partStart + 2)) 1 0 (kmalloc E)).2.mem 96 &&&
          (0xFFFFFFFF ^^^ 0x2CE)).testBit i = true := by
        rw [Nat.testBit_and, hset, Nat.testBit_xor, hbit]
        have : (0xFFFFFFFF : Nat).testBit i = true := by
          have : (0xFFFFFFFF : Nat) = 2 ^ 32 - 1 := by decide
          rw [this, Nat.testBit_two_pow_sub_one]
          simp [hi]
        simp [this]
      rw [hmask] at h1
      simp at h1
  · intro f hf
    simp only [List.mem_cons, List.mem_singleton, List.not_mem_nil, or_false] at hf
    rcases hf with h | h | h | h | h | h | h | h | h
    · exact ⟨0, by decide, by rw [h]; decide, by decide⟩
    · exact ⟨4, by decide, by rw [h]; decide, by decide⟩
    · exact ⟨8, by decide, by rw [h]; decide, by decide⟩
    · exact ⟨10, by decide, by rw [h]; decide, by decide⟩
    · exact ⟨12, by decide, by rw [h]; decide, by decide⟩
    · exact ⟨13, by decide, by rw [h]; decide, by decide⟩
    · exact ⟨14, by decide, by rw [h]; decide, by decide⟩
    · exact ⟨15, by decide, by rw [h]; decide, by decide⟩
    · exact ⟨16, by decide, by rw [h]; decide, by decide⟩

/-- The sample volume is recognised; with the `META_BG` bit added to its features it is not. -/
theorem vfs_isFilesystem_spec_witness :
    vfs_isFilesystem example_ext 0 = true ∧
    vfs_isFilesystem { example_ext with
      data := fun a => if a = 1024 + 96 then 0x12 else example_disk a } 0 = false :=
  ⟨(vfs_isFilesystem_spec example_ext 0).1.mpr (by decide),
   (vfs_isFilesystem_spec { example_ext with
      data := fun a => if a = 1024 + 96 then 0x12 else example_disk a } 0).2.2.2.1 4
      (by decide) (by decide) (by decide)⟩

/-! ## Reading an inode -/

theorem msio_read_drive_status (E : Env) (lba count dest : Nat) (b : Buf) :
    walk_status (msio_read_drive E lba count dest b).1 := by
  unfold msio_read_drive
  split
  · exact Or.inr (Or.inl rfl)
  · exact Or.inl rfl

theorem direct_loop_status (E : Env) (partStart blockSize : Nat) (inode : Mem) :
    ∀ (k i : Nat) (b : Buf) (loc : Nat),
    walk_status (direct_loop E partStart blockSize inode k i b loc).1 := by
  intro k
  induction k with
  | zero => intro i b loc; exact Or.inl rfl
  | succ k ih =>
    intro i b loc
    unfold direct_loop
    split
    · exact Or.inl rfl
    · simp only
      split
      · exact msio_read_drive_status _ _ _ _ _
      · exact ih _ _ _

theorem indirect_leaf_loop_status (E : Env) (partStart blockSize : Nat) (table : Mem) :
    ∀ (k i : Nat) (b : Buf) (loc : Nat),
    walk_status (indirect_leaf_loop E partStart blockSize table k i b loc).1 := by
  intro k
  induction k with
  | zero => intro i b loc; exact Or.inl rfl
  | succ k ih =>
    intro i b loc
    unfold indirect_leaf_loop
    split
    · exact Or.inl rfl
    · simp only
      split
      · exact msio_read_drive_status _ _ _ _ _
      · exact ih _ _ _

theorem indirect_index_loop_status (child : Nat → Buf → Nat → status_t × Buf × Nat) (table : Mem)
    (hc : ∀ p b loc, walk_status (child p b loc).1) :
    ∀ (k i : Nat) (b : Buf) (loc : Nat),
    walk_status (indirect_index_loop child table k i b loc).1 := by
  intro k
  induction k with
  | zero => intro i b loc; exact Or.inl rfl
  | succ k ih =>
    intro i b loc
    unfold indirect_index_loop
    split
    · exact Or.inl rfl
    · simp only
      split
      · exact hc _ _ _
      · exact ih _ _ _

theorem ext_read_indirect_blocks_status (E : Env) (partStart blockSize : Nat) :
    ∀ (depth blockTable : Nat) (b : Buf) (loc : Nat),
    walk_status (ext_read_indirect_blocks E partStart blockSize depth blockTable b loc).1 := by
  intro depth
  induction depth with
  | zero =>
    intro bt b loc
    unfold ext_read_indirect_blocks
    simp only
    split
    · exact msio_read_drive_status _ _ _ _ _
    · exact indirect_leaf_loop_status _ _ _ _ _ _ _ _
  | succ depth ih =>
    intro bt b loc
    unfold ext_read_indirect_blocks
    simp only
    split
    · exact msio_read_drive_status _ _ _ _ _
    · exact indirect_index_loop_status _ _ (fun p b loc => ih p b loc) _ _ _ _

theorem extent_leaf_loop_status (E : Env) (partStart blockSize : Nat) (header : Mem) :
    ∀ (k i : Nat) (dest : Buf),
    walk_status (extent_leaf_loop E partStart blockSize header k i dest).1 := by
  intro k
  induction k with
  | zero => intro i dest; exact Or.inl rfl
  | succ k ih =>
    intro i dest
    unfold extent_leaf_loop
    simp only
    split
    · exact msio_read_drive_status _ _ _ _ _
    · exact ih _ _

theorem extent_index_loop_status (E : Env) (partStart blockSize : Nat)
    (child : Mem → Buf → Option (status_t × Buf))
    (hc : ∀ h d r, child h d = some r → walk_status r.1) (header : Mem) :
    ∀ (k i : Nat) (tempData dest : Buf) (r : status_t × Buf),
    extent_index_loop E partStart blockSize child header k i tempData dest = some r →
    walk_status r.1 := by
  intro k
  induction k with
  | zero =>
    intro i t d r h
    unfold extent_index_loop at h
    cases h
    exact Or.inl rfl
  | succ k ih =>
    intro i t d r h
    unfold extent_index_loop at h
    simp only at h
    split at h
    · cases h
      exact msio_read_drive_status _ _ _ _ _
    · split at h
      · cases h
      · rename_i c hcx
        split at h
        · cases h
          exact hc _ _ _ hcx
        · exact ih _ _ _ _ h

theorem ext_read_extent_status (E : Env) (partStart blockSize : Nat) :
    ∀ (fuel : Nat) (header : Mem) (dest : Buf) (r : status_t × Buf),
    ext_read_extent E partStart blockSize fuel header dest = some r → walk_status r.1 := by
  intro fuel
  induction fuel with
  | zero =>
    intro header dest r h
    unfold ext_read_extent at h
    cases h
    exact Or.inr (Or.inr (Or.inr rfl))
  | succ fuel ih =>
    intro header dest r h
    unfold ext_read_extent at h
    split at h
    · cases h
      exact Or.inr (Or.inr (Or.inl rfl))
    · split at h
      · cases h
        exact extent_leaf_loop_status _ _ _ _ _ _ _
      · exact extent_index_loop_status E partStart blockSize _ (fun h d r hx => ih h d r hx)
          header _ _ _ _ r h

theorem read_block_pointers_status (E : Env) (partStart blockSize : Nat) (inode : Mem)
    (location : Buf) :
    walk_status (read_block_pointers E partStart blockSize inode location).1 := by
  unfold read_block_pointers
  simp only
  have h0 := direct_loop_status E partStart blockSize inode 12 0 location 0
  generalize direct_loop E partStart blockSize inode 12 0 location 0 = r0 at h0 ⊢
  by_cases c0 : r0.1 = TSX_SUCCESS
  · simp only [c0, ne_eq, not_true, if_false]
    have h1 : walk_status (if ¬ i_block_i1 inode = 0 then
        ext_read_indirect_blocks E partStart (u32 blockSize) 0 (i_block_i1 inode) r0.2.1 r0.2.2
        else r0).1 := by
      split
      · exact ext_read_indirect_blocks_status _ _ _ _ _ _ _
      · exact h0
    generalize (if ¬ i_block_i1 inode = 0 then
        ext_read_indirect_blocks E partStart (u32 blockSize) 0 (i_block_i1 inode) r0.2.1 r0.2.2
        else r0) = r1 at h1 ⊢
    by_cases c1 : r1.1 = TSX_SUCCESS
    · simp only [c1, not_true, if_false]
      have h2 : walk_status (if ¬ i_block_i2 inode = 0 then
          ext_read_indirect_blocks E partStart (u32 blockSize) 1 (i_block_i2 inode) r1.2.1 r1.2.2
          else r1).1 := by
        split
        · exact ext_read_indirect_blocks_status _ _ _ _ _ _ _
        · exact h1
      generalize (if ¬ i_block_i2 inode = 0 then
          ext_read_indirect_blocks E partStart (u32 blockSize) 1 (i_block_i2 inode) r1.2.1 r1.2.2
          else r1) = r2 at h2 ⊢
      by_cases c2 : r2.1 = TSX_SUCCESS
      · simp only [c2, not_true, if_false]
        split
        · exact ext_read_indirect_blocks_status _ _ _ _ _ _ _
        · exact h2
      · simp only [c2, not_false_eq_true, if_true]
        exact h2
    · simp only [c1, not_false_eq_true, if_true]
      exact h1
  · simp only [c0, ne_eq, not_false_eq_true, if_true]
    exact h0

theorem ext_read_inode_to_status (E : Env) (partStart fuel : Nat) (inode : Mem) (location : Buf)
    (r : status_t × Buf) (h : ext_read_inode_to E partStart fuel inode location = some r) :
    walk_status r.1 := by
  unfold ext_read_inode_to at h
  simp only at h
  split at h
  · cases h
    exact msio_read_drive_status _ _ _ _ _
  · split at h
    · exact ext_read_extent_status _ _ _ _ _ _ _ h
    · cases h
      exact read_block_pointers_status _ _ _ _ _

/-- C9 (as amended). Let the superblock be read. When `i_size_high` of the inode is not zero,
`ext_read_inode` returns `TSX_TOO_LARGE` without assigning its out-parameters and without a
buffer left allocated; and whenever it returns, its status is `TSX_TOO_LARGE` exactly when
`i_size_high` is not zero. Otherwise it reports `size = i_size_lo` and, provided the block
size is positive and `i_size_lo` plus the block size does not exceed `2^bits`, a buffer size
that is the smallest multiple of the block size not below `i_size_lo`. On every failure the
data buffer is not left allocated. -/
theorem ext_read_inode_spec (E : Env) (partStart fuel : Nat) (inode : Mem)
    (hsb : (msio_read_drive E (u64 (partStart + 2)) 4 0 (kmalloc E)).1 = TSX_SUCCESS) :
    (i_size_high inode ≠ 0 → ∃ r, ext_read_inode E partStart fuel inode = some r ∧
      r.status = TSX_TOO_LARGE ∧ r.written = false ∧ r.live = false) ∧
    (∀ r, ext_read_inode E partStart fuel inode = some r →
      (r.status = TSX_TOO_LARGE ↔ i_size_high inode ≠ 0) ∧
      (i_size_high inode = 0 → r.size = i_size_lo inode ∧
        (0 < sb_block_size E partStart → i_size_lo inode + sb_block_size E partStart ≤ 2 ^ E.bits →
          sb_block_size E partStart ∣ r.absSize ∧ i_size_lo inode ≤ r.absSize ∧
          r.absSize < i_size_lo inode + sb_block_size E partStart)) ∧
      (r.status ≠ TSX_SUCCESS → r.live = false)) := by
  refine ⟨?_, ?_⟩
  · intro hh
    unfold ext_read_inode
    simp only [hsb, ne_eq, not_true, if_false, hh, not_false_eq_true, if_true]
    exact ⟨_, rfl, rfl, rfl, rfl⟩
  · intro r hr
    unfold ext_read_inode at hr
    simp only [hsb, ne_eq, not_true, if_false] at hr
    by_cases hh : i_size_high inode = 0
    · simp only [hh, not_true, if_false] at hr
      cases ht : ext_read_inode_to E partStart fuel inode (kmalloc E) with
      | none => rw [ht] at hr; cases hr
      | some t =>
        rw [ht] at hr
        simp only at hr
        have hst := ext_read_inode_to_status E partStart fuel inode (kmalloc E) t ht
        have hr' := (Option.some.inj hr).symm
        subst hr'
        simp only
        refine ⟨?_, ?_, ?_⟩
        · constructor
          · intro h
            rcases hst with h1 | h1 | h1 | h1 <;> rw [h1] at h <;> cases h
          · intro h; exact absurd hh h
        · intro _
          refine ⟨trivial, ?_⟩
          intro hpos hfit
          have hbs : util_math_pow E 2 (u32 (10 + s_log_block_size
              (msio_read_drive E (u64 (partStart + 2)) 4 0 (kmalloc E)).2.mem)) =
              sb_block_size E partStart := rfl
          rw [hbs]
          generalize sb_block_size E partStart = bs at hpos hfit ⊢
          generalize i_size_lo inode = n at hfit ⊢
          by_cases hm : n % bs = 0
          · simp only [hm, ne_eq, not_true, if_false]
            exact ⟨Nat.dvd_of_mod_eq_zero hm, Nat.le_refl _, by omega⟩
          · simp only [hm, ne_eq, not_false_eq_true, if_true]
            have hlt : n % bs < bs := Nat.mod_lt _ hpos
            have hle : n % bs ≤ n := Nat.mod_le _ _
            have hval : n + (bs - n % bs) < 2 ^ E.bits := by omega
            unfold usize
            rw [Nat.mod_eq_of_lt hval]
            refine ⟨?_, by omega, by omega⟩
            have hdiv := Nat.div_add_mod n bs
            refine ⟨n / bs + 1, ?_⟩
            rw [Nat.mul_add, Nat.mul_one]
            omega
        · intro h
          simp only [h, decide_False]
    · simp only [hh, not_false_eq_true, if_true] at hr
      have hr' := (Option.some.inj hr).symm
      subst hr'
      simp only
      exact ⟨⟨fun _ => hh, fun _ => trivial⟩, fun h => absurd h hh, fun _ => trivial⟩

/-- The root directory of the sample volume is read with size and buffer size 1024. -/
theorem ext_read_inode_spec_witness :
    example_root_read.size = 1024 ∧
    sb_block_size example_ext 0 ∣ example_root_read.absSize ∧
    i_size_lo example_root_inode ≤ example_root_read.absSize ∧
    example_root_read.absSize < i_size_lo example_root_inode + sb_block_size example_ext 0 :=
  have h := ((ext_read_inode_spec example_ext 0 4 example_root_inode (by decide)).2
    example_root_read rfl).2.1 (by decide)
  ⟨h.1.trans (by decide), h.2 (by decide) (by decide)⟩

/-- On a 32-bit build with 1024-byte blocks an inode of size `0xFFFFFFFF` is read with success
and the buffer size 0. -/
theorem ext_read_inode_absSize_wraps :
    (ext_read_inode example_ext32 0 4 example_huge_inode).map
      (fun r => (r.status, r.size, r.absSize)) = some (TSX_SUCCESS, 0xFFFFFFFF, 0) := by
  decide

/-! ## Fetching an inode -/

theorem msio_read_drive_mem (E : Env) (lba count dest : Nat) (b : Buf) (a : Nat)
    (hs : (msio_read_drive E lba count dest b).1 = TSX_SUCCESS) :
    (msio_read_drive E lba count dest b).2.mem a =
      if dest ≤ a ∧ a < dest + 512 * count then E.data (512 * lba + (a - dest)) else b.mem a := by
  unfold msio_read_drive at hs ⊢
  by_cases hb : E.bad lba count = true
  · simp only [hb, if_true] at hs
    cases hs
  · simp only [hb, Bool.false_eq_true, if_false]

/-- The function `ext_get_inode` in terms of its three reads. -/
theorem ext_get_inode_unfold (E : Env) (partStart inode : Nat) :
    ext_get_inode E partStart inode =
      if (sb_read E partStart).1 ≠ TSX_SUCCESS then .error (sb_read E partStart).1
      else if (gd_read E partStart).1 ≠ TSX_SUCCESS then .error (gd_read E partStart).1
      else if (inode_block_read E partStart inode).1 ≠ TSX_SUCCESS then
        .error (inode_block_read E partStart inode).1
      else .ok (memcpy E.heap (shift (inode_block_read E partStart inode).2.mem
        (inode_table_off E partStart inode % sb_block_size E partStart)) sizeof_ext_inode) := rfl

/-- C10 (as amended). Let `ext_get_inode` succeed for an inode number `n` with
`1 <= n < 2^32`, on a volume whose `s_inodes_per_group` is not 0. With `sb` the superblock
read from LBA `partStart + 2`, `bs` the block size,
`bg = (n-1) / s_inodes_per_group`, the descriptor of the group taken at byte offset
`bg * desc_size` of the table read from LBA `partStart + max(bs, 2048)/512` (`desc_size` is
`s_desc_size` when the `64BIT` feature is set and 32 otherwise), the start block `table` of
the inode table taken as `bg_inode_table_lo`, or'ed with `bg_inode_table_hi << 32` only when
`64BIT` is set and `s_desc_size > 32`, and `off = ((n-1) mod s_inodes_per_group) * stride`
(`stride` is `s_inode_size`, or 128 for revision 0): provided the block size is a multiple of
512 and the products do not overflow, the structure returned holds the bytes of the drive
at `off` bytes into the block `table` of the partition, for each of its `sizeof(ext_inode)`
bytes that lies in the block read, the one that holds offset `off`. When the stride
divides the block size these are at least the first `stride` bytes: the whole record, also
when it is the last of its block. The index of the record in its group is below
`s_inodes_per_group`. -/
theorem ext_get_inode_spec (E : Env) (partStart n : Nat) (m sb gdt : Mem)
    (bs bg off table : Nat)
    (h : ext_get_inode E partStart n = .ok m) (hn1 : 1 ≤ n) (hn2 : n < 2 ^ 32)
    (hsb : sb = sb_buffer E partStart)
    (hbs : bs = sb_block_size E partStart)
    (hbg : bg = (n - 1) / s_inodes_per_group sb)
    (hgdt : gdt = gd_buffer E partStart)
    (htable : table =
      if s_feature_incompat sb &&& EXT_INCOMPAT_64BIT ≠ 0 ∧ s_desc_size sb > 32 then
        bg_inode_table_lo (shift gdt (bg * desc_size sb)) |||
          (bg_inode_table_hi (shift gdt (bg * desc_size sb)) <<< 32)
      else bg_inode_table_lo (shift gdt (bg * desc_size sb)))
    (hoff : off = (n - 1) % s_inodes_per_group sb * inode_stride sb)
    (hipg : s_inodes_per_group sb ≠ 0) (h512 : 512 ∣ bs)
    (hw1 : bg * desc_size sb < 2 ^ 32) (hw2 : off < 2 ^ 32)
    (hw3 : 512 * partStart + table * bs + off < 2 ^ 64) :
    (∀ j, j < sizeof_ext_inode → off % bs + j < bs →
      m j = E.data (512 * partStart + table * bs + off + j)) ∧
    (inode_stride sb ∣ bs → 0 < bs → ∀ j, j < inode_stride sb → j < sizeof_ext_inode →
      m j = E.data (512 * partStart + table * bs + off + j)) ∧
    desc_size sb = (if s_feature_incompat sb &&& EXT_INCOMPAT_64BIT ≠ 0 then s_desc_size sb
      else 32) ∧
    inode_stride sb = (if s_rev_level sb > 0 then s_inode_size sb else 128) ∧
    (sb_read E partStart).2.log = [(u64 (partStart + 2), 4, 0)] ∧
    (∃ count, (gd_read E partStart).2.log = [(u64 (partStart + max bs 2048 / 512), count, 0)]) ∧
    (n - 1) % s_inodes_per_group sb < s_inodes_per_group sb := by
  have hn' : u32 (n + 2 ^ 32 - 1) = n - 1 := by
    unfold u32
    have : n + 2 ^ 32 - 1 = (n - 1) + 2 ^ 32 := by omega
    rw [this, Nat.add_mod_right]
    exact Nat.mod_eq_of_lt (by omega)
  rw [ext_get_inode_unfold] at h
  by_cases hs1 : (sb_read E partStart).1 = TSX_SUCCESS
  swap
  · simp only [hs1, ne_eq, not_false_eq_true, if_true] at h
    cases h
  simp only [hs1, ne_eq, not_true, if_false] at h
  by_cases hs2 : (gd_read E partStart).1 = TSX_SUCCESS
  swap
  · simp only [hs2, not_false_eq_true, if_true] at h
    cases h
  simp only [hs2, not_true, if_false] at h
  by_cases hs3 : (inode_block_read E partStart n).1 = TSX_SUCCESS
  swap
  · simp only [hs3, not_false_eq_true, if_true] at h
    cases h
  simp only [hs3, not_true, if_false] at h
  have hm := (Except.ok.inj h).symm
  have hoffm : inode_table_off E partStart n = off := by
    unfold inode_table_off
    rw [hn', ← hsb, ← hoff]
    exact Nat.mod_eq_of_lt hw2
  have htab : inode_table_start E partStart n = table := by
    unfold inode_table_start
    simp only
    rw [hn', ← hsb, ← hgdt, ← hbg]
    have : u32 (bg * desc_size sb) = bg * desc_size sb := Nat.mod_eq_of_lt hw1
    rw [this, htable]
  have hbytes : ∀ j, j < sizeof_ext_inode → off % bs + j < bs →
      m j = E.data (512 * partStart + table * bs + off + j) := by
    obtain ⟨q, hq⟩ := h512
    have hmodle : off % bs ≤ off := Nat.mod_le _ _
    have hblk : off - off % bs = bs * (off / bs) := by
      have := Nat.div_add_mod off bs
      omega
    have hX : off - off % bs + table * bs = 512 * (q * (off / bs) + table * q) := by
      rw [hblk, hq]; ring
    have hu1 : u64 (table * bs) = table * bs := Nat.mod_eq_of_lt (by omega)
    have hu2 : u64 (off - off % bs + table * bs) = off - off % bs + table * bs :=
      Nat.mod_eq_of_lt (by omega)
    have hlba : u64 (u64 (off - off % bs + u64 (table * bs)) / 512 + partStart) =
        (q * (off / bs) + table * q) + partStart := by
      rw [hu1, hu2, hX, Nat.mul_div_cancel_left _ (by decide : 0 < 512)]
      apply Nat.mod_eq_of_lt
      omega
    have hread : inode_block_read E partStart n =
        msio_read_drive E ((q * (off / bs) + table * q) + partStart) (bs / 512) 0 (kmalloc E) := by
      unfold inode_block_read
      simp only
      rw [hoffm, htab, ← hbs, hlba]
    rw [hread] at hs3 hm
    rw [hoffm, ← hbs] at hm
    intro j hj hrec
    rw [hm]
    unfold memcpy shift
    simp only [hj, if_true]
    rw [msio_read_drive_mem E _ _ _ _ _ hs3]
    have hcnt : 512 * (bs / 512) = bs := by
      rw [hq, Nat.mul_div_cancel_left _ (by decide : 0 < 512)]
    have hin : 0 ≤ off % bs + j ∧ off % bs + j < 0 + 512 * (bs / 512) := by
      rw [hcnt]; omega
    simp only [hin, and_self, if_true, Nat.sub_zero]
    have h1 : 512 * (q * (off / bs) + table * q + partStart) =
        512 * partStart + (off - off % bs + table * bs) := by
      rw [hX]; ring
    have h2 : 512 * (q * (off / bs) + table * q + partStart) + (off % bs + j) =
        512 * partStart + table * bs + off + j := by
      rw [h1]; omega
    rw [h2]
  refine ⟨hbytes, ?_, rfl, rfl, ?_, ?_, Nat.mod_lt _ (Nat.pos_of_ne_zero hipg)⟩
  · intro hdiv hpos j hj hj2
    apply hbytes j hj2
    obtain ⟨c, hc⟩ := hdiv
    have hc0 : 0 < c := by
      rcases Nat.eq_zero_or_pos c with h0 | h0
      · rw [h0, Nat.mul_zero] at hc; omega
      · exact h0
    have hoff' : off = inode_stride sb * ((n - 1) % s_inodes_per_group sb) := by
      rw [hoff, Nat.mul_comm]
    have hmod : off % bs = inode_stride sb * ((n - 1) % s_inodes_per_group sb % c) := by
      rw [hoff', hc, Nat.mul_mod_mul_left]
    have hlt : (n - 1) % s_inodes_per_group sb % c + 1 ≤ c := Nat.mod_lt _ hc0
    have hmul : inode_stride sb * ((n - 1) % s_inodes_per_group sb % c + 1) ≤
        inode_stride sb * c := Nat.mul_le_mul_left _ hlt
    rw [Nat.mul_add, Nat.mul_one] at hmul
    rw [hmod, hc]
    omega
  · unfold sb_read msio_read_drive at hs1 ⊢
    by_cases hb : E.bad (u64 (partStart + 2)) 4 = true
    · simp only [hb, if_true] at hs1
      cases hs1
    · simp only [hb, Bool.false_eq_true, if_false, kmalloc, List.nil_append]
  · unfold gd_read at hs2 ⊢
    simp only at hs2 ⊢
    rw [← hbs]
    rw [← hbs] at hs2
    generalize (if u32 (s_inodes_count (sb_buffer E partStart) /
      s_inodes_per_group (sb_buffer E partStart) * desc_size (sb_buffer E partStart)) % 512 ≠ 0
      then u32 (u32 (s_inodes_count (sb_buffer E partStart) /
        s_inodes_per_group (sb_buffer E partStart) * desc_size (sb_buffer E partStart)) +
        (512 - u32 (s_inodes_count (sb_buffer E partStart) /
          s_inodes_per_group (sb_buffer E partStart) * desc_size (sb_buffer E partStart)) % 512))
      else u32 (s_inodes_count (sb_buffer E partStart) /
        s_inodes_per_group (sb_buffer E partStart) * desc_size (sb_buffer E partStart))) / 512 =
      cnt at hs2 ⊢
    refine ⟨cnt, ?_⟩
    unfold msio_read_drive at hs2 ⊢
    by_cases hb : E.bad (u64 (partStart + max bs 2048 / 512)) cnt = true
    · simp only [hb, if_true] at hs2
      cases hs2
    · simp only [hb, Bool.false_eq_true, if_false, kmalloc, List.nil_append]

/-- Inode 8 of the sample volume, whose records are 128 bytes long, is the last record of
the first block of the inode table (block 3, `off = 7 * 128 = 896`): its 128 bytes are those
of the drive from byte `3072 + 896`, shown here for the bytes 0, 4, 40 and 127. -/
theorem ext_get_inode_spec_witness :
    inode_stride (sb_buffer example_ext 0) = 128 ∧
    896 % 1024 + sizeof_ext_inode > 1024 ∧
    example_last_inode 0 = example_ext.data 3968 ∧
    example_last_inode 4 = example_ext.data 3972 ∧
    example_last_inode 40 = example_ext.data 4008 ∧
    example_last_inode 127 = example_ext.data 4095 :=
  have h := (ext_get_inode_spec example_ext 0 8 example_last_inode (sb_buffer example_ext 0)
    (gd_buffer example_ext 0) 1024 0 896 3 rfl (by decide) (by decide) rfl (by decide)
    (by decide) rfl (by decide) (by decide) (by decide) (by decide) (by decide) (by decide)
    (by decide)).2.1 (by decide) (by decide)
  ⟨by decide, by decide, h 0 (by decide) (by decide), h 4 (by decide) (by decide),
    h 40 (by decide) (by decide), h 127 (by decide) (by decide)⟩

/-- With 32-byte descriptors and a non-zero byte at offset 40 of the descriptor table, the
inode table is taken to start at block 3, the value of `bg_inode_table_lo`, and inode 2 is
the record found there, of size 1024; `bg_inode_table_lo | (bg_inode_table_hi << 32)` is
`0x100000003`, a block that holds no record. -/
theorem ext_get_inode_ignores_table_hi :
    inode_table_start example_ext_hi 0 2 = 3 ∧
    (bg_inode_table_lo (gd_buffer example_ext_hi 0) |||
      (bg_inode_table_hi (gd_buffer example_ext_hi 0) <<< 32)) = 0x100000003 ∧
    (match ext_get_inode example_ext_hi 0 2 with
      | .ok m => some (i_size_lo m)
      | .error _ => none) = some 1024 ∧
    rd32 (shift example_ext_hi.data (0x100000003 * 1024 + 128)) 4 = 0 := by
  decide

/-! ## The extent walk -/

/-- C6. A leaf node whose header declares `eh_entries` = 2 and `eh_max` = 1 is not rejected:
`ext_read_extent` returns success and has walked both entries, reading 4 blocks from block
100 to offset 0 and 2 blocks from block 200 to offset 16384. -/
theorem ext_read_extent_ignores_eh_max :
    eh_entries example_overfull_root = 2 ∧ eh_max example_overfull_root = 1 ∧
    (ext_read_extent example_extent_env 0 4096 1 example_overfull_root
      (kmalloc example_extent_env)).map (fun r => (r.1, r.2.log)) =
      some (TSX_SUCCESS, [(800, 32, 0), (1600, 16, 16384)]) := by
  decide

theorem extent_index_loop_skip (E : Env) (partStart blockSize fuel : Nat) (header : Mem)
    (i : Nat) (t d : Buf) (i' : Nat) (t' d' : Buf)
    (h : LoopAt E partStart blockSize fuel header i t d i' t' d') :
    i ≤ i' ∧ ∀ k, i' - i ≤ k →
    extent_index_loop E partStart blockSize (ext_read_extent E partStart blockSize fuel) header
      k i t d =
    extent_index_loop E partStart blockSize (ext_read_extent E partStart blockSize fuel) header
      (k - (i' - i)) i' t' d' := by
  induction h with
  | refl i t d =>
    refine ⟨Nat.le_refl _, ?_⟩
    intro k _
    simp
  | step i t d d1 i' t' d' hr hw _ ih =>
    obtain ⟨hle, ih⟩ := ih
    refine ⟨by omega, ?_⟩
    intro k hk
    cases k with
    | zero => omega
    | succ k =>
      rw [extent_index_loop]
      have hr' : (msio_read_drive E
          (u64 (partStart + u64 ((ei_leaf_lo header i ||| (ei_leaf_hi header i <<< 32)) *
            blockSize) / 512)) (blockSize / 512) 0 t) = child_read E partStart blockSize header i t :=
        rfl
      simp only [hr', hr, ne_eq, not_true, if_false, hw]
      rw [ih k (by omega)]
      have : k - (i' - (i + 1)) = k + 1 - (i' - i) := by omega
      rw [this]

/-- C5. Whenever the walk that `ext_read_extent` makes from a root node visits a node whose
`eh_magic` is not `0xF30A`, be it the root or a child block at any depth, it returns
`TSX_INVALID_FORMAT`, and it returns the destination as it was when that node was reached: no
entry of the node is read, and nothing is read after it. -/
theorem ext_read_extent_bad_magic (E : Env) (partStart blockSize fuel : Nat) (header : Mem)
    (dest : Buf) (h' : Mem) (dest' : Buf)
    (hreach : Reach E partStart blockSize fuel header dest h' dest')
    (hbad : eh_magic h' ≠ EXT_INODE_EXTENT_HEADER_MAGIC) :
    ext_read_extent E partStart blockSize fuel header dest = some (TSX_INVALID_FORMAT, dest') := by
  induction hreach with
  | here fuel header dest =>
    rw [ext_read_extent]
    simp only [hbad, ne_eq, not_false_eq_true, if_true]
  | down fuel header dest i t d h' dest' hm hd hloop hi hr _ ih =>
    have hchild := ih hbad
    rw [ext_read_extent]
    simp only [hm, ne_eq, not_true, if_false, hd]
    obtain ⟨-, hskip⟩ := extent_index_loop_skip E partStart blockSize fuel header 0 (kmalloc E)
      dest i t d hloop
    rw [hskip (eh_entries header) (by omega)]
    have hk : eh_entries header - (i - 0) = (eh_entries header - i - 1) + 1 := by omega
    rw [hk, extent_index_loop]
    have hr' : (msio_read_drive E
        (u64 (partStart + u64 ((ei_leaf_lo header i ||| (ei_leaf_hi header i <<< 32)) *
          blockSize) / 512)) (blockSize / 512) 0 t) = child_read E partStart blockSize header i t :=
      rfl
    simp only [hr', hr, ne_eq, not_true, if_false, hchild]
    simp

/-- The second child of the sample root of depth 1 has no magic: the walk returns
`TSX_INVALID_FORMAT` with the destination as the walk of the first child left it. -/
theorem ext_read_extent_bad_magic_witness :
    ext_read_extent example_extent_env 0 4096 2 example_index_root (kmalloc example_extent_env) =
      some (TSX_INVALID_FORMAT, example_after_child0) :=
  ext_read_extent_bad_magic example_extent_env 0 4096 2 example_index_root
    (kmalloc example_extent_env)
    (child_read example_extent_env 0 4096 example_index_root 1
      (child_read example_extent_env 0 4096 example_index_root 0
        (kmalloc example_extent_env)).2).2.mem
    example_after_child0
    (Reach.down 1 example_index_root (kmalloc example_extent_env) 1
      (child_read example_extent_env 0 4096 example_index_root 0 (kmalloc example_extent_env)).2
      example_after_child0 _ _ (by decide) (by decide)
      (LoopAt.step 0 (kmalloc example_extent_env) (kmalloc example_extent_env)
        example_after_child0 1 _ _ (by decide) rfl (LoopAt.refl _ _ _))
      (by decide) (by decide) (Reach.here 0 _ _))
    (by decide)

theorem msio_read_drive_ok (E : Env) (hgood : ∀ l c, E.bad l c = false) (lba count dest : Nat)
    (b : Buf) : (msio_read_drive E lba count dest b).1 = TSX_SUCCESS := by
  unfold msio_read_drive
  simp [hgood]

theorem extent_leaf_loop_eq (E : Env) (hgood : ∀ l c, E.bad l c = false)
    (partStart blockSize : Nat) (header : Mem) :
    ∀ (k i : Nat) (dest : Buf),
    extent_leaf_loop E partStart blockSize header k i dest =
      (TSX_SUCCESS, apply_extent_reads E partStart blockSize
        ((List.range' i k).map (fun i =>
          (ee_block header i, ee_len header i,
            ee_start_lo header i ||| (ee_start_hi header i <<< 32)))) dest) := by
  intro k
  induction k with
  | zero => intro i dest; rfl
  | succ k ih =>
    intro i dest
    rw [extent_leaf_loop]
    simp only [msio_read_drive_ok E hgood, ne_eq, not_true, if_false]
    rw [ih]
    rfl

theorem apply_extent_reads_append (E : Env) (partStart blockSize : Nat)
    (l1 l2 : List (Nat × Nat × Nat)) (dest : Buf) :
    apply_extent_reads E partStart blockSize (l1 ++ l2) dest =
      apply_extent_reads E partStart blockSize l2
        (apply_extent_reads E partStart blockSize l1 dest) := by
  unfold apply_extent_reads
  rw [List.foldl_append]

theorem extent_index_loop_eq (E : Env) (partStart blockSize : Nat)
    (child : Mem → Buf → Option (status_t × Buf))
    (cl : Mem → Option (List (Nat × Nat × Nat)))
    (hc : ∀ h l d, cl h = some l →
      child h d = some (TSX_SUCCESS, apply_extent_reads E partStart blockSize l d))
    (header : Mem) :
    ∀ (k i : Nat) (t dest : Buf) (L : List (Nat × Nat × Nat)),
    index_leaves E partStart blockSize cl header k i t = some L →
    extent_index_loop E partStart blockSize child header k i t dest =
      some (TSX_SUCCESS, apply_extent_reads E partStart blockSize L dest) := by
  intro k
  induction k with
  | zero =>
    intro i t dest L h
    unfold index_leaves at h
    cases h
    rfl
  | succ k ih =>
    intro i t dest L h
    rw [index_leaves] at h
    by_cases hr : (child_read E partStart blockSize header i t).1 = TSX_SUCCESS
    · simp only [hr, ne_eq, not_true, if_false] at h
      cases hcl : cl (child_read E partStart blockSize header i t).2.mem with
      | none => rw [hcl] at h; cases h
      | some l =>
        rw [hcl] at h
        simp only at h
        cases hrest : index_leaves E partStart blockSize cl header k (i + 1)
            (child_read E partStart blockSize header i t).2 with
        | none => rw [hrest] at h; cases h
        | some rest =>
          rw [hrest] at h
          simp only at h
          have hL := (Option.some.inj h).symm
          subst hL
          rw [extent_index_loop]
          have hr' : (msio_read_drive E
              (u64 (partStart + u64 ((ei_leaf_lo header i ||| (ei_leaf_hi header i <<< 32)) *
                blockSize) / 512)) (blockSize / 512) 0 t) =
              child_read E partStart blockSize header i t := rfl
          simp only [hr', hr, ne_eq, not_true, if_false, hc _ _ dest hcl]
          rw [ih _ _ _ _ hrest, apply_extent_reads_append]
    · simp only [hr, ne_eq, not_false_eq_true, if_true] at h
      cases h

/-- On a drive that refuses no read, the walk of a tree whose nodes all carry the magic makes
the reads for its leaf entries, in order, and returns success. -/
theorem ext_read_extent_eq (E : Env) (hgood : ∀ l c, E.bad l c = false)
    (partStart blockSize : Nat) :
    ∀ (fuel : Nat) (header : Mem) (L : List (Nat × Nat × Nat)) (dest : Buf),
    extent_tree_leaves E partStart blockSize fuel header = some L →
    ext_read_extent E partStart blockSize fuel header dest =
      some (TSX_SUCCESS, apply_extent_reads E partStart blockSize L dest) := by
  intro fuel
  induction fuel with
  | zero => intro header L dest h; cases h
  | succ fuel ih =>
    intro header L dest h
    rw [extent_tree_leaves] at h
    by_cases hm : eh_magic header = EXT_INODE_EXTENT_HEADER_MAGIC
    · simp only [hm, ne_eq, not_true, if_false] at h
      rw [ext_read_extent]
      simp only [hm, ne_eq, not_true, if_false]
      by_cases hd : eh_depth header = 0
      · simp only [hd, if_true] at h ⊢
        have hL := (Option.some.inj h).symm
        subst hL
        rw [extent_leaf_loop_eq E hgood]
        unfold node_extents
        rw [List.range_eq_range']
      · simp only [hd, if_false] at h ⊢
        exact extent_index_loop_eq E partStart blockSize _ _
          (fun h l d hl => ih h l d hl) header _ _ _ _ _ h
    · simp only [hm, ne_eq, not_false_eq_true, if_true] at h
      cases h

theorem extent_read_eq (E : Env) (hgood : ∀ l c, E.bad l c = false) (partStart blockSize : Nat)
    (e : Nat × Nat × Nat) (b : Buf)
    (hfit : (e.1 + e.2.1) * blockSize < 2 ^ E.bits ∧ partStart + e.2.2 * blockSize < 2 ^ 64) :
    (extent_read E partStart blockSize e b).2 =
      { mem := fun a => if e.1 * blockSize ≤ a ∧ a < e.1 * blockSize + 512 * (e.2.1 * blockSize / 512)
          then E.data (512 * (partStart + e.2.2 * blockSize / 512) + (a - e.1 * blockSize))
          else b.mem a,
        log := b.log ++ [extent_read_spec partStart blockSize e] } := by
  obtain ⟨h1, h2⟩ := hfit
  have hlen : usize E (e.2.1 * blockSize) = e.2.1 * blockSize := by
    unfold usize
    apply Nat.mod_eq_of_lt
    have : e.2.1 * blockSize ≤ (e.1 + e.2.1) * blockSize :=
      Nat.mul_le_mul_right _ (Nat.le_add_left _ _)
    omega
  have hoff : usize E (blockSize * e.1) = e.1 * blockSize := by
    unfold usize
    rw [Nat.mul_comm]
    apply Nat.mod_eq_of_lt
    have : e.1 * blockSize ≤ (e.1 + e.2.1) * blockSize :=
      Nat.mul_le_mul_right _ (Nat.le_add_right _ _)
    omega
  have hs : u64 (e.2.2 * blockSize) = e.2.2 * blockSize := by
    unfold u64
    apply Nat.mod_eq_of_lt
    omega
  have hlba : u64 (partStart + u64 (e.2.2 * blockSize) / 512) =
      partStart + e.2.2 * blockSize / 512 := by
    rw [hs]
    unfold u64
    apply Nat.mod_eq_of_lt
    have : e.2.2 * blockSize / 512 ≤ e.2.2 * blockSize := Nat.div_le_self _ _
    omega
  unfold extent_read msio_read_drive
  rw [hlen, hoff, hlba]
  simp only [hgood, Bool.false_eq_true, if_false]
  rfl

theorem extent_len_sectors (blockSize : Nat) (h512 : 512 ∣ blockSize) (n : Nat) :
    512 * (n * blockSize / 512) = n * blockSize :=
  Nat.mul_div_cancel' (Dvd.dvd.mul_left h512 n)

theorem extent_read_mem (E : Env) (hgood : ∀ l c, E.bad l c = false) (partStart blockSize : Nat)
    (h512 : 512 ∣ blockSize) (e : Nat × Nat × Nat) (b : Buf)
    (hfit : (e.1 + e.2.1) * blockSize < 2 ^ E.bits ∧ partStart + e.2.2 * blockSize < 2 ^ 64)
    (a : Nat) :
    (extent_read E partStart blockSize e b).2.mem a =
      if e.1 * blockSize ≤ a ∧ a < (e.1 + e.2.1) * blockSize
      then E.data (512 * (partStart + e.2.2 * blockSize / 512) + (a - e.1 * blockSize))
      else b.mem a := by
  rw [extent_read_eq E hgood partStart blockSize e b hfit]
  simp only [extent_len_sectors blockSize h512, Nat.add_mul]

theorem apply_extent_reads_log (E : Env) (hgood : ∀ l c, E.bad l c = false)
    (partStart blockSize : Nat) :
    ∀ (L : List (Nat × Nat × Nat)) (dest : Buf),
    (∀ e ∈ L, (e.1 + e.2.1) * blockSize < 2 ^ E.bits ∧ partStart + e.2.2 * blockSize < 2 ^ 64) →
    (apply_extent_reads E partStart blockSize L dest).log =
      dest.log ++ L.map (extent_read_spec partStart blockSize) := by
  intro L
  induction L with
  | nil => intro dest _; simp [apply_extent_reads]
  | cons e rest ih =>
    intro dest hfit
    have h1 : apply_extent_reads E partStart blockSize (e :: rest) dest =
        apply_extent_reads E partStart blockSize rest
          (extent_read E partStart blockSize e dest).2 := rfl
    rw [h1, ih _ (fun e' he' => hfit e' (List.mem_cons_of_mem _ he')),
      extent_read_eq E hgood partStart blockSize e dest (hfit e (List.mem_cons_self _ _))]
    simp

theorem apply_extent_reads_frame (E : Env) (hgood : ∀ l c, E.bad l c = false)
    (partStart blockSize : Nat) (h512 : 512 ∣ blockSize) (a : Nat) :
    ∀ (L : List (Nat × Nat × Nat)) (dest : Buf),
    (∀ e ∈ L, (e.1 + e.2.1) * blockSize < 2 ^ E.bits ∧ partStart + e.2.2 * blockSize < 2 ^ 64) →
    (∀ e ∈ L, ¬ extent_range blockSize e a) →
    (apply_extent_reads E partStart blockSize L dest).mem a = dest.mem a := by
  intro L
  induction L with
  | nil => intro dest _ _; rfl
  | cons e rest ih =>
    intro dest hfit hout
    have h1 : apply_extent_reads E partStart blockSize (e :: rest) dest =
        apply_extent_reads E partStart blockSize rest
          (extent_read E partStart blockSize e dest).2 := rfl
    rw [h1, ih _ (fun e' he' => hfit e' (List.mem_cons_of_mem _ he'))
      (fun e' he' => hout e' (List.mem_cons_of_mem _ he')),
      extent_read_mem E hgood partStart blockSize h512 e dest (hfit e (List.mem_cons_self _ _))]
    have := hout e (List.mem_cons_self _ _)
    unfold extent_range at this
    rw [if_neg this]

theorem apply_extent_reads_content (E : Env) (hgood : ∀ l c, E.bad l c = false)
    (partStart blockSize : Nat) (h512 : 512 ∣ blockSize) (a : Nat) :
    ∀ (L : List (Nat × Nat × Nat)) (dest : Buf),
    (∀ e ∈ L, (e.1 + e.2.1) * blockSize < 2 ^ E.bits ∧ partStart + e.2.2 * blockSize < 2 ^ 64) →
    L.Pairwise (fun e1 e2 => ∀ x, ¬ (extent_range blockSize e1 x ∧ extent_range blockSize e2 x)) →
    ∀ e ∈ L, extent_range blockSize e a →
    (apply_extent_reads E partStart blockSize L dest).mem a =
      E.data (512 * (partStart + e.2.2 * blockSize / 512) + (a - e.1 * blockSize)) := by
  intro L
  induction L with
  | nil => intro dest _ _ e he; cases he
  | cons e0 rest ih =>
    intro dest hfit hpw e he ha
    have h1 : apply_extent_reads E partStart blockSize (e0 :: rest) dest =
        apply_extent_reads E partStart blockSize rest
          (extent_read E partStart blockSize e0 dest).2 := rfl
    rw [h1]
    rw [List.pairwise_cons] at hpw
    rcases List.mem_cons.mp he with h0 | hr
    · subst h0
      rw [apply_extent_reads_frame E hgood partStart blockSize h512 a rest _
        (fun e' he' => hfit e' (List.mem_cons_of_mem _ he'))
        (fun e' he' hin => hpw.1 e' he' a ⟨ha, hin⟩),
        extent_read_mem E hgood partStart blockSize h512 e dest (hfit e (List.mem_cons_self _ _))]
      unfold extent_range at ha
      rw [if_pos ha]
    · exact ih _ (fun e' he' => hfit e' (List.mem_cons_of_mem _ he')) hpw.2 e hr ha

theorem extent_total (blockSize : Nat) (h512 : 512 ∣ blockSize) :
    ∀ (L : List (Nat × Nat × Nat)),
    (L.map (fun e => 512 * (e.2.1 * blockSize / 512))).sum =
      (L.map (fun e => e.2.1)).sum * blockSize := by
  intro L
  induction L with
  | nil => simp
  | cons e rest ih =>
    rw [List.map_cons, List.sum_cons, ih, List.map_cons, List.sum_cons,
      extent_len_sectors blockSize h512, Nat.add_mul]

/-- C4 (as amended). Take an extent tree whose nodes all carry the magic `0xF30A` (its leaf
entries, in the order of the walk, are `L`; the allocator has a block for each of its
levels), a drive that refuses no read, a block size that is a multiple of 512, and leaf
entries whose destination range lies in the address space and whose disk run lies below
`2^64` bytes. Then `ext_read_extent` succeeds; the reads it makes into the
destination are, entry by entry, `ee_len*bs/512` sectors (that is `ee_len*bs` bytes) from LBA
`part_start + start*bs/512` to offset `ee_block*bs`; a destination byte outside every range
`[ee_block*bs, (ee_block+ee_len)*bs)` keeps its value; when the ranges do not overlap, the
bytes of each range are those of the disk run of its entry; and the total read is
`sum(ee_len)*bs` bytes. -/
theorem ext_read_extent_spec (E : Env) (partStart blockSize fuel : Nat) (header : Mem)
    (L : List (Nat × Nat × Nat)) (dest : Buf)
    (hgood : ∀ l c, E.bad l c = false) (h512 : 512 ∣ blockSize)
    (hL : extent_tree_leaves E partStart blockSize fuel header = some L)
    (hfit : ∀ e ∈ L,
      (e.1 + e.2.1) * blockSize < 2 ^ E.bits ∧ partStart + e.2.2 * blockSize < 2 ^ 64) :
    ∃ dest', ext_read_extent E partStart blockSize fuel header dest = some (TSX_SUCCESS, dest') ∧
      dest'.log = dest.log ++ L.map (extent_read_spec partStart blockSize) ∧
      (∀ e ∈ L, 512 * (extent_read_spec partStart blockSize e).2.1 = e.2.1 * blockSize) ∧
      (∀ a, (∀ e ∈ L, ¬ extent_range blockSize e a) → dest'.mem a = dest.mem a) ∧
      (L.Pairwise (fun e1 e2 =>
          ∀ x, ¬ (extent_range blockSize e1 x ∧ extent_range blockSize e2 x)) →
        ∀ e ∈ L, ∀ a, extent_range blockSize e a →
          dest'.mem a =
            E.data (512 * (partStart + e.2.2 * blockSize / 512) + (a - e.1 * blockSize))) ∧
      ((L.map (extent_read_spec partStart blockSize)).map (fun r => 512 * r.2.1)).sum =
        (L.map (fun e => e.2.1)).sum * blockSize := by
  refine ⟨_, ext_read_extent_eq E hgood partStart blockSize fuel header L dest hL,
    apply_extent_reads_log E hgood partStart blockSize L dest hfit,
    fun e _ => extent_len_sectors blockSize h512 e.2.1,
    fun a hout => apply_extent_reads_frame E hgood partStart blockSize h512 a L dest hfit hout,
    fun hpw e he a ha =>
      apply_extent_reads_content E hgood partStart blockSize h512 a L dest hfit hpw e he ha, ?_⟩
  rw [List.map_map]
  exact extent_total blockSize h512 L

/-- The sample file of two extents `(ee_block 0, start 100, ee_len 4)` and
`(ee_block 4, start 200, ee_len 2)` with 4096-byte blocks: 32 sectors from LBA 800 fill the
bytes from 0 and 16 sectors from LBA 1600 fill the bytes from 16384, in all 24576 bytes. -/
theorem ext_read_extent_spec_witness :
    extent_tree_leaves example_extent_env 0 4096 1 example_leaf_root =
      some [(0, 4, 100), (4, 2, 200)] ∧
    ∃ dest', ext_read_extent example_extent_env 0 4096 1 example_leaf_root
        (kmalloc example_extent_env) = some (TSX_SUCCESS, dest') ∧
      dest'.log = [(800, 32, 0), (1600, 16, 16384)] ∧
      (∀ a, 24576 ≤ a → dest'.mem a = example_extent_env.heap a) ∧
      dest'.mem 16383 = example_extent_env.data (512 * 800 + 16383) ∧
      dest'.mem 16384 = example_extent_env.data (512 * 1600) ∧
      (4 + 2) * 4096 = 24576 := by
  have hL : extent_tree_leaves example_extent_env 0 4096 1 example_leaf_root =
      some [(0, 4, 100), (4, 2, 200)] := by decide
  obtain ⟨dest', h1, h2, -, h4, h5, -⟩ :=
    ext_read_extent_spec example_extent_env 0 4096 1 example_leaf_root
      [(0, 4, 100), (4, 2, 200)] (kmalloc example_extent_env)
      (fun _ _ => rfl) (by decide) hL (by decide)
  refine ⟨hL, dest', h1, h2, ?_, ?_, ?_, rfl⟩
  · intro a ha
    apply h4
    intro e he
    simp only [List.mem_cons, List.mem_singleton, List.not_mem_nil, or_false] at he
    rcases he with h | h <;> subst h <;> dsimp only [extent_range] <;> omega
  · have hpw : List.Pairwise (fun e1 e2 : Nat × Nat × Nat =>
        ∀ x, ¬ (extent_range 4096 e1 x ∧ extent_range 4096 e2 x))
        [(0, 4, 100), (4, 2, 200)] := by
      simp only [List.pairwise_cons, List.mem_singleton, List.not_mem_nil, forall_eq,
        List.Pairwise.nil, and_true, IsEmpty.forall_iff, implies_true]
      intro x
      dsimp only [extent_range]
      omega
    exact h5 hpw (0, 4, 100) (by simp) 16383 (by dsimp only [extent_range]; omega)
  · have hpw : List.Pairwise (fun e1 e2 : Nat × Nat × Nat =>
        ∀ x, ¬ (extent_range 4096 e1 x ∧ extent_range 4096 e2 x))
        [(0, 4, 100), (4, 2, 200)] := by
      simp only [List.pairwise_cons, List.mem_singleton, List.not_mem_nil, forall_eq,
        List.Pairwise.nil, and_true, IsEmpty.forall_iff, implies_true]
      intro x
      dsimp only [extent_range]
      omega
    exact h5 hpw (4, 2, 200) (by simp) 16384 (by dsimp only [extent_range]; omega)

/-- Counterexample to C4 as stated. On the 32-bit build, with 4096-byte blocks, the leaf
entry `(ee_block 0x100000, ee_len 1, start 100)` maps the destination bytes from
`0x100000 * 4096 = 2^32`. The product `blockSize * ee_block` is computed in `size_t` and is
0: `ext_read_extent` returns success having read the 8 sectors from LBA 800 to offset 0 of
the destination, whose first byte is now the drive's byte `512 * 800`, while the byte at
offset `2^32` is what it was. -/
theorem ext_read_extent_wraps_offset :
    extent_tree_leaves example_extent_env32 0 4096 1 example_far_leaf_root =
      some [(0x100000, 1, 100)] ∧
    0x100000 * 4096 = 2 ^ example_extent_env32.bits ∧
    (ext_read_extent example_extent_env32 0 4096 1 example_far_leaf_root
      (kmalloc example_extent_env32)).map (fun r => (r.1, r.2.log)) =
      some (TSX_SUCCESS, [(800, 8, 0)]) ∧
    (ext_read_extent example_extent_env32 0 4096 1 example_far_leaf_root
      (kmalloc example_extent_env32)).map (fun r => (r.2.mem 0, r.2.mem (2 ^ 32))) =
      some (example_extent_env32.data (512 * 800), (kmalloc example_extent_env32).mem (2 ^ 32)) ∧
    example_extent_env32.data (512 * 800) ≠ (kmalloc example_extent_env32).mem 0 := by
  decide

/-! ## The block-pointer walk -/

/-- C7. The block number `0x400000` with 1024-byte blocks lies at LBA `0x800000`. As a direct
pointer it is read from there; as an entry of the single-indirect table it is read from LBA 0:
in `ext_read_indirect_blocks` the block size is a `uint32_t`, and the product
`table[i] * blockSize` wraps at `2^32`. -/
theorem ext_read_indirect_blocks_wraps :
    i_blocks example_wide_inode 0 = 0x400000 ∧ i_block_i1 example_wide_inode = 11 ∧
    rd32 (shift example_wide_disk (11 * 1024)) 0 = 0x400000 ∧
    0x400000 * 1024 / 512 = 0x800000 ∧
    (ext_read_inode_to example_wide_env 0 1 example_wide_inode
      (kmalloc example_wide_env)).map (fun r => (r.1, r.2.log)) =
      some (TSX_SUCCESS, [(0x800000, 2, 0), (0, 2, 1024)]) := by decide

theorem live_entries_zero (get : Nat → Nat) (i : Nat) : live_entries get i 0 = [] := rfl

theorem live_entries_succ (get : Nat → Nat) (i k : Nat) :
    live_entries get i (k + 1) =
      if get i = 0 then [] else get i :: live_entries get (i + 1) k := by
  unfold live_entries
  rw [List.range'_succ, List.map_cons, List.takeWhile_cons]
  by_cases h : get i = 0
  · simp [h]
  · simp [h]

theorem apply_block_reads_nil (E : Env) (blockSize : Nat) (s : Buf × Nat) :
    apply_block_reads E blockSize [] s = s := rfl

theorem apply_block_reads_cons (E : Env) (blockSize lba : Nat) (l : List Nat) (s : Buf × Nat) :
    apply_block_reads E blockSize (lba :: l) s =
      apply_block_reads E blockSize l
        ((msio_read_drive E lba (blockSize / 512) s.2 s.1).2, s.2 + blockSize) := rfl

theorem apply_block_reads_append (E : Env) (blockSize : Nat) (l1 l2 : List Nat) (s : Buf × Nat) :
    apply_block_reads E blockSize (l1 ++ l2) s =
      apply_block_reads E blockSize l2 (apply_block_reads E blockSize l1 s) := by
  unfold apply_block_reads
  rw [List.foldl_append]

theorem direct_loop_eq (E : Env) (hgood : ∀ l c, E.bad l c = false)
    (partStart blockSize : Nat) (inode : Mem) :
    ∀ (k i : Nat) (b : Buf) (loc : Nat),
    direct_loop E partStart blockSize inode k i b loc =
      (TSX_SUCCESS, apply_block_reads E blockSize
        ((live_entries (i_blocks inode) i k).map (direct_lba E partStart blockSize)) (b, loc)) := by
  intro k
  induction k with
  | zero => intro i b loc; rfl
  | succ k ih =>
    intro i b loc
    rw [direct_loop, live_entries_succ]
    by_cases h : i_blocks inode i = 0
    · simp only [h, if_true]
      rfl
    · simp only [h, if_false, msio_read_drive_ok E hgood, ne_eq, not_true]
      rw [ih, List.map_cons, apply_block_reads_cons]
      rfl

theorem indirect_leaf_loop_eq (E : Env) (hgood : ∀ l c, E.bad l c = false)
    (partStart blockSize : Nat) (table : Mem) :
    ∀ (k i : Nat) (b : Buf) (loc : Nat),
    indirect_leaf_loop E partStart blockSize table k i b loc =
      (TSX_SUCCESS, apply_block_reads E blockSize
        ((live_entries (fun i => rd32 table (4 * i)) i k).map (indirect_lba partStart blockSize))
        (b, loc)) := by
  intro k
  induction k with
  | zero => intro i b loc; rfl
  | succ k ih =>
    intro i b loc
    rw [indirect_leaf_loop, live_entries_succ]
    by_cases h : rd32 table (4 * i) = 0
    · simp only [h, if_true]
      rfl
    · simp only [h, if_false, msio_read_drive_ok E hgood, ne_eq, not_true]
      rw [ih, List.map_cons, apply_block_reads_cons]
      rfl

theorem indirect_index_loop_eq (E : Env) (blockSize : Nat)
    (child : Nat → Buf → Nat → status_t × Buf × Nat) (blocks : Nat → List Nat)
    (hc : ∀ p b loc, child p b loc = (TSX_SUCCESS, apply_block_reads E blockSize (blocks p) (b, loc)))
    (table : Mem) :
    ∀ (k i : Nat) (b : Buf) (loc : Nat),
    indirect_index_loop child table k i b loc =
      (TSX_SUCCESS, apply_block_reads E blockSize
        ((live_entries (fun i => rd32 table (4 * i)) i k).flatMap blocks) (b, loc)) := by
  intro k
  induction k with
  | zero => intro i b loc; rfl
  | succ k ih =>
    intro i b loc
    rw [indirect_index_loop, live_entries_succ]
    by_cases h : rd32 table (4 * i) = 0
    · simp only [h, if_true]
      rfl
    · simp only [h, if_false, hc, ne_eq, not_true]
      rw [ih, List.flatMap_cons, apply_block_reads_append]

theorem ext_read_indirect_blocks_eq (E : Env) (hgood : ∀ l c, E.bad l c = false)
    (partStart blockSize : Nat) :
    ∀ (depth blockTable : Nat) (b : Buf) (loc : Nat),
    ext_read_indirect_blocks E partStart blockSize depth blockTable b loc =
      (TSX_SUCCESS, apply_block_reads E blockSize
        ((indirect_blocks E partStart blockSize depth blockTable).map
          (indirect_lba partStart blockSize)) (b, loc)) := by
  intro depth
  induction depth with
  | zero =>
    intro t b loc
    rw [ext_read_indirect_blocks]
    simp only [msio_read_drive_ok E hgood, ne_eq, not_true, if_false]
    rw [indirect_leaf_loop_eq E hgood]
    rfl
  | succ depth ih =>
    intro t b loc
    rw [ext_read_indirect_blocks]
    simp only [msio_read_drive_ok E hgood, ne_eq, not_true, if_false]
    rw [indirect_index_loop_eq E blockSize _
      (fun p => (indirect_blocks E partStart blockSize depth p).map
        (indirect_lba partStart blockSize)) (fun p b loc => ih p b loc)]
    rw [indirect_blocks, List.map_flatMap]
    rfl

theorem apply_block_reads_log (E : Env) (hgood : ∀ l c, E.bad l c = false) (blockSize : Nat) :
    ∀ (l : List Nat) (s : Buf × Nat),
    (apply_block_reads E blockSize l s).1.log = s.1.log ++ block_reads blockSize l s.2 := by
  intro l
  induction l with
  | nil => intro s; simp [apply_block_reads_nil, block_reads]
  | cons lba l ih =>
    intro s
    rw [apply_block_reads_cons, ih, block_reads]
    unfold msio_read_drive
    simp [hgood]

theorem live_entries_stop (get : Nat → Nat) :
    ∀ (j i k : Nat), j < k → get (i + j) = 0 → live_entries get i k = live_entries get i j := by
  intro j
  induction j with
  | zero =>
    intro i k hk h0
    cases k with
    | zero => omega
    | succ k =>
      rw [live_entries_succ, live_entries_zero]
      simp only [Nat.add_zero] at h0
      simp [h0]
  | succ j ih =>
    intro i k hk h0
    cases k with
    | zero => omega
    | succ k =>
      rw [live_entries_succ, live_entries_succ]
      by_cases h : get i = 0
      · simp [h]
      · simp only [h, if_false]
        rw [ih (i + 1) k (by omega) (by rw [← h0]; congr 1; omega)]

theorem read_block_pointers_eq (E : Env) (hgood : ∀ l c, E.bad l c = false)
    (partStart blockSize : Nat) (hbs : blockSize < 2 ^ 32) (inode : Mem) (location : Buf) :
    read_block_pointers E partStart blockSize inode location =
      (TSX_SUCCESS, (apply_block_reads E blockSize
        (inode_block_lbas E partStart blockSize inode) (location, 0)).1) := by
  have hu : u32 blockSize = blockSize := Nat.mod_eq_of_lt hbs
  unfold read_block_pointers inode_block_lbas
  rw [hu]
  simp only [direct_loop_eq E hgood, ext_read_indirect_blocks_eq E hgood, ne_eq, not_true,
    if_false, apply_block_reads_append]
  by_cases h1 : i_block_i1 inode = 0 <;> by_cases h2 : i_block_i2 inode = 0 <;>
    by_cases h3 : i_block_i3 inode = 0 <;>
    simp [h1, h2, h3, apply_block_reads_nil]

/-- C8. For an inode without the extents flag, on a drive that refuses no read and with a
block size below `2^32`, `ext_read_inode_to` succeeds and reads into the destination, one
after the other from offset 0, exactly the blocks of `inode_block_lbas`: the direct pointers
before the first zero one, then, for each of the three indirect roots that is not zero, the
blocks below it, every table being taken up to its first zero entry. A zero entry ends the
list it stands in (no later entry of that list is read), not the lists that follow. -/
theorem ext_read_inode_to_zero_pointers (E : Env) (partStart fuel : Nat) (inode : Mem)
    (location : Buf) (hgood : ∀ l c, E.bad l c = false)
    (hflag : i_flags inode &&& EXT_INODE_EXTENTS_FL = 0)
    (hbs : sb_block_size E partStart < 2 ^ 32) :
    (∃ dest', ext_read_inode_to E partStart fuel inode location = some (TSX_SUCCESS, dest') ∧
      dest' = (apply_block_reads E (sb_block_size E partStart)
        (inode_block_lbas E partStart (sb_block_size E partStart) inode) (location, 0)).1 ∧
      dest'.log = location.log ++ block_reads (sb_block_size E partStart)
        (inode_block_lbas E partStart (sb_block_size E partStart) inode) 0) ∧
    (∀ (get : Nat → Nat) (j i k : Nat), j < k → get (i + j) = 0 →
      live_entries get i k = live_entries get i j) := by
  refine ⟨⟨_, ?_, rfl, apply_block_reads_log E hgood _ _ _⟩, live_entries_stop⟩
  unfold ext_read_inode_to
  simp only [msio_read_drive_ok E hgood, ne_eq, not_true, if_false, hflag]
  rw [← read_block_pointers_eq E hgood partStart _ hbs]
  rfl

/-- The file `k` of the sample volume (direct pointers 20 to 28, then zero): nine blocks are
read, from LBA 40 on, to the offsets 0, 1024, .. -/
theorem ext_read_inode_to_zero_pointers_witness :
    sb_block_size example_ext 0 = 1024 ∧
    inode_block_lbas example_ext 0 1024 example_file_inode =
      [40, 42, 44, 46, 48, 50, 52, 54, 56] ∧
    ∃ dest', ext_read_inode_to example_ext 0 1 example_file_inode (kmalloc example_ext) =
        some (TSX_SUCCESS, dest') ∧
      dest'.log = [(40, 2, 0), (42, 2, 1024), (44, 2, 2048), (46, 2, 3072), (48, 2, 4096),
        (50, 2, 5120), (52, 2, 6144), (54, 2, 7168), (56, 2, 8192)] := by
  have hb : sb_block_size example_ext 0 = 1024 := by decide
  have hl : inode_block_lbas example_ext 0 1024 example_file_inode =
      [40, 42, 44, 46, 48, 50, 52, 54, 56] := by decide
  obtain ⟨⟨dest', h1, -, h3⟩, -⟩ :=
    ext_read_inode_to_zero_pointers example_ext 0 1 example_file_inode (kmalloc example_ext)
      (fun _ _ => rfl) (by decide) (by decide)
  refine ⟨hb, hl, dest', h1, ?_⟩
  rw [h3, hb, hl]
  rfl

/-- A zero direct pointer does not end the read: the inode whose direct pointers are all
zero and whose single-indirect table (block 11) lists the block 20 has that block read, from
LBA 40 to offset 0. -/
theorem ext_read_inode_to_reads_after_zero :
    i_blocks example_hole_inode 0 = 0 ∧ i_block_i1 example_hole_inode = 11 ∧
    rd32 (shift example_hole_disk (11 * 1024)) 0 = 20 ∧
    (ext_read_inode_to example_hole_env 0 1 example_hole_inode
      (kmalloc example_hole_env)).map (fun r => (r.1, r.2.log)) =
      some (TSX_SUCCESS, [(40, 2, 0)]) := by decide

/-! ## Reading a file -/

/-- A successful `ext_read_inode` has run `ext_read_inode_to` on a fresh buffer with success
and returns that buffer, with `i_size_lo` as the size. -/
theorem ext_read_inode_success (E : Env) (partStart fuel : Nat) (inode : Mem) (r : InodeRead)
    (h : ext_read_inode E partStart fuel inode = some r) (hst : r.status = TSX_SUCCESS) :
    ∃ t, ext_read_inode_to E partStart fuel inode (kmalloc E) = some t ∧ t.1 = TSX_SUCCESS ∧
      r.location = t.2 ∧ r.size = i_size_lo inode := by
  unfold ext_read_inode at h
  by_cases h1 : (msio_read_drive E (u64 (partStart + 2)) 4 0 (kmalloc E)).1 = TSX_SUCCESS
  · simp only [h1, ne_eq, not_true, if_false] at h
    by_cases h2 : i_size_high inode = 0
    · simp only [h2, ne_eq, not_true, if_false] at h
      cases ht : ext_read_inode_to E partStart fuel inode (kmalloc E) with
      | none => rw [ht] at h; cases h
      | some t =>
        rw [ht] at h
        simp only [Option.some.injEq] at h
        rw [← h] at hst ⊢
        exact ⟨t, rfl, hst, rfl, rfl⟩
    · simp only [h2, ne_eq, not_false_eq_true, if_true, Option.some.injEq] at h
      rw [← h] at hst
      cases hst
  · simp only [h1, ne_eq, not_false_eq_true, if_true, Option.some.injEq] at h
    rw [← h] at hst
    exact absurd hst h1

/-- The memory after the blocks of a list have been read one after the other: each block of
the range written holds the bytes of the drive from the LBA of its entry, every other byte
is as it was. -/
theorem apply_block_reads_mem (E : Env) (hgood : ∀ l c, E.bad l c = false) (blockSize : Nat)
    (h512 : 512 ∣ blockSize) (a : Nat) :
    ∀ (l : List Nat) (s : Buf × Nat),
    (apply_block_reads E blockSize l s).1.mem a =
      if s.2 ≤ a ∧ a < s.2 + l.length * blockSize
      then E.data (512 * l.getD ((a - s.2) / blockSize) 0 + (a - s.2) % blockSize)
      else s.1.mem a := by
  have hcnt : 512 * (blockSize / 512) = blockSize := Nat.mul_div_cancel' h512
  intro l
  induction l with
  | nil =>
    intro s
    rw [apply_block_reads_nil]
    have : ¬ (s.2 ≤ a ∧ a < s.2 + ([] : List Nat).length * blockSize) := by
      simp only [List.length_nil, Nat.zero_mul, Nat.add_zero]
      omega
    rw [if_neg this]
  | cons lba l ih =>
    intro s
    rw [apply_block_reads_cons, ih]
    simp only [List.length_cons]
    rw [msio_read_drive_mem E _ _ _ _ _ (msio_read_drive_ok E hgood _ _ _ _), hcnt]
    have hmul : (l.length + 1) * blockSize = l.length * blockSize + blockSize :=
      Nat.succ_mul _ _
    by_cases hA : s.2 + blockSize ≤ a ∧ a < s.2 + blockSize + l.length * blockSize
    · have hB : s.2 ≤ a ∧ a < s.2 + (l.length + 1) * blockSize := by omega
      rw [if_pos hA, if_pos hB]
      have hpos : 0 < blockSize := by
        rcases Nat.eq_zero_or_pos blockSize with h0 | h0
        · rw [h0] at hA; omega
        · exact h0
      have e1 : a - s.2 = (a - (s.2 + blockSize)) + blockSize := by omega
      have e2 : (a - s.2) / blockSize = (a - (s.2 + blockSize)) / blockSize + 1 := by
        rw [e1, Nat.add_div_right _ hpos]
      have e3 : (a - s.2) % blockSize = (a - (s.2 + blockSize)) % blockSize := by
        rw [e1, Nat.add_mod_right]
      rw [e2, e3]
      rfl
    · rw [if_neg hA]
      by_cases hC : s.2 ≤ a ∧ a < s.2 + blockSize
      · have hB : s.2 ≤ a ∧ a < s.2 + (l.length + 1) * blockSize := by omega
        rw [if_pos hC, if_pos hB]
        have e2 : (a - s.2) / blockSize = 0 := Nat.div_eq_of_lt (by omega)
        have e3 : (a - s.2) % blockSize = a - s.2 := Nat.mod_eq_of_lt (by omega)
        rw [e2, e3]
        rfl
      · have hB : ¬ (s.2 ≤ a ∧ a < s.2 + (l.length + 1) * blockSize) := by omega
        rw [if_neg hC, if_neg hB]

/-- A walk of an index node that succeeds has walked children that all have leaf lists. -/
theorem extent_index_loop_leaves (E : Env) (partStart blockSize : Nat)
    (child : Mem → Buf → Option (status_t × Buf))
    (cl : Mem → Option (List (Nat × Nat × Nat)))
    (hc : ∀ h d d', child h d = some (TSX_SUCCESS, d') → ∃ l, cl h = some l) (header : Mem) :
    ∀ (k i : Nat) (t dest d' : Buf),
    extent_index_loop E partStart blockSize child header k i t dest = some (TSX_SUCCESS, d') →
    ∃ L, index_leaves E partStart blockSize cl header k i t = some L := by
  intro k
  induction k with
  | zero => intro i t dest d' _; exact ⟨[], rfl⟩
  | succ k ih =>
    intro i t dest d' h
    rw [extent_index_loop] at h
    have hr' : (msio_read_drive E
        (u64 (partStart + u64 ((ei_leaf_lo header i ||| (ei_leaf_hi header i <<< 32)) *
          blockSize) / 512)) (blockSize / 512) 0 t) =
        child_read E partStart blockSize header i t := rfl
    simp only [hr'] at h
    rw [index_leaves]
    by_cases hr : (child_read E partStart blockSize header i t).1 = TSX_SUCCESS
    · simp only [hr, ne_eq, not_true, if_false] at h ⊢
      cases hch : child (child_read E partStart blockSize header i t).2.mem dest with
      | none => rw [hch] at h; cases h
      | some c =>
        rw [hch] at h
        simp only at h
        by_cases hc1 : c.1 = TSX_SUCCESS
        · simp only [hc1, not_true, if_false] at h
          have hch' : child (child_read E partStart blockSize header i t).2.mem dest =
              some (TSX_SUCCESS, c.2) := by rw [hch, ← hc1]
          obtain ⟨l, hl⟩ := hc _ _ _ hch'
          obtain ⟨rest, hrest⟩ := ih _ _ _ _ h
          rw [hl]
          simp only
          rw [hrest]
          exact ⟨l ++ rest, rfl⟩
        · simp only [hc1, not_false_eq_true, if_true, Option.some.injEq] at h
          rw [h] at hc1
          exact absurd rfl hc1
    · simp only [hr, ne_eq, not_false_eq_true, if_true, Option.some.injEq, Prod.mk.injEq] at h
      exact h.1.elim

/-- A walk of an extent tree that succeeds has found the magic in every node it came to:
the tree has its list of leaf entries. -/
theorem ext_read_extent_leaves (E : Env) (partStart blockSize : Nat) :
    ∀ (fuel : Nat) (header : Mem) (dest d' : Buf),
    ext_read_extent E partStart blockSize fuel header dest = some (TSX_SUCCESS, d') →
    ∃ L, extent_tree_leaves E partStart blockSize fuel header = some L := by
  intro fuel
  induction fuel with
  | zero =>
    intro header dest d' h
    rw [ext_read_extent] at h
    cases h
  | succ fuel ih =>
    intro header dest d' h
    rw [ext_read_extent] at h
    rw [extent_tree_leaves]
    by_cases hm : eh_magic header = EXT_INODE_EXTENT_HEADER_MAGIC
    · simp only [hm, ne_eq, not_true, if_false] at h ⊢
      by_cases hd : eh_depth header = 0
      · simp only [hd, if_true]
        exact ⟨_, rfl⟩
      · simp only [hd, if_false] at h ⊢
        exact extent_index_loop_leaves E partStart blockSize _ _
          (fun h d d' hx => ih h d d' hx) header _ _ _ _ _ h
    · simp only [hm, ne_eq, not_false_eq_true, if_true] at h
      cases h

/-- C1 (as amended). Let `vfs_readFile` and `vfs_getFileSize` both succeed on a path, on a
drive that refuses no read and a volume whose `s_inodes_per_group` is not 0 and whose block
size `bs` is a multiple of 512. The size reported, `n`, is the `i_size_lo` of the file's
inode, and the caller's memory is unchanged from offset `n` on. Below `n` it holds what the
blocks of the file hold on the drive, as far as the inode names them. For an inode without
the extents flag (`bs` below `2^32`), with `lbas` the LBAs of its pointer list (direct
pointers, then the blocks below the indirect roots, each list up to its first zero entry;
the LBA of the block number `p` is `part_start + p*bs/512`, the product being computed in
`size_t` for a direct pointer and in `uint32_t` below an indirect root): the byte at `a` is
the drive's byte `a % bs` of the block number `a / bs` of that list; a byte past the last
block of the list is the byte the fresh temporary buffer held. For an
inode with the extents flag the tree has its list `L` of leaf entries, and when their ranges
fit the C types: a byte in the range of one entry, the ranges not overlapping, is the
drive's byte at that offset of the entry's run; a byte in no range is the byte the fresh
temporary buffer held. -/
theorem vfs_readFile_spec (E : Env) (partStart fuel : Nat) (path : List Nat) (dest m : Mem)
    (n bs : Nat)
    (hr : vfs_readFile E partStart fuel path dest = some (TSX_SUCCESS, m))
    (hs : vfs_getFileSize E partStart fuel path = some (.ok n))
    (hgood : ∀ l c, E.bad l c = false)
    (hipg : s_inodes_per_group (sb_buffer E partStart) ≠ 0)
    (hbs : bs = sb_block_size E partStart) (h512 : 512 ∣ bs) :
    ∃ inode inodeData,
      ext_get_file E partStart fuel path = some (.ok inode) ∧
      ext_get_inode E partStart inode = .ok inodeData ∧
      n = i_size_lo inodeData ∧
      (∀ a, n ≤ a → m a = dest a) ∧
      (i_flags inodeData &&& EXT_INODE_EXTENTS_FL = 0 → bs < 2 ^ 32 →
        ∀ a, a < n →
          m a =
            if a < (inode_block_lbas E partStart bs inodeData).length * bs
            then E.data (512 * (inode_block_lbas E partStart bs inodeData).getD (a / bs) 0 +
              a % bs)
            else E.heap a) ∧
      (i_flags inodeData &&& EXT_INODE_EXTENTS_FL ≠ 0 →
        ∃ L, extent_tree_leaves E partStart bs fuel (shift inodeData 40) = some L ∧
          ((∀ e ∈ L, (e.1 + e.2.1) * bs < 2 ^ E.bits ∧ partStart + e.2.2 * bs < 2 ^ 64) →
            (∀ a, a < n → (∀ e ∈ L, ¬ extent_range bs e a) → m a = E.heap a) ∧
            (L.Pairwise (fun e1 e2 => ∀ x, ¬ (extent_range bs e1 x ∧ extent_range bs e2 x)) →
              ∀ e ∈ L, ∀ a, a < n → extent_range bs e a →
                m a = E.data (512 * (partStart + e.2.2 * bs / 512) + (a - e.1 * bs))))) ∧
      u32 (inode + 2 ^ 32 - 1) % s_inodes_per_group (sb_buffer E partStart) <
        s_inodes_per_group (sb_buffer E partStart) := by
  unfold vfs_getFileSize at hs
  unfold vfs_readFile at hr
  cases hf : ext_get_file E partStart fuel path with
  | none => rw [hf] at hs; cases hs
  | some x =>
    cases x with
    | error st => rw [hf] at hs; cases hs
    | ok inode =>
      rw [hf] at hs hr
      simp only at hs hr
      cases hi : ext_get_inode E partStart inode with
      | error st => rw [hi] at hs; cases hs
      | ok inodeData =>
        rw [hi] at hs hr
        simp only at hs hr
        have hn : n = i_size_lo inodeData := by
          cases hs
          rfl
        cases hread : ext_read_inode E partStart fuel inodeData with
        | none => rw [hread] at hr; cases hr
        | some r =>
          rw [hread] at hr
          simp only at hr
          by_cases hst : r.status = TSX_SUCCESS
          swap
          · simp only [hst, ne_eq, not_false_eq_true, if_true, Option.some.injEq,
              Prod.mk.injEq] at hr
            exact hr.1.elim
          simp only [hst, ne_eq, not_true, if_false, Option.some.injEq, Prod.mk.injEq,
            true_and] at hr
          obtain ⟨t, ht, ht1, hloc, hsize⟩ :=
            ext_read_inode_success E partStart fuel inodeData r hread hst
          have hlow : ∀ a, a < n → m a = t.2.mem a := by
            intro a ha
            rw [← hr]
            unfold memcpy
            rw [hsize, ← hn, if_pos ha, hloc]
          have hsb : (msio_read_drive E (u64 (partStart + 2)) 4 0 (kmalloc E)).1 = TSX_SUCCESS :=
            msio_read_drive_ok E hgood _ _ _ _
          have hbs' : util_math_pow E 2 (u32 (10 + s_log_block_size
              (msio_read_drive E (u64 (partStart + 2)) 4 0 (kmalloc E)).2.mem)) = bs := by
            rw [hbs]; rfl
          unfold ext_read_inode_to at ht
          simp only [hsb, ne_eq, not_true, if_false, hbs'] at ht
          refine ⟨inode, inodeData, rfl, hi, hn, ?_, ?_, ?_,
            Nat.mod_lt _ (Nat.pos_of_ne_zero hipg)⟩
          · intro a ha
            rw [← hr]
            unfold memcpy
            rw [hsize, ← hn, if_neg (by omega)]
          · intro hflag hlt a ha
            simp only [hflag, not_true, if_false, Option.some.injEq] at ht
            rw [hlow a ha, ← ht, read_block_pointers_eq E hgood partStart bs hlt]
            simp only
            rw [apply_block_reads_mem E hgood bs h512 a]
            simp only [Nat.zero_le, true_and, Nat.zero_add, Nat.sub_zero]
            rfl
          · intro hflag
            simp only [hflag, not_false_eq_true, if_true] at ht
            have ht' : ext_read_extent E partStart bs fuel (shift inodeData 40) (kmalloc E) =
                some (TSX_SUCCESS, t.2) := by rw [ht, ← ht1]
            obtain ⟨L, hL⟩ := ext_read_extent_leaves E partStart bs fuel _ _ _ ht'
            have heq := ext_read_extent_eq E hgood partStart bs fuel _ L (kmalloc E) hL
            rw [ht'] at heq
            have ht2 : t.2 = apply_extent_reads E partStart bs L (kmalloc E) :=
              (Prod.mk.inj (Option.some.inj heq)).2
            refine ⟨L, hL, ?_⟩
            intro hfit
            refine ⟨?_, ?_⟩
            · intro a ha hout
              rw [hlow a ha, ht2,
                apply_extent_reads_frame E hgood partStart bs h512 a L _ hfit hout]
              rfl
            · intro hpw e he a ha hin
              rw [hlow a ha, ht2]
              exact apply_extent_reads_content E hgood partStart bs h512 a L _ hfit hpw e he hin

/-- The file `/k` of `example_long_env`: 14000 bytes with 1024-byte blocks, the first twelve
blocks through the direct pointers (LBAs 40 to 62) and the last two through the
single-indirect table (LBAs 64 and 66). The size reported is 14000; the bytes 0 to 13999 of
the caller's memory are those of the drive, block by block (shown at the first byte, at the
last byte of the twelfth block, at the first byte that comes through the table and at the
last byte of the file); the bytes from 14000 on still hold `0x55`, although the last block
was read whole. On the sample volume the file of 9000 bytes gives 9000 bytes likewise. -/
theorem vfs_readFile_spec_witness :
    vfs_getFileSize example_long_env 0 1 [47, 107] = some (.ok 14000) ∧
    (vfs_readFile example_long_env 0 1 [47, 107] (fun _ => 0x55)).map (fun r => r.1) =
      some TSX_SUCCESS ∧
    inode_block_lbas example_long_env 0 1024 example_long_inode =
      [40, 42, 44, 46, 48, 50, 52, 54, 56, 58, 60, 62, 64, 66] ∧
    example_long_read 0 = example_long_env.data 20480 ∧
    example_long_read 12287 = example_long_env.data 32767 ∧
    example_long_read 12288 = example_long_env.data 32768 ∧
    example_long_read 13999 = example_long_env.data 34479 ∧
    (∀ a, 14000 ≤ a → example_long_read a = 0x55) ∧
    example_file_read 8999 = example_ext.data 29479 ∧ example_file_read 9000 = 0x55 := by
  have h0 : (match vfs_getFileSize example_long_env 0 1 [47, 107] with
      | some (.ok n) => n
      | _ => 0) = 14000 := by decide
  have hs : vfs_getFileSize example_long_env 0 1 [47, 107] = some (.ok 14000) := by
    cases h : vfs_getFileSize example_long_env 0 1 [47, 107] with
    | none => rw [h] at h0; cases h0
    | some x =>
      cases x with
      | error st => rw [h] at h0; cases h0
      | ok n => rw [h] at h0; simp only at h0; rw [h0]
  have h1 : (vfs_readFile example_long_env 0 1 [47, 107] (fun _ => 0x55)).map (fun r => r.1) =
      some TSX_SUCCESS := by decide
  have hr : vfs_readFile example_long_env 0 1 [47, 107] (fun _ => 0x55) =
      some (TSX_SUCCESS, example_long_read) := by
    unfold example_long_read
    cases h : vfs_readFile example_long_env 0 1 [47, 107] (fun _ => 0x55) with
    | none => rw [h] at h1; cases h1
    | some r =>
      rw [h] at h1
      simp only [Option.map_some', Option.some.injEq] at h1
      rw [← h1]
  have hl : inode_block_lbas example_long_env 0 1024 example_long_inode =
      [40, 42, 44, 46, 48, 50, 52, 54, 56, 58, 60, 62, 64, 66] := by decide
  obtain ⟨inode, inodeData, hfile, hino, -, hout, hptr, -, -⟩ :=
    vfs_readFile_spec example_long_env 0 1 [47, 107] (fun _ => 0x55) example_long_read 14000
      1024 hr hs (fun _ _ => rfl) (by decide) (by decide) (by decide)
  have hi12 : (match ext_get_file example_long_env 0 1 [47, 107] with
      | some (.ok i) => i
      | _ => 0) = 12 := by decide
  rw [hfile] at hi12
  simp only at hi12
  subst hi12
  have hdata : example_long_inode = inodeData := by
    unfold example_long_inode
    rw [hino]
  subst hdata
  have hb := hptr (by decide) (by decide)
  rw [hl] at hb
  exact ⟨hs, h1, hl, (hb 0 (by decide)).trans rfl, (hb 12287 (by decide)).trans rfl,
    (hb 12288 (by decide)).trans rfl, (hb 13999 (by decide)).trans rfl, hout,
    by decide, by decide⟩

/-- Counterexample to C1 as stated. On `example_sparse_env` the file `/k` has `i_size_lo` =
9000 and the direct pointers 20, 0, 22, .., 28: its second block is a hole and its third
block is block 22 of the volume, whose first byte on the drive is 189. Both calls succeed
and the size reported is 9000. The reader stops at the zero pointer: the one block 20 is
read, the first 1024 bytes of the caller's memory are those of block 20, and the bytes from
1024 to 8999 are not bytes of the drive but what the temporary buffer held when it was
allocated (`0xAA`), also at offset 2048, where the file has the first byte of block 22. -/
theorem vfs_readFile_short_pointers :
    (match vfs_getFileSize example_sparse_env 0 1 [47, 107] with
      | some (.ok n) => n
      | _ => 0) = 9000 ∧
    (vfs_readFile example_sparse_env 0 1 [47, 107] (fun _ => 0x55)).map (fun r => r.1) =
      some TSX_SUCCESS ∧
    i_blocks example_sparse_inode 0 = 20 ∧ i_blocks example_sparse_inode 1 = 0 ∧
    i_blocks example_sparse_inode 2 = 22 ∧
    inode_block_lbas example_sparse_env 0 1024 example_sparse_inode = [40] ∧
    example_sparse_read 0 = example_sparse_env.data 20480 ∧
    example_sparse_read 1023 = example_sparse_env.data 21503 ∧
    example_sparse_read 1024 = example_sparse_env.heap 1024 ∧
    example_sparse_read 2048 = example_sparse_env.heap 2048 ∧
    example_sparse_env.heap 2048 = 0xAA ∧ example_sparse_env.data (22 * 1024) = 189 ∧
    example_sparse_read 8999 = example_sparse_env.heap 8999 ∧
    example_sparse_read 9000 = 0x55 := by
  decide

theorem takeWhile_comp (comp tl : List Nat) (h47 : 47 ∉ comp)
    (htl : tl = [] ∨ ∃ q, tl = 47 :: q) :
    (comp ++ tl).takeWhile (fun x => x != 47) = comp := by
  induction comp with
  | nil =>
    rcases htl with h | ⟨q, h⟩
    · subst h; rfl
    · subst h; simp [List.takeWhile]
  | cons c rest ih =>
    have hc : c ≠ 47 := fun e => h47 (e ▸ List.mem_cons_self _ _)
    have hb : (c != 47) = true := by simp [hc]
    simp only [List.cons_append, List.takeWhile_cons, hb, if_true]
    rw [ih (fun h => h47 (List.mem_cons_of_mem _ h))]

theorem dropWhile_comp (comp tl : List Nat) (h47 : 47 ∉ comp)
    (htl : tl = [] ∨ ∃ q, tl = 47 :: q) :
    (comp ++ tl).dropWhile (fun x => x != 47) = tl := by
  induction comp with
  | nil =>
    rcases htl with h | ⟨q, h⟩
    · subst h; rfl
    · subst h; simp [List.dropWhile]
  | cons c rest ih =>
    have hc : c ≠ 47 := fun e => h47 (e ▸ List.mem_cons_self _ _)
    have hb : (c != 47) = true := by simp [hc]
    simp only [List.cons_append, List.dropWhile_cons, hb, if_true]
    rw [ih (fun h => h47 (List.mem_cons_of_mem _ h))]

/-- The test made on a directory entry only looks at the first component of the path. -/
theorem entry_matches_first (d : Bool) (comp tl : List Nat) (m : Mem) (off : Nat)
    (h47 : 47 ∉ comp) (htl : tl = [] ∨ ∃ q, tl = 47 :: q) :
    entry_matches d (comp ++ tl) m off = entry_matches d comp m off := by
  unfold entry_matches
  have hp : pathpartlen (comp ++ tl) = pathpartlen comp := by
    rw [pathpartlen_of_not_mem comp h47]
    unfold pathpartlen
    rw [takeWhile_comp comp tl h47 htl]
  rw [hp]
  by_cases hl : pathpartlen comp = de_name_len m off
  · have hc : strncmp_eq (de_name m off) (cstr (comp ++ tl)) (de_name_len m off) 0 =
        strncmp_eq (de_name m off) (cstr comp) (de_name_len m off) 0 := by
      apply strncmp_eq_congr
      intro j _ h2
      simp only [rd8]
      rw [cstr_append_left comp tl j (by have := pathpartlen_le comp; omega)]
    rw [hc]
  · have hb : (pathpartlen comp == de_name_len m off) = false := by simp [hl]
    simp only [hb, Bool.and_false, Bool.false_and]

/-- For a component without `/` and NUL, the test of the code on an entry is the test of the
specification. -/
theorem entry_matches_selects (d : Bool) (comp tl : List Nat) (m : Mem) (off : Nat)
    (h47 : 47 ∉ comp) (h0 : 0 ∉ comp) (hb : ∀ c ∈ comp, c < 256)
    (htl : tl = [] ∨ ∃ q, tl = 47 :: q) :
    entry_matches d (comp ++ tl) m off = entry_selects d comp m off := by
  rw [entry_matches_first d comp tl m off h47 htl]
  have hname := entry_matches_name comp m off h47 h0 hb
  have hsplit : entry_matches d comp m off =
      ((if d then de_file_type m off == EXT_INODE_TYPE_DIRECTORY else true) &&
        entry_matches false comp m off) := by
    unfold entry_matches
    simp only [Bool.false_eq_true, if_false, Bool.true_and, Bool.and_assoc]
  rw [hsplit]
  unfold entry_selects
  by_cases he : entry_name m off = comp
  · have hl : de_name_len m off = comp.length := by rw [← entry_name_length, he]
    rw [hname.mpr he]
    simp [he, hl]
  · have hf : entry_matches false comp m off = false := by
      cases hx : entry_matches false comp m off with
      | false => rfl
      | true => exact absurd (hname.mp hx) he
    rw [hf]
    simp [he]

theorem find_congr (l : List Nat) (p q : Nat → Bool) (h : ∀ o, p o = q o) :
    l.find? p = l.find? q := by
  have : p = q := funext h
  rw [this]

/-- The outcome of the lookup loop is that of `find?` over the scanned entries. -/
theorem dir_scan_cases (d : Bool) (p : List Nat) (m : Mem) (size : Nat) :
    (∃ o, dir_scan d p m size (size + 1) 0 = some (true, o) ∧
      (dir_offsets m size (size + 1) 0).find? (entry_matches d p m) = some o) ∨
    (∃ o, dir_scan d p m size (size + 1) 0 = some (false, o) ∧
      (dir_offsets m size (size + 1) 0).find? (entry_matches d p m) = none) := by
  have ht := dir_scan_total d p m size
  cases hs : dir_scan d p m size (size + 1) 0 with
  | none => rw [hs] at ht; cases ht
  | some r =>
    obtain ⟨b, o⟩ := r
    have hf := dir_scan_find d p m size (size + 1) 0 b o hs
    cases b with
    | true => exact Or.inl ⟨o, rfl, hf.1 rfl⟩
    | false => exact Or.inr ⟨o, rfl, hf.2 rfl⟩

theorem join_path_cons (comp : List Nat) (rest : List (List Nat)) :
    ∃ tl, join_path (comp :: rest) = comp ++ tl ∧ (tl = [] ∨ ∃ q, tl = 47 :: q) ∧
      tl.tail = join_path rest ∧ (rest = [] → tl = []) := by
  cases rest with
  | nil => exact ⟨[], by simp [join_path], Or.inl rfl, rfl, fun _ => rfl⟩
  | cons c2 rest =>
    exact ⟨47 :: join_path (c2 :: rest), rfl, Or.inr ⟨_, rfl⟩, rfl, fun h => by cases h⟩

theorem join_path_count (comps : List (List Nat)) (h : ∀ comp ∈ comps, 47 ∉ comp) :
    comps ≠ [] → (join_path comps).count 47 + 1 = comps.length := by
  induction comps with
  | nil => intro h; exact absurd rfl h
  | cons comp rest ih =>
    intro _
    cases rest with
    | nil =>
      have : (join_path [comp]).count 47 = 0 := by
        rw [join_path]
        exact List.count_eq_zero.mpr (h comp (List.mem_cons_self _ _))
      rw [this]
      rfl
    | cons c2 rest =>
      have h1 := ih (fun c hc => h c (List.mem_cons_of_mem _ hc)) (by simp)
      rw [join_path, List.count_append, List.count_cons_self,
        List.count_eq_zero.mpr (h comp (List.mem_cons_self _ _))]
      simp only [List.length_cons] at h1 ⊢
      omega

/-- The loop of `ext_get_path_inode` over a path of well-formed components does what the
specification says, component by component. -/
theorem path_loop_resolve (E : Env) (partStart fuel parts : Nat) :
    ∀ (comps : List (List Nat)) (i c t : Nat), comps ≠ [] →
    (∀ comp ∈ comps, comp ≠ [] ∧ 47 ∉ comp ∧ 0 ∉ comp ∧ ∀ x ∈ comp, x < 256) →
    i + comps.length = parts →
    path_loop E partStart fuel parts comps.length i (join_path comps) c t =
      resolve E partStart fuel comps c t := by
  intro comps
  induction comps with
  | nil => intro i c t h; exact absurd rfl h
  | cons comp rest ih =>
    intro i c t _ hc hlen
    obtain ⟨hne, h47, h0, hb⟩ := hc comp (List.mem_cons_self _ _)
    obtain ⟨tl, hj, htl, htail, hnil⟩ := join_path_cons comp rest
    have hpne : join_path (comp :: rest) ≠ [] := by
      rw [hj]
      intro h
      exact hne (List.append_eq_nil.mp h).1
    have hd : decide (i < parts - 1) = decide (rest ≠ []) := by
      simp only [List.length_cons] at hlen
      cases rest with
      | nil => simp at hlen ⊢; omega
      | cons c2 r2 => simp at hlen ⊢; omega
    have hcut : (util_str_cut_to (join_path (comp :: rest)) 47).tail = join_path rest := by
      unfold util_str_cut_to
      rw [hj, dropWhile_comp comp tl h47 htl, htail]
    rw [List.length_cons, path_loop, resolve]
    simp only [hpne, if_false]
    cases hi : ext_get_inode E partStart c with
    | error st => rfl
    | ok dirNode =>
      simp only
      cases hr : ext_read_inode E partStart fuel dirNode with
      | none => rfl
      | some r =>
        simp only
        by_cases hs : r.status = TSX_SUCCESS
        · simp only [hs, ne_eq, not_true, if_false]
          have hfind : (dir_offsets r.location.mem r.size (r.size + 1) 0).find?
              (entry_matches (decide (i < parts - 1)) (join_path (comp :: rest))
                r.location.mem) =
              (dir_offsets r.location.mem r.size (r.size + 1) 0).find?
                (entry_selects (decide (rest ≠ [])) comp r.location.mem) := by
            apply find_congr
            intro o
            rw [hd, hj]
            exact entry_matches_selects _ comp tl _ o h47 h0 hb htl
          rcases dir_scan_cases (decide (i < parts - 1)) (join_path (comp :: rest))
            r.location.mem r.size with ⟨o, h1, h2⟩ | ⟨o, h1, h2⟩
          · rw [h1, ← hfind, h2]
            simp only
            rw [hcut]
            cases rest with
            | nil =>
              rw [join_path, path_loop_nil, resolve]
            | cons c2 r2 =>
              exact ih (i + 1) _ _ (by simp)
                (fun c' hc' => hc c' (List.mem_cons_of_mem _ hc'))
                (by simp only [List.length_cons] at hlen ⊢; omega)
          · rw [h1, ← hfind, h2]
            simp only
            have he : (i = parts - 1) = (rest = []) := by
              simp only [List.length_cons] at hlen
              cases rest with
              | nil => simp at hlen ⊢; omega
              | cons c2 r2 => simp at hlen ⊢; omega
            simp only [he]
        · simp only [hs, ne_eq, not_false_eq_true, if_true]

/-- C3. For a path `/c1/c2/../cn` of non-empty components without `/` and NUL (`n` may be
0, the path `/`), `ext_get_path_inode` does what the specification says: it starts at inode
2, of type directory; for each component in turn it reads the directory and selects the first
entry, in the order of the scan, whose `name_len` is the length of the component and whose
name is the component, an entry for a component other than the last having to be a directory
as well; it returns the inode and the type of the entry selected for the last component, and
fails with `TSX_NO_SUCH_FILE` when no entry passes for the last component and with
`TSX_NO_SUCH_DIRECTORY` when none passes for an earlier one. The path `/` gives inode 2 and
type directory. -/
theorem ext_get_path_inode_spec (E : Env) (partStart fuel : Nat) (comps : List (List Nat))
    (hc : ∀ comp ∈ comps, comp ≠ [] ∧ 47 ∉ comp ∧ 0 ∉ comp ∧ ∀ x ∈ comp, x < 256) :
    ext_get_path_inode E partStart fuel (47 :: join_path comps) =
      resolve E partStart fuel comps 2 EXT_INODE_TYPE_DIRECTORY ∧
    ext_get_path_inode E partStart fuel [47] = some (.ok (2, EXT_INODE_TYPE_DIRECTORY)) := by
  constructor
  · unfold ext_get_path_inode
    simp only [List.tail_cons]
    cases comps with
    | nil => rfl
    | cons comp rest =>
      have hcount := join_path_count (comp :: rest) (fun c h => (hc c h).2.1) (by simp)
      unfold util_count_parts
      rw [hcount]
      exact path_loop_resolve E partStart fuel _ (comp :: rest) 0 _ _ (by simp) hc (by simp)
  · rfl

/-- On the sample volume: `/k` resolves, as the specification says, to inode 12 of type
regular file; `/x` fails with `TSX_NO_SUCH_FILE` and `/x/k` with `TSX_NO_SUCH_DIRECTORY`. -/
theorem ext_get_path_inode_spec_witness :
    (ext_get_path_inode example_ext 0 1 (47 :: join_path [[107]]) =
        resolve example_ext 0 1 [[107]] 2 EXT_INODE_TYPE_DIRECTORY ∧
      ext_get_path_inode example_ext 0 1 [47] = some (.ok (2, EXT_INODE_TYPE_DIRECTORY))) ∧
    (match ext_get_path_inode example_ext 0 1 [47, 107] with
      | some (.ok r) => some r
      | _ => none) = some (12, EXT_INODE_TYPE_FILE) ∧
    (match ext_get_path_inode example_ext 0 1 [47, 120] with
      | some (.error st) => some st
      | _ => none) = some TSX_NO_SUCH_FILE ∧
    (match ext_get_path_inode example_ext 0 1 [47, 120, 47, 107] with
      | some (.error st) => some st
      | _ => none) = some TSX_NO_SUCH_DIRECTORY :=
  ⟨ext_get_path_inode_spec example_ext 0 1 [[107]] (by decide), by decide, by decide, by decide⟩

/-! ## Sizes and bounds of the reader -/

/-- C40. For the file `/k` with `i_size_lo` = 9000 and `i_size_high` = 1, `vfs_getFileSize`
succeeds and reports 9000, while `vfs_readFile` of the same path fails with `TSX_TOO_LARGE`:
`vfs_getFileSize` never looks at `i_size_high`. -/
theorem vfs_getFileSize_ignores_size_high :
    (match ext_get_inode example_big_env 0 12 with
      | .ok m => some (i_size_lo m, i_size_high m)
      | .error _ => none) = some (9000, 1) ∧
    (match vfs_getFileSize example_big_env 0 1 [47, 107] with
      | some (.ok n) => some n
      | _ => none) = some 9000 ∧
    (vfs_readFile example_big_env 0 1 [47, 107] (fun _ => 0x55)).map (fun r => r.1) =
      some TSX_TOO_LARGE := by
  decide

/-- C35. With 1024-byte blocks, an inode of `i_size_lo` = 1024 and two non-zero direct
pointers gets a buffer of 1024 bytes and has two blocks read into it, the second to the
offsets 1024 to 2047; an inode of the same size whose extents are `(0, 4, 100)` and
`(4, 2, 200)` has 6144 bytes read into its buffer of 1024. Both reads return success:
nothing compares the blocks an inode points to with its size. -/
theorem ext_read_inode_overruns_buffer :
    (ext_read_inode example_ext 0 1 example_short_inode).map
      (fun r => (r.status, r.size, r.absSize)) = some (TSX_SUCCESS, 1024, 1024) ∧
    (ext_read_inode example_ext 0 1 example_short_inode).map (fun r => r.location.log) =
      some [(40, 2, 0), (42, 2, 1024)] ∧
    (ext_read_inode example_ext 0 1 example_short_extent_inode).map
      (fun r => (r.status, r.size, r.absSize)) = some (TSX_SUCCESS, 1024, 1024) ∧
    (ext_read_inode example_ext 0 1 example_short_extent_inode).map (fun r => r.location.log) =
      some [(200, 8, 0), (400, 4, 4096)] := by
  decide

/-! ## The Linux loader: sizes -/

/-- C37. A kernel file of `0x1000` bytes whose `setup_sects` is 255 is accepted: the loader
registers the setup region `[0x70000, 0x90000)`, which runs over the command line at
`0x7e000`, and a protected-mode region of length `0x1000 - 0x20000` taken in `size_t`, that
is `0xfffe1000`, and makes the jump. -/
theorem linux86_start_setup_unchecked :
    (linux86.kboot_start example_linux_env_wide example_linux_entry example_linux_state).1 =
      TSX_SUCCESS ∧
    (linux86.kboot_start example_linux_env_wide example_linux_entry example_linux_state).2.regions =
      [(0x70000, 0x20000, 0x1000000), (0x100000, 0xfffe1000, 0x1020000),
       (0x7e000, 8, 0x5020)] ∧
    (linux86.kboot_start example_linux_env_wide example_linux_entry example_linux_state).2.jump =
      some linux86_entry ∧
    0x7e000 < 0x70000 + 0x20000 ∧ 0x1000 < (255 + 1) * 512 := by
  decide

/-- C39. A PE kernel whose file has the value 3 (`ET_DYN`) in the two bytes where an ELF
header keeps `e_type`, with a `K_MEM` table naming the kernel base `0x100000`:
`ubi_create_mem_table` succeeds and leaves `ubi_kernel_offset` = `0x100000` with the kernel
type still 2. The section is then placed at `0x400000` and the kernel entered at `0x400100`,
both without the offset, while `B_MEM.kernelBase` becomes `0x500000`. -/
theorem ubi_create_mem_table_pe_offset :
    example_pe_loaded.ubi_kernel_type = 2 ∧ example_pe_loaded.ubi_kernel_offset = 0 ∧
    example_pe_image.e_type = ELF_ET_DYN ∧
    (ubi_create_mem_table example_env 4 example_pe_image (some example_pe_kmem)
      example_pe_loaded).map (fun r => (r.1, r.2.ubi_kernel_type, r.2.ubi_kernel_offset)) =
      some (TSX_SUCCESS, 2, 0x100000) ∧
    (ubi_load_kernel_segs example_env 4 example_pe_image example_pe_after_mem).map
      (fun r => (r.1, r.2.log.filter is_fill, ubi_call_kernel 64 example_pe_image r.2,
        (ubi_post_init_kernelBase 64 r.2).bmem.kernelBase)) =
      some (TSX_SUCCESS, [Ev.memset 0x400000 0x2000, Ev.memcpy 0x400000 0x800400 0x1800],
        some 0x400100, 0x500000) := by
  decide

/-! ## Scans and recursions on a hostile volume -/

/-- C32. The root directory has the declared size 0 and no block, yet both scans examine
the entry at offset 0, which lies in memory that was never read into: with fresh memory that
happens to hold an entry named `k`, the lookup of `/k` selects it and returns its inode 12,
and the listing of `/` returns its name. On the scan itself: with size 0 the entry at offset
0 decides the outcome. -/
theorem dir_scan_examines_first_entry :
    (match ext_get_inode example_empty_root_env 0 2 with
      | .ok m => some (i_size_lo m, i_blocks m 0)
      | .error _ => none) = some (0, 0) ∧
    (match ext_get_path_inode example_empty_root_env 0 1 [47, 107] with
      | some (.ok r) => some r
      | _ => none) = some (12, 1) ∧
    (match vfs_listDir example_empty_root_env 0 1 [47] with
      | some (.ok l) => some l
      | _ => none) = some [[107]] ∧
    dir_scan false [107] (sparse (dirent 0 12 12 1 [107])) 0 1 0 = some (true, 0) ∧
    dir_scan false [107] (fun _ => 0) 0 1 0 = some (false, 0) ∧
    list_scan (sparse (dirent 0 12 12 1 [107])) 0 1 0 [] = some [[107]] := by
  decide

theorem child_read_loops (t : Buf) (h : Mem) (hh : loops_to_50 h) :
    loops_to_50 (child_read example_loop_env 0 4096 h 0 t).2.mem := by
  obtain ⟨-, -, -, hlo, hhi⟩ := hh
  have hmem : ∀ a, a < 4096 →
      (child_read example_loop_env 0 4096 h 0 t).2.mem a = example_loop_disk (204800 + a) := by
    intro a ha
    unfold child_read
    rw [msio_read_drive_mem _ _ _ _ _ _ (msio_read_drive_ok example_loop_env (fun _ _ => rfl) _ _ _ _),
      hlo, hhi]
    have e : u64 (0 + u64 ((50 ||| 0 <<< 32) * 4096) / 512) = 400 := by decide
    rw [e]
    have hc : 0 ≤ a ∧ a < 0 + 512 * (4096 / 512) := by omega
    rw [if_pos hc]
    have : 512 * 400 + (a - 0) = 204800 + a := by omega
    rw [this]
    rfl
  have h16 : ∀ o, o + 2 ≤ 4096 →
      rd16 (child_read example_loop_env 0 4096 h 0 t).2.mem o =
        rd16 (shift example_loop_disk 204800) o := by
    intro o ho
    apply rd16_congr
    intro x h1 h2
    rw [hmem x (by omega)]
    rfl
  have h32 : ∀ o, o + 4 ≤ 4096 →
      rd32 (child_read example_loop_env 0 4096 h 0 t).2.mem o =
        rd32 (shift example_loop_disk 204800) o := by
    intro o ho
    apply rd32_congr
    intro x h1 h2
    rw [hmem x (by omega)]
    rfl
  unfold loops_to_50 eh_magic eh_depth eh_entries ei_leaf_lo ei_leaf_hi
  rw [h16 0 (by omega), h16 6 (by omega), h16 2 (by omega), h32 _ (by omega), h16 _ (by omega)]
  decide

theorem msio_read_drive_log_le (E : Env) (lba count dest : Nat) (b : Buf) :
    (msio_read_drive E lba count dest b).2.log.length ≤ b.log.length + 1 := by
  unfold msio_read_drive
  split
  · exact Nat.le_succ _
  · simp only [List.length_append, List.length_singleton, le_refl]

theorem indirect_leaf_loop_reads (E : Env) (partStart blockSize : Nat) (table : Mem) :
    ∀ (k i : Nat) (b : Buf) (loc : Nat),
    (indirect_leaf_loop E partStart blockSize table k i b loc).2.1.log.length ≤
      b.log.length + k := by
  intro k
  induction k with
  | zero => intro i b loc; unfold indirect_leaf_loop; exact Nat.le_refl _
  | succ k ih =>
    intro i b loc
    unfold indirect_leaf_loop
    split
    · exact Nat.le_add_right _ _
    · simp only
      have h1 := msio_read_drive_log_le E
        (u64 (u32 (rd32 table (4 * i) * blockSize) / 512 + partStart)) (blockSize / 512) loc b
      split
      · simp only; omega
      · have h2 := ih (i + 1) (msio_read_drive E
          (u64 (u32 (rd32 table (4 * i) * blockSize) / 512 + partStart)) (blockSize / 512) loc b).2
          (loc + blockSize)
        omega

theorem indirect_index_loop_reads (child : Nat → Buf → Nat → status_t × Buf × Nat) (N : Nat)
    (hc : ∀ p b loc, (child p b loc).2.1.log.length ≤ b.log.length + N) (table : Mem) :
    ∀ (k i : Nat) (b : Buf) (loc : Nat),
    (indirect_index_loop child table k i b loc).2.1.log.length ≤ b.log.length + k * N := by
  intro k
  induction k with
  | zero => intro i b loc; unfold indirect_index_loop; simp
  | succ k ih =>
    intro i b loc
    unfold indirect_index_loop
    split
    · exact Nat.le_add_right _ _
    · simp only
      have h1 := hc (rd32 table (4 * i)) b loc
      have e : (k + 1) * N = k * N + N := Nat.succ_mul k N
      split
      · omega
      · have h2 := ih (i + 1) (child (rd32 table (4 * i)) b loc).2.1
          (child (rd32 table (4 * i)) b loc).2.2
        omega

theorem ext_read_indirect_blocks_reads (E : Env) (partStart blockSize : Nat) :
    ∀ (depth blockTable : Nat) (b : Buf) (loc : Nat),
    (ext_read_indirect_blocks E partStart blockSize depth blockTable b loc).2.1.log.length ≤
      b.log.length + (blockSize / 4) ^ (depth + 1) := by
  intro depth
  induction depth with
  | zero =>
    intro blockTable b loc
    unfold ext_read_indirect_blocks
    simp only
    split
    · exact Nat.le_add_right _ _
    · have h := indirect_leaf_loop_reads E partStart blockSize (msio_read_drive E
        (u64 (u32 (blockTable * blockSize) / 512 + partStart)) (blockSize / 512) 0
        (kmalloc E)).2.mem (blockSize / 4) 0 b loc
      simpa using h
  | succ depth ih =>
    intro blockTable b loc
    unfold ext_read_indirect_blocks
    simp only
    split
    · exact Nat.le_add_right _ _
    · have h := indirect_index_loop_reads
        (ext_read_indirect_blocks E partStart blockSize depth) ((blockSize / 4) ^ (depth + 1))
        (fun p b loc => ih p b loc) (msio_read_drive E
        (u64 (u32 (blockTable * blockSize) / 512 + partStart)) (blockSize / 512) 0
        (kmalloc E)).2.mem (blockSize / 4) 0 b loc
      have e : (blockSize / 4) ^ (depth + 1 + 1) = blockSize / 4 * (blockSize / 4) ^ (depth + 1) :=
        Nat.pow_succ'
      rw [e]
      exact h

theorem extent_index_loop_total (E : Env) (partStart blockSize : Nat)
    (child : Mem → Buf → Option (status_t × Buf))
    (hc : ∀ h d, ∃ r, child h d = some r) (header : Mem) :
    ∀ (k i : Nat) (tempData dest : Buf),
    ∃ r, extent_index_loop E partStart blockSize child header k i tempData dest = some r := by
  intro k
  induction k with
  | zero => intro i t d; exact ⟨_, by unfold extent_index_loop; rfl⟩
  | succ k ih =>
    intro i t d
    unfold extent_index_loop
    simp only
    split
    · exact ⟨_, rfl⟩
    · obtain ⟨c, hcx⟩ := hc (msio_read_drive E (u64 (partStart +
        u64 ((ei_leaf_lo header i ||| (ei_leaf_hi header i <<< 32)) * blockSize) / 512))
        (blockSize / 512) 0 t).2.mem d
      rw [hcx]
      simp only
      split
      · exact ⟨_, rfl⟩
      · exact ih _ _ _

theorem ext_read_extent_total (E : Env) (partStart blockSize : Nat) :
    ∀ (fuel : Nat) (header : Mem) (dest : Buf),
    ∃ r, ext_read_extent E partStart blockSize fuel header dest = some r := by
  intro fuel
  induction fuel with
  | zero => intro header dest; exact ⟨_, by unfold ext_read_extent; rfl⟩
  | succ fuel ih =>
    intro header dest
    unfold ext_read_extent
    split
    · exact ⟨_, rfl⟩
    · split
      · exact ⟨_, rfl⟩
      · exact extent_index_loop_total E partStart blockSize _ (fun h d => ih h d) header _ _ _ _

theorem ext_read_extent_loops :
    ∀ (fuel : Nat) (h : Mem) (dest : Buf), loops_to_50 h →
    ext_read_extent example_loop_env 0 4096 fuel h dest = some (TSX_OUT_OF_MEMORY, dest) := by
  intro fuel
  induction fuel with
  | zero => intro h dest _; unfold ext_read_extent; rfl
  | succ fuel ih =>
    intro h dest hh
    have hchild := ih _ dest (child_read_loops (kmalloc example_loop_env) h hh)
    obtain ⟨hm, hd, he, -, -⟩ := hh
    rw [ext_read_extent]
    have hd0 : eh_depth h ≠ 0 := by rw [hd]; decide
    simp only [hm, ne_eq, not_true, if_false, hd0, he]
    rw [extent_index_loop]
    have hr' : (msio_read_drive example_loop_env
        (u64 (0 + u64 ((ei_leaf_lo h 0 ||| (ei_leaf_hi h 0 <<< 32)) * 4096) / 512))
        (4096 / 512) 0 (kmalloc example_loop_env)) =
        child_read example_loop_env 0 4096 h 0 (kmalloc example_loop_env) := rfl
    have hok : (child_read example_loop_env 0 4096 h 0 (kmalloc example_loop_env)).1 =
        TSX_SUCCESS := msio_read_drive_ok example_loop_env (fun _ _ => rfl) _ _ _ _
    simp only [hr', hok, ne_eq, not_true, not_false_eq_true, if_false, hchild]
    have hne : ¬ TSX_OUT_OF_MEMORY = TSX_SUCCESS := by decide
    rw [if_pos hne]

/-- C36. Both block walks return for every content of the drive. `ext_read_indirect_blocks`
is recursive in its depth argument, which goes down by one at each call, and it adds at most
`(blockSize / 4)^(depth + 1)` data-block reads to those already made into the destination.
`ext_read_extent` returns a result for every node, every destination and every number
`fuel` of blocks the allocator can provide, whatever depths the child blocks declare and
wherever they point: each level of the recursion allocates a block first and fails with
`TSX_OUT_OF_MEMORY` when there is none. On the tree whose root has depth 1 and block 50 as
its child, block 50 being a node of depth 1 with block 50 as its child again, the walk
returns `TSX_OUT_OF_MEMORY` with the destination as it was, for every `fuel`. -/
theorem block_walks_terminate :
    (∀ (E : Env) (partStart blockSize depth blockTable : Nat) (b : Buf) (loc : Nat),
      (ext_read_indirect_blocks E partStart blockSize depth blockTable b loc).2.1.log.length ≤
        b.log.length + (blockSize / 4) ^ (depth + 1)) ∧
    (∀ (E : Env) (partStart blockSize fuel : Nat) (header : Mem) (dest : Buf),
      ∃ r, ext_read_extent E partStart blockSize fuel header dest = some r) ∧
    loops_to_50 example_loop_root ∧
    loops_to_50 (shift example_loop_disk (50 * 4096)) ∧
    ∀ fuel, ext_read_extent example_loop_env 0 4096 fuel example_loop_root
      (kmalloc example_loop_env) = some (TSX_OUT_OF_MEMORY, kmalloc example_loop_env) :=
  ⟨fun E partStart blockSize => ext_read_indirect_blocks_reads E partStart blockSize,
   fun E partStart blockSize => ext_read_extent_total E partStart blockSize,
   by unfold loops_to_50; decide, by unfold loops_to_50; decide,
   fun fuel => ext_read_extent_loops fuel _ _ (by unfold loops_to_50; decide)⟩

/-! ## Addresses in the kernel file -/

/-- C33. The kernel file is at `0x800000` and has the `LOAD` regions `[0x1000, 0x4000)` at
file offset `0x1000` and `[0x4000, 0x5000)` at file offset `0x2000`. The address `0x4000`,
the first of the second region, is answered from the first region, with `0x804000` in place
of `0x802000`; the address `0x5000`, which lies in no region, is answered with `0x803000` in
place of null. An address inside the first region is answered as expected. -/
theorem ubi_get_file_addr_inclusive_bound :
    example_state.ubi_kernel_type = 1 ∧ example_state.ubi_kernel_location = 0x800000 ∧
    ubi_get_file_addr 64 example_adjacent_image example_state 0x4000 = some 0x804000 ∧
    0x800000 + 0x2000 + (0x4000 - 0x4000) = 0x802000 ∧
    ubi_get_file_addr 64 example_adjacent_image example_state 0x5000 = some 0x803000 ∧
    ubi_get_file_addr 64 example_adjacent_image example_state 0x1800 = some 0x801800 ∧
    ubi_get_file_addr 64 example_adjacent_image example_state 0 = some 0 ∧
    ubi_get_file_addr 64 example_adjacent_image example_state 0x5001 = some 0 := by
  decide

/-- C34. With the same kernel file and a `.rela.dyn` section whose one entry gives the addend
`0x1234` for the address `0x4000`: the lookup by address answers `0x1234`, but the lookup
through the file address that `ubi_get_file_addr` gives for `0x4000`, an address in the
file-backed part of the second segment, answers 0. The lookup by address and the lookup from
the right file address `0x802000` do agree. -/
theorem ubi_get_elf_reldyn_var_addr_f_disagrees :
    ubi_get_elf_reldyn_var_addr example_reldyn 0x4000 = 0x1234 ∧
    ubi_get_file_addr 64 example_adjacent_image example_state 0x4000 = some 0x804000 ∧
    ubi_get_elf_reldyn_var_addr_f 64 example_adjacent_image example_state example_reldyn
      0x804000 = some 0 ∧
    ubi_get_elf_reldyn_var_addr_f 64 example_adjacent_image example_state example_reldyn
      0x802000 = some 0x1234 ∧
    ubi_get_elf_reldyn_var_addr example_reldyn 0x4001 = 0 ∧
    ubi_get_elf_reldyn_var_addr none 0x4000 = 0 := by
  decide

/-! ## The file-scope variables across calls of `kboot_start` -/

theorem flag_step_refl (req : Prop) (S : Ubi) : flag_step req S S := Or.inl rfl

theorem flag_step_of_eq (req : Prop) (S S' : Ubi)
    (h : S'.ubi_clearScreen = S.ubi_clearScreen) : flag_step req S S' := Or.inl h

theorem flag_step_trans (req : Prop) (S S1 S2 : Ubi) (h1 : flag_step req S S1)
    (h2 : flag_step req S1 S2) : flag_step req S S2 := by
  unfold flag_step at *
  rcases h2 with h2 | h2
  · rcases h1 with h1 | h1
    · exact Or.inl (h2.trans h1)
    · exact Or.inr ⟨h2.trans h1.1, h1.2⟩
  · exact Or.inr h2

theorem alloc_map_loop_flag (bits paddr vaddr size : Nat) :
    ∀ (fuel addr : Nat) (S S' : Ubi),
      alloc_map_loop bits paddr vaddr size fuel addr S = some S' →
      S'.ubi_clearScreen = S.ubi_clearScreen := by
  intro fuel
  induction fuel with
  | zero => intro addr S S' h; simp [alloc_map_loop] at h
  | succ k ih =>
    intro addr S S' h
    rw [alloc_map_loop] at h
    split at h
    · have := ih _ _ _ h
      exact this
    · cases h; rfl

theorem ubi_alloc_virtual_flag (K : UbiEnv) (fuel addr size : Nat) (S : Ubi) (p : Nat) (S' : Ubi)
    (h : ubi_alloc_virtual K fuel addr size S = some (p, S')) :
    S'.ubi_clearScreen = S.ubi_clearScreen := by
  unfold ubi_alloc_virtual at h
  by_cases h0 : addr = 0
  · simp only [h0, if_true] at h
    cases h; rfl
  · simp only [h0, if_false] at h
    cases hu : alloc_used_loop K.bits S (word K.bits (addr + size)) fuel addr with
    | none => rw [hu] at h; cases h
    | some b =>
      rw [hu] at h
      cases b with
      | true => simp only at h; cases h; rfl
      | false =>
        simp only at h
        by_cases hp : K.mmgr_alloc_block_sequential size = 0
        · simp only [hp, ne_eq, not_true_eq_false, if_false] at h
          cases h; rfl
        · simp only [hp, ne_eq, not_false_eq_true, if_true] at h
          cases hm : alloc_map_loop K.bits (K.mmgr_alloc_block_sequential size) addr size fuel 0
              (mmgr_reserve_mem_region S (K.mmgr_alloc_block_sequential size) size) with
          | none => rw [hm] at h; cases h
          | some S1 =>
            rw [hm] at h
            cases h
            have := alloc_map_loop_flag _ _ _ _ _ _ _ _ hm
            exact this

theorem mem_heap_flag (K : UbiEnv) (fuel : Nat) (t : ubi_k_mem_table) (S : Ubi) (st : status_t)
    (S' : Ubi) (h : mem_heap K fuel t S = some (st, S')) :
    S'.ubi_clearScreen = S.ubi_clearScreen := by
  unfold mem_heap at h
  by_cases hs : t.heapSize > 0
  · simp only [hs, if_true] at h
    by_cases hl : t.heapLocation = 0
    · simp only [hl, if_true] at h
      split at h <;> cases h <;> rfl
    · simp only [hl, if_false] at h
      cases hv : ubi_alloc_virtual K fuel t.heapLocation t.heapSize S with
      | none => rw [hv] at h; cases h
      | some r =>
        obtain ⟨p, S1⟩ := r
        rw [hv] at h
        simp only at h
        have hc := ubi_alloc_virtual_flag _ _ _ _ _ _ _ hv
        split at h <;> cases h <;> exact hc
  · simp only [hs, if_false] at h
    cases h; rfl

theorem mem_stack_flag (K : UbiEnv) (fuel : Nat) (t : ubi_k_mem_table) (S : Ubi) (st : status_t)
    (S' : Ubi) (h : mem_stack K fuel t S = some (st, S')) :
    S'.ubi_clearScreen = S.ubi_clearScreen := by
  unfold mem_stack at h
  generalize (if t.stackSize = 0 then K.stack_size else t.stackSize) = ss at h
  by_cases hl : t.stackLocation = 0
  · simp only [hl, if_true] at h
    split at h <;> cases h <;> rfl
  · simp only [hl, if_false] at h
    cases hv : ubi_alloc_virtual K fuel (wsub K.bits t.stackLocation ss) ss S with
    | none => rw [hv] at h; cases h
    | some r =>
      obtain ⟨p, S1⟩ := r
      rw [hv] at h
      simp only at h
      have hc := ubi_alloc_virtual_flag _ _ _ _ _ _ _ hv
      split at h <;> cases h <;> exact hc

theorem mem_idmap_flag (t : ubi_k_mem_table) (S : Ubi) :
    (mem_idmap t S).ubi_clearScreen = S.ubi_clearScreen := by
  unfold mem_idmap
  split <;> rfl

theorem mem_kaslr_flag (K : UbiEnv) (img : KernelImage) (t : ubi_k_mem_table) (S : Ubi) :
    (mem_kaslr K img t S).2.ubi_clearScreen = S.ubi_clearScreen := by
  unfold mem_kaslr
  split
  · dsimp only
    split <;> rfl
  · split <;> rfl

theorem new_table_flag (K : UbiEnv) (magic : Nat) (S S0 : Ubi)
    (h : new_table K magic S = .ok S0) : S0.ubi_clearScreen = S.ubi_clearScreen := by
  obtain ⟨-, hS⟩ := new_table_ok K magic S S0 h
  rw [hS]

theorem new_table_error_eq (K : UbiEnv) (magic : Nat) (S : Ubi) (st : status_t)
    (h : new_table K magic S = .error st) : st = TSX_OUT_OF_MEMORY := by
  unfold new_table at h
  by_cases hz : K.table_alloc magic = 0
  · simp only [hz, if_true] at h
    cases h; rfl
  · simp only [hz, if_false] at h
    cases h

theorem ubi_create_mem_table_flag (K : UbiEnv) (fuel : Nat) (img : KernelImage)
    (table : Option ubi_k_mem_table) (S : Ubi) (st : status_t) (S' : Ubi)
    (h : ubi_create_mem_table K fuel img table S = some (st, S')) :
    S'.ubi_clearScreen = S.ubi_clearScreen := by
  unfold ubi_create_mem_table at h
  cases hn : new_table K UBI_B_MEM_MAGIC S with
  | error e => rw [hn] at h; cases h; rfl
  | ok S0 =>
    rw [hn] at h
    have h0 := new_table_flag K _ S S0 hn
    cases table with
    | none => simp only at h; cases h; exact h0
    | some t =>
      simp only at h
      cases h2 : mem_heap K fuel t { S0 with bmem := ubi_b_mem_table_zero } with
      | none => rw [h2] at h; cases h
      | some r2 =>
        obtain ⟨st2, S2⟩ := r2
        rw [h2] at h
        simp only at h
        have hf2 := mem_heap_flag _ _ _ _ _ _ h2
        by_cases hs2 : st2 = TSX_SUCCESS
        · simp only [hs2, ne_eq, not_true, if_false] at h
          cases h3 : mem_stack K fuel t S2 with
          | none => rw [h3] at h; cases h
          | some r3 =>
            obtain ⟨st3, S3⟩ := r3
            rw [h3] at h
            simp only at h
            have hf3 := mem_stack_flag _ _ _ _ _ _ h3
            by_cases hs3 : st3 = TSX_SUCCESS
            · simp only [hs3, ne_eq, not_true, if_false, Option.some.injEq] at h
              have hk := mem_kaslr_flag K img t (mem_idmap t S3)
              rw [h] at hk
              rw [hk, mem_idmap_flag, hf3, hf2]
              exact h0
            · simp only [hs3, ne_eq, not_false_eq_true, if_true, Option.some.injEq,
                Prod.mk.injEq] at h
              rw [← h.2, hf3, hf2]
              exact h0
        · simp only [hs2, ne_eq, not_false_eq_true, if_true, Option.some.injEq,
            Prod.mk.injEq] at h
          rw [← h.2, hf2]
          exact h0

theorem vid_try_bpps_flag (K : UbiEnv) (t : ubi_k_video_table) :
    ∀ (l : List Nat) (S : Ubi), (vid_try_bpps K t l S).2.ubi_clearScreen = S.ubi_clearScreen := by
  intro l
  induction l with
  | nil => intro S; rfl
  | cons b rest ih =>
    intro S
    rw [vid_try_bpps]
    split
    · exact ih S
    · simp only
      split
      · rfl
      · rw [ih]; rfl

theorem vid_try_modes_flag (K : UbiEnv) (t : ubi_k_video_table) :
    ∀ (l : List (Nat × Nat)) (S : Ubi),
      (vid_try_modes K t l S).2.ubi_clearScreen = S.ubi_clearScreen := by
  intro l
  induction l with
  | nil => intro S; rfl
  | cons m rest ih =>
    intro S
    rw [vid_try_modes]
    split
    · simp only
      split
      · rfl
      · rw [ih]; rfl
    · exact ih S

theorem vid_graphics_flag (K : UbiEnv) (t : ubi_k_video_table) (S : Ubi) :
    (vid_graphics K t S).2.ubi_clearScreen = S.ubi_clearScreen := by
  unfold vid_graphics
  simp only
  split
  · split
    · rw [vid_try_bpps_flag]; rfl
    · split
      · rw [vid_try_modes_flag, vid_try_bpps_flag]; rfl
      · show (vid_try_modes K t _ _).2.ubi_clearScreen = _
        rw [vid_try_modes_flag, vid_try_bpps_flag]; rfl
  · rfl

theorem ubi_create_vid_table_flag (K : UbiEnv) (table : Option ubi_k_video_table) (S : Ubi) :
    flag_step (clear_requested table) S (ubi_create_vid_table K table S).2 := by
  unfold ubi_create_vid_table
  cases hn : new_table K UBI_B_VID_MAGIC S with
  | error e => exact Or.inl rfl
  | ok S1 =>
    have h1 := new_table_flag K _ S S1 hn
    cases table with
    | none => exact Or.inl h1
    | some t =>
      simp only
      have hr : ∀ r : status_t × Ubi,
          r = (if (t.flags &&& UBI_MASK_VIDEO_MODE) % 256 = 1 then kernel_set_video K 80 25 16 0 S1
            else if (t.flags &&& UBI_MASK_VIDEO_MODE) % 256 = 2 then vid_graphics K t S1
            else (TSX_SUCCESS, S1)) → r.2.ubi_clearScreen = S.ubi_clearScreen := by
        intro r hr
        rw [hr]
        split
        · exact h1
        · split
          · rw [vid_graphics_flag]; exact h1
          · exact h1
      generalize (if (t.flags &&& UBI_MASK_VIDEO_MODE) % 256 = 1 then
          kernel_set_video K 80 25 16 0 S1
        else if (t.flags &&& UBI_MASK_VIDEO_MODE) % 256 = 2 then vid_graphics K t S1
        else (TSX_SUCCESS, S1)) = r at hr
      have hr' := hr r rfl
      split
      · exact Or.inl hr'
      · split
        · rename_i hc
          exact Or.inr ⟨rfl, t, rfl, hc⟩
        · exact Or.inl hr'

theorem ubi_load_module_flag (K : UbiEnv) (fuel : Nat) (modlist : List ubi_b_module_entry)
    (path : List Nat) (loadAddress : Nat) (S : Ubi) (st : status_t)
    (ml : List ubi_b_module_entry) (S' : Ubi)
    (h : ubi_load_module K fuel modlist path loadAddress S = some (st, ml, S')) :
    S'.ubi_clearScreen = S.ubi_clearScreen := by
  unfold ubi_load_module at h
  by_cases h1 : K.kmalloc (path.length + 16) = 0
  · simp only [h1, if_true] at h
    cases h; rfl
  · simp only [h1, if_false] at h
    by_cases h2 : (K.vfs_get_file_size (module_readpath S path)).1 = TSX_SUCCESS
    · simp only [h2, ne_eq, not_true, if_false] at h
      by_cases h3 : loadAddress = 0
      · simp only [h3, ne_eq, not_true, if_false] at h
        split at h
        · cases h; rfl
        · split at h <;> cases h <;> rfl
      · simp only [h3, ne_eq, not_false_eq_true, if_true] at h
        cases hv : ubi_alloc_virtual K fuel loadAddress
            (K.vfs_get_file_size (module_readpath S path)).2 S with
        | none => rw [hv] at h; cases h
        | some r =>
          obtain ⟨p, S1⟩ := r
          rw [hv] at h
          simp only at h
          have hc := ubi_alloc_virtual_flag _ _ _ _ _ _ _ hv
          split at h
          · cases h; exact hc
          · split at h <;> cases h <;> exact hc
    · simp only [h2, ne_eq, not_false_eq_true, if_true] at h
      cases h; rfl

theorem kernel_modules_loop_flag (K : UbiEnv) (fuel : Nat) :
    ∀ (l : List ubi_k_module) (modlist : List ubi_b_module_entry) (S : Ubi) (st : status_t)
      (ml : List ubi_b_module_entry) (S' : Ubi),
      kernel_modules_loop K fuel l modlist S = some (st, ml, S') →
      S'.ubi_clearScreen = S.ubi_clearScreen := by
  intro l
  induction l with
  | nil => intro modlist S st ml S' h; rw [kernel_modules_loop] at h; cases h; rfl
  | cons e rest ih =>
    intro modlist S st ml S' h
    rw [kernel_modules_loop] at h
    cases hm : ubi_load_module K fuel modlist e.path e.loadAddress S with
    | none => rw [hm] at h; cases h
    | some r =>
      obtain ⟨st1, ml1, S1⟩ := r
      rw [hm] at h
      simp only at h
      have h1 := ubi_load_module_flag _ _ _ _ _ _ _ _ _ hm
      split at h
      · cases h; exact h1
      · exact (ih _ _ _ _ _ h).trans h1

theorem config_modules_loop_flag (K : UbiEnv) (fuel : Nat) :
    ∀ (k : Nat) (current : List Nat) (modlist : List ubi_b_module_entry) (S : Ubi)
      (st : status_t) (ml : List ubi_b_module_entry) (S' : Ubi),
      config_modules_loop K fuel k current modlist S = some (st, ml, S') →
      S'.ubi_clearScreen = S.ubi_clearScreen := by
  intro k
  induction k with
  | zero => intro current modlist S st ml S' h; rw [config_modules_loop] at h; cases h
  | succ k ih =>
    intro current modlist S st ml S' h
    rw [config_modules_loop] at h
    cases hm : ubi_load_module K fuel modlist (current.takeWhile (fun c => c != 58)) 0 S with
    | none => rw [hm] at h; cases h
    | some r =>
      obtain ⟨st1, ml1, S1⟩ := r
      rw [hm] at h
      simp only at h
      have h1 := ubi_load_module_flag _ _ _ _ _ _ _ _ _ hm
      split at h
      · cases h; exact h1
      · split at h
        · cases h; exact h1
        · exact (ih _ _ _ _ _ _ h).trans h1

theorem ubi_create_module_table_flag (K : UbiEnv) (fuel : Nat)
    (table : Option (List ubi_k_module)) (S : Ubi) (st : status_t) (S' : Ubi)
    (h : ubi_create_module_table K fuel table S = some (st, S')) :
    S'.ubi_clearScreen = S.ubi_clearScreen := by
  unfold ubi_create_module_table at h
  cases hn : new_table K UBI_B_MODULES_MAGIC S with
  | error e => rw [hn] at h; cases h; rfl
  | ok S0 =>
    rw [hn] at h
    have h0 := new_table_flag K _ S S0 hn
    simp only at h
    split at h
    · cases h; exact h0
    · cases hk : kernel_modules_loop K fuel (table.getD [])
          [{ path := S0.kernelPath, loadAddress := S0.kernelImgLocation,
             size := S0.kernelImgSize }] { S0 with bmodules := [] } with
      | none => rw [hk] at h; cases h
      | some r2 =>
        obtain ⟨st2, ml2, S2⟩ := r2
        rw [hk] at h
        simp only at h
        have h2 : S2.ubi_clearScreen = S.ubi_clearScreen :=
          (kernel_modules_loop_flag _ _ _ _ _ _ _ _ hk).trans h0
        split at h
        · cases h; exact h2
        · cases hm : K.modules with
          | none =>
            rw [hm] at h
            simp only at h
            split at h
            · cases h; exact h2
            · split at h <;> cases h <;> exact h2
          | some configListO =>
            rw [hm] at h
            simp only at h
            by_cases hz : K.kmalloc (configListO.length + 1) = 0
            · simp only [hz, if_true] at h
              split at h
              · cases h; exact h2
              · split at h <;> cases h <;> exact h2
            · simp only [hz, if_false] at h
              cases hc : config_modules_loop K fuel (configListO.length + 1) configListO ml2
                  S2 with
              | none => rw [hc] at h; cases h
              | some r3 =>
                obtain ⟨st3, ml3, S3⟩ := r3
                rw [hc] at h
                simp only at h
                have h3 : S3.ubi_clearScreen = S.ubi_clearScreen :=
                  (config_modules_loop_flag _ _ _ _ _ _ _ _ _ hc).trans h2
                split at h
                · cases h; exact h3
                · split at h <;> cases h <;> exact h3

theorem ubi_create_plain_table_flag (K : UbiEnv) (magic : Nat) (S : Ubi) :
    (ubi_create_plain_table K magic S).2.ubi_clearScreen = S.ubi_clearScreen := by
  unfold ubi_create_plain_table
  cases hn : new_table K magic S with
  | error e => rfl
  | ok S1 => exact new_table_flag K _ S S1 hn

theorem ubi_create_cmd_table_flag (K : UbiEnv) (S : Ubi) :
    (ubi_create_cmd_table K S).2.ubi_clearScreen = S.ubi_clearScreen := by
  unfold ubi_create_cmd_table
  split
  · rfl
  · exact ubi_create_plain_table_flag K _ S

theorem run_steps_flag (req : Prop) :
    ∀ (steps : List (Ubi → Option (status_t × Ubi))),
    (∀ f ∈ steps, ∀ S st S', f S = some (st, S') → flag_step req S S') →
    ∀ (S : Ubi) (st : status_t) (S' : Ubi), run_steps steps S = some (st, S') →
      flag_step req S S' := by
  intro steps
  induction steps with
  | nil =>
    intro _ S st S' h
    rw [run_steps] at h
    cases h
    exact flag_step_refl req _
  | cons f rest ih =>
    intro hall S st S' h
    rw [run_steps] at h
    cases hf : f S with
    | none => rw [hf] at h; cases h
    | some r =>
      obtain ⟨st1, S1⟩ := r
      rw [hf] at h
      simp only at h
      have h1 := hall f (List.mem_cons_self _ _) S st1 S1 hf
      split at h
      · cases h; exact h1
      · exact flag_step_trans req S S1 S' h1
          (ih (fun g hg => hall g (List.mem_cons_of_mem _ hg)) S1 st S' h)

theorem ubi_create_tables_flag (K : UbiEnv) (fuel : Nat) (img : KernelImage) (S : Ubi)
    (st : status_t) (S' : Ubi) (h : ubi_create_tables K fuel img S = some (st, S')) :
    flag_step (clear_requested img.kvid) S S' := by
  unfold ubi_create_tables at h
  refine run_steps_flag _ _ ?_ S st S' h
  intro f hf T st1 T' hT
  unfold ubi_create_steps at hf
  simp only [List.mem_cons, List.mem_singleton, List.not_mem_nil, or_false] at hf
  rcases hf with rfl | rfl | rfl | rfl | rfl | rfl | rfl | rfl
  · exact Or.inl (ubi_create_mem_table_flag _ _ _ _ _ _ _ hT)
  · simp only [Option.some.injEq] at hT
    have := ubi_create_vid_table_flag K img.kvid T
    rw [hT] at this
    exact this
  · exact Or.inl (ubi_create_module_table_flag _ _ _ _ _ _ hT)
  · simp only [Option.some.injEq] at hT
    have := ubi_create_plain_table_flag K UBI_B_SYS_MAGIC T
    unfold ubi_create_system_table at hT
    rw [hT] at this
    exact Or.inl this
  · simp only [Option.some.injEq] at hT
    have := ubi_create_plain_table_flag K UBI_B_MEMMAP_MAGIC T
    unfold ubi_create_memmap_table at hT
    rw [hT] at this
    exact Or.inl this
  · simp only [Option.some.injEq] at hT
    have := ubi_create_plain_table_flag K UBI_B_LOADER_MAGIC T
    unfold ubi_create_loader_table at hT
    rw [hT] at this
    exact Or.inl this
  · simp only [Option.some.injEq] at hT
    have := ubi_create_cmd_table_flag K T
    rw [hT] at this
    exact Or.inl this
  · simp only [Option.some.injEq] at hT
    have := ubi_create_plain_table_flag K UBI_B_BDRIVE_MAGIC T
    unfold ubi_create_bdrive_table at hT
    rw [hT] at this
    exact Or.inl this

theorem ubi_relocate_flag (K : UbiEnv) (a b : Nat) (S : Ubi) :
    (ubi_relocate K a b S).2.ubi_clearScreen = S.ubi_clearScreen := by
  unfold ubi_relocate
  split <;> rfl

theorem seg_map_loop_flag (bits secLoc vbase segSize : Nat) :
    ∀ (fuel addr : Nat) (S S' : Ubi),
      seg_map_loop bits secLoc vbase segSize fuel addr S = some S' →
      S'.ubi_clearScreen = S.ubi_clearScreen := by
  intro fuel
  induction fuel with
  | zero => intro addr S S' h; simp [seg_map_loop] at h
  | succ k ih =>
    intro addr S S' h
    rw [seg_map_loop] at h
    split at h
    · split at h
      · exact ih _ _ _ h
      · have := ih _ _ _ h
        exact this
    · cases h; rfl

theorem load_segment_flag (K : UbiEnv) (fuel vaddr vbase size fileoff filesz : Nat) (S : Ubi)
    (st : status_t) (S' : Ubi)
    (h : load_segment K fuel vaddr vbase size fileoff filesz S = some (st, S')) :
    S'.ubi_clearScreen = S.ubi_clearScreen := by
  unfold load_segment at h
  simp only at h
  split at h
  · cases h; rfl
  · cases hm : seg_map_loop K.bits (K.mmgr_alloc_block_sequential size) vbase
        (word K.bits (size + vaddr % VMMGR_PAGE_SIZE)) fuel 0
        (mmgr_reserve_mem_region S (K.mmgr_alloc_block_sequential size) size) with
    | none => rw [hm] at h; cases h
    | some S2 =>
      rw [hm] at h
      cases h
      have := seg_map_loop_flag _ _ _ _ _ _ _ _ hm
      exact this

theorem elf_segs_loop_flag (K : UbiEnv) (fuel : Nat) :
    ∀ (phs : List elf_ph) (S : Ubi) (st : status_t) (S' : Ubi),
      elf_segs_loop K fuel phs S = some (st, S') → S'.ubi_clearScreen = S.ubi_clearScreen := by
  intro phs
  induction phs with
  | nil => intro S st S' h; rw [elf_segs_loop] at h; cases h; rfl
  | cons ph rest ih =>
    intro S st S' h
    rw [elf_segs_loop] at h
    split at h
    · exact ih _ _ _ h
    · cases hl : load_segment K fuel ph.p_vaddr (ph.p_vaddr + S.ubi_kernel_offset) ph.p_memsz
          ph.p_offset ph.p_filesz S with
      | none => rw [hl] at h; cases h
      | some r =>
        obtain ⟨st1, S1⟩ := r
        rw [hl] at h
        simp only at h
        have h1 := load_segment_flag _ _ _ _ _ _ _ _ _ _ hl
        split at h
        · cases h; exact h1
        · exact (ih _ _ _ h).trans h1

theorem pe_secs_loop_flag (K : UbiEnv) (fuel : Nat) :
    ∀ (secs : List pe_section_header) (S : Ubi) (st : status_t) (S' : Ubi),
      pe_secs_loop K fuel secs S = some (st, S') → S'.ubi_clearScreen = S.ubi_clearScreen := by
  intro secs
  induction secs with
  | nil => intro S st S' h; rw [pe_secs_loop] at h; cases h; rfl
  | cons sec rest ih =>
    intro S st S' h
    rw [pe_secs_loop] at h
    cases hl : load_segment K fuel sec.ps_vaddr sec.ps_vaddr sec.ps_vsize sec.ps_fileoff
        sec.ps_rawsize S with
    | none => rw [hl] at h; cases h
    | some r =>
      obtain ⟨st1, S1⟩ := r
      rw [hl] at h
      simp only at h
      have h1 := load_segment_flag _ _ _ _ _ _ _ _ _ _ hl
      split at h
      · cases h; exact h1
      · exact (ih _ _ _ h).trans h1

theorem ubi_load_kernel_segs_flag (K : UbiEnv) (fuel : Nat) (img : KernelImage) (S : Ubi)
    (st : status_t) (S' : Ubi) (h : ubi_load_kernel_segs K fuel img S = some (st, S')) :
    S'.ubi_clearScreen = S.ubi_clearScreen := by
  unfold ubi_load_kernel_segs at h
  have hrel := ubi_relocate_flag K (word K.bits (S.ubi_kernel_base + S.ubi_kernel_offset))
    (word K.bits (S.ubi_kernel_top + S.ubi_kernel_offset)) S
  generalize ubi_relocate K (word K.bits (S.ubi_kernel_base + S.ubi_kernel_offset))
    (word K.bits (S.ubi_kernel_top + S.ubi_kernel_offset)) S = r at h hrel
  split at h
  · cases hp : img.ph with
    | none => rw [hp] at h; cases h; rfl
    | some phs =>
      rw [hp] at h
      simp only at h
      split at h
      · cases h; exact hrel
      · split at h
        · cases h; exact hrel
        · exact (elf_segs_loop_flag _ _ _ _ _ _ h).trans hrel
  · split at h
    · cases hp : img.sections with
      | none => rw [hp] at h; cases h; rfl
      | some secs =>
        rw [hp] at h
        simp only at h
        split at h
        · cases h; exact hrel
        · exact (pe_secs_loop_flag _ _ _ _ _ _ h).trans hrel
    · cases h; rfl

theorem ubi_start_root_flag (K : UbiEnv) (S S0 : Ubi) (h : ubi_start_root K S = .ok S0) :
    S0.ubi_clearScreen = S.ubi_clearScreen := by
  unfold ubi_start_root at h
  simp only at h
  split at h
  · cases h
  · cases h; rfl

theorem ubi_load_kernel_finish_flag (bits : Nat) (filePath filename : List Nat)
    (imglocation size : Nat) (S : Ubi) (st : status_t) (S' : Ubi)
    (h : ubi_load_kernel_finish bits filePath filename imglocation size S = some (st, S')) :
    S'.ubi_clearScreen = S.ubi_clearScreen := by
  unfold ubi_load_kernel_finish at h
  split at h
  · cases h; rfl
  · split at h
    · cases h; rfl
    · split at h
      · cases h
      · cases h; rfl

theorem ubi_find_header_flag (bits : Nat) (F : KernelFile) (img : KernelImage) (S S2 : Ubi)
    (h : ubi_find_header bits F img S = some S2) : S2.ubi_clearScreen = S.ubi_clearScreen := by
  rw [ubi_find_header_frame bits F img S S2 h]

theorem ubi_load_kernel_flag (bits : Nat) (F : KernelFile) (img : KernelImage)
    (filename : List Nat) (S : Ubi) (st : status_t) (S' : Ubi)
    (h : ubi_load_kernel bits F img filename S = some (st, S')) :
    S'.ubi_clearScreen = S.ubi_clearScreen := by
  unfold ubi_load_kernel at h
  cases hfp : F.filePath with
  | none => rw [hfp] at h; cases h; rfl
  | some filePath =>
    rw [hfp] at h
    simp only at h
    split at h
    · cases h; rfl
    · split at h
      · split at h
        · cases h; rfl
        · cases hf : ubi_find_header bits F img
              { S with ubi_kernel_type := 1, ubi_kernel_location := F.read.2.1 } with
          | none => rw [hf] at h; cases h
          | some S2 =>
            rw [hf] at h
            simp only at h
            have hfl : S2.ubi_clearScreen = S.ubi_clearScreen := by
              have := ubi_find_header_flag _ _ _ _ _ hf
              exact this
            cases hp : img.ph with
            | none => rw [hp] at h; cases h; exact hfl
            | some phs =>
              rw [hp] at h
              simp only at h
              split at h
              · cases h; exact hfl
              · split at h
                · cases h; exact hfl
                · have := ubi_load_kernel_finish_flag _ _ _ _ _ _ _ _ h
                  exact this.trans hfl
      · split at h
        · split at h
          · cases h; rfl
          · cases hf : ubi_find_header bits F img
                { S with ubi_kernel_type := 2, ubi_kernel_location := F.read.2.1 } with
            | none => rw [hf] at h; cases h
            | some S2 =>
              rw [hf] at h
              simp only at h
              have hfl : S2.ubi_clearScreen = S.ubi_clearScreen := by
                have := ubi_find_header_flag _ _ _ _ _ hf
                exact this
              cases hp : img.sections with
              | none => rw [hp] at h; cases h; exact hfl
              | some secs =>
                rw [hp] at h
                simp only at h
                split at h
                · cases h; exact hfl
                · have := ubi_load_kernel_finish_flag _ _ _ _ _ _ _ _ h
                  exact this.trans hfl
        · cases h; rfl

theorem ubi_recreate_memmap_frame (K : UbiEnv) (B : UbiBoot) (X : UbiRun) :
    (ubi_recreate_memmap K B X).2.S = X.S ∧
    ((ubi_recreate_memmap K B X).2.ubi_last_memmap_blen = X.ubi_last_memmap_blen ∨
      (ubi_recreate_memmap K B X).2.ubi_last_memmap_blen =
        word K.bits (word K.bits (B.mmap_count + 1) * B.sizeof_mmap_entry)) := by
  unfold ubi_recreate_memmap
  have hX1 : ∀ X1 : UbiRun,
      X1 = (if X.memmap_entries ≠ 0 ∧ X.ubi_last_memmap_blen ≠ 0
        then { X with freed := X.freed ++ [(X.memmap_entries, X.ubi_last_memmap_blen)] }
        else X) →
      X1.S = X.S ∧ X1.ubi_last_memmap_blen = X.ubi_last_memmap_blen := by
    intro X1 h1
    rw [h1]
    split <;> exact ⟨rfl, rfl⟩
  generalize (if X.memmap_entries ≠ 0 ∧ X.ubi_last_memmap_blen ≠ 0
    then { X with freed := X.freed ++ [(X.memmap_entries, X.ubi_last_memmap_blen)] }
    else X) = X1 at hX1
  obtain ⟨e1, e2⟩ := hX1 X1 rfl
  simp only
  split
  · exact ⟨e1, Or.inl e2⟩
  · split
    · exact ⟨e1, Or.inr rfl⟩
    · exact ⟨e1, Or.inr rfl⟩

theorem ubi_post_init_frame (K : UbiEnv) (B : UbiBoot) (X : UbiRun) :
    (ubi_post_init K B X).2.S.ubi_clearScreen = X.S.ubi_clearScreen ∧
    ((ubi_post_init K B X).2.ubi_last_memmap_blen = X.ubi_last_memmap_blen ∨
      (ubi_post_init K B X).2.ubi_last_memmap_blen =
        word K.bits (word K.bits (B.mmap_count + 1) * B.sizeof_mmap_entry)) := by
  unfold ubi_post_init
  simp only
  split
  · obtain ⟨h1, h2⟩ := ubi_recreate_memmap_frame K B
      { S := ubi_post_init_kernelBase K.bits X.S, ubi_last_memmap_blen := X.ubi_last_memmap_blen,
        memmap_entries := X.memmap_entries, clearScreen_calls := X.clearScreen_calls + 1,
        freed := X.freed }
    exact ⟨by rw [h1]; rfl, h2⟩
  · obtain ⟨h1, h2⟩ := ubi_recreate_memmap_frame K B
      { S := ubi_post_init_kernelBase K.bits X.S, ubi_last_memmap_blen := X.ubi_last_memmap_blen,
        memmap_entries := X.memmap_entries, clearScreen_calls := X.clearScreen_calls,
        freed := X.freed }
    exact ⟨by rw [h1]; rfl, h2⟩

/-- What a call of `ubi_start` does to the variables that `kboot_start` does not set back. -/
theorem ubi_start_frame (K : UbiEnv) (B : UbiBoot) (fuel : Nat) (file : List Nat) (X : UbiRun)
    (e : ubi_exit) (X' : UbiRun) (h : ubi_start K B fuel file X = some (e, X')) :
    flag_step (clear_requested B.img.kvid) X.S X'.S ∧
    (X'.ubi_last_memmap_blen = X.ubi_last_memmap_blen ∨
      X'.ubi_last_memmap_blen =
        word K.bits (word K.bits (B.mmap_count + 1) * B.sizeof_mmap_entry)) := by
  unfold ubi_start at h
  cases h0 : ubi_start_root K X.S with
  | error st =>
    rw [h0] at h
    cases h
    exact ⟨Or.inl rfl, Or.inl rfl⟩
  | ok S0 =>
    rw [h0] at h
    have f0 := ubi_start_root_flag K X.S S0 h0
    simp only at h
    cases h1 : ubi_load_kernel K.bits B.F B.img file S0 with
    | none => rw [h1] at h; cases h
    | some r1 =>
      obtain ⟨st1, S1⟩ := r1
      rw [h1] at h
      simp only at h
      have f1 : S1.ubi_clearScreen = X.S.ubi_clearScreen :=
        (ubi_load_kernel_flag _ _ _ _ _ _ _ h1).trans f0
      split at h
      · cases h; exact ⟨Or.inl f1, Or.inl rfl⟩
      · split at h
        · cases h; exact ⟨Or.inl f1, Or.inl rfl⟩
        · cases h2 : ubi_create_tables K fuel B.img S1 with
          | none => rw [h2] at h; cases h
          | some r2 =>
            obtain ⟨st2, S2⟩ := r2
            rw [h2] at h
            simp only at h
            have f2 : flag_step (clear_requested B.img.kvid) X.S S2 :=
              flag_step_trans _ _ _ _ (Or.inl f1) (ubi_create_tables_flag _ _ _ _ _ _ h2)
            split at h
            · cases h; exact ⟨f2, Or.inl rfl⟩
            · split at h
              · cases h; exact ⟨f2, Or.inl rfl⟩
              · cases h3 : ubi_load_kernel_segs K fuel B.img S2 with
                | none => rw [h3] at h; cases h
                | some r3 =>
                  obtain ⟨st3, S3⟩ := r3
                  rw [h3] at h
                  simp only at h
                  have f3 : flag_step (clear_requested B.img.kvid) X.S S3 :=
                    flag_step_trans _ _ _ _ f2
                      (Or.inl (ubi_load_kernel_segs_flag _ _ _ _ _ _ h3))
                  split at h
                  · cases h; exact ⟨f3, Or.inl rfl⟩
                  · obtain ⟨p1, p2⟩ := ubi_post_init_frame K B
                      { X with S := S3, memmap_entries := 0 }
                    split at h
                    · cases h
                      exact ⟨flag_step_trans _ _ _ _ f3 (Or.inl p1), p2⟩
                    · cases h
                      exact ⟨flag_step_trans _ _ _ _ f3 (Or.inl p1), p2⟩

/-- What `kboot_start` sets back. Whenever it returns, whatever state it was entered with and
whatever the status, `ubi_root`, `ubi_kernel`, `ubi_kernel_type`, `ubi_kernel_location`,
`ubi_kernel_base`, `ubi_kernel_top`, `ubi_kernel_offset` and `lastTable` are null or 0 again.
The clear-screen request and the remembered length of the memory map are not set back: the
request is as it was before the call, or it has been set, which only happens when the `K_VID`
table of the kernel asks for a cleared screen, so a request that was set before the call is
still set after it; the length is as it was or is the one `ubi_recreate_memmap` stored
during the call. -/
theorem ubi_kboot_start_reinit (K : UbiEnv) (B : UbiBoot) (fuel : Nat) (X : UbiRun)
    (st : status_t) (X' : UbiRun)
    (h : ubi.kboot_start K B fuel X = some (.returned st, X')) :
    (X'.S.ubi_root = 0 ∧ X'.S.ubi_kernel = 0 ∧ X'.S.ubi_kernel_type = 0 ∧
      X'.S.ubi_kernel_location = 0 ∧ X'.S.ubi_kernel_base = 0 ∧ X'.S.ubi_kernel_top = 0 ∧
      X'.S.ubi_kernel_offset = 0 ∧ X'.S.lastTable = 0) ∧
    (X'.S.ubi_clearScreen = X.S.ubi_clearScreen ∨
      (X'.S.ubi_clearScreen = true ∧ clear_requested B.img.kvid)) ∧
    (X.S.ubi_clearScreen = true → X'.S.ubi_clearScreen = true) ∧
    (X'.ubi_last_memmap_blen = X.ubi_last_memmap_blen ∨
      X'.ubi_last_memmap_blen =
        word K.bits (word K.bits (B.mmap_count + 1) * B.sizeof_mmap_entry)) := by
  unfold ubi.kboot_start at h
  have key : ∀ (e : ubi_exit) (X1 : UbiRun),
      (match B.file with
        | none => some (ubi_exit.returned TSX_MISSING_ARGUMENTS, X)
        | some pfile => ubi_start K B fuel pfile X) = some (e, X1) →
      flag_step (clear_requested B.img.kvid) X.S X1.S ∧
      (X1.ubi_last_memmap_blen = X.ubi_last_memmap_blen ∨
        X1.ubi_last_memmap_blen =
          word K.bits (word K.bits (B.mmap_count + 1) * B.sizeof_mmap_entry)) := by
    intro e X1 hr
    cases hf : B.file with
    | none =>
      rw [hf] at hr
      cases hr
      exact ⟨Or.inl rfl, Or.inl rfl⟩
    | some pfile =>
      rw [hf] at hr
      exact ubi_start_frame K B fuel pfile X e X1 hr
  generalize (match B.file with
    | none => some (ubi_exit.returned TSX_MISSING_ARGUMENTS, X)
    | some pfile => ubi_start K B fuel pfile X) = r at h key
  cases r with
  | none => cases h
  | some r =>
    obtain ⟨e, X1⟩ := r
    obtain ⟨k1, k2⟩ := key e X1 rfl
    cases e with
    | halted a => cases h
    | returned st1 =>
      simp only at h
      cases hc : chain_walk X1.S fuel X1.S.ubi_root with
      | none => rw [hc] at h; cases h
      | some chain =>
        rw [hc] at h
        simp only [Option.some.injEq, Prod.mk.injEq] at h
        obtain ⟨-, hX⟩ := h
        subst hX
        refine ⟨⟨rfl, rfl, rfl, rfl, rfl, rfl, rfl, rfl⟩, k1, ?_, k2⟩
        intro hset
        rcases k1 with k | k
        · exact k.trans hset
        · exact k.1

/-- A first call with the kernel that asks for a cleared screen and whose module `/x` is
missing: it returns `TSX_NO_SUCH_FILE` with the eight variables set back and the request
set. -/
theorem ubi_kboot_start_reinit_witness :
    ubi.kboot_start example_env_nomod example_boot_clear 16 example_run =
      some (.returned TSX_NO_SUCH_FILE, example_run_failed) ∧
    (example_run_failed.S.ubi_root = 0 ∧ example_run_failed.S.ubi_kernel = 0 ∧
      example_run_failed.S.ubi_kernel_type = 0 ∧ example_run_failed.S.ubi_kernel_location = 0 ∧
      example_run_failed.S.ubi_kernel_base = 0 ∧ example_run_failed.S.ubi_kernel_top = 0 ∧
      example_run_failed.S.ubi_kernel_offset = 0 ∧ example_run_failed.S.lastTable = 0) ∧
    example_run.S.ubi_clearScreen = false ∧ example_run_failed.S.ubi_clearScreen = true ∧
    example_run_failed.ubi_last_memmap_blen = 0 := by
  have h1 : (ubi.kboot_start example_env_nomod example_boot_clear 16 example_run).map
      (fun r => r.1) = some (.returned TSX_NO_SUCH_FILE) := by decide
  have h : ubi.kboot_start example_env_nomod example_boot_clear 16 example_run =
      some (.returned TSX_NO_SUCH_FILE, example_run_failed) := by
    unfold example_run_failed
    cases hr : ubi.kboot_start example_env_nomod example_boot_clear 16 example_run with
    | none => rw [hr] at h1; cases h1
    | some r =>
      rw [hr] at h1
      simp only [Option.map_some', Option.some.injEq] at h1
      rw [← h1]
  exact ⟨h, (ubi_kboot_start_reinit example_env_nomod example_boot_clear 16 example_run
    TSX_NO_SUCH_FILE example_run_failed h).1, by decide, by decide, by decide⟩

/-- The request outlives the call that made it: a call of `kboot_start` that fails after the
video table has been made, for a kernel that asks for a cleared screen, returns with
`ubi_clearScreen` set. A later call for a kernel without a `K_VID` table enters that kernel
after clearing the screen; as a first call it enters it without. -/
theorem ubi_clearScreen_survives_kboot_start :
    example_run.S.ubi_clearScreen = false ∧
    (ubi.kboot_start example_env_nomod example_boot_clear 16 example_run).map
      (fun r => (r.1, r.2.S.ubi_clearScreen)) = some (.returned TSX_NO_SUCH_FILE, true) ∧
    example_boot.img.kvid.isNone = true ∧
    (ubi.kboot_start example_env_nomod example_boot 16 example_run).map
      (fun r => (r.1, r.2.clearScreen_calls)) = some (.halted (some 0xffff80002a956000), 0) ∧
    (ubi.kboot_start example_env_nomod example_boot 16 example_run_failed).map
      (fun r => (r.1, r.2.clearScreen_calls)) = some (.halted (some 0xffff80002a956000), 1) := by
  decide

/-- C31. Two consecutive calls of `kboot_start` for the same entry on the same machine: the
kernel asks for a cleared screen in its `K_VID` table, and the rebuilding of the memory map
fails after its buffer has been allocated. The first call is entered with `ubi_clearScreen`
false and `ubi_last_memmap_blen` 0 and returns `TSX_ERROR`; it has set back `ubi_root`,
`ubi_kernel` and the other six variables, but `ubi_clearScreen` is still true and
`ubi_last_memmap_blen` is still `9 * 24 = 216`. These are the values the second call is
entered with; it returns `TSX_ERROR` and leaves them so again. -/
theorem ubi_kboot_start_keeps_request_and_length :
    example_run.S.ubi_clearScreen = false ∧ example_run.ubi_last_memmap_blen = 0 ∧
    (ubi.kboot_start example_env example_boot_short 16 example_run).map (fun r => r.1) =
      some (.returned TSX_ERROR) ∧
    (example_run_short.S.ubi_root = 0 ∧ example_run_short.S.ubi_kernel = 0 ∧
      example_run_short.S.ubi_kernel_type = 0 ∧ example_run_short.S.ubi_kernel_location = 0 ∧
      example_run_short.S.ubi_kernel_base = 0 ∧ example_run_short.S.ubi_kernel_top = 0 ∧
      example_run_short.S.ubi_kernel_offset = 0 ∧ example_run_short.S.lastTable = 0) ∧
    example_run_short.S.ubi_clearScreen = true ∧
    example_run_short.ubi_last_memmap_blen = 216 ∧
    (ubi.kboot_start example_env example_boot_short 16 example_run_short).map
      (fun r => (r.1, r.2.S.ubi_clearScreen, r.2.ubi_last_memmap_blen)) =
      some (.returned TSX_ERROR, true, 216) := by
  decide

end Sxboot
